import Mathlib

/-!
# Panorama warping: a shallow embedding of `main_panoramaWarping.cpp`

The definitions below follow `src/software/pipeline/main_panoramaWarping.cpp`.

* Floating point values (`double`, `float`) are read as real numbers; code that only uses
  field operations, comparisons and `abs` is written over an arbitrary linearly ordered
  field, so that it can be run over `ℚ` and reasoned about over `ℝ`.
* `int` values are integers, `size_t` values are naturals; the implicit conversions of the
  source are written out (`toSizeT`, `toInt32`).
* An image is a width, a height and a pixel function indexed `(row, column)` like
  `image::Image::operator()`.
* A function whose source can read outside a container returns `Option`; `none` stands for
  the undefined behaviour of that read.
-/

namespace PanoramaWarping

/-! ## Definitions -/

/-- Raster with the accessor convention of `image::Image`: `data i j` is row `i`, column `j`. -/
structure Image (α : Type) where
  Width : Nat
  Height : Nat
  data : Nat → Nat → α

namespace Image

/-- Constant image, as built by `Image(width, height, true, val)`. -/
def filled {α : Type} (width height : Nat) (val : α) : Image α :=
  { Width := width, Height := height, data := fun _ _ => val }

/-- Checked pixel read: `none` when `(i, j)` is outside the raster. -/
def get? {α : Type} (img : Image α) (i j : Nat) : Option α :=
  if i < img.Height ∧ j < img.Width then some (img.data i j) else none

/-- Sub-raster `block(startRow, startCol, rows, cols)`. -/
def block {α : Type} (img : Image α) (startRow startCol rows cols : Nat) : Image α :=
  { Width := cols, Height := rows, data := fun i j => img.data (startRow + i) (startCol + j) }

end Image

/-- Conversion of an `int` to `size_t` (reduction modulo `2^64`). -/
def toSizeT (z : Int) : Nat := (z % (2 : Int) ^ 64).toNat

/-- Conversion of a `size_t` to `int` (two's complement on 32 bits). -/
def toInt32 (n : Nat) : Int := ((n : Int) + 2 ^ 31) % 2 ^ 32 - 2 ^ 31

namespace SphericalMapping

/-- The two-argument arctangent `atan2 y x`: the angle in `(-π, π]` of the point `(x, y)`. -/
noncomputable def atan2 (y x : ℝ) : ℝ := Complex.arg ⟨x, y⟩

/-- Map from equirectangular to spherical coordinates (source lines 299-309). -/
noncomputable def fromEquirectangular (equirectangular : ℝ × ℝ) (width height : Int) :
    ℝ × ℝ × ℝ :=
  let latitude := (equirectangular.2 / (height : ℝ)) * Real.pi - Real.pi / 2
  let longitude := ((equirectangular.1 / (width : ℝ)) * 2 * Real.pi) - Real.pi
  let Px := Real.cos latitude * Real.sin longitude
  let Py := Real.sin latitude
  let Pz := Real.cos latitude * Real.cos longitude
  (Px, Py, Pz)

/-- Map from spherical to equirectangular coordinates (source lines 318-327). -/
noncomputable def toEquirectangular (spherical : ℝ × ℝ × ℝ) (width height : Int) : ℝ × ℝ :=
  let vertical_angle := Real.arcsin spherical.2.1
  let horizontal_angle := atan2 spherical.1 spherical.2.2
  let latitude := ((vertical_angle + Real.pi / 2) / Real.pi) * (height : ℝ)
  let longitude := ((horizontal_angle + Real.pi) / (2 * Real.pi)) * (width : ℝ)
  (longitude, latitude)

/-- Euclidean norm of a vector of the unit sphere's ambient space. -/
noncomputable def norm3 (v : ℝ × ℝ × ℝ) : ℝ :=
  Real.sqrt (v.1 ^ 2 + v.2.1 ^ 2 + v.2.2 ^ 2)

end SphericalMapping

/-- Pyramid of `GaussianPyramidNoMask`: the two vectors of rasters, the base size and the
number of levels (source lines 433-438). -/
structure GaussianPyramidNoMask (α : Type) where
  _pyramid_color : List (Image α)
  _filter_buffer : List (Image α)
  _width_base : Nat
  _height_base : Nat
  _scales : Nat

namespace GaussianPyramidNoMask

/-- The value `static_cast<size_t>(floor(log2(double(min_dim) / float(min_size))))` of
source line 355. For `min_dim < min_size` the logarithm is negative (or `-∞`) and its
conversion to `size_t` is undefined: `none`. Otherwise the floor of the real logarithm of the
real quotient is the integer logarithm of the integer quotient
(`floorLog2Quot_eq_floor_logb`). -/
def floorLog2Quot (min_dim min_size : Nat) : Option Nat :=
  if min_dim < min_size then none else some (Nat.log 2 (min_dim / min_size))

/-- Default value of the constructor argument `limit_scales`. -/
def defaultLimitScales : Nat := 64

/-- The allocation loop of the constructor (source lines 361-369): `count` rasters, the
first of size `new_width` by `new_height`, each size halved by integer division for the
next one. -/
def allocate {α : Type} (val : α) : Nat → Nat → Nat → List (Image α)
  | 0, _, _ => []
  | count + 1, new_width, new_height =>
      Image.filled new_width new_height val :: allocate val count (new_width / 2) (new_height / 2)

/-- Constructor `GaussianPyramidNoMask(width_base, height_base, limit_scales)` (source lines
345-370). -/
def construct {α : Type} [Zero α] (width_base height_base limit_scales : Nat) :
    Option (GaussianPyramidNoMask α) :=
  let min_dim := min width_base height_base
  let min_size := 32
  match floorLog2Quot min_dim min_size with
  | none => none
  | some k =>
      let scales := min limit_scales k
      some { _pyramid_color := allocate 0 scales width_base height_base
             _filter_buffer := allocate 0 scales width_base height_base
             _width_base := width_base
             _height_base := height_base
             _scales := scales }

/-- Accessor `getScalesCount` (source lines 421-423). -/
def getScalesCount {α : Type} (p : GaussianPyramidNoMask α) : Nat := p._scales

/-- Accessor `getPyramidColor` (source lines 425-431). -/
def getPyramidColor {α : Type} (p : GaussianPyramidNoMask α) : List (Image α) := p._pyramid_color

/-- Every read `input(ui, uj)` of `downscale` is inside `input`. -/
def downscaleInRange {α : Type} (output input : Image α) : Bool :=
  (List.range output.Height).all fun i =>
    (List.range output.Width).all fun j =>
      decide (i * 2 < input.Height ∧ j * 2 < input.Width)

/-- Method `downscale(output, input)` (source lines 406-419): `output(i, j) = input(2i, 2j)`
for every pixel of `output`; `none` when one of these reads is outside `input`. -/
def downscale {α : Type} (output input : Image α) : Option (Image α) :=
  if downscaleInRange output input then
    some { Width := output.Width
           Height := output.Height
           data := fun i j =>
             if i < output.Height ∧ j < output.Width then input.data (i * 2) (j * 2)
             else output.data i j }
  else none

/-- The loop of `process` (source lines 388-400), `count` iterations from level `lvl`:
the filter buffer of level `lvl` receives the convolution of level `lvl` (the external
`oiio::ImageBufAlgo::convolve`, here `convolve`), and level `lvl + 1` its decimation. The
output buffer is wrapped with the dimensions of the source level, so the two must have the
same size. A level index outside one of the vectors gives `none`. -/
def processLoop {α : Type} (convolve : Image α → Image α) :
    Nat → Nat → GaussianPyramidNoMask α → Option (GaussianPyramidNoMask α)
  | 0, _, p => some p
  | count + 1, lvl, p =>
      match p._pyramid_color[lvl]?, p._filter_buffer[lvl]?, p._pyramid_color[lvl + 1]? with
      | some source, some dst, some next =>
          if dst.Width = source.Width ∧ dst.Height = source.Height then
            let filtered : Image α :=
              { Width := dst.Width, Height := dst.Height, data := (convolve source).data }
            match downscale next filtered with
            | some decimated =>
                processLoop convolve count (lvl + 1)
                  { p with _filter_buffer := p._filter_buffer.set lvl filtered
                           _pyramid_color := p._pyramid_color.set (lvl + 1) decimated }
            | none => none
          else none
      | _, _, _ => none

/-- Method `process(input)` (source lines 372-403). The result is `none` when the method
reads `_pyramid_color[0]` of an empty vector or another index out of range; otherwise it is
the returned boolean and the pyramid after the call. The loop bound `_scales - 1` is computed
in `size_t`. -/
def process {α : Type} (convolve : Image α → Image α) (p : GaussianPyramidNoMask α)
    (input : Image α) : Option (Bool × GaussianPyramidNoMask α) :=
  match p._pyramid_color[0]? with
  | none => none
  | some level0 =>
      if input.Height ≠ level0.Height then some (false, p)
      else if input.Width ≠ level0.Width then some (false, p)
      else
        match processLoop convolve (toSizeT ((p._scales : Int) - 1)) 0
            { p with _pyramid_color := p._pyramid_color.set 0 input } with
        | some q => some (true, q)
        | none => none

end GaussianPyramidNoMask

/-- Bounding box `CoordinatesMap::BBox` (source lines 443-448). -/
structure BBox where
  left : Int
  top : Int
  width : Int
  height : Int

/-- What `CoordinatesMap::build` uses of the pose and of `camera::IntrinsicBase`:
`pose(ray)`, `isVisibleRay`, `project(pose, ray, true)` and `isVisible`, over a type `V3` of
directions and a type `V2` of source pixels. -/
structure Camera (V3 V2 : Type) where
  pose : V3 → V3
  isVisibleRay : V3 → Bool
  project : V3 → V2
  isVisible : V2 → Bool

/-- State of a `CoordinatesMap` (source lines 836-841). -/
structure CoordinatesMap (V2 : Type) where
  _offset_x : Nat
  _offset_y : Nat
  _coordinates : Image V2
  _mask : Image Nat

namespace CoordinatesMap

/-- The four accumulators of the sweep of `build` (source lines 469-472). -/
structure Extrema where
  max_x : Nat
  max_y : Nat
  min_x : Nat
  min_y : Nat

/-- Canvas column `cx = x + coarse_bbox.left`, computed in `size_t` (source line 492). -/
def canvasX (coarse_bbox : BBox) (x : Nat) : Nat := (x + toSizeT coarse_bbox.left) % 2 ^ 64

/-- Canvas row `cy = y + coarse_bbox.top`, computed in `size_t` (source line 482). -/
def canvasY (coarse_bbox : BBox) (y : Nat) : Nat := (y + toSizeT coarse_bbox.top) % 2 ^ 64

/-- The two visibility tests of the sweep on one ray (source lines 500-515): `none` when
the pixel is skipped, the distorted projection otherwise. -/
def sweepPixel {V3 V2 : Type} (cam : Camera V3 V2) (ray : V3) : Option V2 :=
  let transformedRay := cam.pose ray
  if !cam.isVisibleRay transformedRay then none
  else
    let pix_disto := cam.project ray
    if !cam.isVisible pix_disto then none else some pix_disto

/-- Result of the sweep at the local pixel `(y, x)` of the coarse box; `rayOf cx cy` is the
ray `fromEquirectangular(Vec2(cx, cy), panoramaSize.first, panoramaSize.second)`. -/
def sweepAt {V3 V2 : Type} (coarse_bbox : BBox) (cam : Camera V3 V2) (rayOf : Nat → Nat → V3)
    (y x : Nat) : Option V2 :=
  sweepPixel cam (rayOf (canvasX coarse_bbox x) (canvasY coarse_bbox y))

/-- The raster `buffer_mask` after the sweep: allocated with zeros, set to `1` at the pixels
that pass both tests (source lines 467, 519). -/
def bufferMask {V3 V2 : Type} (coarse_bbox : BBox) (cam : Camera V3 V2)
    (rayOf : Nat → Nat → V3) : Image Nat :=
  { Width := coarse_bbox.width.toNat
    Height := coarse_bbox.height.toNat
    data := fun y x =>
      if y < coarse_bbox.height.toNat ∧ x < coarse_bbox.width.toNat then
        if (sweepAt coarse_bbox cam rayOf y x).isSome then 1 else 0
      else 0 }

/-- The raster `buffer_coordinates` after the sweep: allocated without initialisation
(`uninit` is its content at allocation), set to the projection at the pixels that pass both
tests (source lines 466, 518). -/
def bufferCoordinates {V3 V2 : Type} (coarse_bbox : BBox) (cam : Camera V3 V2)
    (rayOf : Nat → Nat → V3) (uninit : Nat → Nat → V2) : Image V2 :=
  { Width := coarse_bbox.width.toNat
    Height := coarse_bbox.height.toNat
    data := fun y x =>
      if y < coarse_bbox.height.toNat ∧ x < coarse_bbox.width.toNat then
        match sweepAt coarse_bbox cam rayOf y x with
        | some pix_disto => pix_disto
        | none => uninit y x
      else uninit y x }

/-- Inner loop of the sweep on row `y` (source lines 484-525): the row accumulators start
from `(0, 0, panoramaSize.first, panoramaSize.second)` and are updated at each pixel that
passes both tests. -/
def sweepRow (W H : Int) (visible : Nat → Bool) (y width : Nat) : Extrema :=
  (List.range width).foldl
    (fun row x =>
      if visible x then
        { max_x := max x row.max_x
          max_y := max y row.max_y
          min_x := min x row.min_x
          min_y := min y row.min_y }
      else row)
    { max_x := 0, max_y := 0, min_x := toSizeT W, min_y := toSizeT H }

/-- Outer loop of the sweep (source lines 469-531): each row is merged into the global
accumulators. The reduction of the parallel loop is over `min` and `max`, so its result is
the one of the sequential loop. -/
def sweep (W H : Int) (visible : Nat → Nat → Bool) (width height : Nat) : Extrema :=
  (List.range height).foldl
    (fun acc y =>
      let row := sweepRow W H (visible y) y width
      { max_x := max row.max_x acc.max_x
        max_y := max row.max_y acc.max_y
        min_x := min row.min_x acc.min_x
        min_y := min row.min_y acc.min_y })
    { max_x := 0, max_y := 0, min_x := toSizeT W, min_y := toSizeT H }

/-- Accumulators of `build` after the sweep of the coarse box. -/
def sweepExtrema {V3 V2 : Type} (W H : Int) (coarse_bbox : BBox) (cam : Camera V3 V2)
    (rayOf : Nat → Nat → V3) : Extrema :=
  sweep W H (fun y x => (sweepAt coarse_bbox cam rayOf y x).isSome)
    coarse_bbox.width.toNat coarse_bbox.height.toNat

/-- The value of `_offset_x` (source lines 533-538): `coarse_bbox.left + min_x` in `size_t`,
reduced by the panorama width through `int` when it is greater than that width. -/
def offsetX (W : Int) (coarse_bbox : BBox) (min_x : Nat) : Nat :=
  let offset_x := (toSizeT coarse_bbox.left + min_x) % 2 ^ 64
  if offset_x > toSizeT W then
    let ox := toInt32 offset_x - W
    toSizeT ox
  else offset_x

/-- Method `build` after `computeCoarseBB` has returned `coarse_bbox` (source lines 466-551),
for the panorama size `(W, H)`. A negative buffer size, or a final `block` that is not inside
the coarse buffers, has no defined result: `none`. -/
def build {V3 V2 : Type} (W H : Int) (coarse_bbox : BBox) (cam : Camera V3 V2)
    (rayOf : Nat → Nat → V3) (uninit : Nat → Nat → V2) : Option (CoordinatesMap V2) :=
  if coarse_bbox.width < 0 ∨ coarse_bbox.height < 0 then none
  else
    let buffer_coordinates := bufferCoordinates coarse_bbox cam rayOf uninit
    let buffer_mask := bufferMask coarse_bbox cam rayOf
    let e := sweepExtrema W H coarse_bbox cam rayOf
    let real_width := toSizeT ((e.max_x : Int) - (e.min_x : Int) + 1)
    let real_height := toSizeT ((e.max_y : Int) - (e.min_y : Int) + 1)
    if e.min_y + real_height ≤ buffer_mask.Height ∧ e.min_x + real_width ≤ buffer_mask.Width then
      some { _offset_x := offsetX W coarse_bbox e.min_x
             _offset_y := (toSizeT coarse_bbox.top + e.min_y) % 2 ^ 64
             _coordinates := buffer_coordinates.block e.min_y e.min_x real_height real_width
             _mask := buffer_mask.block e.min_y e.min_x real_height real_width }
    else none

end CoordinatesMap

/-- A small camera over integer directions and pixels, used to run the definitions: the ray
of a canvas pixel is the pixel itself, a ray is visible when its column is between `3` and
`5`, and a source pixel is visible when its second coordinate is between `20` and `40`. -/
def exampleCamera : Camera (Nat × Nat) (Nat × Nat) :=
  { pose := id
    isVisibleRay := fun r => decide (3 ≤ r.1 ∧ r.1 ≤ 5)
    project := fun r => (10 * r.1, 10 * r.2)
    isVisible := fun p => decide (20 ≤ p.2 ∧ p.2 ≤ 40) }

/-- The ray of the canvas pixel `(cx, cy)` in the sweep of `build` (source line 494):
`fromEquirectangular(Vec2(cx, cy), panoramaSize.first, panoramaSize.second)`. -/
noncomputable def canvasRay (W H : Int) (cx cy : Nat) : ℝ × ℝ × ℝ :=
  SphericalMapping.fromEquirectangular ((cx : ℝ), (cy : ℝ)) W H

/-- A camera over real directions that sees every ray and projects it to the source pixel
`7`, used to run `build` on the rays of `canvasRay`. -/
def constantCamera : Camera (ℝ × ℝ × ℝ) Nat :=
  { pose := id
    isVisibleRay := fun _ => true
    project := fun _ => 7
    isVisible := fun _ => true }

namespace AlphaBuilder

/-- The weight written at a valid pixel (source lines 874-877), for the image centre
`(cx, cy)` and the stored coordinate `(x, y)`. -/
def tentWeight {K : Type} [LinearOrderedField K] (cx cy x y : K) : K :=
  let wx := 1 - |(x - cx) / cx|
  let wy := 1 - |(y - cy) / cy|
  wx * wy

/-- Method `AlphaBuilder::build` (source lines 846-882) for a source image of
`intrinsics_w` by `intrinsics_h` pixels: the raster `_weights` it leaves (the method always
returns `true`). Floating point numbers are read in a linearly ordered field `K`. -/
def build {K : Type} [LinearOrderedField K] (map : CoordinatesMap (K × K))
    (intrinsics_w intrinsics_h : Nat) : Image K :=
  let w : K := (intrinsics_w : K)
  let h : K := (intrinsics_h : K)
  let cx := w / 2
  let cy := h / 2
  let coordinates := map._coordinates
  let mask := map._mask
  { Width := coordinates.Width
    Height := coordinates.Height
    data := fun i j =>
      if i < coordinates.Height ∧ j < coordinates.Width then
        let valid := mask.data i j ≠ 0
        if valid then
          let coords := coordinates.data i j
          let x := coords.1
          let y := coords.2
          tentWeight cx cy x y
        else 0
      else 0 }

/-- A `2 x 1` map over the rationals for a `4 x 2` source image: the first pixel is
covered and stores the image centre, the second one is not covered. -/
def exampleMap : CoordinatesMap (ℚ × ℚ) :=
  { _offset_x := 0
    _offset_y := 0
    _coordinates := { Width := 2, Height := 1, data := fun _ j => if j = 0 then (2, 1) else (9, 9) }
    _mask := { Width := 2, Height := 1, data := fun _ j => if j = 0 then 1 else 0 } }

end AlphaBuilder

/-- Conversion `int(x)` of a floating point value `x`: truncation toward zero; the conversion
is undefined (`none`) when the truncated value is outside the range of `int`. -/
def doubleToInt {K : Type} [LinearOrderedField K] [FloorRing K] (x : K) : Option Int :=
  let t : Int := if 0 ≤ x then ⌊x⌋ else ⌈x⌉
  if -(2 : Int) ^ 31 ≤ t ∧ t < 2 ^ 31 then some t else none

/-- The element found at position `n` after `std::nth_element(begin, begin + n, end)`: the
element of rank `n` (from `0`) in ascending order. -/
def nthElement {K : Type} [LinearOrder K] (l : List K) (n : Nat) : Option K :=
  (l.insertionSort (fun a b => a ≤ b))[n]?

/-- Function `computeOptimalPanoramaSize` (source lines 1036-1090). Each view contributes
`some scale` when it has a pose and intrinsics, `build` succeeds on the `512 x 256` canvas
and `computeScale` succeeds, and `none` when it is skipped. The value
`int(floor(log2(median_scale)))` is `Int.log 2 median_scale` for a positive median (over the
reals, `Real.floor_logb_natCast`) and is undefined for a median that is not positive. The
result is `none` when a conversion to `int` is undefined. -/
def computeOptimalPanoramaSize {K : Type} [LinearOrderedField K] [FloorRing K]
    (viewScales : List (Option K)) : Option (Int × Int) :=
  let optimalSize : Int × Int := (512, 256)
  let scales := viewScales.reduceOption
  if scales.length > 1 then
    match nthElement scales (scales.length / 2) with
    | none => none
    | some median_scale =>
        if median_scale ≤ 0 then none
        else
          let multiplier : K := (2 : K) ^ (Int.log 2 median_scale)
          match doubleToInt ((optimalSize.1 : K) * multiplier),
              doubleToInt ((optimalSize.2 : K) * multiplier) with
          | some first, some second => some (first, second)
          | _, _ => none
  else some optimalSize

/-- The branch of `aliceVision_main` for a positive panorama width (source lines 1203-1205):
the width is rounded up to a multiple of `1024` through floating point, the height is the
integer half of the width. -/
def roundPanoramaSize {K : Type} [LinearOrderedField K] [FloorRing K] (first : Int) :
    Option (Int × Int) :=
  let max_scale : K := 1 / (2 : K) ^ 10
  match doubleToInt (((⌈(first : K) * max_scale⌉ : Int) : K) / max_scale) with
  | none => none
  | some rounded => some (rounded, Int.tdiv rounded 2)

/-- The panorama size chosen by `aliceVision_main` (source lines 1196-1206) from the width
`first` held by `panoramaSize.first` after the command line has been read. -/
def choosePanoramaSize {K : Type} [LinearOrderedField K] [FloorRing K] (first : Int)
    (viewScales : List (Option K)) : Option (Int × Int) :=
  if first ≤ 0 then computeOptimalPanoramaSize viewScales
  else roundPanoramaSize (K := K) first

/-- What `aliceVision_main` uses of a view to drive its loops: the image path and whether
`sfmData.isPoseAndIntrinsicDefined` holds for the view. -/
structure View where
  imagePath : String
  poseAndIntrinsicDefined : Bool
deriving DecidableEq

/-- One element of the array `views` of `config_views.json` (source lines 1272-1307). -/
structure ViewEntry where
  filename_view : String
  filename_mask : String
  filename_weights : String
  offsetx : Nat
  offsety : Nat
deriving DecidableEq

/-- The entry written for a processed view when the counter is `pos` (source lines
1275-1307); `offset` is the pair `(warper.getOffsetX(), warper.getOffsetY())`. -/
def viewEntry (outputDirectory : String) (pos : Nat) (offset : Nat × Nat) : ViewEntry :=
  { filename_view := outputDirectory ++ "/view_" ++ toString pos ++ ".exr"
    filename_mask := outputDirectory ++ "/mask_" ++ toString pos ++ ".png"
    filename_weights := outputDirectory ++ "/weightmap_" ++ toString pos ++ ".exr"
    offsetx := offset.1
    offsety := offset.2 }

/-- The vector `viewsOrderedByName` (source lines 1184-1191): the views sorted by image path.
`std::sort` may leave views of equal path in any order; this is one of its results. -/
def viewsOrderedByName (views : List View) : List View :=
  views.insertionSort (fun a b => a.imagePath ≤ b.imagePath)

namespace Warper

/-- Method `Warper::warp` (source lines 894-931): the raster `_color`. It is allocated
without initialisation (`uninit` is its content at allocation) and receives, at every pixel
with a non-zero mask, `sampler(source, coord(1), coord(0))`. The sampler
`image::Sampler2d<image::SamplerLinear>` is a parameter. -/
def warp {α K : Type} (sampler : Image α → K → K → α) (map : CoordinatesMap (K × K))
    (source : Image α) (uninit : Nat → Nat → α) : Image α :=
  let coordinates := map._coordinates
  { Width := coordinates.Width
    Height := coordinates.Height
    data := fun i j =>
      if i < coordinates.Height ∧ j < coordinates.Width then
        let valid := map._mask.data i j ≠ 0
        if valid then
          let coord := coordinates.data i j
          sampler source coord.2 coord.1
        else uninit i j
      else uninit i j }

end Warper

namespace GaussianWarper

/-- One call of the sampler in `GaussianWarper::warp`: on the source image, or on level `l`
of the pyramid, at row coordinate `y` and column coordinate `x`. -/
inductive Sample (K : Type) where
  | onSource (y x : K)
  | onLevel (l : Nat) (y x : K)

/-- The value `size_t(floor(std::max(0.0, log2(sqrt(det)))))` of source lines 1013-1016 for
`det ≥ 0`: the integer logarithm of `det` in base `4`, cut at `0`
(`floorLevel_eq_floor_max_logb`). -/
def floorLevel {K : Type} [LinearOrderedField K] [FloorRing K] (det : K) : Nat :=
  (Int.log 4 det).toNat

/-- The value `det` of source lines 1008-1012 at the pixel `(i, j)`, from the coordinates
stored at `(i, j)`, `(i, j + 1)` and `(i + 1, j)`. -/
def jacobianDet {K : Type} [LinearOrderedField K] (coordinates : Image (K × K))
    (i j : Nat) : K :=
  let coord_mm := coordinates.data i j
  let coord_mp := coordinates.data i (j + 1)
  let coord_pm := coordinates.data (i + 1) j
  let dxx := coord_pm.1 - coord_mm.1
  let dxy := coord_mp.1 - coord_mm.1
  let dyx := coord_pm.2 - coord_mm.2
  let dyy := coord_mp.2 - coord_mm.2
  |dxx * dyy - dxy * dyx|

/-- The level `blevel` of source line 1016 at the pixel `(i, j)`. -/
def selectedLevel {K : Type} [LinearOrderedField K] [FloorRing K] (map : CoordinatesMap (K × K))
    (max_level : Nat) (i j : Nat) : Nat :=
  min max_level (floorLevel (jacobianDet map._coordinates i j))

/-- The body of the loop of `GaussianWarper::warp` at the pixel `(i, j)` (source lines
992-1028), for the pyramid rasters `mlsource` and the value `max_level`. The result is `none`
when a raster or the vector `mlsource` is read out of range, `some none` when the pixel is
skipped, and otherwise the call of the sampler that gives the colour of the pixel. -/
def pixelPlan {α K : Type} [LinearOrderedField K] [FloorRing K] (map : CoordinatesMap (K × K))
    (mlsource : List (Image α)) (max_level : Nat) (i j : Nat) : Option (Option (Sample K)) :=
  let coordinates := map._coordinates
  let direct : Option (Option (Sample K)) :=
    (coordinates.get? i j).map fun coord => some (Sample.onSource coord.2 coord.1)
  match map._mask.get? i j with
  | none => none
  | some valid =>
    if valid = 0 then some none
    else if i + 1 = coordinates.Height ∨ j + 1 = coordinates.Width then direct
    else
      match map._mask.get? (i + 1) j with
      | none => none
      | some below =>
        if below = 0 then direct
        else
          match map._mask.get? i (j + 1) with
          | none => none
          | some right =>
            if right = 0 then direct
            else
              match coordinates.get? i j, coordinates.get? i (j + 1),
                  coordinates.get? (i + 1) j with
              | some coord_mm, some _, some _ =>
                let blevel := selectedLevel map max_level i j
                let dscale : K := 1 / (2 : K) ^ blevel
                let x := coord_mm.1 * dscale
                let y := coord_mm.2 * dscale
                match mlsource[blevel]?, mlsource[0]? with
                | some level, some _ =>
                  if x ≥ (((level.Width : Int) - 1 : Int) : K) ∨
                      y ≥ (((level.Height : Int) - 1 : Int) : K) then
                    some (some (Sample.onLevel 0 coord_mm.2 coord_mm.1))
                  else some (some (Sample.onLevel blevel y x))
                | _, _ => none
              | _, _, _ => none

/-- The colour given by a call of the sampler. -/
def sampleColor {α K : Type} (sampler : Image α → K → K → α) (source : Image α)
    (mlsource : List (Image α)) : Sample K → Option α
  | Sample.onSource y x => some (sampler source y x)
  | Sample.onLevel l y x => (mlsource[l]?).map fun level => sampler level y x

/-- The colour of the pixel `(i, j)` after the loop: the initial colour `background`
(`RGBfColor(1.0, 0.0, 0.0)`) for a skipped pixel. -/
def pixelColor {α K : Type} [LinearOrderedField K] [FloorRing K]
    (sampler : Image α → K → K → α) (background : α) (map : CoordinatesMap (K × K))
    (source : Image α) (mlsource : List (Image α)) (max_level : Nat) (i j : Nat) : Option α :=
  match pixelPlan map mlsource max_level i j with
  | none => none
  | some none => some background
  | some (some sample) => sampleColor sampler source mlsource sample

/-- Method `GaussianWarper::warp` (source lines 960-1033): the raster `_color`, or `none`
when the construction of the pyramid, `process` or the loop has no defined result. The value
`max_level = pyramid.getScalesCount() - 1` is computed in `size_t`. -/
def warp {α K : Type} [Zero α] [LinearOrderedField K] [FloorRing K]
    (sampler : Image α → K → K → α) (convolve : Image α → Image α) (background : α)
    (map : CoordinatesMap (K × K)) (source : Image α) : Option (Image α) :=
  match GaussianPyramidNoMask.construct source.Width source.Height
      GaussianPyramidNoMask.defaultLimitScales with
  | none => none
  | some pyramid =>
    match GaussianPyramidNoMask.process convolve pyramid source with
    | none => none
    | some (_, processed) =>
      let mlsource := processed.getPyramidColor
      let max_level := toSizeT ((processed.getScalesCount : Int) - 1)
      let coordinates := map._coordinates
      if (List.range coordinates.Height).all fun i =>
          (List.range coordinates.Width).all fun j =>
            (pixelColor sampler background map source mlsource max_level i j).isSome then
        some { Width := coordinates.Width
               Height := coordinates.Height
               data := fun i j =>
                 (pixelColor sampler background map source mlsource max_level i j).getD
                   background }
      else none

end GaussianWarper

namespace GaussianWarper

/-- Example map of `width` by `height` pixels with every mask value `1`: pixel `(i, j)` of the
map stores the source coordinate `(4 j, 4 i)`, a reduction of the source by four in each
direction (`det = 16`). -/
def quarterScaleMap (width height : Nat) : CoordinatesMap (ℚ × ℚ) :=
  { _offset_x := 0
    _offset_y := 0
    _coordinates :=
      { Width := width, Height := height, data := fun i j => ((4 * j : ℚ), (4 * i : ℚ)) }
    _mask := Image.filled width height 1 }

/-- Example map of `2` by `2` pixels with every mask value `1`, onto the last columns of a
source of `64` columns: pixel `(i, j)` stores the source coordinate `(63.5 - j, i)`. -/
def lastColumnMap : CoordinatesMap (ℚ × ℚ) :=
  { _offset_x := 0
    _offset_y := 0
    _coordinates := { Width := 2, Height := 2, data := fun i j => ((127 / 2 - j : ℚ), (i : ℚ)) }
    _mask := Image.filled 2 2 1 }

/-- Example sampler: the pixel of the raster at the integer parts of the coordinates. -/
def nearestSampler (img : Image ℚ) (y x : ℚ) : ℚ := img.data ⌊y⌋.toNat ⌊x⌋.toNat

end GaussianWarper

/-- Conversion `int(x)` of a floating point value `x` in the range of `int`: truncation
toward zero. In `computeCoarseBB` it is applied to the coordinates returned by
`toEquirectangular`, which lie between `0` and the panorama size
(`toEquirectangular_range`). -/
def intOfDouble {K : Type} [LinearOrderedField K] [FloorRing K] (x : K) : Int :=
  if 0 ≤ x then ⌊x⌋ else ⌈x⌉

namespace CoordinatesMap

/-- The indices `0, ..., 7` of the loops `for (int i = 0; i < 8; i++)` of `computeCoarseBB`;
the index `i2 = (i + 1) % 8` is `i + 1` in `Fin 8`. -/
def arcIndices : List (Fin 8) := [0, 1, 2, 3, 4, 5, 6, 7]

/-- The array `pts_radius` of source lines 631-640. -/
def pts_radius {K : Type} [Field K] (max_radius_distorted : K) : Fin 8 → K × K
  | 0 => (-max_radius_distorted, -max_radius_distorted)
  | 1 => (0, -max_radius_distorted)
  | 2 => (max_radius_distorted, -max_radius_distorted)
  | 3 => (max_radius_distorted, 0)
  | 4 => (max_radius_distorted, max_radius_distorted)
  | 5 => (0, max_radius_distorted)
  | 6 => (-max_radius_distorted, max_radius_distorted)
  | 7 => (-max_radius_distorted, 0)

/-- Eigen's `normalized()`: the vector divided by its norm. -/
noncomputable def normalized (v : ℝ × ℝ × ℝ) : ℝ × ℝ × ℝ :=
  (v.1 / SphericalMapping.norm3 v, v.2.1 / SphericalMapping.norm3 v,
    v.2.2 / SphericalMapping.norm3 v)

/-- The array `rotated_pts` of source lines 647-651. The value `max_radius_distorted`, which
the source gets from `intrinsics.ima2cam` and `intrinsics.getMaximalDistortion`, and the map
`v ↦ pose.rotation().transpose() * v` are parameters. -/
noncomputable def rotated_pts (max_radius_distorted : ℝ)
    (rotationTranspose : ℝ × ℝ × ℝ → ℝ × ℝ × ℝ) (i : Fin 8) : ℝ × ℝ × ℝ :=
  let pt3d := normalized ((pts_radius max_radius_distorted i).1,
    (pts_radius max_radius_distorted i).2, 1)
  rotationTranspose pt3d

/-- The quotient `ot_y` of `getExtremaY` (source line 796) as numerator and denominator. -/
def extremaQuotient {K : Type} [Field K] (pt1 pt2 : K × K × K) : K × K :=
  let dx := pt2.1 - pt1.1
  let dy := pt2.2.1 - pt1.2.1
  let dz := pt2.2.2 - pt1.2.2
  let sx := pt1.1
  let sy := pt1.2.1
  let sz := pt1.2.2
  (-(dx * sx * sy - (dy * sx) * (dy * sx) - (dy * sz) * (dy * sz) + dz * sy * sz),
    dx * dx * sy - dx * dy * sx - dy * dz * sz + dz * dz * sy)

/-- Method `getExtremaY` (source lines 787-801). The result is `none` when the quotient
`ot_y` or the normalisation divides by zero: the source then returns a vector that is not a
number, whose conversion to `int` in `computeCoarseBB` is undefined. -/
noncomputable def getExtremaY (pt1 pt2 : ℝ × ℝ × ℝ) : Option (ℝ × ℝ × ℝ) :=
  let delta : ℝ × ℝ × ℝ := (pt2.1 - pt1.1, pt2.2.1 - pt1.2.1, pt2.2.2 - pt1.2.2)
  if (extremaQuotient pt1 pt2).2 = 0 then none
  else
    let ot_y := (extremaQuotient pt1 pt2).1 / (extremaQuotient pt1 pt2).2
    let pt_extrema : ℝ × ℝ × ℝ :=
      (pt1.1 + ot_y * delta.1, pt1.2.1 + ot_y * delta.2.1, pt1.2.2 + ot_y * delta.2.2)
    if SphericalMapping.norm3 pt_extrema = 0 then none else some (normalized pt_extrema)

/-- Method `crossHorizontalLoop` (source lines 803-821). -/
def crossHorizontalLoop {K : Type} [LinearOrderedField K] (pt1 pt2 : K × K × K) : Bool :=
  let direction : K × K × K := (pt2.1 - pt1.1, pt2.2.1 - pt1.2.1, pt2.2.2 - pt1.2.2)
  if |direction.1| < 1 / 10 ^ 12 then false
  else
    let t := -pt1.1 / direction.1
    let cross : K × K × K :=
      (pt1.1 + direction.1 * t, pt1.2.1 + direction.2.1 * t, pt1.2.2 + direction.2.2 * t)
    if 0 ≤ t ∧ t ≤ 1 then
      if cross.2.2 < 0 then true else false
    else false

/-- Method `isPoleInTriangle` (source lines 823-834). The two quotients `a` and `b` have the
same denominator. When it is zero, a quotient with a non-zero numerator is infinite, so one
of the tests `a < 0.0 || a > 1.0`, `b < 0.0 || b > 1.0` returns `false`; when both numerators
are zero too, `a`, `b` and `c` are not numbers, every comparison is false and the result is
`true`. -/
def isPoleInTriangle {K : Type} [LinearOrderedField K] (pt1 pt2 pt3 : K × K × K) : Bool :=
  let den := pt1.1 * pt2.2.2 - pt1.1 * pt3.2.2 - pt2.1 * pt1.2.2 + pt2.1 * pt3.2.2
    + pt3.1 * pt1.2.2 - pt3.1 * pt2.2.2
  let numA := pt2.1 * pt3.2.2 - pt3.1 * pt2.2.2
  let numB := -pt1.1 * pt3.2.2 + pt3.1 * pt1.2.2
  if den = 0 then decide (numA = 0 ∧ numB = 0)
  else
    let a := numA / den
    let b := numB / den
    let c := 1 - a - b
    if a < 0 ∨ a > 1 then false
    else if b < 0 ∨ b > 1 then false
    else if c < 0 ∨ c > 1 then false
    else true

/-- The six tests of source lines 677-682. -/
def poleTests {K : Type} [LinearOrderedField K] (rotated_pts : Fin 8 → K × K × K) : Bool :=
  isPoleInTriangle (rotated_pts 0) (rotated_pts 1) (rotated_pts 7)
    || isPoleInTriangle (rotated_pts 1) (rotated_pts 2) (rotated_pts 3)
    || isPoleInTriangle (rotated_pts 3) (rotated_pts 4) (rotated_pts 5)
    || isPoleInTriangle (rotated_pts 7) (rotated_pts 5) (rotated_pts 6)
    || isPoleInTriangle (rotated_pts 1) (rotated_pts 3) (rotated_pts 5)
    || isPoleInTriangle (rotated_pts 1) (rotated_pts 5) (rotated_pts 7)

/-- The component `normal(1)` of the vector
`(rotated_pts[1] - rotated_pts[0]).cross(rotated_pts[3] - rotated_pts[0])` of source
line 686. -/
def normalY {K : Type} [Field K] (rotated_pts : Fin 8 → K × K × K) : K :=
  let u : K × K × K := ((rotated_pts 1).1 - (rotated_pts 0).1,
    (rotated_pts 1).2.1 - (rotated_pts 0).2.1, (rotated_pts 1).2.2 - (rotated_pts 0).2.2)
  let v : K × K × K := ((rotated_pts 3).1 - (rotated_pts 0).1,
    (rotated_pts 3).2.1 - (rotated_pts 0).2.1, (rotated_pts 3).2.2 - (rotated_pts 0).2.2)
  u.2.2 * v.1 - u.1 * v.2.2

/-- The loop of source lines 657-670 over the indices of the list, from the values
`(bbox_top, bbox_bottom)`: `none` when `getExtremaY` has no defined result on an arc. -/
noncomputable def verticalLoop (panoramaSize : Int × Int) (rotated_pts : Fin 8 → ℝ × ℝ × ℝ) :
    List (Fin 8) → Int × Int → Option (Int × Int)
  | [], acc => some acc
  | i :: rest, acc =>
    match getExtremaY (rotated_pts i) (rotated_pts (i + 1)) with
    | none => none
    | some extremaY =>
      let res := SphericalMapping.toEquirectangular extremaY panoramaSize.1 panoramaSize.2
      let bbox_top := min ⌊res.2⌋ acc.1
      let bbox_bottom := max ⌈res.2⌉ acc.2
      let res := SphericalMapping.toEquirectangular (rotated_pts i) panoramaSize.1
        panoramaSize.2
      let bbox_top := min ⌊res.2⌋ bbox_top
      let bbox_bottom := max ⌈res.2⌉ bbox_bottom
      verticalLoop panoramaSize rotated_pts rest (bbox_top, bbox_bottom)

/-- The value `crossH` of source lines 701-707. -/
def crossH (cross : Fin 8 → Bool) : Bool := arcIndices.any cross

/-- The value `first_cross` of source lines 717-725. -/
def firstCross (cross : Fin 8 → Bool) : Fin 8 := (arcIndices.find? cross).getD 0

/-- State of the loop of source lines 730-762. -/
structure SeamState where
  bbox_left : Int
  bbox_right : Int
  is_right : Bool
  deriving DecidableEq

/-- One iteration of the loop of source lines 730-762, from the projections `res i` of the
eight points and the values `cross i` of `crossHorizontalLoop` on the arc from point `i`. -/
def seamStep {K : Type} [LinearOrderedField K] [FloorRing K] (res : Fin 8 → K × K)
    (cross : Fin 8 → Bool) (first_cross : Fin 8) (s : SeamState) (index : Fin 8) : SeamState :=
  let i := index + first_cross
  let i2 := i + 1
  let res_1 := res i
  let res_2 := res i2
  if cross i then
    if res_1.1 > res_2.1 then
      { bbox_left := min (intOfDouble res_1.1) s.bbox_left
        bbox_right := max (intOfDouble res_2.1) s.bbox_right
        is_right := true }
    else
      { bbox_left := min (intOfDouble res_2.1) s.bbox_left
        bbox_right := max (intOfDouble res_1.1) s.bbox_right
        is_right := false }
  else if s.is_right then
    { s with bbox_right := max (intOfDouble res_2.1) (max (intOfDouble res_1.1) s.bbox_right) }
  else
    { s with bbox_left := min (intOfDouble res_2.1) (min (intOfDouble res_1.1) s.bbox_left) }

/-- The branch `else if (crossH)` of source lines 715-765: the values
`(bbox_left, bbox_width)`. -/
def seamExtent {K : Type} [LinearOrderedField K] [FloorRing K] (width : Int)
    (res : Fin 8 → K × K) (cross : Fin 8 → Bool) : Int × Int :=
  let s := arcIndices.foldl (seamStep res cross (firstCross cross))
    { bbox_left := width - 1, bbox_right := 0, is_right := true }
  (s.bbox_left, s.bbox_right + (width - s.bbox_left))

/-- The last branch of source lines 766-776: the values `(bbox_left, bbox_width)`. -/
def plainExtent {K : Type} [LinearOrderedField K] [FloorRing K] (width : Int)
    (res : Fin 8 → K × K) : Int × Int :=
  let s := arcIndices.foldl
    (fun (acc : Int × Int) i => (min ⌊(res i).1⌋ acc.1, max ⌈(res i).1⌉ acc.2)) (width, 0)
  (s.1, s.2 - s.1 + 1)

/-- The horizontal part of `computeCoarseBB` (source lines 709-776): the values
`(bbox_left, bbox_width)`. -/
def horizontalExtent {K : Type} [LinearOrderedField K] [FloorRing K] (width : Int)
    (pole : Bool) (res : Fin 8 → K × K) (cross : Fin 8 → Bool) : Int × Int :=
  if pole then
    let bbox_left := 0
    let bbox_right := width - 1
    (bbox_left, bbox_right - bbox_left + 1)
  else if crossH cross then seamExtent width res cross
  else plainExtent width res

/-- Method `computeCoarseBB` (source lines 603-785) from the array `rotated_pts`: the
returned boolean and the box. The `int` arithmetic is read in the integers (for a panorama
size below `2 ^ 30` no operation overflows). -/
noncomputable def computeCoarseBB (panoramaSize : Int × Int)
    (rotated_pts : Fin 8 → ℝ × ℝ × ℝ) : Option (Bool × BBox) :=
  match verticalLoop panoramaSize rotated_pts arcIndices (panoramaSize.2, 0) with
  | none => none
  | some (top, bottom) =>
    let pole := poleTests rotated_pts
    let vertical : Int × Int :=
      if pole then
        if normalY rotated_pts > 0 then (top, panoramaSize.2 - 1) else (0, bottom)
      else (top, bottom)
    let bbox_top := vertical.1
    let bbox_bottom := vertical.2
    let bbox_height := bbox_bottom - bbox_top + 1
    let horizontal := horizontalExtent panoramaSize.1 pole
      (fun i => SphericalMapping.toEquirectangular (rotated_pts i) panoramaSize.1 panoramaSize.2)
      (fun i => crossHorizontalLoop (rotated_pts i) (rotated_pts (i + 1)))
    some (true, { left := horizontal.1, top := bbox_top, width := horizontal.2,
                  height := bbox_height })

end CoordinatesMap

namespace CoordinatesMap

/-- Example of a rotation: the rotation of angle `ψ` about the axis `y` (a camera turned
about the vertical axis). -/
noncomputable def yawRotation (ψ : ℝ) (v : ℝ × ℝ × ℝ) : ℝ × ℝ × ℝ :=
  (v.1 * Real.cos ψ + v.2.2 * Real.sin ψ, v.2.1, -v.1 * Real.sin ψ + v.2.2 * Real.cos ψ)

/-- Example of a rotation: the quarter turn about the axis `x` that sends the optical axis
`z` to the axis `y` (a camera that looks at a pole). -/
def quarterPitch (v : ℝ × ℝ × ℝ) : ℝ × ℝ × ℝ := (v.1, v.2.2, -v.2.1)

end CoordinatesMap

namespace CoordinatesMap

/-- The value `det` of `computeScale` (source lines 566-571) at the cell `(i, j)`, from the
coordinates stored at `(i, j)`, `(i, j + 1)` and `(i + 1, j)`. -/
def scaleDet {K : Type} [LinearOrderedField K] (coordinates : Image (K × K)) (i j : Nat) : K :=
  let dxx := (coordinates.data i (j + 1)).1 - (coordinates.data i j).1
  let dxy := (coordinates.data (i + 1) j).1 - (coordinates.data i j).1
  let dyx := (coordinates.data i (j + 1)).2 - (coordinates.data i j).2
  let dyy := (coordinates.data (i + 1) j).2 - (coordinates.data i j).2
  |dxx * dyy - dxy * dyx|

/-- The body of the loops of `computeScale` at the cell `(i, j)` (source lines 562-572): the
vector `scales` after the iteration, or `none` when the mask or the coordinates are read
out of range. -/
def scaleStep {K : Type} [LinearOrderedField K] (map : CoordinatesMap (K × K))
    (scales : List K) (i j : Nat) : Option (List K) :=
  match map._mask.get? i j with
  | none => none
  | some here =>
    if here = 0 then some scales
    else
      match map._mask.get? i (j + 1) with
      | none => none
      | some right =>
        if right = 0 then some scales
        else
          match map._mask.get? (i + 1) j with
          | none => none
          | some below =>
            if below = 0 then some scales
            else
              match map._coordinates.get? i (j + 1), map._coordinates.get? i j,
                  map._coordinates.get? (i + 1) j with
              | some _, some _, some _ => some (scales ++ [scaleDet map._coordinates i j])
              | _, _, _ => none

/-- The inner loop of `computeScale` on row `i` (source lines 561-573). The bound
`real_width - 1` is computed in `size_t`; when it is not a value of the `int` counter `j`,
the loop reads out of range or overflows its counter: `none`. -/
def scaleRow {K : Type} [LinearOrderedField K] (map : CoordinatesMap (K × K))
    (scales : List K) (i : Nat) : Option (List K) :=
  let real_width := map._coordinates.Width
  let bound := toSizeT ((real_width : Int) - 1)
  if bound ≥ 2 ^ 31 then none
  else (List.range bound).foldlM (fun s j => scaleStep map s i j) scales

/-- The two loops of `computeScale` (source lines 556-574): the vector `scales` after the
loops. The bound `real_height - 1` is computed in `size_t`, as in `scaleRow`. -/
def scaleLoop {K : Type} [LinearOrderedField K] (map : CoordinatesMap (K × K)) :
    Option (List K) :=
  let real_height := map._coordinates.Height
  let bound := toSizeT ((real_height : Int) - 1)
  if bound ≥ 2 ^ 31 then none
  else (List.range bound).foldlM (fun s i => scaleRow map s i) []

/-- Method `computeScale` (source lines 554-583), with the function `sqrt` as a parameter:
`none` when a read is out of range, `some none` when the method returns `false`, and
`some (some result)` when it returns `true`. -/
def computeScale {K : Type} [LinearOrderedField K] (sqrt : K → K)
    (map : CoordinatesMap (K × K)) : Option (Option K) :=
  match scaleLoop map with
  | none => none
  | some scales =>
    if scales.length ≤ 1 then some none
    else (nthElement scales (scales.length / 2)).map fun median => some (sqrt median)

/-- The cells over which the claim of the estimator takes its median: the cells `(i, j)`,
`i < realH - 1`, `j < realW - 1`, in the order of the loops, whose mask is non-zero at the
three pixels `(i, j)`, `(i, j + 1)`, `(i + 1, j)` that the source tests. -/
def scaleCells {K : Type} (map : CoordinatesMap (K × K)) : List (Nat × Nat) :=
  (List.range (map._coordinates.Height - 1)).flatMap fun i =>
    ((List.range (map._coordinates.Width - 1)).filter fun j =>
      map._mask.data i j ≠ 0 ∧ map._mask.data i (j + 1) ≠ 0 ∧ map._mask.data (i + 1) j ≠ 0).map
      fun j => (i, j)

/-- Example of a map of `2` rows and `3` columns: pixel `(i, j)` stores the source
coordinate `(j, i)`, and every pixel is covered except the last one of the second row. -/
def stairMap (K : Type) [LinearOrderedField K] : CoordinatesMap (K × K) :=
  { _offset_x := 0
    _offset_y := 0
    _coordinates := { Width := 3, Height := 2, data := fun i j => ((j : K), (i : K)) }
    _mask := { Width := 3, Height := 2, data := fun i j => if i = 1 ∧ j = 2 then 0 else 1 } }

end CoordinatesMap

/-- The value of `panoramaSize.first` after the command line has been read (source lines
1116-1119, 1138-1145): the value of the option `--panoramaWidth` when it is given, and the
default value `1024` of the option when it is absent. -/
def parsedPanoramaWidth (panoramaWidth : Option Int) : Int :=
  let panoramaSize : Int × Int := (1024, 0)
  panoramaWidth.getD panoramaSize.1

/-- The panorama size chosen by `aliceVision_main` from the command line (source lines
1116-1119 and 1196-1206). -/
def panoramaSizeOfCommandLine {K : Type} [LinearOrderedField K] [FloorRing K]
    (panoramaWidth : Option Int) (viewScales : List (Option K)) : Option (Int × Int) :=
  choosePanoramaSize (parsedPanoramaWidth panoramaWidth) viewScales

/-- A small camera over integer directions and pixels that sees the rays of the first two
canvas columns only, used to run `build` on a coarse box that crosses the seam. -/
def seamCamera : Camera (Nat × Nat) (Nat × Nat) :=
  { pose := id
    isVisibleRay := fun r => decide (r.1 ≤ 1)
    project := fun r => (10 * r.1, 10 * r.2)
    isVisible := fun _ => true }

namespace CoordinatesMap

/-- Example of a rotation: the rotation about the axis `x` of the angle with cosine `c` and
sine `s` (a camera pitched toward the lower pole). -/
def pitchRotation {K : Type} [Field K] (c s : K) (v : K × K × K) : K × K × K :=
  (v.1, v.2.1 * c + v.2.2 * s, -v.2.1 * s + v.2.2 * c)

end CoordinatesMap


namespace CoordinatesMap

/-- Method `CoordinatesMap::build` (source lines 457-552) from the result `coarse` of its call
of `computeCoarseBB` (source line 460; `none` when that call has no defined result): the
returned boolean and the map after the call, or `none` when the method has no defined
result. When `computeCoarseBB` returns `false` the method returns `false` (source line 461)
and leaves the map `before` as it was. -/
def buildMethod {V3 V2 : Type} (W H : Int) (coarse : Option (Bool × BBox))
    (cam : Camera V3 V2) (rayOf : Nat → Nat → V3) (uninit : Nat → Nat → V2)
    (before : CoordinatesMap V2) : Option (Bool × CoordinatesMap V2) :=
  match coarse with
  | none => none
  | some (false, _) => some (false, before)
  | some (true, coarse_bbox) =>
    match build W H coarse_bbox cam rayOf uninit with
    | none => none
    | some map => some (true, map)

end CoordinatesMap

/-- What the per-view loop gets from `sfmData` for a view with pose and intrinsics (source
lines 1232-1233), as `CoordinatesMap::build` and `AlphaBuilder::build` use it: the result of
`computeCoarseBB` on the pose and the intrinsics (`none` when it has no defined result), the
functions of the camera, and the image size `intrinsics.w()`, `intrinsics.h()`. -/
structure ViewGeometry (V3 K : Type) where
  coarse : Option (Bool × BBox)
  camera : Camera V3 (K × K)
  w : Nat
  h : Nat

/-- The raster handed to one call of `image::writeImage` in the per-view loop: the colours of
the warper, its mask, or the weights of the alpha builder. -/
inductive Raster (α K : Type) where
  | color (image : Image α)
  | mask (image : Image Nat)
  | weights (image : Image K)

/-- What the per-view loop of `aliceVision_main` works on: the output directory, the panorama
size, the geometry of each view, and the functions that are outside the program.
`readImage` is `image::readImage` (`none` when it throws), `writeImage` tells whether
`image::writeImage` completes (`false` when it throws); `rayOf`, `uninit`, `sampler`,
`convolve` and `background` are the parameters of `build` and `GaussianWarper::warp`. -/
structure Scene (V3 K α : Type) where
  outputDirectory : String
  panoramaSize : Int × Int
  geometry : View → ViewGeometry V3 K
  rayOf : Nat → Nat → V3
  uninit : Nat → Nat → K × K
  readImage : String → Option (Image α)
  sampler : Image α → K → K → α
  convolve : Image α → Image α
  background : α
  writeImage : String → Raster α K → Bool

/-- The body of the per-view loop for a view with pose and intrinsics, when the counter is
`pos` (source lines 1232-1307): the entry pushed to `viewsTree`, or `none` when the body does
not reach the end (a call without a defined result, or an exception of `readImage` or
`writeImage`, which nothing catches). The value returned by `map.build` is not read (source
line 1239); the map starts as the default `CoordinatesMap` (source line 1238). The mask and
the offsets of the warper are the copies of those of the map (source lines 965-967). -/
def processView {V3 K α : Type} [Zero α] [LinearOrderedField K] [FloorRing K]
    (scene : Scene V3 K α) (view : View) (pos : Nat) : Option ViewEntry :=
  let geometry := scene.geometry view
  let map : CoordinatesMap (K × K) :=
    { _offset_x := 0
      _offset_y := 0
      _coordinates := { Width := 0, Height := 0, data := scene.uninit }
      _mask := Image.filled 0 0 0 }
  match CoordinatesMap.buildMethod scene.panoramaSize.1 scene.panoramaSize.2 geometry.coarse
      geometry.camera scene.rayOf scene.uninit map with
  | none => none
  | some (_, map) =>
    match scene.readImage view.imagePath with
    | none => none
    | some source =>
      match GaussianWarper.warp scene.sampler scene.convolve scene.background map source with
      | none => none
      | some cam =>
        let weights := AlphaBuilder.build map geometry.w geometry.h
        let entry := viewEntry scene.outputDirectory pos (map._offset_x, map._offset_y)
        if scene.writeImage entry.filename_view (Raster.color cam)
            && scene.writeImage entry.filename_mask (Raster.mask map._mask)
            && scene.writeImage entry.filename_weights (Raster.weights weights) then
          some entry
        else none

/-- The per-view loop of `aliceVision_main` (source lines 1216-1310) from the counter value
`pos`: the content of `viewsTree` when the loop ends, or `none` when the body does not reach
its end on one of the views, in which case the program stops there and `config_views.json`
(source line 1324) is not written. A view without pose or intrinsics is skipped; every other
view is processed, gets the entry numbered `pos` and advances the counter. -/
def perViewLoop {V3 K α : Type} [Zero α] [LinearOrderedField K] [FloorRing K]
    (scene : Scene V3 K α) : List View → Nat → Option (List ViewEntry)
  | [], _ => some []
  | view :: rest, pos =>
      if !view.poseAndIntrinsicDefined then perViewLoop scene rest pos
      else
        match processView scene view pos with
        | none => none
        | some entry =>
          match perViewLoop scene rest (pos + 1) with
          | none => none
          | some entries => some (entry :: entries)

/-- A camera that sees no ray; `pixel` is the value of its projection. -/
def blindCamera {V3 V2 : Type} (pixel : V2) : Camera V3 V2 :=
  { pose := id
    isVisibleRay := fun _ => false
    project := fun _ => pixel
    isVisible := fun _ => true }

/-- A camera over integer directions that sees every ray and projects the ray of the canvas
pixel `(cx, cy)` to the source pixel `(cx, cy)`. -/
def wideCamera : Camera (Nat × Nat) (ℚ × ℚ) :=
  { pose := id
    isVisibleRay := fun _ => true
    project := fun r => ((r.1 : ℚ), (r.2 : ℚ))
    isVisible := fun _ => true }

/-- Example of a scene on a canvas of `8 x 4` pixels, used to run the per-view loop. Every
view has the coarse box of `4 x 2` pixels at `(2, 1)`; the view `blind.jpg` sees no ray, the
others see every ray. The image `missing.jpg` cannot be read, the image `small.jpg` has
`40 x 40` pixels, the others `64 x 64`; every image is written. -/
def exampleScene : Scene (Nat × Nat) ℚ ℚ :=
  { outputDirectory := "out"
    panoramaSize := (8, 4)
    geometry := fun view =>
      { coarse := some (true, ⟨2, 1, 4, 2⟩)
        camera := if view.imagePath = "blind.jpg" then blindCamera (0, 0) else wideCamera
        w := 64
        h := 64 }
    rayOf := fun cx cy => (cx % 8, cy)
    uninit := fun _ _ => (0, 0)
    readImage := fun path =>
      if path = "missing.jpg" then none
      else if path = "small.jpg" then some (Image.filled 40 40 1)
      else some (Image.filled 64 64 1)
    sampler := GaussianWarper.nearestSampler
    convolve := id
    background := 0
    writeImage := fun _ _ => true }

/-- The scene `scene` on the canvas of `512 x 256` pixels, with the rays of `canvasRay`, in
which every view has the coarse box of `4 x 4` pixels at the origin and a camera that sees no
ray. -/
noncomputable def blindScene {K α : Type} (scene : Scene (ℝ × ℝ × ℝ) K α) (pixel : K × K) :
    Scene (ℝ × ℝ × ℝ) K α :=
  { scene with
    panoramaSize := (512, 256)
    rayOf := canvasRay 512 256
    geometry := fun _ =>
      { coarse := some (true, ⟨0, 0, 4, 4⟩)
        camera := blindCamera pixel
        w := 64
        h := 64 } }

/-- The values of the type `int`: an arithmetic operation of the source whose exact result
`z` is outside `-2^31 ≤ z < 2^31 = 2147483648` overflows and has no defined result. -/
def checkedInt (z : Int) : Option Int :=
  if -2147483648 ≤ z ∧ z < 2147483648 then some z else none

namespace DistanceMap

/-- The raster `d` after the assignment `distance(y, x) = v`. -/
def write (d : Nat → Nat → Int) (y x : Nat) (v : Int) : Nat → Nat → Int :=
  fun y' x' => if y' = y ∧ x' = x then v else d y' x'

/-- The body of the loop of source lines 217-225 on the column `x`, for `y = k + 1`. The
arithmetic of the function on its `int` data (`maxval`, the entries of `distance`, the values
inside `f` and `sep`, `w` and `q`) goes through `chk`, which is `checkedInt` in
`computeDistanceMap`. The loop counters `x`, `y` and `u` stay between `-1` and the sizes `m`
and `n`, which are values of `int`. -/
def forwardStep (chk : Int → Option Int) (mask : Image Nat) (x : Nat) (d : Nat → Nat → Int)
    (k : Nat) : Option (Nat → Nat → Int) :=
  let y := k + 1
  let b := decide (mask.data y x = 0)
  if b then some (write d y x 0)
  else
    match chk (1 + d (y - 1) x) with
    | none => none
    | some v => some (write d y x v)

/-- The body of the loop of source lines 227-231 on the column `x` of a raster of `m` rows,
for `y = m - 2 - k`. -/
def backwardStep (chk : Int → Option Int) (m x : Nat) (d : Nat → Nat → Int) (k : Nat) :
    Option (Nat → Nat → Int) :=
  let y := m - 2 - k
  if d (y + 1) x < d y x then
    match chk (1 + d (y + 1) x) with
    | none => none
    | some v => some (write d y x v)
  else some d

/-- The body of the first loop of `computeDistanceMap` for the column `x` (source lines
206-232): the first row, the pass from row `1` to row `m - 1` and the pass from row `m - 2`
to row `0`. The read `mask(0, x)` is outside the mask when it has no row: `none`. -/
def columnPass (chk : Int → Option Int) (mask : Image Nat) (maxval : Int)
    (d : Nat → Nat → Int) (x : Nat) : Option (Nat → Nat → Int) :=
  match mask.get? 0 x with
  | none => none
  | some first =>
    let b := decide (first = 0)
    match (if b then some 0 else chk (maxval * maxval)) with
    | none => none
    | some v =>
      match (List.range (mask.Height - 1)).foldlM (forwardStep chk mask x) (write d 0 x v) with
      | none => none
      | some d => (List.range (mask.Height - 1)).foldlM (backwardStep chk mask.Height x) d

/-- The row `y` of the copy of `distance` that the two lambdas capture (source lines 243
and 248), as a function of the column: `none` outside the `n` columns of the raster. -/
def capturedRow (n : Nat) (row : Nat → Int) (i : Int) : Option Int :=
  if 0 ≤ i ∧ i < n then some (row i.toNat) else none

/-- The lambda `f` of source lines 243-246 on the captured row `g`: the difference `x - i`,
its square, the square of `gi` and the sum. -/
def f (chk : Int → Option Int) (g : Int → Option Int) (x i : Int) : Option Int :=
  match g i with
  | none => none
  | some gi =>
    match chk (x - i) with
    | none => none
    | some a =>
      match chk (a * a), chk (gi * gi) with
      | some b, some c => chk (b + c)
      | _, _ => none

/-- The lambda `sep` of source lines 248-256, operation by operation in the order of the
expressions of lines 252-253; the division of `int` truncates toward zero and is undefined
for a zero divisor. -/
def sep (chk : Int → Option Int) (g : Int → Option Int) (i u : Int) : Option Int :=
  match g u, g i with
  | some gu, some gi =>
    match chk (u * u), chk (i * i) with
    | some uu, some ii =>
      match chk (uu - ii), chk (gu * gu) with
      | some a, some gugu =>
        match chk (a + gugu), chk (gi * gi) with
        | some b, some gigi =>
          match chk (b - gigi), chk (u - i) with
          | some nom, some c =>
            match chk (2 * c) with
            | none => none
            | some denom => if denom = 0 then none else chk (Int.tdiv nom denom)
          | _, _ => none
        | _, _ => none
      | _, _ => none
    | _, _ => none
  | _, _ => none

/-- The variables `q`, `s` and `t` of source lines 235-241. The two `std::map<int, int>` are
read with `operator[]`, which gives `0` for a key that was never assigned. -/
structure Stack where
  q : Int
  s : Int → Int
  t : Int → Int

/-- The loop `while (q >= 0 && (f(t[q], s[q]) > f(t[q], u))) q = q - 1` of source lines
260-262, entered with `q = k - 1`: the value of `q` at the exit, between `-1` and `k - 1`. -/
def popLoop (chk : Int → Option Int) (g : Int → Option Int) (s t : Int → Int) (u : Int) :
    Nat → Option Int
  | 0 => some (-1)
  | k + 1 =>
    match f chk g (t k) (s k), f chk g (t k) u with
    | some a, some b => if a > b then popLoop chk g s t u k else some k
    | _, _ => none

/-- The body of the loop of source lines 258-276 for the column `u`. -/
def scanStep (chk : Int → Option Int) (g : Int → Option Int) (n : Int) (st : Stack) (u : Int) :
    Option Stack :=
  match (if st.q < 0 then some st.q else popLoop chk g st.s st.t u (st.q.toNat + 1)) with
  | none => none
  | some q =>
    if q < 0 then some { q := 0, s := Function.update st.s 0 u, t := st.t }
    else
      match sep chk g (st.s q) u with
      | none => none
      | some v =>
        match chk (1 + v) with
        | none => none
        | some w =>
          if w < n then
            match chk (q + 1) with
            | none => none
            | some q1 =>
              some { q := q1, s := Function.update st.s q1 u, t := Function.update st.t q1 w }
          else some { q := q, s := st.s, t := st.t }

/-- The body of the loop of source lines 278-283 for the column `u` of the row `y`, on the
value of `q` and the raster `distance`. -/
def fillStep (chk : Int → Option Int) (g : Int → Option Int) (s t : Int → Int) (y : Nat)
    (acc : Int × (Nat → Nat → Int)) (u : Nat) : Option (Int × (Nat → Nat → Int)) :=
  match f chk g u (s acc.1) with
  | none => none
  | some v =>
    if (u : Int) = t acc.1 then
      match chk (acc.1 - 1) with
      | none => none
      | some q1 => some (q1, write acc.2 y u v)
    else some (acc.1, write acc.2 y u v)

/-- The body of the second loop of `computeDistanceMap` for the row `y` (source lines
234-284); the two lambdas read the copy of `distance` made when they are created. -/
def rowPass (chk : Int → Option Int) (n : Nat) (d : Nat → Nat → Int) (y : Nat) :
    Option (Nat → Nat → Int) :=
  let g := capturedRow n (d y)
  match (List.range (n - 1)).foldlM
      (fun st (k : Nat) => scanStep chk g n st ((k : Int) + 1))
      { q := 0, s := fun _ => 0, t := fun _ => 0 } with
  | none => none
  | some st =>
    match (List.range n).foldlM
        (fun acc (k : Nat) => fillStep chk g st.s st.t y acc (n - 1 - k)) (st.q, d) with
    | none => none
    | some acc => some acc.2

/-- The reading `chk` of the arithmetic gives every value between `-B` and `B`. -/
def Covers (chk : Int → Option Int) (B : Int) : Prop :=
  ∀ z, -B ≤ z → z ≤ B → chk z = some z

/-- The reading `chk` of the arithmetic gives, when it gives a value, the exact one. -/
def Exact (chk : Int → Option Int) : Prop :=
  ∀ z v, chk z = some v → v = z

/-- The value `v` is, for the row `y` of the column `x`, the distance `y - y'` to the nearest
row `y' ≤ y` with a zero of the mask in that column, or a value of at least `maxval²` when
there is none. -/
def IsForwardDistance (mask : Image Nat) (maxval : Int) (x y : Nat) (v : Int) : Prop :=
  0 ≤ v ∧
  (∀ y', y' ≤ y → mask.data y' x = 0 → v ≤ (y : Int) - y') ∧
  ((∃ y', y' ≤ y ∧ mask.data y' x = 0 ∧ v = (y : Int) - y') ∨ maxval * maxval ≤ v)

/-- The value `v` is, for the row `y` of the column `x`, the distance `|y - y'|` to the
nearest row `y'` with a zero of the mask in that column, or a value of at least `maxval²`
when there is none. -/
def IsColumnDistance (mask : Image Nat) (maxval : Int) (x y : Nat) (v : Int) : Prop :=
  0 ≤ v ∧
  (∀ y', y' < mask.Height → mask.data y' x = 0 → v ≤ (y : Int) - y' ∨ v ≤ (y' : Int) - y) ∧
  ((∃ y', y' < mask.Height ∧ mask.data y' x = 0 ∧ (v = (y : Int) - y' ∨ v = (y' : Int) - y))
    ∨ maxval * maxval ≤ v)

/-- The value `f(x, i)` on the row `row`. -/
def parabola (row : Nat → Int) (x i : Int) : Int :=
  (x - i) * (x - i) + row i.toNat * row i.toNat

/-- The arithmetic `chk` covers the values that the second loop computes on the row `row` of
`n` columns: the entries of the row are between `0` and some `G`, and `chk` gives every
value up to `n² + G²`. -/
def Fits (chk : Int → Option Int) (n : Nat) (row : Nat → Int) : Prop :=
  ∃ G B : Int, Covers chk B ∧ (∀ i : Nat, i < n → 0 ≤ row i ∧ row i ≤ G) ∧
    (n : Int) * n + G * G ≤ B

/-- The invariant of the loop of source lines 258-276 before the iteration `u`, on a row of
`n` columns: the entries `0, ..., q` of `s` are columns below `u`, those of `t` increase from
`t[0] = 0` and stay below `n`, and on the columns `x` from `t[j]` to the next entry of `t`
(to `n` for `j = q`) the column `s[j]` gives the least `f(x, i)` over the columns `i < u`. -/
structure StackInv (n : Nat) (row : Nat → Int) (u : Int) (st : Stack) : Prop where
  q_nonneg : 0 ≤ st.q
  t_zero : st.t 0 = 0
  range : ∀ j, 0 ≤ j → j ≤ st.q → 0 ≤ st.s j ∧ st.s j < u ∧ 0 ≤ st.t j ∧ st.t j < n
  incr : ∀ j, 0 ≤ j → j < st.q → st.t j < st.t (j + 1)
  least : ∀ j, 0 ≤ j → j ≤ st.q → ∀ x, st.t j ≤ x → x < n → (j < st.q → x < st.t (j + 1)) →
    ∀ i, 0 ≤ i → i < u → parabola row x (st.s j) ≤ parabola row x i

/-- The value `v` is the least `f(x, i)` over the columns `i < n` of the row `row`. -/
def IsRowMinimum (n : Nat) (row : Nat → Int) (x : Nat) (v : Int) : Prop :=
  (∃ i, i < n ∧ v = parabola row x i) ∧ ∀ i : Nat, i < n → v ≤ parabola row x i

/-- Example of a mask of `2 x 2` pixels whose only zero pixel is the first one. -/
def cornerMask : Image Nat :=
  { Width := 2, Height := 2, data := fun y x => if y = 0 ∧ x = 0 then 0 else 1 }

/-- Example of a mask of `1 x 216` pixels whose only zero pixel is the first one. -/
def stripMask : Image Nat :=
  { Width := 216, Height := 1, data := fun _ x => if x = 0 then 0 else 1 }

end DistanceMap

/-- Function `computeDistanceMap` (source lines 198-287) for a reading `chk` of the `int`
arithmetic: the returned boolean and the raster `distance`, allocated without
initialisation (`uninit` is its content at allocation). The product `m * n` of source line
203 is computed first; the first loop runs over the columns, the second over the rows. -/
def computeDistanceMapWith (chk : Int → Option Int) (uninit : Nat → Nat → Int)
    (mask : Image Nat) :
    Option (Bool × Image Int) :=
  let m := mask.Height
  let n := mask.Width
  match chk ((m : Int) * (n : Int)) with
  | none => none
  | some maxval =>
    match (List.range n).foldlM (DistanceMap.columnPass chk mask maxval) uninit with
    | none => none
    | some d =>
      match (List.range m).foldlM (DistanceMap.rowPass chk n) d with
      | none => none
      | some d => some (true, { Width := n, Height := m, data := d })

/-- Function `computeDistanceMap` (source lines 198-287): the returned boolean and the raster
`distance`, with the arithmetic of the type `int`; `none` when an operation overflows. -/
def computeDistanceMap (uninit : Nat → Nat → Int) (mask : Image Nat) :
    Option (Bool × Image Int) :=
  computeDistanceMapWith checkedInt uninit mask

/-! ## Theorems -/

namespace SphericalMapping

theorem atan2_scaled_cos_sin {r θ : ℝ} (hr : 0 < r) (h1 : -Real.pi < θ) (h2 : θ ≤ Real.pi) :
    atan2 (r * Real.sin θ) (r * Real.cos θ) = θ := by
  have h := Complex.arg_mul_cos_add_sin_mul_I hr (θ := θ) ⟨h1, h2⟩
  have e : (⟨r * Real.cos θ, r * Real.sin θ⟩ : ℂ)
      = (r : ℂ) * (Complex.cos θ + Complex.sin θ * Complex.I) := by
    apply Complex.ext
    · simp [← Complex.ofReal_cos, ← Complex.ofReal_sin]
    · simp [← Complex.ofReal_cos, ← Complex.ofReal_sin]
  unfold atan2
  rw [e]
  exact h

/-- C4: over real arithmetic, for positive `W`, `H` and every `p` with `0 < p.x < W` and
`0 < p.y < H`, `toEquirectangular (fromEquirectangular p W H) W H = p`. -/
theorem toEquirectangular_fromEquirectangular (W H : Int) (p : ℝ × ℝ)
    (hW : 0 < W) (hH : 0 < H)
    (hx0 : 0 < p.1) (hx1 : p.1 < (W : ℝ)) (hy0 : 0 < p.2) (hy1 : p.2 < (H : ℝ)) :
    toEquirectangular (fromEquirectangular p W H) W H = p := by
  have hWr : (0 : ℝ) < (W : ℝ) := by exact_mod_cast hW
  have hHr : (0 : ℝ) < (H : ℝ) := by exact_mod_cast hH
  have hpi := Real.pi_pos
  have hy : 0 < p.2 / (H : ℝ) ∧ p.2 / (H : ℝ) < 1 :=
    ⟨div_pos hy0 hHr, (div_lt_one hHr).2 hy1⟩
  have hx : 0 < p.1 / (W : ℝ) ∧ p.1 / (W : ℝ) < 1 :=
    ⟨div_pos hx0 hWr, (div_lt_one hWr).2 hx1⟩
  have hlat1 : -(Real.pi / 2) < p.2 / (H : ℝ) * Real.pi - Real.pi / 2 := by nlinarith [hy.1]
  have hlat2 : p.2 / (H : ℝ) * Real.pi - Real.pi / 2 < Real.pi / 2 := by nlinarith [hy.2]
  have hlon1 : -Real.pi < p.1 / (W : ℝ) * 2 * Real.pi - Real.pi := by nlinarith [hx.1]
  have hlon2 : p.1 / (W : ℝ) * 2 * Real.pi - Real.pi < Real.pi := by nlinarith [hx.2]
  have hcos : 0 < Real.cos (p.2 / (H : ℝ) * Real.pi - Real.pi / 2) :=
    Real.cos_pos_of_mem_Ioo ⟨hlat1, hlat2⟩
  have hasin : Real.arcsin (Real.sin (p.2 / (H : ℝ) * Real.pi - Real.pi / 2))
      = p.2 / (H : ℝ) * Real.pi - Real.pi / 2 :=
    Real.arcsin_sin hlat1.le hlat2.le
  have hatan := atan2_scaled_cos_sin hcos hlon1 hlon2.le
  simp only [toEquirectangular, fromEquirectangular]
  rw [hasin, hatan]
  apply Prod.ext
  · simp only
    field_simp
    ring
  · simp only
    field_simp
    ring

theorem toEquirectangular_fromEquirectangular_witness :
    toEquirectangular (fromEquirectangular ((1 : ℝ), (1 : ℝ)) 4 2) 4 2 = ((1 : ℝ), (1 : ℝ)) :=
  toEquirectangular_fromEquirectangular 4 2 (1, 1) (by decide) (by decide)
    (by norm_num) (by norm_num) (by norm_num) (by norm_num)

/-- C5: for positive `W`, `H` and every `p`, `fromEquirectangular p W H` is
`(cos lat * sin lon, sin lat, cos lat * cos lon)` with `lat = p.y / H * π - π / 2` and
`lon = p.x / W * 2π - π`, and its Euclidean norm is exactly `1`. -/
theorem fromEquirectangular_formula_and_unit_norm (W H : Int) (p : ℝ × ℝ)
    (_hW : 0 < W) (_hH : 0 < H) :
    fromEquirectangular p W H
        = (Real.cos (p.2 / (H : ℝ) * Real.pi - Real.pi / 2)
              * Real.sin (p.1 / (W : ℝ) * (2 * Real.pi) - Real.pi),
           Real.sin (p.2 / (H : ℝ) * Real.pi - Real.pi / 2),
           Real.cos (p.2 / (H : ℝ) * Real.pi - Real.pi / 2)
              * Real.cos (p.1 / (W : ℝ) * (2 * Real.pi) - Real.pi))
      ∧ norm3 (fromEquirectangular p W H) = 1 := by
  have e : p.1 / (W : ℝ) * 2 * Real.pi = p.1 / (W : ℝ) * (2 * Real.pi) := by ring
  constructor
  · simp only [fromEquirectangular, e]
  · simp only [norm3, fromEquirectangular]
    have h1 := Real.sin_sq_add_cos_sq (p.2 / (H : ℝ) * Real.pi - Real.pi / 2)
    have h2 := Real.sin_sq_add_cos_sq (p.1 / (W : ℝ) * 2 * Real.pi - Real.pi)
    have : (Real.cos (p.2 / (H : ℝ) * Real.pi - Real.pi / 2)
          * Real.sin (p.1 / (W : ℝ) * 2 * Real.pi - Real.pi)) ^ 2
        + Real.sin (p.2 / (H : ℝ) * Real.pi - Real.pi / 2) ^ 2
        + (Real.cos (p.2 / (H : ℝ) * Real.pi - Real.pi / 2)
          * Real.cos (p.1 / (W : ℝ) * 2 * Real.pi - Real.pi)) ^ 2 = 1 := by
      nlinarith [h1, h2]
    rw [this, Real.sqrt_one]

theorem fromEquirectangular_formula_and_unit_norm_witness :
    fromEquirectangular ((3 : ℝ), (1 : ℝ)) 4 2
        = (Real.cos ((1 : ℝ) / ((2 : Int) : ℝ) * Real.pi - Real.pi / 2)
              * Real.sin ((3 : ℝ) / ((4 : Int) : ℝ) * (2 * Real.pi) - Real.pi),
           Real.sin ((1 : ℝ) / ((2 : Int) : ℝ) * Real.pi - Real.pi / 2),
           Real.cos ((1 : ℝ) / ((2 : Int) : ℝ) * Real.pi - Real.pi / 2)
              * Real.cos ((3 : ℝ) / ((4 : Int) : ℝ) * (2 * Real.pi) - Real.pi))
      ∧ norm3 (fromEquirectangular ((3 : ℝ), (1 : ℝ)) 4 2) = 1 :=
  fromEquirectangular_formula_and_unit_norm 4 2 (3, 1) (by decide) (by decide)

/-- The canvas is horizontally periodic: a shift of the column by a multiple of the panorama
width does not change the direction. -/
theorem fromEquirectangular_add_period (W H : Int) (hW : W ≠ 0) (a y : ℝ) (k : ℤ) :
    fromEquirectangular (a + (k : ℝ) * (W : ℝ), y) W H = fromEquirectangular (a, y) W H := by
  have hWr : (W : ℝ) ≠ 0 := by exact_mod_cast hW
  have e : (a + (k : ℝ) * (W : ℝ)) / (W : ℝ) * 2 * Real.pi - Real.pi
      = (a / (W : ℝ) * 2 * Real.pi - Real.pi) + (k : ℝ) * (2 * Real.pi) := by
    field_simp
    ring
  simp only [fromEquirectangular]
  rw [e, Real.sin_add_int_mul_two_pi, Real.cos_add_int_mul_two_pi]

end SphericalMapping

namespace GaussianPyramidNoMask

theorem floorLog2Quot_eq_floor_logb (min_dim : Nat) (h : 32 ≤ min_dim) :
    floorLog2Quot min_dim 32 = some ⌊Real.logb 2 ((min_dim : ℝ) / 32)⌋₊ := by
  have hr : (1 : ℝ) ≤ (min_dim : ℝ) / 32 := by
    rw [le_div_iff₀ (by norm_num)]
    have : ((32 : ℕ) : ℝ) ≤ (min_dim : ℝ) := by exact_mod_cast h
    simpa using this
  have h1 : ⌊Real.logb ((2 : ℕ) : ℝ) ((min_dim : ℝ) / 32)⌋ = Int.log 2 ((min_dim : ℝ) / 32) :=
    Real.floor_logb_natCast (by linarith)
  have h2 : Int.log 2 ((min_dim : ℝ) / 32) = (Nat.log 2 ⌊(min_dim : ℝ) / 32⌋₊ : ℤ) :=
    Int.log_of_one_le_right 2 hr
  have h3 : ⌊(min_dim : ℝ) / 32⌋₊ = min_dim / 32 := by
    have := Nat.floor_div_eq_div (α := ℝ) min_dim 32
    simpa using this
  have h4 : ⌊Real.logb 2 ((min_dim : ℝ) / 32)⌋ = (Nat.log 2 (min_dim / 32) : ℤ) := by
    have : ((2 : ℕ) : ℝ) = 2 := by norm_num
    rw [this] at h1
    rw [h1, h2, h3]
  have h5 : ⌊Real.logb 2 ((min_dim : ℝ) / 32)⌋₊ = Nat.log 2 (min_dim / 32) := by
    unfold Nat.floor
    simp only [FloorSemiring.floor]
    rw [h4]
    simp
  simp only [floorLog2Quot, h5]
  rw [if_neg (by omega)]

theorem allocate_length {α : Type} (val : α) (count w h : Nat) :
    (allocate val count w h).length = count := by
  induction count generalizing w h with
  | zero => rfl
  | succ n ih => simp [allocate, ih]

theorem allocate_getElem? {α : Type} (val : α) (count w h i : Nat) (hi : i < count) :
    (allocate val count w h)[i]? = some (Image.filled (w / 2 ^ i) (h / 2 ^ i) val) := by
  induction count generalizing w h i with
  | zero => omega
  | succ n ih =>
    cases i with
    | zero => simp [allocate]
    | succ i =>
      have := ih (w / 2) (h / 2) i (by omega)
      simp only [allocate, List.getElem?_cons_succ, this]
      rw [Nat.div_div_eq_div_mul, Nat.div_div_eq_div_mul, pow_succ, Nat.mul_comm 2]

theorem construct_eq {α : Type} [Zero α] (W0 H0 limit : Nat) (hmin : 32 ≤ min W0 H0) :
    (construct W0 H0 limit : Option (GaussianPyramidNoMask α))
      = some { _pyramid_color := allocate 0 (min limit (Nat.log 2 (min W0 H0 / 32))) W0 H0
               _filter_buffer := allocate 0 (min limit (Nat.log 2 (min W0 H0 / 32))) W0 H0
               _width_base := W0
               _height_base := H0
               _scales := min limit (Nat.log 2 (min W0 H0 / 32)) } := by
  have hq : floorLog2Quot (min W0 H0) 32 = some (Nat.log 2 (min W0 H0 / 32)) := by
    simp only [floorLog2Quot]
    rw [if_neg (by omega)]
  simp only [construct, hq]

/-- C8: for a base size with `min(W0, H0) ≥ 32` and every limit, the constructor allocates
exactly `L = min(limit, floor(log2(min(W0, H0) / 32)))` levels and `getScalesCount` returns
`L`; with the default limit `64` this is `floor(log2(min(W0, H0) / 32))`, the largest `k` with
`32 * 2^k ≤ min(W0, H0)`. -/
theorem scales_count {α : Type} [Zero α] (W0 H0 limit : Nat)
    (hsize : min W0 H0 < 2 ^ 64) (hmin : 32 ≤ min W0 H0) :
    ∃ p : GaussianPyramidNoMask α, construct W0 H0 limit = some p ∧
      p._pyramid_color.length = min limit ⌊Real.logb 2 (((min W0 H0 : ℕ) : ℝ) / 32)⌋₊ ∧
      p._filter_buffer.length = min limit ⌊Real.logb 2 (((min W0 H0 : ℕ) : ℝ) / 32)⌋₊ ∧
      p.getScalesCount = min limit ⌊Real.logb 2 (((min W0 H0 : ℕ) : ℝ) / 32)⌋₊ ∧
      (limit = defaultLimitScales →
        p.getScalesCount = ⌊Real.logb 2 (((min W0 H0 : ℕ) : ℝ) / 32)⌋₊ ∧
        32 * 2 ^ p.getScalesCount ≤ min W0 H0 ∧
        ∀ k : Nat, 32 * 2 ^ k ≤ min W0 H0 → k ≤ p.getScalesCount) := by
  have hb := floorLog2Quot_eq_floor_logb (min W0 H0) hmin
  have hq : floorLog2Quot (min W0 H0) 32 = some (Nat.log 2 (min W0 H0 / 32)) := by
    simp only [floorLog2Quot]
    rw [if_neg (by omega)]
  have hk : ⌊Real.logb 2 (((min W0 H0 : ℕ) : ℝ) / 32)⌋₊ = Nat.log 2 (min W0 H0 / 32) := by
    rw [hq] at hb
    exact (Option.some.inj hb).symm
  rw [hk]
  refine ⟨_, construct_eq W0 H0 limit hmin, ?_, ?_, rfl, ?_⟩
  · simp [allocate_length]
  · simp [allocate_length]
  · intro hl
    have hm : min W0 H0 < 2 ^ 64 := hsize
    have hpos : min W0 H0 / 32 ≠ 0 := by omega
    have hlt : Nat.log 2 (min W0 H0 / 32) < 64 :=
      Nat.log_lt_of_lt_pow hpos (by omega)
    have hL : min limit (Nat.log 2 (min W0 H0 / 32)) = Nat.log 2 (min W0 H0 / 32) := by
      rw [hl, defaultLimitScales]
      omega
    simp only [getScalesCount, hL]
    refine ⟨trivial, ?_, ?_⟩
    · have := Nat.pow_log_le_self 2 hpos
      have h2 := Nat.mul_le_mul_left 32 this
      have h3 := Nat.mul_div_le (min W0 H0) 32
      omega
    · intro k hk2
      apply Nat.le_log_of_pow_le (by norm_num)
      rw [Nat.le_div_iff_mul_le (by norm_num)]
      omega

theorem scales_count_witness :
    ∃ p : GaussianPyramidNoMask ℚ, construct 1024 768 64 = some p ∧
      p._pyramid_color.length = min 64 ⌊Real.logb 2 (((min 1024 768 : ℕ) : ℝ) / 32)⌋₊ ∧
      p._filter_buffer.length = min 64 ⌊Real.logb 2 (((min 1024 768 : ℕ) : ℝ) / 32)⌋₊ ∧
      p.getScalesCount = min 64 ⌊Real.logb 2 (((min 1024 768 : ℕ) : ℝ) / 32)⌋₊ ∧
      (64 = defaultLimitScales →
        p.getScalesCount = ⌊Real.logb 2 (((min 1024 768 : ℕ) : ℝ) / 32)⌋₊ ∧
        32 * 2 ^ p.getScalesCount ≤ min 1024 768 ∧
        ∀ k : Nat, 32 * 2 ^ k ≤ min 1024 768 → k ≤ p.getScalesCount) :=
  scales_count 1024 768 64 (by norm_num) (by decide)

/-- C9: for every base size `(W0, H0)` on which the constructor is defined and every level
index `i < L`, level `i` of the pyramid and of the filter buffer has width `W0 / 2^i` and
height `H0 / 2^i` (integer division). -/
theorem level_sizes {α : Type} [Zero α] (W0 H0 limit : Nat) (hmin : 32 ≤ min W0 H0) :
    ∃ p : GaussianPyramidNoMask α, construct W0 H0 limit = some p ∧
      ∀ i : Nat, i < p.getScalesCount →
        ∃ level buffer : Image α,
          p._pyramid_color[i]? = some level ∧ p._filter_buffer[i]? = some buffer ∧
          level.Width = W0 / 2 ^ i ∧ level.Height = H0 / 2 ^ i ∧
          buffer.Width = W0 / 2 ^ i ∧ buffer.Height = H0 / 2 ^ i := by
  refine ⟨_, construct_eq W0 H0 limit hmin, ?_⟩
  intro i hi
  simp only [getScalesCount] at hi
  exact ⟨_, _, allocate_getElem? 0 _ W0 H0 i hi, allocate_getElem? 0 _ W0 H0 i hi,
    rfl, rfl, rfl, rfl⟩

theorem level_sizes_witness :
    ∃ p : GaussianPyramidNoMask ℚ, construct 1000 300 64 = some p ∧
      ∀ i : Nat, i < p.getScalesCount →
        ∃ level buffer : Image ℚ,
          p._pyramid_color[i]? = some level ∧ p._filter_buffer[i]? = some buffer ∧
          level.Width = 1000 / 2 ^ i ∧ level.Height = 300 / 2 ^ i ∧
          buffer.Width = 1000 / 2 ^ i ∧ buffer.Height = 300 / 2 ^ i :=
  level_sizes 1000 300 64 (by decide)

/-- Replacing level `k` by a raster of the size of level `k` keeps the level sizes:
`count` levels, level `i` of size `W0 / 2^i` by `H0 / 2^i`. -/
theorem sizesOk_set {α : Type} (W0 H0 count : Nat) (levels : List (Image α))
    (hlen : levels.length = count)
    (h : ∀ i, i < count → ∃ a, levels[i]? = some a ∧ a.Width = W0 / 2 ^ i ∧ a.Height = H0 / 2 ^ i)
    (k : Nat) (x : Image α) (hxw : x.Width = W0 / 2 ^ k) (hxh : x.Height = H0 / 2 ^ k) :
    (levels.set k x).length = count ∧
      ∀ i, i < count →
        ∃ a, (levels.set k x)[i]? = some a ∧ a.Width = W0 / 2 ^ i ∧ a.Height = H0 / 2 ^ i := by
  refine ⟨by simp [hlen], ?_⟩
  intro i hi
  by_cases hik : k = i
  · subst hik
    exact ⟨x, List.getElem?_set_self (by omega), hxw, hxh⟩
  · rw [List.getElem?_set_ne hik]
    exact h i hi

theorem downscaleInRange_of_half {α : Type} (output input : Image α)
    (hw : output.Width = input.Width / 2) (hh : output.Height = input.Height / 2) :
    downscaleInRange output input = true := by
  simp only [downscaleInRange, List.all_eq_true, List.mem_range, decide_eq_true_eq]
  intro i hi j hj
  omega

theorem processLoop_succeeds {α : Type} (convolve : Image α → Image α) (W0 H0 n : Nat) :
    ∀ (count lvl : Nat) (p : GaussianPyramidNoMask α),
      lvl + count < n →
      p._pyramid_color.length = n →
      (∀ i, i < n → ∃ a, p._pyramid_color[i]? = some a ∧ a.Width = W0 / 2 ^ i ∧
        a.Height = H0 / 2 ^ i) →
      p._filter_buffer.length = n →
      (∀ i, i < n → ∃ a, p._filter_buffer[i]? = some a ∧ a.Width = W0 / 2 ^ i ∧
        a.Height = H0 / 2 ^ i) →
      ∃ q, processLoop convolve count lvl p = some q ∧
        (∀ i, i ≤ lvl → q._pyramid_color[i]? = p._pyramid_color[i]?) ∧
        q._pyramid_color.length = n ∧
        (∀ i, i < n → ∃ a, q._pyramid_color[i]? = some a ∧ a.Width = W0 / 2 ^ i ∧
          a.Height = H0 / 2 ^ i) := by
  intro count
  induction count with
  | zero =>
    intro lvl p _ hc1 hc2 _ _
    exact ⟨p, rfl, fun _ _ => rfl, hc1, hc2⟩
  | succ c ih =>
    intro lvl p hlt hc1 hc2 hf1 hf2
    obtain ⟨source, hs, hsw, hsh⟩ := hc2 lvl (by omega)
    obtain ⟨dst, hd, hdw, hdh⟩ := hf2 lvl (by omega)
    obtain ⟨next, hn, hnw, hnh⟩ := hc2 (lvl + 1) (by omega)
    have hdiv : ∀ m : Nat, m / 2 ^ (lvl + 1) = m / 2 ^ lvl / 2 := by
      intro m
      rw [Nat.div_div_eq_div_mul, pow_succ]
    have hrange : downscaleInRange next
        { Width := dst.Width, Height := dst.Height, data := (convolve source).data } = true := by
      apply downscaleInRange_of_half
      · simp only [hnw, hdw, hdiv]
      · simp only [hnh, hdh, hdiv]
    have hcol := sizesOk_set W0 H0 n p._pyramid_color hc1 hc2 (lvl + 1)
      { Width := next.Width
        Height := next.Height
        data := fun i j =>
          if i < next.Height ∧ j < next.Width then (convolve source).data (i * 2) (j * 2)
          else next.data i j } hnw hnh
    have hfil := sizesOk_set W0 H0 n p._filter_buffer hf1 hf2 lvl
      { Width := dst.Width, Height := dst.Height, data := (convolve source).data } hdw hdh
    obtain ⟨q, hq, hkeep, hq1, hq2⟩ := ih (lvl + 1)
      { p with
        _filter_buffer := p._filter_buffer.set lvl
          { Width := dst.Width, Height := dst.Height, data := (convolve source).data }
        _pyramid_color := p._pyramid_color.set (lvl + 1)
          { Width := next.Width
            Height := next.Height
            data := fun i j =>
              if i < next.Height ∧ j < next.Width then (convolve source).data (i * 2) (j * 2)
              else next.data i j } }
      (by omega) hcol.1 hcol.2 hfil.1 hfil.2
    refine ⟨q, ?_, ?_, hq1, hq2⟩
    · simp only [processLoop, hs, hd, hn, downscale]
      rw [if_pos ⟨hdw.trans hsw.symm, hdh.trans hsh.symm⟩, if_pos hrange]
      exact hq
    · intro i hi
      rw [hkeep i (by omega)]
      simp only
      rw [List.getElem?_set_ne (by omega)]

/-- The case of `process` that the source handles: when the pyramid has at least one level
(`min(W0, H0) ≥ 64` of type `size_t`, `limit ≥ 1`), `process` on an input of the base size returns `true` with
every read in range and level 0 is then the input; on an input of another size it returns
`false` and leaves the pyramid unchanged. -/
theorem process_of_one_level {α : Type} [Zero α] (convolve : Image α → Image α)
    (W0 H0 limit : Nat) (input : Image α) (hmin : 64 ≤ min W0 H0) (hsize : min W0 H0 < 2 ^ 64)
    (hlimit : 1 ≤ limit) :
    ∃ p : GaussianPyramidNoMask α, construct W0 H0 limit = some p ∧
      (input.Width = W0 ∧ input.Height = H0 →
        ∃ q, process convolve p input = some (true, q) ∧ q._pyramid_color[0]? = some input) ∧
      (input.Width ≠ W0 ∨ input.Height ≠ H0 → process convolve p input = some (false, p)) := by
  refine ⟨_, construct_eq W0 H0 limit (by omega), ?_, ?_⟩
  all_goals
    have hlog : 1 ≤ Nat.log 2 (min W0 H0 / 32) := by
      apply Nat.le_log_of_pow_le (by norm_num)
      rw [Nat.le_div_iff_mul_le (by norm_num)]
      omega
    have hn : 0 < min limit (Nat.log 2 (min W0 H0 / 32)) := by omega
    have hlt : Nat.log 2 (min W0 H0 / 32) < 64 :=
      Nat.log_lt_of_lt_pow (by omega) (by omega)
    have hcount : toSizeT (((min limit (Nat.log 2 (min W0 H0 / 32)) : Nat) : Int) - 1)
        = min limit (Nat.log 2 (min W0 H0 / 32)) - 1 := by
      simp only [toSizeT]
      omega
    have h0 := allocate_getElem? (0 : α) (min limit (Nat.log 2 (min W0 H0 / 32))) W0 H0 0 hn
    simp only [pow_zero, Nat.div_one] at h0
  · rintro ⟨hw, hh⟩
    have hsz : ∀ i, i < min limit (Nat.log 2 (min W0 H0 / 32)) →
        ∃ a, (allocate (0 : α) (min limit (Nat.log 2 (min W0 H0 / 32))) W0 H0)[i]? = some a ∧
          a.Width = W0 / 2 ^ i ∧ a.Height = H0 / 2 ^ i :=
      fun i hi => ⟨_, allocate_getElem? 0 _ W0 H0 i hi, rfl, rfl⟩
    have hset := sizesOk_set W0 H0 _ _ (allocate_length (0 : α) _ W0 H0) hsz 0 input
      (by simpa using hw) (by simpa using hh)
    obtain ⟨q, hq, hkeep, _, _⟩ := processLoop_succeeds convolve W0 H0
      (min limit (Nat.log 2 (min W0 H0 / 32)))
      (min limit (Nat.log 2 (min W0 H0 / 32)) - 1) 0
      { _pyramid_color :=
          (allocate (0 : α) (min limit (Nat.log 2 (min W0 H0 / 32))) W0 H0).set 0 input
        _filter_buffer := allocate 0 (min limit (Nat.log 2 (min W0 H0 / 32))) W0 H0
        _width_base := W0
        _height_base := H0
        _scales := min limit (Nat.log 2 (min W0 H0 / 32)) }
      (by omega) hset.1 hset.2 (allocate_length (0 : α) _ W0 H0) hsz
    refine ⟨q, ?_, ?_⟩
    · simp only [process, h0, Image.filled, hw, hh, ne_eq, not_true_eq_false, if_false, hcount,
        hq]
    · rw [hkeep 0 (le_refl 0)]
      exact List.getElem?_set_self (by rw [allocate_length]; exact hn)
  · intro hne
    simp only [process, h0, Image.filled]
    rcases hne with hne | hne
    · by_cases hh : input.Height = H0
      · simp [hh, hne]
      · simp [hh]
    · simp [hne]

theorem process_of_one_level_witness :
    ∃ p : GaussianPyramidNoMask ℚ, construct 64 64 64 = some p ∧
      ((Image.filled 64 64 (1 : ℚ)).Width = 64 ∧ (Image.filled 64 64 (1 : ℚ)).Height = 64 →
        ∃ q, process id p (Image.filled 64 64 (1 : ℚ)) = some (true, q) ∧
          q._pyramid_color[0]? = some (Image.filled 64 64 (1 : ℚ))) ∧
      ((Image.filled 64 64 (1 : ℚ)).Width ≠ 64 ∨ (Image.filled 64 64 (1 : ℚ)).Height ≠ 64 →
        process id p (Image.filled 64 64 (1 : ℚ)) = some (false, p)) :=
  process_of_one_level id 64 64 64 (Image.filled 64 64 1) (by decide) (by decide) (by decide)

/-- C10 (failing input): for a `40 x 40` source image the constructor with the default limit
allocates no level (`floor(log2(40 / 32)) = 0`), so the first statement of `process`, which
reads `_pyramid_color[0]`, is out of range: the call has no defined result, whatever the
input raster and the convolution. -/
theorem process_out_of_range_on_small_image {α : Type} [Zero α]
    (convolve : Image α → Image α) (input : Image α) :
    ∃ p : GaussianPyramidNoMask α, construct 40 40 defaultLimitScales = some p ∧
      p.getScalesCount = 0 ∧ p._pyramid_color = [] ∧ process convolve p input = none := by
  have hlog : Nat.log 2 (min 40 40 / 32) = 0 := by simp [Nat.log]
  refine ⟨_, construct_eq 40 40 defaultLimitScales (by decide), ?_, ?_, ?_⟩
  · simp [getScalesCount, hlog]
  · simp [hlog, allocate]
  · simp [process, hlog, allocate]

end GaussianPyramidNoMask

namespace CoordinatesMap

theorem sweepRow_succ (W H : Int) (visible : Nat → Bool) (y width : Nat) :
    sweepRow W H visible y (width + 1)
      = if visible width then
          { max_x := max width (sweepRow W H visible y width).max_x
            max_y := max y (sweepRow W H visible y width).max_y
            min_x := min width (sweepRow W H visible y width).min_x
            min_y := min y (sweepRow W H visible y width).min_y }
        else sweepRow W H visible y width := by
  simp only [sweepRow, List.range_succ, List.foldl_append, List.foldl_cons, List.foldl_nil]

theorem sweep_succ (W H : Int) (visible : Nat → Nat → Bool) (width height : Nat) :
    sweep W H visible width (height + 1)
      = { max_x := max (sweepRow W H (visible height) height width).max_x
            (sweep W H visible width height).max_x
          max_y := max (sweepRow W H (visible height) height width).max_y
            (sweep W H visible width height).max_y
          min_x := min (sweepRow W H (visible height) height width).min_x
            (sweep W H visible width height).min_x
          min_y := min (sweepRow W H (visible height) height width).min_y
            (sweep W H visible width height).min_y } := by
  simp only [sweep, List.range_succ, List.foldl_append, List.foldl_cons, List.foldl_nil]

/-- Row accumulators: they bound every visible column of the row, and each of them is either
its initial value or attained at a visible pixel of the row. -/
theorem sweepRow_spec (W H : Int) (visible : Nat → Bool) (y width : Nat) :
    (∀ x, x < width → visible x = true →
        (sweepRow W H visible y width).min_x ≤ x ∧ x ≤ (sweepRow W H visible y width).max_x ∧
        (sweepRow W H visible y width).min_y ≤ y ∧ y ≤ (sweepRow W H visible y width).max_y) ∧
    ((sweepRow W H visible y width).max_x = 0 ∨
        ((sweepRow W H visible y width).max_x < width ∧
          visible (sweepRow W H visible y width).max_x = true)) ∧
    ((sweepRow W H visible y width).min_x = toSizeT W ∨
        ((sweepRow W H visible y width).min_x < width ∧
          visible (sweepRow W H visible y width).min_x = true)) ∧
    ((sweepRow W H visible y width).max_y = 0 ∨
        ((sweepRow W H visible y width).max_y = y ∧ ∃ x, x < width ∧ visible x = true)) ∧
    ((sweepRow W H visible y width).min_y = toSizeT H ∨
        ((sweepRow W H visible y width).min_y = y ∧ ∃ x, x < width ∧ visible x = true)) := by
  induction width with
  | zero =>
    refine ⟨fun x hx => absurd hx (Nat.not_lt_zero x), Or.inl rfl, Or.inl rfl, Or.inl rfl,
      Or.inl rfl⟩
  | succ n ih =>
    obtain ⟨h1, h2, h3, h4, h5⟩ := ih
    rw [sweepRow_succ]
    by_cases hv : visible n = true
    · rw [if_pos hv]
      simp only
      refine ⟨?_, ?_, ?_, ?_, ?_⟩
      · intro x hx hvx
        by_cases hxn : x = n
        · subst hxn
          omega
        · have := h1 x (by omega) hvx
          omega
      · rcases Nat.le_total n (sweepRow W H visible y n).max_x with hle | hle
        · rw [max_eq_right hle]
          rcases h2 with h2 | h2
          · have : n = 0 := by omega
            right
            rw [h2]
            exact ⟨by omega, this ▸ hv⟩
          · exact Or.inr ⟨by omega, h2.2⟩
        · rw [max_eq_left hle]
          exact Or.inr ⟨by omega, hv⟩
      · rcases Nat.le_total n (sweepRow W H visible y n).min_x with hle | hle
        · rw [min_eq_left hle]
          exact Or.inr ⟨by omega, hv⟩
        · rw [min_eq_right hle]
          rcases h3 with h3 | h3
          · exact Or.inl h3
          · exact Or.inr ⟨by omega, h3.2⟩
      · rcases h4 with h4 | h4
        · rcases Nat.eq_zero_or_pos y with hy | hy
          · left
            omega
          · right
            exact ⟨by omega, n, by omega, hv⟩
        · right
          exact ⟨by omega, n, by omega, hv⟩
      · rcases h5 with h5 | h5
        · rcases Nat.le_total y (toSizeT H) with hle | hle
          · right
            exact ⟨by omega, n, by omega, hv⟩
          · rcases Nat.eq_or_lt_of_le hle with he | hl
            · right
              exact ⟨by omega, n, by omega, hv⟩
            · left
              omega
        · right
          exact ⟨by omega, n, by omega, hv⟩
    · rw [if_neg hv]
      refine ⟨?_, ?_, ?_, ?_, ?_⟩
      · intro x hx hvx
        by_cases hxn : x = n
        · subst hxn
          exact absurd hvx hv
        · exact h1 x (by omega) hvx
      · rcases h2 with h2 | h2
        · exact Or.inl h2
        · exact Or.inr ⟨by omega, h2.2⟩
      · rcases h3 with h3 | h3
        · exact Or.inl h3
        · exact Or.inr ⟨by omega, h3.2⟩
      · rcases h4 with h4 | ⟨h4, x, hx, hvx⟩
        · exact Or.inl h4
        · exact Or.inr ⟨h4, x, by omega, hvx⟩
      · rcases h5 with h5 | ⟨h5, x, hx, hvx⟩
        · exact Or.inl h5
        · exact Or.inr ⟨h5, x, by omega, hvx⟩

/-- Global accumulators: they bound every visible pixel of the coarse box, and each of them
is either its initial value or attained at a visible pixel. -/
theorem sweep_spec (W H : Int) (visible : Nat → Nat → Bool) (width height : Nat) :
    (∀ y x, y < height → x < width → visible y x = true →
        (sweep W H visible width height).min_x ≤ x ∧ x ≤ (sweep W H visible width height).max_x ∧
        (sweep W H visible width height).min_y ≤ y ∧
        y ≤ (sweep W H visible width height).max_y) ∧
    ((sweep W H visible width height).max_x = 0 ∨
        ((sweep W H visible width height).max_x < width ∧
          ∃ y, y < height ∧ visible y (sweep W H visible width height).max_x = true)) ∧
    ((sweep W H visible width height).min_x = toSizeT W ∨
        ((sweep W H visible width height).min_x < width ∧
          ∃ y, y < height ∧ visible y (sweep W H visible width height).min_x = true)) ∧
    ((sweep W H visible width height).max_y = 0 ∨
        ((sweep W H visible width height).max_y < height ∧
          ∃ x, x < width ∧ visible (sweep W H visible width height).max_y x = true)) ∧
    ((sweep W H visible width height).min_y = toSizeT H ∨
        ((sweep W H visible width height).min_y < height ∧
          ∃ x, x < width ∧ visible (sweep W H visible width height).min_y x = true)) := by
  induction height with
  | zero =>
    refine ⟨fun y x hy => absurd hy (Nat.not_lt_zero y), Or.inl rfl, Or.inl rfl, Or.inl rfl,
      Or.inl rfl⟩
  | succ n ih =>
    obtain ⟨h1, h2, h3, h4, h5⟩ := ih
    obtain ⟨r1, r2, r3, r4, r5⟩ := sweepRow_spec W H (visible n) n width
    rw [sweep_succ]
    simp only
    refine ⟨?_, ?_, ?_, ?_, ?_⟩
    · intro y x hy hx hv
      by_cases hyn : y = n
      · subst hyn
        have := r1 x hx hv
        omega
      · have := h1 y x (by omega) hx hv
        omega
    · rcases Nat.le_total (sweepRow W H (visible n) n width).max_x
          (sweep W H visible width n).max_x with hle | hle
      · rw [max_eq_right hle]
        rcases h2 with h2 | ⟨h2, y, hy, hv⟩
        · exact Or.inl h2
        · exact Or.inr ⟨h2, y, by omega, hv⟩
      · rw [max_eq_left hle]
        rcases r2 with r2 | r2
        · exact Or.inl r2
        · exact Or.inr ⟨r2.1, n, by omega, r2.2⟩
    · rcases Nat.le_total (sweepRow W H (visible n) n width).min_x
          (sweep W H visible width n).min_x with hle | hle
      · rw [min_eq_left hle]
        rcases r3 with r3 | r3
        · exact Or.inl r3
        · exact Or.inr ⟨r3.1, n, by omega, r3.2⟩
      · rw [min_eq_right hle]
        rcases h3 with h3 | ⟨h3, y, hy, hv⟩
        · exact Or.inl h3
        · exact Or.inr ⟨h3, y, by omega, hv⟩
    · rcases Nat.le_total (sweepRow W H (visible n) n width).max_y
          (sweep W H visible width n).max_y with hle | hle
      · rw [max_eq_right hle]
        rcases h4 with h4 | ⟨h4, x, hx, hv⟩
        · exact Or.inl h4
        · exact Or.inr ⟨by omega, x, hx, hv⟩
      · rw [max_eq_left hle]
        rcases r4 with r4 | ⟨r4, x, hx, hv⟩
        · exact Or.inl r4
        · exact Or.inr ⟨by omega, x, hx, by rw [r4]; exact hv⟩
    · rcases Nat.le_total (sweepRow W H (visible n) n width).min_y
          (sweep W H visible width n).min_y with hle | hle
      · rw [min_eq_left hle]
        rcases r5 with r5 | ⟨r5, x, hx, hv⟩
        · exact Or.inl r5
        · exact Or.inr ⟨by omega, x, hx, by rw [r5]; exact hv⟩
      · rw [min_eq_right hle]
        rcases h5 with h5 | ⟨h5, x, hx, hv⟩
        · exact Or.inl h5
        · exact Or.inr ⟨by omega, x, hx, hv⟩

theorem bufferMask_eq_one_iff {V3 V2 : Type} (coarse_bbox : BBox) (cam : Camera V3 V2)
    (rayOf : Nat → Nat → V3) (y x : Nat) :
    (bufferMask coarse_bbox cam rayOf).data y x = 1 ↔
      y < coarse_bbox.height.toNat ∧ x < coarse_bbox.width.toNat ∧
        (sweepAt coarse_bbox cam rayOf y x).isSome = true := by
  simp only [bufferMask]
  by_cases h : y < coarse_bbox.height.toNat ∧ x < coarse_bbox.width.toNat
  · rw [if_pos h]
    by_cases hs : (sweepAt coarse_bbox cam rayOf y x).isSome = true
    · simp [hs, h.1, h.2]
    · simp [hs]
  · rw [if_neg h]
    constructor
    · intro h0
      exact absurd h0 (by decide)
    · intro h1
      exact absurd ⟨h1.1, h1.2.1⟩ h

/-- With a visible pixel in the coarse box, the accumulators of the sweep enclose every
visible pixel, stay inside the box, and the two maxima are attained. -/
theorem sweepExtrema_of_visible {V3 V2 : Type} (W H : Int) (coarse_bbox : BBox)
    (cam : Camera V3 V2) (rayOf : Nat → Nat → V3)
    (hvis : ∃ y x, (bufferMask coarse_bbox cam rayOf).data y x = 1) :
    (sweepExtrema W H coarse_bbox cam rayOf).min_x ≤ (sweepExtrema W H coarse_bbox cam rayOf).max_x ∧
    (sweepExtrema W H coarse_bbox cam rayOf).max_x < coarse_bbox.width.toNat ∧
    (sweepExtrema W H coarse_bbox cam rayOf).min_y ≤ (sweepExtrema W H coarse_bbox cam rayOf).max_y ∧
    (sweepExtrema W H coarse_bbox cam rayOf).max_y < coarse_bbox.height.toNat ∧
    (∀ y x, (bufferMask coarse_bbox cam rayOf).data y x = 1 →
      (sweepExtrema W H coarse_bbox cam rayOf).min_x ≤ x ∧
      x ≤ (sweepExtrema W H coarse_bbox cam rayOf).max_x ∧
      (sweepExtrema W H coarse_bbox cam rayOf).min_y ≤ y ∧
      y ≤ (sweepExtrema W H coarse_bbox cam rayOf).max_y) ∧
    (∃ y, (bufferMask coarse_bbox cam rayOf).data y
      (sweepExtrema W H coarse_bbox cam rayOf).max_x = 1) ∧
    (∃ x, (bufferMask coarse_bbox cam rayOf).data
      (sweepExtrema W H coarse_bbox cam rayOf).max_y x = 1) := by
  simp only [sweepExtrema]
  obtain ⟨y0, x0, h0⟩ := hvis
  rw [bufferMask_eq_one_iff] at h0
  obtain ⟨hy0, hx0, hv0⟩ := h0
  obtain ⟨s1, s2, -, s4, -⟩ := sweep_spec W H
    (fun y x => (sweepAt coarse_bbox cam rayOf y x).isSome)
    coarse_bbox.width.toNat coarse_bbox.height.toNat
  have b0 := s1 y0 x0 hy0 hx0 hv0
  have hall : ∀ y x, (bufferMask coarse_bbox cam rayOf).data y x = 1 →
      (sweep W H (fun y x => (sweepAt coarse_bbox cam rayOf y x).isSome)
        coarse_bbox.width.toNat coarse_bbox.height.toNat).min_x ≤ x ∧
      x ≤ (sweep W H (fun y x => (sweepAt coarse_bbox cam rayOf y x).isSome)
        coarse_bbox.width.toNat coarse_bbox.height.toNat).max_x ∧
      (sweep W H (fun y x => (sweepAt coarse_bbox cam rayOf y x).isSome)
        coarse_bbox.width.toNat coarse_bbox.height.toNat).min_y ≤ y ∧
      y ≤ (sweep W H (fun y x => (sweepAt coarse_bbox cam rayOf y x).isSome)
        coarse_bbox.width.toNat coarse_bbox.height.toNat).max_y := by
    intro y x h
    rw [bufferMask_eq_one_iff] at h
    exact s1 y x h.1 h.2.1 h.2.2
  have hmx : (sweep W H (fun y x => (sweepAt coarse_bbox cam rayOf y x).isSome)
        coarse_bbox.width.toNat coarse_bbox.height.toNat).max_x < coarse_bbox.width.toNat ∧
      ∃ y, (bufferMask coarse_bbox cam rayOf).data y
        (sweep W H (fun y x => (sweepAt coarse_bbox cam rayOf y x).isSome)
          coarse_bbox.width.toNat coarse_bbox.height.toNat).max_x = 1 := by
    rcases s2 with h | ⟨h, y, hy, hv⟩
    · have hx : x0 = 0 := by
        have := b0.2.1
        omega
      subst hx
      refine ⟨by omega, y0, ?_⟩
      rw [bufferMask_eq_one_iff, h]
      exact ⟨hy0, hx0, hv0⟩
    · exact ⟨h, y, (bufferMask_eq_one_iff _ _ _ _ _).2 ⟨hy, h, hv⟩⟩
  have hmy : (sweep W H (fun y x => (sweepAt coarse_bbox cam rayOf y x).isSome)
        coarse_bbox.width.toNat coarse_bbox.height.toNat).max_y < coarse_bbox.height.toNat ∧
      ∃ x, (bufferMask coarse_bbox cam rayOf).data
        (sweep W H (fun y x => (sweepAt coarse_bbox cam rayOf y x).isSome)
          coarse_bbox.width.toNat coarse_bbox.height.toNat).max_y x = 1 := by
    rcases s4 with h | ⟨h, x, hx, hv⟩
    · have hy : y0 = 0 := by
        have := b0.2.2.2
        omega
      subst hy
      refine ⟨by omega, x0, ?_⟩
      rw [bufferMask_eq_one_iff, h]
      exact ⟨hy0, hx0, hv0⟩
    · exact ⟨h, x, (bufferMask_eq_one_iff _ _ _ _ _).2 ⟨h, hx, hv⟩⟩
  exact ⟨by omega, hmx.1, by omega, hmy.1, hall, hmx.2, hmy.2⟩

theorem le_toSizeT_of_lt_toNat (x : Nat) (a W : Int) (hx : x < a.toNat) (haW : a ≤ W + 1)
    (hW : W < 2 ^ 31) : x ≤ toSizeT W := by
  simp only [toSizeT]
  omega

/-- When the coarse box has at most `W + 1` columns, the minimum column of the sweep is
attained at a visible pixel. -/
theorem sweepExtrema_min_x_attained {V3 V2 : Type} (W H : Int) (coarse_bbox : BBox)
    (cam : Camera V3 V2) (rayOf : Nat → Nat → V3)
    (hwW : coarse_bbox.width ≤ W + 1) (hW : W < 2 ^ 31)
    (hvis : ∃ y x, (bufferMask coarse_bbox cam rayOf).data y x = 1) :
    ∃ y, (bufferMask coarse_bbox cam rayOf).data y
      (sweepExtrema W H coarse_bbox cam rayOf).min_x = 1 := by
  obtain ⟨y0, x0, h0⟩ := hvis
  rw [bufferMask_eq_one_iff] at h0
  obtain ⟨hy0, hx0, hv0⟩ := h0
  simp only [sweepExtrema]
  obtain ⟨s1, -, s3, -, -⟩ := sweep_spec W H
    (fun y x => (sweepAt coarse_bbox cam rayOf y x).isSome)
    coarse_bbox.width.toNat coarse_bbox.height.toNat
  have b0 := s1 y0 x0 hy0 hx0 hv0
  have cx := le_toSizeT_of_lt_toNat x0 coarse_bbox.width W hx0 hwW hW
  rcases s3 with h | ⟨h, y, hy, hv⟩
  · have hx : (sweep W H (fun y x => (sweepAt coarse_bbox cam rayOf y x).isSome)
        coarse_bbox.width.toNat coarse_bbox.height.toNat).min_x = x0 := by
      have := b0.1
      omega
    rw [hx]
    exact ⟨y0, (bufferMask_eq_one_iff _ _ _ _ _).2 ⟨hy0, hx0, hv0⟩⟩
  · exact ⟨y, (bufferMask_eq_one_iff _ _ _ _ _).2 ⟨hy, h, hv⟩⟩

/-- When the coarse box has at most `H + 1` rows (a box inside the panorama, possibly
reaching the row `H` of the lower pole), the minimum row of the sweep is attained at a
visible pixel. -/
theorem sweepExtrema_min_y_attained {V3 V2 : Type} (W H : Int) (coarse_bbox : BBox)
    (cam : Camera V3 V2) (rayOf : Nat → Nat → V3)
    (hhH : coarse_bbox.height ≤ H + 1) (hH : H < 2 ^ 31)
    (hvis : ∃ y x, (bufferMask coarse_bbox cam rayOf).data y x = 1) :
    ∃ x, (bufferMask coarse_bbox cam rayOf).data
      (sweepExtrema W H coarse_bbox cam rayOf).min_y x = 1 := by
  obtain ⟨y0, x0, h0⟩ := hvis
  rw [bufferMask_eq_one_iff] at h0
  obtain ⟨hy0, hx0, hv0⟩ := h0
  simp only [sweepExtrema]
  obtain ⟨s1, -, -, -, s5⟩ := sweep_spec W H
    (fun y x => (sweepAt coarse_bbox cam rayOf y x).isSome)
    coarse_bbox.width.toNat coarse_bbox.height.toNat
  have b0 := s1 y0 x0 hy0 hx0 hv0
  have cy := le_toSizeT_of_lt_toNat y0 coarse_bbox.height H hy0 hhH hH
  rcases s5 with h | ⟨h, x, hx, hv⟩
  · have hy : (sweep W H (fun y x => (sweepAt coarse_bbox cam rayOf y x).isSome)
        coarse_bbox.width.toNat coarse_bbox.height.toNat).min_y = y0 := by
      have := b0.2.2.1
      omega
    rw [hy]
    exact ⟨x0, (bufferMask_eq_one_iff _ _ _ _ _).2 ⟨hy0, hx0, hv0⟩⟩
  · exact ⟨x, (bufferMask_eq_one_iff _ _ _ _ _).2 ⟨h, hx, hv⟩⟩

/-- On the rays of the canvas, a local column at least `W` sees what the column `W` places
before it sees: the two canvas columns differ by the period of the canvas. -/
theorem sweepAt_canvasRay_sub_period {V2 : Type} (W H : Int) (coarse_bbox : BBox)
    (cam : Camera (ℝ × ℝ × ℝ) V2) (y x : Nat)
    (hW0 : 0 < W) (hleft : 0 ≤ coarse_bbox.left)
    (hfit : coarse_bbox.left + (x : Int) < 2 ^ 31) (hx : W.toNat ≤ x) :
    sweepAt coarse_bbox cam (canvasRay W H) y x
      = sweepAt coarse_bbox cam (canvasRay W H) y (x - W.toNat) := by
  have h1 : canvasX coarse_bbox x = canvasX coarse_bbox (x - W.toNat) + W.toNat := by
    simp only [canvasX, toSizeT]
    omega
  have hWn : ((W.toNat : Nat) : ℝ) = (W : ℝ) := by
    have : ((W.toNat : Nat) : Int) = W := Int.toNat_of_nonneg hW0.le
    exact_mod_cast congrArg (fun z : Int => (z : ℝ)) this
  have h2 : canvasRay W H (canvasX coarse_bbox x) (canvasY coarse_bbox y)
      = canvasRay W H (canvasX coarse_bbox (x - W.toNat)) (canvasY coarse_bbox y) := by
    rw [h1]
    simp only [canvasRay]
    have := SphericalMapping.fromEquirectangular_add_period W H (ne_of_gt hW0)
      ((canvasX coarse_bbox (x - W.toNat) : Nat) : ℝ) ((canvasY coarse_bbox y : Nat) : ℝ) 1
    rw [← this]
    push_cast
    rw [hWn, one_mul]
  simp only [sweepAt, h2]

theorem sweepAt_canvasRay_mod {V2 : Type} (W H : Int) (coarse_bbox : BBox)
    (cam : Camera (ℝ × ℝ × ℝ) V2) (y : Nat)
    (hW0 : 0 < W) (hleft : 0 ≤ coarse_bbox.left) :
    ∀ x : Nat, coarse_bbox.left + (x : Int) < 2 ^ 31 →
      sweepAt coarse_bbox cam (canvasRay W H) y x
        = sweepAt coarse_bbox cam (canvasRay W H) y (x % W.toNat) := by
  intro x
  induction x using Nat.strong_induction_on with
  | _ x ih =>
    intro hfit
    by_cases hx : W.toNat ≤ x
    · have hpos : 0 < W.toNat := by omega
      rw [sweepAt_canvasRay_sub_period W H coarse_bbox cam y x hW0 hleft hfit hx,
        ih (x - W.toNat) (by omega) (by omega), ← Nat.mod_eq_sub_mod hx]
    · rw [Nat.mod_eq_of_lt (by omega)]

/-- On the rays of the canvas the minimum column of the sweep is attained at a visible
pixel, whatever the width of the coarse box: a visible pixel at a local column at least `W`
has a visible copy one period before. -/
theorem sweepExtrema_min_x_attained_canvasRay {V2 : Type} (W H : Int) (coarse_bbox : BBox)
    (cam : Camera (ℝ × ℝ × ℝ) V2)
    (hW0 : 0 < W) (hW : W < 2 ^ 31) (hleft : 0 ≤ coarse_bbox.left)
    (hx31 : coarse_bbox.left + coarse_bbox.width < 2 ^ 31)
    (hvis : ∃ y x, (bufferMask coarse_bbox cam (canvasRay W H)).data y x = 1) :
    ∃ y, (bufferMask coarse_bbox cam (canvasRay W H)).data y
      (sweepExtrema W H coarse_bbox cam (canvasRay W H)).min_x = 1 := by
  obtain ⟨y0, x0, h0⟩ := hvis
  rw [bufferMask_eq_one_iff] at h0
  obtain ⟨hy0, hx0, hv0⟩ := h0
  simp only [sweepExtrema]
  obtain ⟨s1, -, s3, -, -⟩ := sweep_spec W H
    (fun y x => (sweepAt coarse_bbox cam (canvasRay W H) y x).isSome)
    coarse_bbox.width.toNat coarse_bbox.height.toNat
  rcases s3 with h | ⟨h, y, hy, hv⟩
  · exfalso
    have hmod : x0 % W.toNat < W.toNat := Nat.mod_lt _ (by omega)
    have hle : x0 % W.toNat ≤ x0 := Nat.mod_le _ _
    have hv1 : (sweepAt coarse_bbox cam (canvasRay W H) y0 (x0 % W.toNat)).isSome = true := by
      rw [← sweepAt_canvasRay_mod W H coarse_bbox cam y0 hW0 hleft x0 (by omega)]
      exact hv0
    have b := (s1 y0 (x0 % W.toNat) hy0 (by omega) hv1).1
    have hT : toSizeT W = W.toNat := by
      simp only [toSizeT]
      omega
    omega
  · exact ⟨y, (bufferMask_eq_one_iff _ _ _ _ _).2 ⟨hy, h, hv⟩⟩

/-- With a visible pixel in a coarse box of `int` size, `build` returns the block of the
coarse buffers that starts at `(min_y, min_x)` and has `max_y - min_y + 1` rows and
`max_x - min_x + 1` columns. -/
theorem build_of_visible {V3 V2 : Type} (W H : Int) (coarse_bbox : BBox)
    (cam : Camera V3 V2) (rayOf : Nat → Nat → V3) (uninit : Nat → Nat → V2)
    (hw : coarse_bbox.width < 2 ^ 32) (hh : coarse_bbox.height < 2 ^ 32)
    (hvis : ∃ y x, (bufferMask coarse_bbox cam rayOf).data y x = 1) :
    build W H coarse_bbox cam rayOf uninit
      = some
          { _offset_x := offsetX W coarse_bbox (sweepExtrema W H coarse_bbox cam rayOf).min_x
            _offset_y :=
              (toSizeT coarse_bbox.top + (sweepExtrema W H coarse_bbox cam rayOf).min_y) % 2 ^ 64
            _coordinates :=
              (bufferCoordinates coarse_bbox cam rayOf uninit).block
                (sweepExtrema W H coarse_bbox cam rayOf).min_y
                (sweepExtrema W H coarse_bbox cam rayOf).min_x
                ((sweepExtrema W H coarse_bbox cam rayOf).max_y
                  - (sweepExtrema W H coarse_bbox cam rayOf).min_y + 1)
                ((sweepExtrema W H coarse_bbox cam rayOf).max_x
                  - (sweepExtrema W H coarse_bbox cam rayOf).min_x + 1)
            _mask :=
              (bufferMask coarse_bbox cam rayOf).block
                (sweepExtrema W H coarse_bbox cam rayOf).min_y
                (sweepExtrema W H coarse_bbox cam rayOf).min_x
                ((sweepExtrema W H coarse_bbox cam rayOf).max_y
                  - (sweepExtrema W H coarse_bbox cam rayOf).min_y + 1)
                ((sweepExtrema W H coarse_bbox cam rayOf).max_x
                  - (sweepExtrema W H coarse_bbox cam rayOf).min_x + 1) } := by
  obtain ⟨e1, e2, e3, e4, _, _, _⟩ := sweepExtrema_of_visible W H coarse_bbox cam rayOf hvis
  have hrw : toSizeT (((sweepExtrema W H coarse_bbox cam rayOf).max_x : Int)
      - ((sweepExtrema W H coarse_bbox cam rayOf).min_x : Int) + 1)
      = (sweepExtrema W H coarse_bbox cam rayOf).max_x
        - (sweepExtrema W H coarse_bbox cam rayOf).min_x + 1 := by
    simp only [toSizeT]
    omega
  have hrh : toSizeT (((sweepExtrema W H coarse_bbox cam rayOf).max_y : Int)
      - ((sweepExtrema W H coarse_bbox cam rayOf).min_y : Int) + 1)
      = (sweepExtrema W H coarse_bbox cam rayOf).max_y
        - (sweepExtrema W H coarse_bbox cam rayOf).min_y + 1 := by
    simp only [toSizeT]
    omega
  have hneg : ¬ (coarse_bbox.width < 0 ∨ coarse_bbox.height < 0) := by omega
  have hin : (sweepExtrema W H coarse_bbox cam rayOf).min_y
        + ((sweepExtrema W H coarse_bbox cam rayOf).max_y
          - (sweepExtrema W H coarse_bbox cam rayOf).min_y + 1)
        ≤ (bufferMask coarse_bbox cam rayOf).Height ∧
      (sweepExtrema W H coarse_bbox cam rayOf).min_x
        + ((sweepExtrema W H coarse_bbox cam rayOf).max_x
          - (sweepExtrema W H coarse_bbox cam rayOf).min_x + 1)
        ≤ (bufferMask coarse_bbox cam rayOf).Width := by
    simp only [bufferMask]
    omega
  simp only [build]
  rw [if_neg hneg, hrw, hrh, if_pos hin]

/-- C2: after `build` on a view with at least one visible pixel (panorama and coarse box
within the range of `int`, `left ≥ 0`, at most `H + 1` rows, as `computeCoarseBB` yields), the
coordinate grid and the mask have the same dimensions `realW = maxX - minX + 1`,
`realH = maxY - minY + 1`, where `minX, maxX, minY, maxY` are the extrema of the local indices
of the `mask = 1` pixels of the coarse sweep, and their contents are the sub-block of the
coarse buffers that starts at row `minY`, column `minX`. -/
theorem build_dimensions_and_contents {V2 : Type} (W H : Int) (coarse_bbox : BBox)
    (cam : Camera (ℝ × ℝ × ℝ) V2) (uninit : Nat → Nat → V2)
    (hW0 : 0 < W) (hW : W < 2 ^ 31) (hH : H < 2 ^ 31)
    (hleft : 0 ≤ coarse_bbox.left)
    (hx31 : coarse_bbox.left + coarse_bbox.width < 2 ^ 31)
    (hhH : coarse_bbox.height ≤ H + 1)
    (hvis : ∃ y x, (bufferMask coarse_bbox cam (canvasRay W H)).data y x = 1) :
    ∃ (m : CoordinatesMap V2) (e : Extrema),
      build W H coarse_bbox cam (canvasRay W H) uninit = some m ∧
      e = sweepExtrema W H coarse_bbox cam (canvasRay W H) ∧
      (∀ y x, (bufferMask coarse_bbox cam (canvasRay W H)).data y x = 1 →
        e.min_x ≤ x ∧ x ≤ e.max_x ∧ e.min_y ≤ y ∧ y ≤ e.max_y) ∧
      (∃ y, (bufferMask coarse_bbox cam (canvasRay W H)).data y e.min_x = 1) ∧
      (∃ y, (bufferMask coarse_bbox cam (canvasRay W H)).data y e.max_x = 1) ∧
      (∃ x, (bufferMask coarse_bbox cam (canvasRay W H)).data e.min_y x = 1) ∧
      (∃ x, (bufferMask coarse_bbox cam (canvasRay W H)).data e.max_y x = 1) ∧
      e.min_x ≤ e.max_x ∧ e.min_y ≤ e.max_y ∧
      m._coordinates.Width = e.max_x - e.min_x + 1 ∧
      m._mask.Width = e.max_x - e.min_x + 1 ∧
      m._coordinates.Height = e.max_y - e.min_y + 1 ∧
      m._mask.Height = e.max_y - e.min_y + 1 ∧
      (∀ i j, m._mask.data i j
          = (bufferMask coarse_bbox cam (canvasRay W H)).data (e.min_y + i) (e.min_x + j)) ∧
      (∀ i j, m._coordinates.data i j
          = (bufferCoordinates coarse_bbox cam (canvasRay W H) uninit).data
              (e.min_y + i) (e.min_x + j)) := by
  obtain ⟨e1, _, e3, _, eall, emx, emy⟩ :=
    sweepExtrema_of_visible W H coarse_bbox cam (canvasRay W H) hvis
  have enx := sweepExtrema_min_x_attained_canvasRay W H coarse_bbox cam hW0 hW hleft hx31 hvis
  have eny := sweepExtrema_min_y_attained W H coarse_bbox cam (canvasRay W H) hhH hH hvis
  exact ⟨_, sweepExtrema W H coarse_bbox cam (canvasRay W H),
    build_of_visible W H coarse_bbox cam (canvasRay W H) uninit (by omega) (by omega) hvis, rfl,
    eall, enx, emx, eny, emy, e1, e3, rfl, rfl, rfl, rfl, fun _ _ => rfl, fun _ _ => rfl⟩

theorem build_dimensions_and_contents_witness :
    ∃ (m : CoordinatesMap Nat) (e : Extrema),
      build 4 2 ⟨3, 0, 6, 2⟩ constantCamera (canvasRay 4 2) (fun _ _ => 0) = some m ∧
      e = sweepExtrema 4 2 ⟨3, 0, 6, 2⟩ constantCamera (canvasRay 4 2) ∧
      (∀ y x, (bufferMask ⟨3, 0, 6, 2⟩ constantCamera (canvasRay 4 2)).data y x = 1 →
        e.min_x ≤ x ∧ x ≤ e.max_x ∧ e.min_y ≤ y ∧ y ≤ e.max_y) ∧
      (∃ y, (bufferMask ⟨3, 0, 6, 2⟩ constantCamera (canvasRay 4 2)).data y e.min_x = 1) ∧
      (∃ y, (bufferMask ⟨3, 0, 6, 2⟩ constantCamera (canvasRay 4 2)).data y e.max_x = 1) ∧
      (∃ x, (bufferMask ⟨3, 0, 6, 2⟩ constantCamera (canvasRay 4 2)).data e.min_y x = 1) ∧
      (∃ x, (bufferMask ⟨3, 0, 6, 2⟩ constantCamera (canvasRay 4 2)).data e.max_y x = 1) ∧
      e.min_x ≤ e.max_x ∧ e.min_y ≤ e.max_y ∧
      m._coordinates.Width = e.max_x - e.min_x + 1 ∧
      m._mask.Width = e.max_x - e.min_x + 1 ∧
      m._coordinates.Height = e.max_y - e.min_y + 1 ∧
      m._mask.Height = e.max_y - e.min_y + 1 ∧
      (∀ i j, m._mask.data i j
          = (bufferMask ⟨3, 0, 6, 2⟩ constantCamera (canvasRay 4 2)).data
              (e.min_y + i) (e.min_x + j)) ∧
      (∀ i j, m._coordinates.data i j
          = (bufferCoordinates ⟨3, 0, 6, 2⟩ constantCamera (canvasRay 4 2)
              (fun _ _ => 0)).data (e.min_y + i) (e.min_x + j)) :=
  build_dimensions_and_contents 4 2 ⟨3, 0, 6, 2⟩ constantCamera (fun _ _ => 0)
    (by decide) (by decide) (by decide) (by decide) (by decide) (by decide) ⟨0, 0, by decide⟩

/-- C3: for every coarse box with width at most `W` and height at most `H` and every
visibility pattern with at least one visible pixel, the first row, the last row, the first
column and the last column of the final mask each contain a pixel with `mask = 1`. -/
theorem build_crop_is_tight {V3 V2 : Type} (W H : Int) (coarse_bbox : BBox)
    (cam : Camera V3 V2) (rayOf : Nat → Nat → V3) (uninit : Nat → Nat → V2)
    (hwW : coarse_bbox.width ≤ W) (hhH : coarse_bbox.height ≤ H)
    (hW : W < 2 ^ 31) (hH : H < 2 ^ 31)
    (hvis : ∃ y x, (bufferMask coarse_bbox cam rayOf).data y x = 1) :
    ∃ m : CoordinatesMap V2,
      build W H coarse_bbox cam rayOf uninit = some m ∧
      0 < m._mask.Height ∧ 0 < m._mask.Width ∧
      (∃ j, j < m._mask.Width ∧ m._mask.data 0 j = 1) ∧
      (∃ j, j < m._mask.Width ∧ m._mask.data (m._mask.Height - 1) j = 1) ∧
      (∃ i, i < m._mask.Height ∧ m._mask.data i 0 = 1) ∧
      (∃ i, i < m._mask.Height ∧ m._mask.data i (m._mask.Width - 1) = 1) := by
  obtain ⟨e1, _, e3, _, eall, ⟨ymx, hmx⟩, ⟨xmy, hmy⟩⟩ :=
    sweepExtrema_of_visible W H coarse_bbox cam rayOf hvis
  obtain ⟨ynx, hnx⟩ :=
    sweepExtrema_min_x_attained W H coarse_bbox cam rayOf (by omega) hW hvis
  obtain ⟨xny, hny⟩ :=
    sweepExtrema_min_y_attained W H coarse_bbox cam rayOf (by omega) hH hvis
  refine ⟨_, build_of_visible W H coarse_bbox cam rayOf uninit (by omega) (by omega) hvis,
    ?_, ?_, ?_, ?_, ?_, ?_⟩
  · simp only [Image.block]
    omega
  · simp only [Image.block]
    omega
  · have b := eall _ _ hny
    refine ⟨xny - (sweepExtrema W H coarse_bbox cam rayOf).min_x, ?_, ?_⟩
    · simp only [Image.block]
      omega
    · simp only [Image.block, Nat.add_zero]
      rw [Nat.add_sub_cancel' b.1]
      exact hny
  · have b := eall _ _ hmy
    refine ⟨xmy - (sweepExtrema W H coarse_bbox cam rayOf).min_x, ?_, ?_⟩
    · simp only [Image.block]
      omega
    · simp only [Image.block, Nat.add_sub_cancel]
      rw [Nat.add_sub_cancel' b.1, Nat.add_sub_cancel' e3]
      exact hmy
  · have b := eall _ _ hnx
    refine ⟨ynx - (sweepExtrema W H coarse_bbox cam rayOf).min_y, ?_, ?_⟩
    · simp only [Image.block]
      omega
    · simp only [Image.block, Nat.add_zero]
      rw [Nat.add_sub_cancel' b.2.2.1]
      exact hnx
  · have b := eall _ _ hmx
    refine ⟨ymx - (sweepExtrema W H coarse_bbox cam rayOf).min_y, ?_, ?_⟩
    · simp only [Image.block]
      omega
    · simp only [Image.block, Nat.add_sub_cancel]
      rw [Nat.add_sub_cancel' b.2.2.1, Nat.add_sub_cancel' e1]
      exact hmx

theorem build_crop_is_tight_witness :
    ∃ m : CoordinatesMap (Nat × Nat),
      build 8 4 ⟨6, 0, 6, 4⟩ exampleCamera (fun cx cy => (cx % 8, cy)) (fun _ _ => (0, 0))
        = some m ∧
      0 < m._mask.Height ∧ 0 < m._mask.Width ∧
      (∃ j, j < m._mask.Width ∧ m._mask.data 0 j = 1) ∧
      (∃ j, j < m._mask.Width ∧ m._mask.data (m._mask.Height - 1) j = 1) ∧
      (∃ i, i < m._mask.Height ∧ m._mask.data i 0 = 1) ∧
      (∃ i, i < m._mask.Height ∧ m._mask.data i (m._mask.Width - 1) = 1) :=
  build_crop_is_tight 8 4 ⟨6, 0, 6, 4⟩ exampleCamera (fun cx cy => (cx % 8, cy))
    (fun _ _ => (0, 0)) (by decide) (by decide) (by decide) (by decide) ⟨2, 5, by decide⟩

theorem sweepPixel_eq {V3 V2 : Type} (cam : Camera V3 V2) (ray : V3) :
    sweepPixel cam ray
      = if cam.isVisibleRay (cam.pose ray) = true ∧ cam.isVisible (cam.project ray) = true
        then some (cam.project ray) else none := by
  simp only [sweepPixel]
  cases h1 : cam.isVisibleRay (cam.pose ray) <;> cases h2 : cam.isVisible (cam.project ray) <;>
    simp

theorem cast_add_period (z : Int) (n : Nat) (k W : Int) (h : z = (n : Int) + k * W) :
    (z : ℝ) = (n : ℝ) + (k : ℝ) * (W : ℝ) := by
  subst h
  push_cast
  rfl

theorem cast_nat_eq_cast_int (z : Int) (n : Nat) (h : (n : Int) = z) : (n : ℝ) = (z : ℝ) := by
  subst h
  simp

theorem offsetX_eq (W : Int) (coarse_bbox : BBox) (min_x : Nat)
    (hW0 : 0 < W) (hW : W < 2 ^ 31) (hleft : 0 ≤ coarse_bbox.left)
    (hfit : coarse_bbox.left + (min_x : Int) < 2 ^ 31) :
    ((offsetX W coarse_bbox min_x : Nat) : Int) = coarse_bbox.left + min_x ∨
      ((offsetX W coarse_bbox min_x : Nat) : Int) = coarse_bbox.left + min_x - W := by
  simp only [offsetX, toSizeT, toInt32]
  split_ifs with h
  · right
    omega
  · left
    omega

/-- C1: after `build`, for every pixel `(i, j)` of the cropped map, `mask(i, j) = 1` exactly
when the direction `d = fromEquirectangular((left + minX + j, top + minY + i), W, H)` passes
the visible-ray test (on `pose(d)`) and its projection `p = project(pose, d)` passes the
visible-pixel test; then the stored coordinate is `p`, which is in the visible domain; and
`d` is also the direction of the column `(offsetX + j) mod W` on row `offsetY + i`. With a
visible pixel in the coarse box, `build` does return a map. -/
theorem build_mask_iff_visible {V2 : Type} (W H : Int) (coarse_bbox : BBox)
    (cam : Camera (ℝ × ℝ × ℝ) V2) (uninit : Nat → Nat → V2)
    (hW0 : 0 < W) (hW : W < 2 ^ 31)
    (hleft : 0 ≤ coarse_bbox.left) (htop : 0 ≤ coarse_bbox.top)
    (hx31 : coarse_bbox.left + coarse_bbox.width < 2 ^ 31)
    (hy31 : coarse_bbox.top + coarse_bbox.height < 2 ^ 31) :
    ((∃ y x, (bufferMask coarse_bbox cam (canvasRay W H)).data y x = 1) →
      ∃ m, build W H coarse_bbox cam (canvasRay W H) uninit = some m) ∧
    ∀ (m : CoordinatesMap V2) (e : Extrema),
      build W H coarse_bbox cam (canvasRay W H) uninit = some m →
      e = sweepExtrema W H coarse_bbox cam (canvasRay W H) →
      ∀ i j, i < m._mask.Height → j < m._mask.Width →
        ∃ d : ℝ × ℝ × ℝ,
          d = SphericalMapping.fromEquirectangular
                ((((coarse_bbox.left + e.min_x + j : Int)) : ℝ),
                 (((coarse_bbox.top + e.min_y + i : Int)) : ℝ)) W H ∧
          (m._mask.data i j = 1 ↔
            (cam.isVisibleRay (cam.pose d) = true ∧ cam.isVisible (cam.project d) = true)) ∧
          (m._mask.data i j = 1 →
            m._coordinates.data i j = cam.project d ∧
            cam.isVisible (m._coordinates.data i j) = true) ∧
          SphericalMapping.fromEquirectangular
              ((((m._offset_x + j) % W.toNat : Nat) : ℝ), ((m._offset_y + i : Nat) : ℝ)) W H
            = d := by
  constructor
  · intro hvis
    obtain ⟨y0, x0, h0⟩ := hvis
    have h0b := (bufferMask_eq_one_iff _ _ _ _ _).1 h0
    exact ⟨_, build_of_visible W H coarse_bbox cam (canvasRay W H) uninit
      (by omega) (by omega) ⟨y0, x0, h0⟩⟩
  · intro m e hb he i j hi hj
    simp only [build] at hb
    rw [← he] at hb
    split_ifs at hb with hneg hin
    have hm := Option.some.inj hb
    subst hm
    clear hb
    simp only [Image.block, bufferMask] at hi hj hin
    simp only [Image.block]
    have hyr : e.min_y + i < coarse_bbox.height.toNat := by omega
    have hxr : e.min_x + j < coarse_bbox.width.toNat := by omega
    have hcx : canvasX coarse_bbox (e.min_x + j) = coarse_bbox.left.toNat + e.min_x + j := by
      simp only [canvasX, toSizeT]
      omega
    have hcy : canvasY coarse_bbox (e.min_y + i) = coarse_bbox.top.toNat + e.min_y + i := by
      simp only [canvasY, toSizeT]
      omega
    have hray : canvasRay W H (canvasX coarse_bbox (e.min_x + j))
          (canvasY coarse_bbox (e.min_y + i))
        = SphericalMapping.fromEquirectangular
            ((((coarse_bbox.left + e.min_x + j : Int)) : ℝ),
             (((coarse_bbox.top + e.min_y + i : Int)) : ℝ)) W H := by
      rw [hcx, hcy]
      simp only [canvasRay]
      have c1 : ((coarse_bbox.left.toNat : Nat) : ℝ) = ((coarse_bbox.left : Int) : ℝ) := by
        have : ((coarse_bbox.left.toNat : Nat) : Int) = coarse_bbox.left := Int.toNat_of_nonneg hleft
        exact_mod_cast congrArg (fun z : Int => (z : ℝ)) this
      have c2 : ((coarse_bbox.top.toNat : Nat) : ℝ) = ((coarse_bbox.top : Int) : ℝ) := by
        have : ((coarse_bbox.top.toNat : Nat) : Int) = coarse_bbox.top := Int.toNat_of_nonneg htop
        exact_mod_cast congrArg (fun z : Int => (z : ℝ)) this
      push_cast
      rw [c1, c2]
    obtain ⟨d, hd⟩ : ∃ d : ℝ × ℝ × ℝ, d = SphericalMapping.fromEquirectangular
        ((((coarse_bbox.left + e.min_x + j : Int)) : ℝ),
         (((coarse_bbox.top + e.min_y + i : Int)) : ℝ)) W H := ⟨_, rfl⟩
    rw [← hd] at hray
    refine ⟨d, hd, ?_, ?_, ?_⟩
    · simp only [bufferMask, hyr, hxr, and_self, if_true]
      simp only [sweepAt, hray, sweepPixel_eq]
      by_cases hc : cam.isVisibleRay (cam.pose d) = true ∧ cam.isVisible (cam.project d) = true
      · rw [if_pos hc]
        simp [hc.1, hc.2]
      · rw [if_neg hc]
        simp only [Option.isSome_none, Bool.false_eq_true, if_false]
        constructor
        · intro h
          exact absurd h (by decide)
        · intro h
          exact absurd h hc
    · simp only [bufferMask, bufferCoordinates, hyr, hxr, and_self, if_true]
      simp only [sweepAt, hray, sweepPixel_eq]
      by_cases hc : cam.isVisibleRay (cam.pose d) = true ∧ cam.isVisible (cam.project d) = true
      · rw [if_pos hc]
        intro _
        exact ⟨rfl, hc.2⟩
      · rw [if_neg hc]
        intro h
        simp at h
    · have hmin : (e.min_x : Int) ≤ coarse_bbox.width := by omega
      have hox := offsetX_eq W coarse_bbox e.min_x hW0 hW hleft (by omega)
      have hoy : (((toSizeT coarse_bbox.top + e.min_y) % 2 ^ 64 + i : Nat) : Int)
          = coarse_bbox.top + e.min_y + i := by
        simp only [toSizeT]
        omega
      have hWn : ((W.toNat : Nat) : Int) = W := Int.toNat_of_nonneg hW0.le
      have hdm := Nat.mod_add_div (offsetX W coarse_bbox e.min_x + j) W.toNat
      have hdmz : (((offsetX W coarse_bbox e.min_x + j) % W.toNat : Nat) : Int)
            + W * (((offsetX W coarse_bbox e.min_x + j) / W.toNat : Nat) : Int)
          = (offsetX W coarse_bbox e.min_x : Int) + j := by
        have := congrArg (fun n : Nat => (n : Int)) hdm
        simp only [Nat.cast_add, Nat.cast_mul, hWn] at this
        exact this
      have hk : ∃ k : Int,
          coarse_bbox.left + e.min_x + j
            = (((offsetX W coarse_bbox e.min_x + j) % W.toNat : Nat) : Int) + k * W := by
        rcases hox with hox | hox
        · exact ⟨(((offsetX W coarse_bbox e.min_x + j) / W.toNat : Nat) : Int), by
            rw [← hox, ← hdmz]; ring⟩
        · refine ⟨(((offsetX W coarse_bbox e.min_x + j) / W.toNat : Nat) : Int) + 1, ?_⟩
          have : coarse_bbox.left + e.min_x = (offsetX W coarse_bbox e.min_x : Int) + W := by
            rw [hox]
            ring
          rw [this, add_right_comm, ← hdmz]
          ring
      obtain ⟨k, hk⟩ := hk
      rw [hd, cast_add_period _ _ k W hk, ← cast_nat_eq_cast_int _ _ hoy,
        SphericalMapping.fromEquirectangular_add_period W H (ne_of_gt hW0)]

theorem build_mask_iff_visible_witness :
    ((∃ y x, (bufferMask ⟨1, 0, 2, 1⟩ constantCamera (canvasRay 4 2)).data y x = 1) →
      ∃ m, build 4 2 ⟨1, 0, 2, 1⟩ constantCamera (canvasRay 4 2) (fun _ _ => 0) = some m) ∧
    ∀ (m : CoordinatesMap Nat) (e : Extrema),
      build 4 2 ⟨1, 0, 2, 1⟩ constantCamera (canvasRay 4 2) (fun _ _ => 0) = some m →
      e = sweepExtrema 4 2 ⟨1, 0, 2, 1⟩ constantCamera (canvasRay 4 2) →
      ∀ i j, i < m._mask.Height → j < m._mask.Width →
        ∃ d : ℝ × ℝ × ℝ,
          d = SphericalMapping.fromEquirectangular
                (((((⟨1, 0, 2, 1⟩ : BBox).left + e.min_x + j : Int)) : ℝ),
                 ((((⟨1, 0, 2, 1⟩ : BBox).top + e.min_y + i : Int)) : ℝ)) 4 2 ∧
          (m._mask.data i j = 1 ↔
            (constantCamera.isVisibleRay (constantCamera.pose d) = true ∧
              constantCamera.isVisible (constantCamera.project d) = true)) ∧
          (m._mask.data i j = 1 →
            m._coordinates.data i j = constantCamera.project d ∧
            constantCamera.isVisible (m._coordinates.data i j) = true) ∧
          SphericalMapping.fromEquirectangular
              ((((m._offset_x + j) % (4 : Int).toNat : Nat) : ℝ), ((m._offset_y + i : Nat) : ℝ))
              4 2
            = d :=
  build_mask_iff_visible 4 2 ⟨1, 0, 2, 1⟩ constantCamera (fun _ _ => 0)
    (by decide) (by decide) (by decide) (by decide) (by decide) (by decide)

end CoordinatesMap

namespace AlphaBuilder

theorem tent_factor_bounds {K : Type} [LinearOrderedField K] (c x : K) (hc : 0 < c)
    (h0 : 0 ≤ x) (h1 : x ≤ 2 * c) :
    1 - |(x - c) / c| = 1 - |x - c| / c ∧ 0 ≤ 1 - |(x - c) / c| ∧ 1 - |(x - c) / c| ≤ 1 ∧
      (1 - |(x - c) / c| = 1 ↔ x = c) := by
  have e : |(x - c) / c| = |x - c| / c := by rw [abs_div, abs_of_pos hc]
  have hle : |x - c| ≤ c := by
    rw [abs_le]
    constructor <;> linarith
  have hdiv : |x - c| / c ≤ 1 := (div_le_one hc).2 hle
  have hnn : 0 ≤ |x - c| / c := div_nonneg (abs_nonneg _) hc.le
  rw [e]
  refine ⟨rfl, by linarith, by linarith, ?_⟩
  constructor
  · intro h
    have h0 : |x - c| / c = 0 := by linarith
    rcases (div_eq_zero_iff.1 h0) with h | h
    · have := abs_eq_zero.1 h
      linarith
    · exact absurd h (ne_of_gt hc)
  · intro h
    rw [h]
    simp

/-- C6: for a source image of positive size and every map whose valid coordinates lie in
`[0, w] x [0, h]`, `AlphaBuilder::build` produces a raster of the dimensions of the map, with
every value in `[0, 1]` and the value `0` wherever the mask is `0`. -/
theorem weights_in_unit_interval {K : Type} [LinearOrderedField K]
    (map : CoordinatesMap (K × K)) (w h : Nat) (hw : 0 < w) (hh : 0 < h)
    (hdim : map._mask.Width = map._coordinates.Width ∧
      map._mask.Height = map._coordinates.Height)
    (hin : ∀ i j, i < map._coordinates.Height → j < map._coordinates.Width →
      map._mask.data i j ≠ 0 →
        0 ≤ (map._coordinates.data i j).1 ∧ (map._coordinates.data i j).1 ≤ (w : K) ∧
        0 ≤ (map._coordinates.data i j).2 ∧ (map._coordinates.data i j).2 ≤ (h : K)) :
    (build map w h).Width = map._coordinates.Width ∧
    (build map w h).Height = map._coordinates.Height ∧
    (build map w h).Width = map._mask.Width ∧
    (build map w h).Height = map._mask.Height ∧
    ∀ i j, i < (build map w h).Height → j < (build map w h).Width →
      0 ≤ (build map w h).data i j ∧ (build map w h).data i j ≤ 1 ∧
      (map._mask.data i j = 0 → (build map w h).data i j = 0) := by
  refine ⟨rfl, rfl, hdim.1.symm, hdim.2.symm, ?_⟩
  intro i j hi hj
  have hi2 : i < map._coordinates.Height := hi
  have hj2 : j < map._coordinates.Width := hj
  simp only [build]
  rw [if_pos ⟨hi2, hj2⟩]
  by_cases hv : map._mask.data i j ≠ 0
  · rw [if_pos hv]
    obtain ⟨x0, x1, y0, y1⟩ := hin i j hi2 hj2 hv
    have hcx : (0 : K) < (w : K) / 2 := by
      have : (0 : K) < (w : K) := by exact_mod_cast hw
      linarith
    have hcy : (0 : K) < (h : K) / 2 := by
      have : (0 : K) < (h : K) := by exact_mod_cast hh
      linarith
    obtain ⟨_, a0, a1, _⟩ :=
      tent_factor_bounds ((w : K) / 2) (map._coordinates.data i j).1 hcx x0 (by linarith)
    obtain ⟨_, b0, b1, _⟩ :=
      tent_factor_bounds ((h : K) / 2) (map._coordinates.data i j).2 hcy y0 (by linarith)
    simp only [tentWeight]
    refine ⟨mul_nonneg a0 b0, ?_, fun h0 => absurd h0 hv⟩
    calc (1 - |((map._coordinates.data i j).1 - (w : K) / 2) / ((w : K) / 2)|)
          * (1 - |((map._coordinates.data i j).2 - (h : K) / 2) / ((h : K) / 2)|)
        ≤ 1 * 1 := mul_le_mul a1 b1 b0 zero_le_one
      _ = 1 := one_mul 1
  · rw [if_neg hv]
    exact ⟨le_refl 0, zero_le_one, fun _ => rfl⟩

theorem weights_in_unit_interval_witness :
    (build exampleMap 4 2).Width = exampleMap._coordinates.Width ∧
    (build exampleMap 4 2).Height = exampleMap._coordinates.Height ∧
    (build exampleMap 4 2).Width = exampleMap._mask.Width ∧
    (build exampleMap 4 2).Height = exampleMap._mask.Height ∧
    ∀ i j, i < (build exampleMap 4 2).Height → j < (build exampleMap 4 2).Width →
      0 ≤ (build exampleMap 4 2).data i j ∧ (build exampleMap 4 2).data i j ≤ 1 ∧
      (exampleMap._mask.data i j = 0 → (build exampleMap 4 2).data i j = 0) :=
  weights_in_unit_interval exampleMap 4 2 (by decide) (by decide) ⟨rfl, rfl⟩ (by
    intro i j _ _ hm
    have hj : j = 0 := by
      by_contra hne
      exact hm (by simp [exampleMap, hne])
    subst hj
    simp only [exampleMap]
    norm_num)

/-- C7: at every valid pixel with stored coordinate `(x, y)` the weight written by
`AlphaBuilder::build` is `(1 - |x - cx| / cx) * (1 - |y - cy| / cy)` with
`(cx, cy) = (w / 2, h / 2)`; over `[0, w] x [0, h]` this weight is at most `1`, equal to `1`
exactly at `(cx, cy)`, and it is `0` whenever `x` is `0` or `w` or `y` is `0` or `h`. -/
theorem weight_is_tent {K : Type} [LinearOrderedField K]
    (map : CoordinatesMap (K × K)) (w h : Nat) (hw : 0 < w) (hh : 0 < h) :
    (∀ i j, i < map._coordinates.Height → j < map._coordinates.Width →
      map._mask.data i j ≠ 0 →
        (build map w h).data i j
          = (1 - |(map._coordinates.data i j).1 - (w : K) / 2| / ((w : K) / 2))
            * (1 - |(map._coordinates.data i j).2 - (h : K) / 2| / ((h : K) / 2))) ∧
    (∀ x y : K, tentWeight ((w : K) / 2) ((h : K) / 2) x y
        = (1 - |x - (w : K) / 2| / ((w : K) / 2)) * (1 - |y - (h : K) / 2| / ((h : K) / 2))) ∧
    (∀ x y : K, 0 ≤ x → x ≤ (w : K) → 0 ≤ y → y ≤ (h : K) →
      tentWeight ((w : K) / 2) ((h : K) / 2) x y ≤ 1 ∧
      (tentWeight ((w : K) / 2) ((h : K) / 2) x y = 1 ↔ x = (w : K) / 2 ∧ y = (h : K) / 2)) ∧
    (∀ x y : K, x = 0 ∨ x = (w : K) ∨ y = 0 ∨ y = (h : K) →
      tentWeight ((w : K) / 2) ((h : K) / 2) x y = 0) := by
  have hcx : (0 : K) < (w : K) / 2 := by
    have : (0 : K) < (w : K) := by exact_mod_cast hw
    linarith
  have hcy : (0 : K) < (h : K) / 2 := by
    have : (0 : K) < (h : K) := by exact_mod_cast hh
    linarith
  have hformula : ∀ x y : K, tentWeight ((w : K) / 2) ((h : K) / 2) x y
      = (1 - |x - (w : K) / 2| / ((w : K) / 2)) * (1 - |y - (h : K) / 2| / ((h : K) / 2)) := by
    intro x y
    simp only [tentWeight]
    rw [abs_div (x - (w : K) / 2) ((w : K) / 2), abs_div (y - (h : K) / 2) ((h : K) / 2),
      abs_of_pos hcx, abs_of_pos hcy]
  refine ⟨?_, hformula, ?_, ?_⟩
  · intro i j hi hj hv
    simp only [build]
    rw [if_pos ⟨hi, hj⟩, if_pos hv]
    exact hformula _ _
  · intro x y x0 x1 y0 y1
    obtain ⟨_, a0, a1, a2⟩ := tent_factor_bounds ((w : K) / 2) x hcx x0 (by linarith)
    obtain ⟨_, b0, b1, b2⟩ := tent_factor_bounds ((h : K) / 2) y hcy y0 (by linarith)
    simp only [tentWeight]
    constructor
    · calc (1 - |(x - (w : K) / 2) / ((w : K) / 2)|) * (1 - |(y - (h : K) / 2) / ((h : K) / 2)|)
          ≤ 1 * 1 := mul_le_mul a1 b1 b0 zero_le_one
        _ = 1 := one_mul 1
    · constructor
      · intro hp
        have ha : 1 - |(x - (w : K) / 2) / ((w : K) / 2)| = 1 := by
          apply le_antisymm a1
          calc (1 : K)
              = (1 - |(x - (w : K) / 2) / ((w : K) / 2)|)
                  * (1 - |(y - (h : K) / 2) / ((h : K) / 2)|) := hp.symm
            _ ≤ (1 - |(x - (w : K) / 2) / ((w : K) / 2)|) * 1 :=
                mul_le_mul_of_nonneg_left b1 a0
            _ = 1 - |(x - (w : K) / 2) / ((w : K) / 2)| := mul_one _
        have hb : 1 - |(y - (h : K) / 2) / ((h : K) / 2)| = 1 := by
          rw [ha, one_mul] at hp
          exact hp
        exact ⟨a2.1 ha, b2.1 hb⟩
      · rintro ⟨hx, hy⟩
        rw [a2.2 hx, b2.2 hy, one_mul]
  · intro x y hb
    rw [hformula]
    have hone : ∀ c : K, 0 < c → |(0 : K) - c| / c = 1 ∧ |2 * c - c| / c = 1 := by
      intro c hc
      constructor
      · rw [zero_sub, abs_neg, abs_of_pos hc, div_self (ne_of_gt hc)]
      · have : 2 * c - c = c := by ring
        rw [this, abs_of_pos hc, div_self (ne_of_gt hc)]
    have hwc : (w : K) = 2 * ((w : K) / 2) := by ring
    have hhc : (h : K) = 2 * ((h : K) / 2) := by ring
    rcases hb with hb | hb | hb | hb
    · rw [hb, (hone _ hcx).1]
      ring
    · have e : |x - (w : K) / 2| / ((w : K) / 2) = 1 := by
        rw [hb]
        nth_rewrite 1 [hwc]
        exact (hone _ hcx).2
      rw [e]
      ring
    · rw [hb, (hone _ hcy).1]
      ring
    · have e : |y - (h : K) / 2| / ((h : K) / 2) = 1 := by
        rw [hb]
        nth_rewrite 1 [hhc]
        exact (hone _ hcy).2
      rw [e]
      ring

theorem weight_is_tent_witness :
    (∀ i j, i < exampleMap._coordinates.Height → j < exampleMap._coordinates.Width →
      exampleMap._mask.data i j ≠ 0 →
        (build exampleMap 4 2).data i j
          = (1 - |(exampleMap._coordinates.data i j).1 - ((4 : Nat) : ℚ) / 2| / (((4 : Nat) : ℚ) / 2))
            * (1 - |(exampleMap._coordinates.data i j).2 - ((2 : Nat) : ℚ) / 2|
                / (((2 : Nat) : ℚ) / 2))) ∧
    (∀ x y : ℚ, tentWeight (((4 : Nat) : ℚ) / 2) (((2 : Nat) : ℚ) / 2) x y
        = (1 - |x - ((4 : Nat) : ℚ) / 2| / (((4 : Nat) : ℚ) / 2))
          * (1 - |y - ((2 : Nat) : ℚ) / 2| / (((2 : Nat) : ℚ) / 2))) ∧
    (∀ x y : ℚ, 0 ≤ x → x ≤ ((4 : Nat) : ℚ) → 0 ≤ y → y ≤ ((2 : Nat) : ℚ) →
      tentWeight (((4 : Nat) : ℚ) / 2) (((2 : Nat) : ℚ) / 2) x y ≤ 1 ∧
      (tentWeight (((4 : Nat) : ℚ) / 2) (((2 : Nat) : ℚ) / 2) x y = 1
        ↔ x = ((4 : Nat) : ℚ) / 2 ∧ y = ((2 : Nat) : ℚ) / 2)) ∧
    (∀ x y : ℚ, x = 0 ∨ x = ((4 : Nat) : ℚ) ∨ y = 0 ∨ y = ((2 : Nat) : ℚ) →
      tentWeight (((4 : Nat) : ℚ) / 2) (((2 : Nat) : ℚ) / 2) x y = 0) :=
  weight_is_tent exampleMap 4 2 (by decide) (by decide)

end AlphaBuilder

/-! ### Panorama size -/

theorem ceil_mul_max_scale {K : Type} [LinearOrderedField K] [FloorRing K] (W : Int) :
    ⌈(W : K) * (1 / (2 : K) ^ 10)⌉ = (W + 1023) / 1024 := by
  rw [Int.ceil_eq_iff]
  have h1 : 1024 * ((W + 1023) / 1024) ≤ W + 1023 := by omega
  have h1c : (1024 : K) * (((W + 1023) / 1024 : Int) : K) ≤ (W : K) + 1023 := by
    exact_mod_cast h1
  have h3 : W + 1 ≤ 1024 * ((W + 1023) / 1024) + 1 := by omega
  have h3c : (W : K) + 1 ≤ 1024 * (((W + 1023) / 1024 : Int) : K) + 1 := by
    exact_mod_cast h3
  have e : (W : K) * (1 / (2 : K) ^ 10) = (W : K) / 1024 := by ring
  rw [e]
  constructor
  · rw [lt_div_iff₀ (by norm_num)]
    linarith
  · rw [div_le_iff₀ (by norm_num)]
    linarith

theorem doubleToInt_intCast {K : Type} [LinearOrderedField K] [FloorRing K] (z : Int) :
    doubleToInt (z : K) = if -(2 : Int) ^ 31 ≤ z ∧ z < 2 ^ 31 then some z else none := by
  simp only [doubleToInt, Int.floor_intCast, Int.ceil_intCast, ite_self]

theorem roundPanoramaSize_eq {K : Type} [LinearOrderedField K] [FloorRing K] (W : Int) :
    roundPanoramaSize (K := K) W
      = if -(2 : Int) ^ 31 ≤ (W + 1023) / 1024 * 1024 ∧ (W + 1023) / 1024 * 1024 < 2 ^ 31 then
          some ((W + 1023) / 1024 * 1024, Int.tdiv ((W + 1023) / 1024 * 1024) 2)
        else none := by
  have e : ((((W + 1023) / 1024 : Int)) : K) / (1 / (2 : K) ^ 10)
      = (((W + 1023) / 1024 * 1024 : Int) : K) := by
    push_cast
    ring
  simp only [roundPanoramaSize, ceil_mul_max_scale, e, doubleToInt_intCast]
  split_ifs <;> rfl

/-- C17 (as amended): for every requested width `W` with `0 < W ≤ 2^31 - 1024`, the width
chosen by the orchestrator is the smallest multiple of `1024` that is at least `W` (a multiple
of `1024` is unchanged), and the chosen height is exactly half the chosen width. -/
theorem chosen_width_is_next_multiple_of_1024 {K : Type} [LinearOrderedField K] [FloorRing K]
    (W : Int) (viewScales : List (Option K)) (hW0 : 0 < W) (hW : W ≤ 2 ^ 31 - 1024) :
    ∃ chosenW chosenH : Int,
      choosePanoramaSize W viewScales = some (chosenW, chosenH) ∧
      1024 ∣ chosenW ∧ W ≤ chosenW ∧
      (∀ M : Int, 1024 ∣ M → W ≤ M → chosenW ≤ M) ∧
      (1024 ∣ W → chosenW = W) ∧
      2 * chosenH = chosenW := by
  have hr : -(2 : Int) ^ 31 ≤ (W + 1023) / 1024 * 1024 ∧ (W + 1023) / 1024 * 1024 < 2 ^ 31 := by
    constructor <;> omega
  refine ⟨(W + 1023) / 1024 * 1024, Int.tdiv ((W + 1023) / 1024 * 1024) 2, ?_, ?_, ?_, ?_, ?_, ?_⟩
  · simp only [choosePanoramaSize]
    rw [if_neg (by omega), roundPanoramaSize_eq, if_pos hr]
  · exact Dvd.intro_left _ rfl
  · omega
  · rintro M ⟨c, rfl⟩ hM
    omega
  · rintro ⟨c, rfl⟩
    omega
  · rw [Int.tdiv_eq_ediv (by omega) (by norm_num)]
    omega

theorem chosen_width_is_next_multiple_of_1024_witness :
    ∃ chosenW chosenH : Int,
      choosePanoramaSize 3000 ([] : List (Option ℚ)) = some (chosenW, chosenH) ∧
      1024 ∣ chosenW ∧ (3000 : Int) ≤ chosenW ∧
      (∀ M : Int, 1024 ∣ M → 3000 ≤ M → chosenW ≤ M) ∧
      (1024 ∣ (3000 : Int) → chosenW = 3000) ∧
      2 * chosenH = chosenW :=
  chosen_width_is_next_multiple_of_1024 3000 [] (by decide) (by decide)

/-- C17 (counterexample): for the requested width `2147483647`, a value of type `int`, the
smallest multiple of `1024` that is at least the request is `2^31`, which no `int` holds: the
conversion of the rounded width to `int` is undefined and no width is chosen. -/
theorem chosen_width_overflows_at_int_max :
    choosePanoramaSize 2147483647 ([] : List (Option ℚ)) = none := by
  simp only [choosePanoramaSize]
  rw [if_neg (by decide), roundPanoramaSize_eq, if_neg (by decide)]

theorem int_log_eq_of_zpow_bounds {K : Type} [LinearOrderedField K] [FloorRing K]
    {r : K} {k : Int} (h1 : (2 : K) ^ k ≤ r) (h2 : r < (2 : K) ^ (k + 1)) :
    Int.log 2 r = k := by
  have hr : 0 < r := lt_of_lt_of_le (zpow_pos (by norm_num) k) h1
  have a : k ≤ Int.log 2 r :=
    (Int.zpow_le_iff_le_log (b := 2) (by norm_num) hr).1 (by exact_mod_cast h1)
  have b : Int.log 2 r < k + 1 :=
    (Int.lt_zpow_iff_log_lt (b := 2) (by norm_num) hr).1 (by exact_mod_cast h2)
  omega

/-- Over the reals, `Int.log 2 m` is `floor(log2(m))`. -/
theorem int_log_two_eq_floor_logb (m : ℝ) (hm : 0 ≤ m) : Int.log 2 m = ⌊Real.logb 2 m⌋ := by
  have := Real.floor_logb_natCast (b := 2) hm
  rw [← this]
  norm_num

theorem floor_two_zpow {K : Type} [LinearOrderedField K] [FloorRing K] (e : Int) :
    ⌊(2 : K) ^ e⌋ = if 0 ≤ e then (2 : Int) ^ e.toNat else 0 := by
  split_ifs with h
  · have : (2 : K) ^ e = (((2 : Int) ^ e.toNat : Int) : K) := by
      conv_lhs => rw [← Int.toNat_of_nonneg h]
      rw [zpow_natCast]
      push_cast
      rfl
    rw [this, Int.floor_intCast]
  · rw [Int.floor_eq_iff]
    constructor
    · exact_mod_cast (zpow_pos (by norm_num : (0 : K) < 2) e).le
    · have := zpow_lt_one_of_neg₀ (by norm_num : (1 : K) < 2) (by omega : e < 0)
      simpa using this

theorem doubleToInt_two_zpow {K : Type} [LinearOrderedField K] [FloorRing K] (e : Int)
    (he : e ≤ 30) :
    doubleToInt ((2 : K) ^ e) = some (if 0 ≤ e then (2 : Int) ^ e.toNat else 0) := by
  have hpos : (0 : K) ≤ (2 : K) ^ e := (zpow_pos (by norm_num) e).le
  simp only [doubleToInt, if_pos hpos, floor_two_zpow]
  have hrange : -(2 : Int) ^ 31 ≤ (if 0 ≤ e then (2 : Int) ^ e.toNat else 0) ∧
      (if 0 ≤ e then (2 : Int) ^ e.toNat else 0) < 2 ^ 31 := by
    split_ifs with h
    · have h1 : (0 : Int) < 2 ^ e.toNat := by positivity
      have h2 : (2 : Int) ^ e.toNat < 2 ^ 31 :=
        pow_lt_pow_right₀ (by norm_num) (by omega)
      constructor
      · have : -(2 : Int) ^ 31 ≤ 0 := by norm_num
        omega
      · exact h2
    · norm_num
  rw [if_pos hrange]

theorem nthElement_middle_isSome {K : Type} [LinearOrder K] (l : List K) (h : 0 < l.length) :
    ∃ m, nthElement l (l.length / 2) = some m := by
  have hlt : l.length / 2 < (l.insertionSort (fun a b => a ≤ b)).length := by
    rw [List.length_insertionSort]
    omega
  exact ⟨_, List.getElem?_eq_getElem hlt⟩

/-- The estimation with at least two scales: the two products `512 * 2^k` and `256 * 2^k`,
`k = floor(log2(median))`, truncated to `int`. -/
theorem computeOptimalPanoramaSize_of_median {K : Type} [LinearOrderedField K] [FloorRing K]
    (viewScales : List (Option K)) (m : K)
    (hlen : 2 ≤ viewScales.reduceOption.length)
    (hm : nthElement viewScales.reduceOption (viewScales.reduceOption.length / 2) = some m)
    (hpos : 0 < m) (hk : Int.log 2 m ≤ 21) :
    computeOptimalPanoramaSize viewScales
      = some (if 0 ≤ Int.log 2 m + 9 then (2 : Int) ^ (Int.log 2 m + 9).toNat else 0,
              if 0 ≤ Int.log 2 m + 8 then (2 : Int) ^ (Int.log 2 m + 8).toNat else 0) := by
  have e1 : (((512 : Int) : K)) * (2 : K) ^ Int.log 2 m = (2 : K) ^ (Int.log 2 m + 9) := by
    rw [zpow_add₀ (by norm_num : (2 : K) ≠ 0)]
    norm_num
    ring
  have e2 : (((256 : Int) : K)) * (2 : K) ^ Int.log 2 m = (2 : K) ^ (Int.log 2 m + 8) := by
    rw [zpow_add₀ (by norm_num : (2 : K) ≠ 0)]
    norm_num
    ring
  simp only [computeOptimalPanoramaSize]
  rw [if_pos (by omega), hm]
  simp only
  rw [if_neg (not_le.2 hpos), e1, e2, doubleToInt_two_zpow _ (by omega),
    doubleToInt_two_zpow _ (by omega)]

theorem int_log_two_of_3_7 : Int.log 2 (37 / 10 : ℚ) = 1 :=
  int_log_eq_of_zpow_bounds (by norm_num) (by norm_num)

/-- The example of the estimation: with two views of scale `3.7` the median is `3.7`,
`floor(log2(3.7)) = 1`, and the size is `(1024, 512)`. -/
theorem optimal_size_of_median_3_7 :
    computeOptimalPanoramaSize [some (37 / 10 : ℚ), none, some (37 / 10 : ℚ)]
      = some (1024, 512) := by
  rw [computeOptimalPanoramaSize_of_median _ (37 / 10) (by simp) (by simp [nthElement])
    (by norm_num) (by rw [int_log_two_of_3_7]; decide), int_log_two_of_3_7]
  rfl

theorem viewsOrderedByName_perm (views : List View) : (viewsOrderedByName views).Perm views :=
  List.perm_insertionSort _ views

theorem viewsOrderedByName_sorted (views : List View) :
    (viewsOrderedByName views).Sorted (fun a b => a.imagePath ≤ b.imagePath) := by
  haveI : IsTotal View (fun a b => a.imagePath ≤ b.imagePath) :=
    ⟨fun a b => le_total a.imagePath b.imagePath⟩
  haveI : IsTrans View (fun a b => a.imagePath ≤ b.imagePath) :=
    ⟨fun _ _ _ h1 h2 => le_trans h1 h2⟩
  exact List.sorted_insertionSort _ views

/-! ### Empty masks -/

namespace CoordinatesMap

theorem sweepRow_of_not_visible (W H : Int) (visible : Nat → Bool) (y width : Nat)
    (h : ∀ x, visible x = false) :
    sweepRow W H visible y width
      = { max_x := 0, max_y := 0, min_x := toSizeT W, min_y := toSizeT H } := by
  induction width with
  | zero => rfl
  | succ n ih => rw [sweepRow_succ, h n, ih]; rfl

theorem sweep_of_not_visible (W H : Int) (visible : Nat → Nat → Bool) (width height : Nat)
    (h : ∀ y x, visible y x = false) :
    sweep W H visible width height
      = { max_x := 0, max_y := 0, min_x := toSizeT W, min_y := toSizeT H } := by
  induction height with
  | zero => rfl
  | succ n ih =>
    rw [sweep_succ, ih, sweepRow_of_not_visible W H (visible n) n width (h n)]
    simp

/-- With no visible pixel in the coarse box the accumulators keep their initial values,
`max_x - min_x + 1` wraps around in `size_t`, and the final `block` is outside the coarse
buffers: `build` has no defined result. -/
theorem build_of_no_visible {V3 V2 : Type} (W H : Int) (coarse_bbox : BBox)
    (cam : Camera V3 V2) (rayOf : Nat → Nat → V3) (uninit : Nat → Nat → V2)
    (hW2 : 2 ≤ W) (hW : W < 2 ^ 31) (hw : coarse_bbox.width < 2 ^ 31)
    (hnone : ∀ y x, sweepAt coarse_bbox cam rayOf y x = none) :
    build W H coarse_bbox cam rayOf uninit = none := by
  have he : sweepExtrema W H coarse_bbox cam rayOf
      = { max_x := 0, max_y := 0, min_x := toSizeT W, min_y := toSizeT H } := by
    simp only [sweepExtrema]
    exact sweep_of_not_visible W H _ _ _ (fun y x => by rw [hnone y x]; rfl)
  simp only [build, he]
  split_ifs with h1 h2
  · rfl
  · exfalso
    have := h2.2
    simp only [bufferMask, toSizeT] at this
    omega
  · rfl

end CoordinatesMap

namespace GaussianPyramidNoMask

theorem processLoop_scales {α : Type} (convolve : Image α → Image α) :
    ∀ (count lvl : Nat) (p q : GaussianPyramidNoMask α),
      processLoop convolve count lvl p = some q → q._scales = p._scales := by
  intro count
  induction count with
  | zero =>
    intro lvl p q h
    simp only [processLoop, Option.some.injEq] at h
    rw [← h]
  | succ c ih =>
    intro lvl p q h
    simp only [processLoop] at h
    split at h
    · split at h
      · split at h
        · exact (ih _ _ _ h).trans rfl
        · exact absurd h (by simp)
      · exact absurd h (by simp)
    · exact absurd h (by simp)

/-- The pyramid that `GaussianWarper::warp` builds from a source of smallest dimension at
least `64`: the construction and `process` succeed, the number of levels is at least one,
level `0` is the source and level `l` is of size `(W / 2 ^ l, H / 2 ^ l)`. -/
theorem process_levels {α : Type} [Zero α] (convolve : Image α → Image α) (input : Image α)
    (hmin : 64 ≤ min input.Width input.Height) (hsize : min input.Width input.Height < 2 ^ 64) :
    ∃ p q : GaussianPyramidNoMask α,
      construct input.Width input.Height defaultLimitScales = some p ∧
      process convolve p input = some (true, q) ∧
      1 ≤ p.getScalesCount ∧
      q.getScalesCount = p.getScalesCount ∧
      toSizeT ((q.getScalesCount : Int) - 1) = p.getScalesCount - 1 ∧
      q.getPyramidColor.length = p.getScalesCount ∧
      q.getPyramidColor[0]? = some input ∧
      ∀ l, l < p.getScalesCount →
        ∃ a, q.getPyramidColor[l]? = some a ∧ a.Width = input.Width / 2 ^ l ∧
          a.Height = input.Height / 2 ^ l := by
  have hlog : 1 ≤ Nat.log 2 (min input.Width input.Height / 32) := by
    apply Nat.le_log_of_pow_le (by norm_num)
    rw [Nat.le_div_iff_mul_le (by norm_num)]
    omega
  have hlt : Nat.log 2 (min input.Width input.Height / 32) < 64 :=
    Nat.log_lt_of_lt_pow (by omega) (by omega)
  generalize hn : min defaultLimitScales (Nat.log 2 (min input.Width input.Height / 32)) = n
  have hn1 : 1 ≤ n := by
    simp only [defaultLimitScales] at hn
    omega
  have hn64 : n ≤ 64 := by
    simp only [defaultLimitScales] at hn
    omega
  have hcount : toSizeT ((n : Int) - 1) = n - 1 := by
    simp only [toSizeT]
    omega
  have hc := construct_eq (α := α) input.Width input.Height defaultLimitScales (by omega)
  rw [hn] at hc
  have h0 := allocate_getElem? (0 : α) n input.Width input.Height 0 (by omega)
  simp only [pow_zero, Nat.div_one] at h0
  have hsz : ∀ i, i < n →
      ∃ a, (allocate (0 : α) n input.Width input.Height)[i]? = some a ∧
        a.Width = input.Width / 2 ^ i ∧ a.Height = input.Height / 2 ^ i :=
    fun i hi => ⟨_, allocate_getElem? 0 _ _ _ i hi, rfl, rfl⟩
  have hset := sizesOk_set input.Width input.Height _ _
    (allocate_length (0 : α) n input.Width input.Height) hsz 0 input (by simp) (by simp)
  obtain ⟨q, hq, hkeep, hqlen, hqsz⟩ := processLoop_succeeds convolve input.Width input.Height
    n (n - 1) 0
    { _pyramid_color := (allocate (0 : α) n input.Width input.Height).set 0 input
      _filter_buffer := allocate 0 n input.Width input.Height
      _width_base := input.Width
      _height_base := input.Height
      _scales := n }
    (by omega) hset.1 hset.2 (allocate_length (0 : α) _ _ _) hsz
  have hqs := processLoop_scales convolve _ _ _ _ hq
  simp only at hqs
  refine ⟨_, q, hc, ?_, hn1, hqs, ?_, hqlen, ?_, hqsz⟩
  · simp only [process, h0, Image.filled, ne_eq, not_true_eq_false, if_false, hcount, hq]
  · simp only [getScalesCount, hqs, hcount]
  · simp only [getPyramidColor]
    rw [hkeep 0 (le_refl 0)]
    exact List.getElem?_set_self (by rw [allocate_length]; omega)

end GaussianPyramidNoMask

/-! ### Warping -/

namespace GaussianWarper

theorem floorLevel_eq_zero_of_lt_four {K : Type} [LinearOrderedField K] [FloorRing K]
    {det : K} (h : det < 4) : floorLevel det = 0 := by
  unfold floorLevel
  rcases le_or_lt det 0 with h0 | h0
  · rw [Int.log_of_right_le_zero 4 h0]
    rfl
  · have : Int.log 4 det < 1 :=
      (Int.lt_zpow_iff_log_lt (b := 4) (by norm_num) h0).1 (by simpa using h)
    omega

theorem floorLevel_eq_of_bounds {K : Type} [LinearOrderedField K] [FloorRing K]
    {det : K} (k : Nat) (h1 : (4 : K) ^ k ≤ det) (h2 : det < (4 : K) ^ (k + 1)) :
    floorLevel det = k := by
  unfold floorLevel
  have hr : 0 < det := lt_of_lt_of_le (pow_pos (by norm_num) k) h1
  have a : (k : Int) ≤ Int.log 4 det :=
    (Int.zpow_le_iff_le_log (b := 4) (by norm_num) hr).1 (by simpa using h1)
  have b : Int.log 4 det < (k : Int) + 1 :=
    (Int.lt_zpow_iff_log_lt (b := 4) (by norm_num) hr).1 (by
      have : (4 : K) ^ ((k : Int) + 1) = (4 : K) ^ (k + 1) := by
        rw [← zpow_natCast]
        push_cast
        rfl
      simpa [this] using h2)
  omega

/-- The level of source lines 1013-1016 in the words of the source: for `det ≥ 0` the value
`floor(max(0, log2(sqrt(det))))` is `floorLevel det`. -/
theorem floorLevel_eq_floor_max_logb (det : ℝ) (hdet : 0 ≤ det) :
    ⌊max 0 (Real.logb 2 (Real.sqrt det))⌋₊ = floorLevel det := by
  have hlog4 : Real.log 4 = 2 * Real.log 2 := by
    have : (4 : ℝ) = 2 ^ 2 := by norm_num
    rw [this, Real.log_pow]
    norm_num
  have hlog2 : 0 < Real.log 2 := Real.log_pos (by norm_num)
  have hb : Real.logb 2 (Real.sqrt det) = Real.logb 4 det := by
    unfold Real.logb
    rw [Real.log_sqrt hdet, hlog4]
    field_simp
  have hfl : ⌊Real.logb 4 det⌋ = Int.log 4 det := by
    have := Real.floor_logb_natCast (b := 4) hdet
    rw [← this]
    norm_num
  unfold floorLevel
  rw [hb, ← hfl]
  rcases le_total (Real.logb 4 det) 0 with h | h
  · rw [max_eq_left h]
    have : ⌊Real.logb 4 det⌋ ≤ 0 := Int.floor_nonpos h
    simp only [Nat.floor_zero]
    omega
  · rw [max_eq_right h, Int.floor_toNat]

theorem pixelPlan_skip {α K : Type} [LinearOrderedField K] [FloorRing K]
    (map : CoordinatesMap (K × K)) (mlsource : List (Image α)) (max_level i j : Nat)
    (hi : i < map._mask.Height) (hj : j < map._mask.Width) (h0 : map._mask.data i j = 0) :
    pixelPlan map mlsource max_level i j = some none := by
  simp only [pixelPlan, Image.get?, hi, hj, and_self, if_true, h0]

theorem pixelPlan_border {α K : Type} [LinearOrderedField K] [FloorRing K]
    (map : CoordinatesMap (K × K)) (mlsource : List (Image α)) (max_level i j : Nat)
    (hw : map._mask.Width = map._coordinates.Width)
    (hh : map._mask.Height = map._coordinates.Height)
    (hi : i < map._coordinates.Height) (hj : j < map._coordinates.Width)
    (hv : map._mask.data i j ≠ 0)
    (hb : i + 1 = map._coordinates.Height ∨ j + 1 = map._coordinates.Width ∨
      map._mask.data (i + 1) j = 0 ∨ map._mask.data i (j + 1) = 0) :
    pixelPlan map mlsource max_level i j
      = some (some (Sample.onSource (map._coordinates.data i j).2
          (map._coordinates.data i j).1)) := by
  simp only [pixelPlan, Image.get?, hw, hh, hi, hj, and_self, if_true, hv, if_false,
    Option.map_some']
  by_cases hedge : i + 1 = map._coordinates.Height ∨ j + 1 = map._coordinates.Width
  · rw [if_pos hedge]
  · rw [if_neg hedge]
    have hi1 : i + 1 < map._coordinates.Height := by omega
    have hj1 : j + 1 < map._coordinates.Width := by omega
    simp only [hi1, hj1, hj, hi, and_self, if_true]
    by_cases hbelow : map._mask.data (i + 1) j = 0
    · rw [if_pos hbelow]
    · rw [if_neg hbelow]
      have hright : map._mask.data i (j + 1) = 0 := by
        rcases hb with h | h | h | h
        · exact absurd (Or.inl h) hedge
        · exact absurd (Or.inr h) hedge
        · exact absurd h hbelow
        · exact h
      rw [if_pos hright]

theorem pixelPlan_interior {α K : Type} [LinearOrderedField K] [FloorRing K]
    (map : CoordinatesMap (K × K)) (mlsource : List (Image α)) (max_level i j : Nat)
    (hw : map._mask.Width = map._coordinates.Width)
    (hh : map._mask.Height = map._coordinates.Height)
    (hi : i + 1 < map._coordinates.Height) (hj : j + 1 < map._coordinates.Width)
    (hv : map._mask.data i j ≠ 0) (hbelow : map._mask.data (i + 1) j ≠ 0)
    (hright : map._mask.data i (j + 1) ≠ 0)
    (level first : Image α)
    (hlevel : mlsource[selectedLevel map max_level i j]? = some level)
    (hfirst : mlsource[0]? = some first) :
    pixelPlan map mlsource max_level i j
      = some (some
          (if (map._coordinates.data i j).1 * (1 / (2 : K) ^ selectedLevel map max_level i j)
                ≥ (((level.Width : Int) - 1 : Int) : K) ∨
              (map._coordinates.data i j).2 * (1 / (2 : K) ^ selectedLevel map max_level i j)
                ≥ (((level.Height : Int) - 1 : Int) : K) then
            Sample.onLevel 0 (map._coordinates.data i j).2 (map._coordinates.data i j).1
          else
            Sample.onLevel (selectedLevel map max_level i j)
              ((map._coordinates.data i j).2 * (1 / (2 : K) ^ selectedLevel map max_level i j))
              ((map._coordinates.data i j).1 *
                (1 / (2 : K) ^ selectedLevel map max_level i j)))) := by
  have hi0 : i < map._coordinates.Height := by omega
  have hj0 : j < map._coordinates.Width := by omega
  have hedge : ¬ (i + 1 = map._coordinates.Height ∨ j + 1 = map._coordinates.Width) := by
    omega
  simp only [pixelPlan, Image.get?, hw, hh, hi, hj, hi0, hj0, and_self, if_true, hv, hbelow,
    hright, if_false, hedge, hlevel, hfirst]
  split_ifs <;> rfl

theorem pixelColor_isSome {α K : Type} [LinearOrderedField K] [FloorRing K]
    (sampler : Image α → K → K → α) (background : α) (map : CoordinatesMap (K × K))
    (source : Image α) (mlsource : List (Image α)) (max_level i j : Nat)
    (hw : map._mask.Width = map._coordinates.Width)
    (hh : map._mask.Height = map._coordinates.Height)
    (hi : i < map._coordinates.Height) (hj : j < map._coordinates.Width)
    (hlevels : max_level < mlsource.length) :
    (pixelColor sampler background map source mlsource max_level i j).isSome = true := by
  by_cases hv : map._mask.data i j = 0
  · simp only [pixelColor, pixelPlan_skip map mlsource max_level i j (hh ▸ hi) (hw ▸ hj) hv,
      Option.isSome_some]
  · by_cases hb : i + 1 = map._coordinates.Height ∨ j + 1 = map._coordinates.Width ∨
        map._mask.data (i + 1) j = 0 ∨ map._mask.data i (j + 1) = 0
    · simp only [pixelColor, pixelPlan_border map mlsource max_level i j hw hh hi hj hv hb,
        sampleColor, Option.isSome_some]
    · have hsel : selectedLevel map max_level i j < mlsource.length :=
        lt_of_le_of_lt (min_le_left _ _) hlevels
      have h0 : 0 < mlsource.length := by omega
      have hlevel := List.getElem?_eq_getElem hsel
      have hfirst := List.getElem?_eq_getElem h0
      simp only [not_or] at hb
      rw [pixelColor, pixelPlan_interior map mlsource max_level i j hw hh (by omega) (by omega)
        hv hb.2.2.1 hb.2.2.2 _ _ hlevel hfirst]
      split_ifs
      · simp only [sampleColor, hfirst, Option.map_some', Option.isSome_some]
      · simp only [sampleColor, hlevel, Option.map_some', Option.isSome_some]

theorem warp_eq {α K : Type} [Zero α] [LinearOrderedField K] [FloorRing K]
    (sampler : Image α → K → K → α) (convolve : Image α → Image α) (background : α)
    (map : CoordinatesMap (K × K)) (source : Image α) (p q : GaussianPyramidNoMask α) (b : Bool)
    (hp : GaussianPyramidNoMask.construct source.Width source.Height
      GaussianPyramidNoMask.defaultLimitScales = some p)
    (hq : GaussianPyramidNoMask.process convolve p source = some (b, q))
    (hall : ∀ i j, i < map._coordinates.Height → j < map._coordinates.Width →
      (pixelColor sampler background map source q.getPyramidColor
        (toSizeT ((q.getScalesCount : Int) - 1)) i j).isSome = true) :
    warp sampler convolve background map source
      = some { Width := map._coordinates.Width
               Height := map._coordinates.Height
               data := fun i j =>
                 (pixelColor sampler background map source q.getPyramidColor
                   (toSizeT ((q.getScalesCount : Int) - 1)) i j).getD background } := by
  simp only [warp, hp, hq]
  rw [if_pos]
  simp only [List.all_eq_true, List.mem_range]
  exact fun i hi j hj => hall i j hi hj

/-- The case of the level selection that the source handles: when the source image has a
smallest dimension of at least `64`, the pyramid has `L ≥ 1` levels and the level selected at
a pixel is `min (L - 1) (floor (max 0 (log2 (sqrt det))))`: `0` when `det < 4`,
`min (L - 1) k` when `4 ^ k ≤ det < 4 ^ (k + 1)`, and always an index of the pyramid. -/
theorem selectedLevel_of_levels (convolve : Image ℝ → Image ℝ) (source : Image ℝ)
    (map : CoordinatesMap (ℝ × ℝ))
    (hmin : 64 ≤ min source.Width source.Height) (hsize : min source.Width source.Height < 2 ^ 64) :
    ∃ p q : GaussianPyramidNoMask ℝ,
      GaussianPyramidNoMask.construct source.Width source.Height
        GaussianPyramidNoMask.defaultLimitScales = some p ∧
      GaussianPyramidNoMask.process convolve p source = some (true, q) ∧
      1 ≤ q.getScalesCount ∧
      ∀ i j level det,
        level = selectedLevel map (toSizeT ((q.getScalesCount : Int) - 1)) i j →
        det = jacobianDet map._coordinates i j →
        level = min (q.getScalesCount - 1) ⌊max 0 (Real.logb 2 (Real.sqrt det))⌋₊ ∧
        (det < 4 → level = 0) ∧
        (∀ k : Nat, (4 : ℝ) ^ k ≤ det → det < (4 : ℝ) ^ (k + 1) →
          level = min (q.getScalesCount - 1) k) ∧
        level ≤ q.getScalesCount - 1 ∧
        (q.getPyramidColor[level]?).isSome = true := by
  obtain ⟨p, q, hp, hq, hL1, hqs, hmax, hlen, -, -⟩ :=
    GaussianPyramidNoMask.process_levels convolve source hmin hsize
  refine ⟨p, q, hp, hq, by omega, ?_⟩
  rintro i j level det rfl rfl
  rw [hmax, hqs]
  have hdet : 0 ≤ jacobianDet map._coordinates i j := abs_nonneg _
  refine ⟨?_, ?_, ?_, min_le_left _ _, ?_⟩
  · rw [floorLevel_eq_floor_max_logb _ hdet]
    rfl
  · intro h
    simp only [selectedLevel, floorLevel_eq_zero_of_lt_four h, Nat.min_zero]
  · intro k h1 h2
    simp only [selectedLevel, floorLevel_eq_of_bounds k h1 h2]
  · have : selectedLevel map (p.getScalesCount - 1) i j < q.getPyramidColor.length := by
      have := min_le_left (p.getScalesCount - 1) (floorLevel (jacobianDet map._coordinates i j))
      simp only [selectedLevel]
      omega
    rw [List.getElem?_eq_getElem this]
    rfl

/-- C11 (failing input): for a `40 x 40` source image the pyramid has `L = 0` levels, the
value `max_level = L - 1` computed in `size_t` is `2 ^ 64 - 1`, and at the interior pixel
`(0, 0)` of a map that reduces the source by four (`det = 16`) the selected level is `2`: it
is not at most `L - 1` and it is not an index of the (empty) pyramid; the call of `warp` has
no defined result. -/
theorem selected_level_out_of_range_on_small_image (sampler : Image ℚ → ℚ → ℚ → ℚ)
    (convolve : Image ℚ → Image ℚ) (background : ℚ) :
    ∃ p : GaussianPyramidNoMask ℚ,
      GaussianPyramidNoMask.construct 40 40 GaussianPyramidNoMask.defaultLimitScales = some p ∧
      p.getScalesCount = 0 ∧
      toSizeT ((p.getScalesCount : Int) - 1) = 2 ^ 64 - 1 ∧
      jacobianDet (quarterScaleMap 2 2)._coordinates 0 0 = 16 ∧
      selectedLevel (quarterScaleMap 2 2) (toSizeT ((p.getScalesCount : Int) - 1)) 0 0 = 2 ∧
      ¬ ((selectedLevel (quarterScaleMap 2 2) (toSizeT ((p.getScalesCount : Int) - 1)) 0 0 : Int)
          ≤ (p.getScalesCount : Int) - 1) ∧
      p.getPyramidColor[selectedLevel (quarterScaleMap 2 2)
        (toSizeT ((p.getScalesCount : Int) - 1)) 0 0]? = none ∧
      warp sampler convolve background (quarterScaleMap 2 2) (Image.filled 40 40 0) = none := by
  have hlog : Nat.log 2 (min 40 40 / 32) = 0 := by simp [Nat.log]
  have hdet : jacobianDet (quarterScaleMap 2 2)._coordinates 0 0 = 16 := by
    simp only [jacobianDet, quarterScaleMap]
    norm_num
  have hfl : floorLevel (16 : ℚ) = 2 := floorLevel_eq_of_bounds 2 (by norm_num) (by norm_num)
  have hsize : toSizeT (((0 : Nat) : Int) - 1) = 2 ^ 64 - 1 := by
    simp only [toSizeT]
    omega
  have hsel : selectedLevel (quarterScaleMap 2 2) (2 ^ 64 - 1) 0 0 = 2 := by
    simp only [selectedLevel, hdet, hfl]
    omega
  have hc := GaussianPyramidNoMask.construct_eq (α := ℚ) 40 40
    GaussianPyramidNoMask.defaultLimitScales (by decide)
  simp only [hlog, Nat.min_zero, GaussianPyramidNoMask.allocate] at hc
  refine ⟨_, hc, rfl, ?_, hdet, ?_, ?_, ?_, ?_⟩
  · exact hsize
  · simp only [GaussianPyramidNoMask.getScalesCount, hsize, hsel]
  · simp only [GaussianPyramidNoMask.getScalesCount, hsize, hsel]
    omega
  · simp only [GaussianPyramidNoMask.getPyramidColor, List.getElem?_nil]
  · simp only [warp, Image.filled, hc, GaussianPyramidNoMask.process, List.getElem?_nil]

/-- C13 (counterexample): level `0` is sampled outside `[0, width_0 - 1)`. For a `64 x 64`
source and the map `lastColumnMap`, the interior pixel `(0, 0)` has a non-zero mask, selected
level `0` and stored coordinate `(63.5, 0)` with `63.5 ≥ 64 - 1`; the fallback samples
`pyramid[0]`, a raster of `64` columns, at column coordinate `63.5`. -/
theorem fallback_samples_level_zero_outside_interior :
    ∃ (p q : GaussianPyramidNoMask ℚ) (level : Image ℚ),
      GaussianPyramidNoMask.construct 64 64 GaussianPyramidNoMask.defaultLimitScales = some p ∧
      GaussianPyramidNoMask.process id p (Image.filled 64 64 0) = some (true, q) ∧
      lastColumnMap._mask.data 0 0 ≠ 0 ∧ lastColumnMap._mask.data 1 0 ≠ 0 ∧
      lastColumnMap._mask.data 0 1 ≠ 0 ∧
      lastColumnMap._coordinates.data 0 0 = (127 / 2, 0) ∧
      selectedLevel lastColumnMap (toSizeT ((q.getScalesCount : Int) - 1)) 0 0 = 0 ∧
      q.getPyramidColor[0]? = some level ∧ level.Width = 64 ∧ level.Height = 64 ∧
      pixelPlan lastColumnMap q.getPyramidColor (toSizeT ((q.getScalesCount : Int) - 1)) 0 0
        = some (some (Sample.onLevel 0 0 (127 / 2))) ∧
      ¬ ((127 / 2 : ℚ) < (level.Width : ℚ) - 1) := by
  obtain ⟨p, q, hp, hq, -, -, -, -, h0, -⟩ :=
    GaussianPyramidNoMask.process_levels id (Image.filled 64 64 (0 : ℚ)) (by decide) (by decide)
  have hdet : jacobianDet lastColumnMap._coordinates 0 0 = 1 := by
    simp only [jacobianDet, lastColumnMap]
    norm_num
  have hsel : selectedLevel lastColumnMap (toSizeT ((q.getScalesCount : Int) - 1)) 0 0 = 0 := by
    simp only [selectedLevel, hdet, floorLevel_eq_zero_of_lt_four (show (1 : ℚ) < 4 by norm_num),
      Nat.min_zero]
  have hcoord : lastColumnMap._coordinates.data 0 0 = ((127 / 2 : ℚ), (0 : ℚ)) := by
    simp only [lastColumnMap]
    norm_num
  refine ⟨p, q, Image.filled 64 64 0, hp, hq, by decide, by decide, by decide, hcoord, hsel, h0,
    rfl, rfl, ?_, ?_⟩
  · rw [pixelPlan_interior lastColumnMap _ _ 0 0 rfl rfl (by decide) (by decide) (by decide)
      (by decide) (by decide) (Image.filled 64 64 0) (Image.filled 64 64 0)
      (by rw [hsel]; exact h0) h0]
    simp only [hsel, hcoord, pow_zero, div_one, mul_one, Image.filled]
    norm_num
  · simp only [Image.filled]
    norm_num

/-- C13 (amended): for a source image whose smallest dimension is at least `64` and a map
whose mask and coordinates have the same size, at every interior pixel with a non-zero mask
(its neighbours `(i + 1, j)` and `(i, j + 1)` have a non-zero mask too), with selected level
`l` and stored coordinate `(x, y)`: level `l` of the pyramid is of size
`(W / 2 ^ l, H / 2 ^ l)`; if `x / 2 ^ l < width_l - 1` and `y / 2 ^ l < height_l - 1` the
colour is the sample of `pyramid[l]` at `(x / 2 ^ l, y / 2 ^ l)`; otherwise it is the sample
of `pyramid[0]`, which is the source, at `(x, y)`. When `x, y ≥ 0`, a level `l' ≥ 1` is
sampled only inside `[0, width_l' - 1) × [0, height_l' - 1)`. -/
theorem interior_pixels_sample_level_or_fall_back {α K : Type} [Zero α]
    [LinearOrderedField K] [FloorRing K]
    (sampler : Image α → K → K → α) (convolve : Image α → Image α) (background : α)
    (map : CoordinatesMap (K × K)) (source : Image α)
    (hmin : 64 ≤ min source.Width source.Height) (hsize : min source.Width source.Height < 2 ^ 64)
    (hw : map._mask.Width = map._coordinates.Width)
    (hh : map._mask.Height = map._coordinates.Height) :
    ∃ (p q : GaussianPyramidNoMask α) (color : Image α),
      GaussianPyramidNoMask.construct source.Width source.Height
        GaussianPyramidNoMask.defaultLimitScales = some p ∧
      GaussianPyramidNoMask.process convolve p source = some (true, q) ∧
      q.getPyramidColor[0]? = some source ∧
      warp sampler convolve background map source = some color ∧
      ∀ i j, i + 1 < map._coordinates.Height → j + 1 < map._coordinates.Width →
        map._mask.data i j ≠ 0 → map._mask.data (i + 1) j ≠ 0 →
        map._mask.data i (j + 1) ≠ 0 →
        ∀ (l : Nat) (x y : K),
          l = selectedLevel map (toSizeT ((q.getScalesCount : Int) - 1)) i j →
          (x, y) = map._coordinates.data i j →
          ∃ level : Image α,
            q.getPyramidColor[l]? = some level ∧
            level.Width = source.Width / 2 ^ l ∧ level.Height = source.Height / 2 ^ l ∧
            (x * (1 / 2 ^ l) < (level.Width : K) - 1 ∧ y * (1 / 2 ^ l) < (level.Height : K) - 1 →
              pixelPlan map q.getPyramidColor (toSizeT ((q.getScalesCount : Int) - 1)) i j
                  = some (some (Sample.onLevel l (y * (1 / 2 ^ l)) (x * (1 / 2 ^ l)))) ∧
                color.data i j = sampler level (y * (1 / 2 ^ l)) (x * (1 / 2 ^ l))) ∧
            (¬ (x * (1 / 2 ^ l) < (level.Width : K) - 1 ∧
                y * (1 / 2 ^ l) < (level.Height : K) - 1) →
              pixelPlan map q.getPyramidColor (toSizeT ((q.getScalesCount : Int) - 1)) i j
                  = some (some (Sample.onLevel 0 y x)) ∧
                color.data i j = sampler source y x) ∧
            (0 ≤ x → 0 ≤ y → ∀ (l' : Nat) (y' x' : K),
              pixelPlan map q.getPyramidColor (toSizeT ((q.getScalesCount : Int) - 1)) i j
                  = some (some (Sample.onLevel l' y' x')) →
              1 ≤ l' →
              l' = l ∧ 0 ≤ x' ∧ x' < (level.Width : K) - 1 ∧
                0 ≤ y' ∧ y' < (level.Height : K) - 1) := by
  obtain ⟨p, q, hp, hq, hL1, hqs, hmax, hlen, h0, hsz⟩ :=
    GaussianPyramidNoMask.process_levels convolve source hmin hsize
  have hall : ∀ i j, i < map._coordinates.Height → j < map._coordinates.Width →
      (pixelColor sampler background map source q.getPyramidColor
        (toSizeT ((q.getScalesCount : Int) - 1)) i j).isSome = true :=
    fun i j hi hj => pixelColor_isSome sampler background map source q.getPyramidColor _ i j
      hw hh hi hj (by rw [hmax, hlen]; omega)
  refine ⟨p, q, _, hp, hq, h0,
    warp_eq sampler convolve background map source p q true hp hq hall, ?_⟩
  rintro i j hi hj hv hbelow hright l x y rfl hxy
  have hsel : selectedLevel map (toSizeT ((q.getScalesCount : Int) - 1)) i j
      < p.getScalesCount := by
    have := min_le_left (toSizeT ((q.getScalesCount : Int) - 1))
      (floorLevel (jacobianDet map._coordinates i j))
    simp only [selectedLevel]
    omega
  obtain ⟨level, hlevel, hlw, hlh⟩ := hsz _ hsel
  have hx : (map._coordinates.data i j).1 = x := by rw [← hxy]
  have hy : (map._coordinates.data i j).2 = y := by rw [← hxy]
  have hplan := pixelPlan_interior map q.getPyramidColor
    (toSizeT ((q.getScalesCount : Int) - 1)) i j hw hh hi hj hv hbelow hright level source
    hlevel h0
  rw [hx, hy] at hplan
  have hcast : ∀ n : Nat, (((n : Int) - 1 : Int) : K) = (n : K) - 1 := by
    intro n
    push_cast
    rfl
  rw [hcast, hcast] at hplan
  refine ⟨level, hlevel, hlw, hlh, ?_, ?_, ?_⟩
  · intro hin
    have hcond : ¬ (x * (1 / 2 ^ selectedLevel map (toSizeT ((q.getScalesCount : Int) - 1)) i j)
          ≥ (level.Width : K) - 1 ∨
        y * (1 / 2 ^ selectedLevel map (toSizeT ((q.getScalesCount : Int) - 1)) i j)
          ≥ (level.Height : K) - 1) := by
      rw [not_or, not_le, not_le]
      exact hin
    rw [if_neg hcond] at hplan
    refine ⟨hplan, ?_⟩
    simp only [pixelColor, hplan, sampleColor, hlevel, Option.map_some', Option.getD_some]
  · intro hout
    have hcond : x * (1 / 2 ^ selectedLevel map (toSizeT ((q.getScalesCount : Int) - 1)) i j)
          ≥ (level.Width : K) - 1 ∨
        y * (1 / 2 ^ selectedLevel map (toSizeT ((q.getScalesCount : Int) - 1)) i j)
          ≥ (level.Height : K) - 1 := by
      by_contra hc
      rw [not_or, not_le, not_le] at hc
      exact hout hc
    rw [if_pos hcond] at hplan
    refine ⟨hplan, ?_⟩
    simp only [pixelColor, hplan, sampleColor, h0, Option.map_some', Option.getD_some]
  · intro hx0 hy0 l' y' x' hp' hl'
    rw [hplan] at hp'
    have hpos : (0 : K) ≤ 1 / 2 ^ selectedLevel map (toSizeT ((q.getScalesCount : Int) - 1)) i j :=
      by positivity
    split_ifs at hp' with hcond
    · simp only [Option.some.injEq, Sample.onLevel.injEq] at hp'
      omega
    · simp only [Option.some.injEq, Sample.onLevel.injEq] at hp'
      obtain ⟨h1, h2, h3⟩ := hp'
      rw [not_or, not_le, not_le] at hcond
      subst h1 h2 h3
      exact ⟨rfl, mul_nonneg hx0 hpos, hcond.1, mul_nonneg hy0 hpos, hcond.2⟩

theorem interior_pixels_sample_level_or_fall_back_witness :
    ∃ (p q : GaussianPyramidNoMask ℚ) (color : Image ℚ),
      GaussianPyramidNoMask.construct (Image.filled 64 64 (0 : ℚ)).Width
        (Image.filled 64 64 (0 : ℚ)).Height GaussianPyramidNoMask.defaultLimitScales = some p ∧
      GaussianPyramidNoMask.process id p (Image.filled 64 64 0) = some (true, q) ∧
      q.getPyramidColor[0]? = some (Image.filled 64 64 0) ∧
      warp nearestSampler id 1 (quarterScaleMap 3 3) (Image.filled 64 64 0) = some color ∧
      ∀ i j, i + 1 < (quarterScaleMap 3 3)._coordinates.Height →
        j + 1 < (quarterScaleMap 3 3)._coordinates.Width →
        (quarterScaleMap 3 3)._mask.data i j ≠ 0 →
        (quarterScaleMap 3 3)._mask.data (i + 1) j ≠ 0 →
        (quarterScaleMap 3 3)._mask.data i (j + 1) ≠ 0 →
        ∀ (l : Nat) (x y : ℚ),
          l = selectedLevel (quarterScaleMap 3 3) (toSizeT ((q.getScalesCount : Int) - 1)) i j →
          (x, y) = (quarterScaleMap 3 3)._coordinates.data i j →
          ∃ level : Image ℚ,
            q.getPyramidColor[l]? = some level ∧
            level.Width = (Image.filled 64 64 (0 : ℚ)).Width / 2 ^ l ∧
            level.Height = (Image.filled 64 64 (0 : ℚ)).Height / 2 ^ l ∧
            (x * (1 / 2 ^ l) < (level.Width : ℚ) - 1 ∧ y * (1 / 2 ^ l) < (level.Height : ℚ) - 1 →
              pixelPlan (quarterScaleMap 3 3) q.getPyramidColor
                  (toSizeT ((q.getScalesCount : Int) - 1)) i j
                  = some (some (Sample.onLevel l (y * (1 / 2 ^ l)) (x * (1 / 2 ^ l)))) ∧
                color.data i j = nearestSampler level (y * (1 / 2 ^ l)) (x * (1 / 2 ^ l))) ∧
            (¬ (x * (1 / 2 ^ l) < (level.Width : ℚ) - 1 ∧
                y * (1 / 2 ^ l) < (level.Height : ℚ) - 1) →
              pixelPlan (quarterScaleMap 3 3) q.getPyramidColor
                  (toSizeT ((q.getScalesCount : Int) - 1)) i j
                  = some (some (Sample.onLevel 0 y x)) ∧
                color.data i j = nearestSampler (Image.filled 64 64 0) y x) ∧
            (0 ≤ x → 0 ≤ y → ∀ (l' : Nat) (y' x' : ℚ),
              pixelPlan (quarterScaleMap 3 3) q.getPyramidColor
                  (toSizeT ((q.getScalesCount : Int) - 1)) i j
                  = some (some (Sample.onLevel l' y' x')) →
              1 ≤ l' →
              l' = l ∧ 0 ≤ x' ∧ x' < (level.Width : ℚ) - 1 ∧
                0 ≤ y' ∧ y' < (level.Height : ℚ) - 1) :=
  interior_pixels_sample_level_or_fall_back nearestSampler id 1 (quarterScaleMap 3 3)
    (Image.filled 64 64 0) (by decide) (by decide) rfl rfl

end GaussianWarper

namespace GaussianWarper

theorem warp_none_of_small_source {α K : Type} [Zero α] [LinearOrderedField K] [FloorRing K]
    (sampler : Image α → K → K → α) (convolve : Image α → Image α) (background : α)
    (map : CoordinatesMap (K × K)) (source : Image α)
    (h : min source.Width source.Height < 64) :
    warp sampler convolve background map source = none := by
  by_cases h32 : min source.Width source.Height < 32
  · simp only [warp, GaussianPyramidNoMask.construct, GaussianPyramidNoMask.floorLog2Quot,
      if_pos h32]
  · have hlog : Nat.log 2 (min source.Width source.Height / 32) = 0 :=
      Nat.log_of_lt (by omega)
    have hc := GaussianPyramidNoMask.construct_eq (α := α) source.Width source.Height
      GaussianPyramidNoMask.defaultLimitScales (by omega)
    simp only [hlog, Nat.min_zero, GaussianPyramidNoMask.allocate] at hc
    simp only [warp, hc, GaussianPyramidNoMask.process, List.getElem?_nil]

end GaussianWarper

/-! ### Per-view loop -/

namespace GaussianWarper

theorem warp_isSome_of_large_source {α K : Type} [Zero α] [LinearOrderedField K] [FloorRing K]
    (sampler : Image α → K → K → α) (convolve : Image α → Image α) (background : α)
    (map : CoordinatesMap (K × K)) (source : Image α)
    (hw : map._mask.Width = map._coordinates.Width)
    (hh : map._mask.Height = map._coordinates.Height)
    (hmin : 64 ≤ min source.Width source.Height)
    (hsize : min source.Width source.Height < 2 ^ 64) :
    ∃ color, warp sampler convolve background map source = some color := by
  obtain ⟨p, q, hp, hq, hL1, -, hmax, hlen, -, -⟩ :=
    GaussianPyramidNoMask.process_levels convolve source hmin hsize
  have hall : ∀ i j, i < map._coordinates.Height → j < map._coordinates.Width →
      (pixelColor sampler background map source q.getPyramidColor
        (toSizeT ((q.getScalesCount : Int) - 1)) i j).isSome = true :=
    fun i j hi hj => pixelColor_isSome sampler background map source q.getPyramidColor _ i j
      hw hh hi hj (by rw [hmax, hlen]; omega)
  exact ⟨_, warp_eq sampler convolve background map source p q true hp hq hall⟩

end GaussianWarper

/-- The body of the loop reaches its end with the entry numbered `pos` when `build` gives a
map, the image is read and has a smallest dimension of at least `64`, and the three rasters
are written. -/
theorem processView_of_complete {V3 K α : Type} [Zero α] [LinearOrderedField K] [FloorRing K]
    (scene : Scene V3 K α) (view : View) (pos : Nat) (coarse_bbox : BBox)
    (map : CoordinatesMap (K × K)) (source : Image α)
    (hcoarse : (scene.geometry view).coarse = some (true, coarse_bbox))
    (hbuild : CoordinatesMap.build scene.panoramaSize.1 scene.panoramaSize.2 coarse_bbox
      (scene.geometry view).camera scene.rayOf scene.uninit = some map)
    (hw : map._mask.Width = map._coordinates.Width)
    (hh : map._mask.Height = map._coordinates.Height)
    (hread : scene.readImage view.imagePath = some source)
    (hmin : 64 ≤ min source.Width source.Height)
    (hsize : min source.Width source.Height < 2 ^ 64)
    (hwrite : ∀ path raster, scene.writeImage path raster = true) :
    processView scene view pos
      = some (viewEntry scene.outputDirectory pos (map._offset_x, map._offset_y)) := by
  obtain ⟨color, hcolor⟩ := GaussianWarper.warp_isSome_of_large_source scene.sampler
    scene.convolve scene.background map source hw hh hmin hsize
  simp only [processView, CoordinatesMap.buildMethod, hcoarse, hbuild, hread, hcolor, hwrite,
    Bool.and_self, if_true]

/-- The body of the loop does not reach its end when `build` has no defined result, when the
image cannot be read, or when the image has a smallest dimension below `64`. -/
theorem processView_of_abort {V3 K α : Type} [Zero α] [LinearOrderedField K] [FloorRing K]
    (scene : Scene V3 K α) (view : View) (pos : Nat) (coarse_bbox : BBox)
    (hcoarse : (scene.geometry view).coarse = some (true, coarse_bbox))
    (habort : CoordinatesMap.build scene.panoramaSize.1 scene.panoramaSize.2 coarse_bbox
        (scene.geometry view).camera scene.rayOf scene.uninit = none ∨
      scene.readImage view.imagePath = none ∨
      ∃ source, scene.readImage view.imagePath = some source ∧
        min source.Width source.Height < 64) :
    processView scene view pos = none := by
  rcases habort with h | h | ⟨source, h, hsmall⟩
  · simp only [processView, CoordinatesMap.buildMethod, hcoarse, h]
  · simp only [processView, CoordinatesMap.buildMethod, hcoarse]
    cases hb : CoordinatesMap.build scene.panoramaSize.1 scene.panoramaSize.2 coarse_bbox
        (scene.geometry view).camera scene.rayOf scene.uninit with
    | none => rfl
    | some map => simp only [h]
  · simp only [processView, CoordinatesMap.buildMethod, hcoarse]
    cases hb : CoordinatesMap.build scene.panoramaSize.1 scene.panoramaSize.2 coarse_bbox
        (scene.geometry view).camera scene.rayOf scene.uninit with
    | none => rfl
    | some map =>
      simp only [h, GaussianWarper.warp_none_of_small_source _ _ _ _ _ hsmall]

theorem perViewLoop_of_complete {V3 K α : Type} [Zero α] [LinearOrderedField K] [FloorRing K]
    (scene : Scene V3 K α) (l : List View)
    (hcomplete : ∀ view ∈ l, view.poseAndIntrinsicDefined = true →
      ∀ pos, ∃ entry, processView scene view pos = some entry) :
    ∀ pos, ∃ entries, perViewLoop scene l pos = some entries ∧
      entries.length = (l.filter (fun v => v.poseAndIntrinsicDefined)).length ∧
      ∀ k, k < entries.length →
        ∃ view, (l.filter (fun v => v.poseAndIntrinsicDefined))[k]? = some view ∧
          processView scene view (pos + k) = entries[k]? := by
  induction l with
  | nil =>
    intro pos
    exact ⟨[], rfl, rfl, fun k hk => absurd hk (Nat.not_lt_zero k)⟩
  | cons v rest ih =>
    intro pos
    have ih' := ih (fun view hview => hcomplete view (List.mem_cons_of_mem v hview))
    cases hv : v.poseAndIntrinsicDefined with
    | false =>
      obtain ⟨entries, he, hl, hk⟩ := ih' pos
      refine ⟨entries, ?_, ?_, ?_⟩
      · simp only [perViewLoop, hv, Bool.not_false, if_true, he]
      · simp only [List.filter_cons, hv, hl, Bool.false_eq_true, if_false]
      · intro k hklt
        obtain ⟨view, h1, h2⟩ := hk k hklt
        exact ⟨view, by simp only [List.filter_cons, hv, Bool.false_eq_true, if_false, h1], h2⟩
    | true =>
      obtain ⟨entry, hentry⟩ := hcomplete v (List.mem_cons_self v rest) hv pos
      obtain ⟨entries, he, hl, hk⟩ := ih' (pos + 1)
      refine ⟨entry :: entries, ?_, ?_, ?_⟩
      · simp only [perViewLoop, hv, Bool.not_true, Bool.false_eq_true, if_false, hentry, he]
      · simp only [List.filter_cons, hv, if_true, List.length_cons, hl]
      · intro k hklt
        cases k with
        | zero =>
          refine ⟨v, by simp only [List.filter_cons, hv, if_true, List.getElem?_cons_zero], ?_⟩
          simp only [Nat.add_zero, hentry, List.getElem?_cons_zero]
        | succ k =>
          obtain ⟨view, h1, h2⟩ := hk k (by simpa using hklt)
          refine ⟨view, by simp only [List.filter_cons, hv, if_true, List.getElem?_cons_succ,
            h1], ?_⟩
          simp only [List.getElem?_cons_succ]
          rw [← h2]
          congr 1
          omega

theorem perViewLoop_of_abort {V3 K α : Type} [Zero α] [LinearOrderedField K] [FloorRing K]
    (scene : Scene V3 K α) (l : List View) (view : View) (hmem : view ∈ l)
    (hdef : view.poseAndIntrinsicDefined = true)
    (habort : ∀ pos, processView scene view pos = none) :
    ∀ pos, perViewLoop scene l pos = none := by
  induction l with
  | nil => exact absurd hmem (List.not_mem_nil view)
  | cons v rest ih =>
    intro pos
    rcases List.mem_cons.1 hmem with h | h
    · subst h
      simp only [perViewLoop, hdef, Bool.not_true, Bool.false_eq_true, if_false, habort]
    · cases hv : v.poseAndIntrinsicDefined with
      | false => simp only [perViewLoop, hv, Bool.not_false, if_true, ih h]
      | true =>
        simp only [perViewLoop, hv, Bool.not_true, Bool.false_eq_true, if_false]
        cases processView scene v pos with
        | none => rfl
        | some entry => simp only [ih h]

theorem processView_entry {V3 K α : Type} [Zero α] [LinearOrderedField K] [FloorRing K]
    (scene : Scene V3 K α) (view : View) (pos : Nat) (entry : ViewEntry)
    (h : processView scene view pos = some entry) :
    ∃ offset : Nat × Nat, entry = viewEntry scene.outputDirectory pos offset := by
  simp only [processView] at h
  split at h
  · exact absurd h (by simp)
  · split at h
    · exact absurd h (by simp)
    · split at h
      · exact absurd h (by simp)
      · split_ifs at h
        exact ⟨_, (Option.some.inj h).symm⟩

theorem perViewLoop_cons_skip {V3 K α : Type} [Zero α] [LinearOrderedField K] [FloorRing K]
    (scene : Scene V3 K α) (view : View) (rest : List View) (pos : Nat)
    (h : view.poseAndIntrinsicDefined = false) :
    perViewLoop scene (view :: rest) pos = perViewLoop scene rest pos := by
  simp only [perViewLoop, h, Bool.not_false, if_true]

theorem perViewLoop_cons_entry {V3 K α : Type} [Zero α] [LinearOrderedField K] [FloorRing K]
    (scene : Scene V3 K α) (view : View) (rest : List View) (pos : Nat) (entry : ViewEntry)
    (h : view.poseAndIntrinsicDefined = true) (he : processView scene view pos = some entry) :
    perViewLoop scene (view :: rest) pos
      = (perViewLoop scene rest (pos + 1)).map fun entries => entry :: entries := by
  simp only [perViewLoop, h, Bool.not_true, Bool.false_eq_true, if_false, he]
  cases perViewLoop scene rest (pos + 1) <;> rfl

/-- C19 (as amended): for every list of views and every ordering of it by ascending image
path, if the processing of every view with pose and intrinsics reaches its end (`build` has a
result, the image is read, `GaussianWarper::warp` has a result, the three rasters are
written), the manifest has exactly one entry per view with pose and intrinsics defined, these
views appear in ascending image-path order, and the `k`-th entry (from `0`) is the one that
the processing of the `k`-th such view pushes with the counter at `k`: it names
`view_k.exr`, `mask_k.png` and `weightmap_k.exr`, so skipped views leave no gap. If the
processing of one view with pose and intrinsics does not reach its end, the loop stops in
that view and no manifest is written. -/
theorem manifest_one_entry_per_defined_view {V3 K α : Type} [Zero α] [LinearOrderedField K]
    [FloorRing K] (scene : Scene V3 K α) (views ordered : List View)
    (hperm : ordered.Perm views)
    (hsorted : ordered.Sorted (fun a b => a.imagePath ≤ b.imagePath)) :
    ((∀ view ∈ views, view.poseAndIntrinsicDefined = true →
        ∀ pos, ∃ entry, processView scene view pos = some entry) →
      ∃ (emitted : List View) (manifest : List ViewEntry),
        perViewLoop scene ordered 0 = some manifest ∧
        emitted = ordered.filter (fun v => v.poseAndIntrinsicDefined) ∧
        emitted.Perm (views.filter (fun v => v.poseAndIntrinsicDefined)) ∧
        emitted.Sorted (fun a b => a.imagePath ≤ b.imagePath) ∧
        manifest.length = (views.filter (fun v => v.poseAndIntrinsicDefined)).length ∧
        ∀ k, k < manifest.length →
          ∃ (view : View) (entry : ViewEntry) (offset : Nat × Nat),
            emitted[k]? = some view ∧
            manifest[k]? = some entry ∧
            processView scene view k = some entry ∧
            entry.filename_view = scene.outputDirectory ++ "/view_" ++ toString k ++ ".exr" ∧
            entry.filename_mask = scene.outputDirectory ++ "/mask_" ++ toString k ++ ".png" ∧
            entry.filename_weights
              = scene.outputDirectory ++ "/weightmap_" ++ toString k ++ ".exr" ∧
            entry.offsetx = offset.1 ∧ entry.offsety = offset.2) ∧
    ((∃ view ∈ views, view.poseAndIntrinsicDefined = true ∧
        ∀ pos, processView scene view pos = none) →
      perViewLoop scene ordered 0 = none) := by
  constructor
  · intro hcomplete
    have hp := List.Perm.filter (fun v : View => v.poseAndIntrinsicDefined) hperm
    obtain ⟨manifest, hm, hlen, hk⟩ := perViewLoop_of_complete scene ordered
      (fun view hview => hcomplete view (hperm.mem_iff.1 hview)) 0
    refine ⟨_, manifest, hm, rfl, hp, hsorted.sublist (List.filter_sublist _), ?_, ?_⟩
    · rw [hlen]
      exact hp.length_eq
    · intro k hklt
      obtain ⟨view, h1, h2⟩ := hk k hklt
      rw [Nat.zero_add] at h2
      have h3 : manifest[k]? = some manifest[k] := List.getElem?_eq_getElem hklt
      rw [h3] at h2
      obtain ⟨offset, hoff⟩ := processView_entry scene view k _ h2
      refine ⟨view, manifest[k], offset, h1, h3, h2, ?_, ?_, ?_, ?_, ?_⟩ <;> rw [hoff] <;> rfl
  · rintro ⟨view, hmem, hdef, habort⟩
    exact perViewLoop_of_abort scene ordered view (hperm.mem_iff.2 hmem) hdef habort 0

theorem exampleScene_processView (view : View) (pos : Nat)
    (h1 : view.imagePath ≠ "blind.jpg") (h2 : view.imagePath ≠ "missing.jpg")
    (h3 : view.imagePath ≠ "small.jpg") :
    processView exampleScene view pos = some (viewEntry "out" pos (2, 1)) := by
  have hcam : (exampleScene.geometry view).camera = wideCamera := by
    simp only [exampleScene, if_neg h1]
  have hread : exampleScene.readImage view.imagePath = some (Image.filled 64 64 1) := by
    simp only [exampleScene, if_neg h2, if_neg h3]
  have hvis : ∃ y x, (CoordinatesMap.bufferMask ⟨2, 1, 4, 2⟩ wideCamera
      (fun cx cy => (cx % 8, cy))).data y x = 1 := ⟨0, 0, by decide⟩
  have hbuild := CoordinatesMap.build_of_visible 8 4 ⟨2, 1, 4, 2⟩ wideCamera
    (fun cx cy => (cx % 8, cy)) (fun _ _ => ((0 : ℚ), (0 : ℚ))) (by decide) (by decide) hvis
  have hview := processView_of_complete exampleScene view pos ⟨2, 1, 4, 2⟩ _
    (Image.filled 64 64 1) rfl (by rw [hcam]; exact hbuild) rfl rfl hread (by decide)
    (by decide) (fun _ _ => rfl)
  rw [hview]
  have hx : CoordinatesMap.offsetX 8 ⟨2, 1, 4, 2⟩
      (CoordinatesMap.sweepExtrema 8 4 ⟨2, 1, 4, 2⟩ wideCamera
        (fun cx cy => (cx % 8, cy))).min_x = 2 := by decide
  have hy : (toSizeT (⟨2, 1, 4, 2⟩ : BBox).top
      + (CoordinatesMap.sweepExtrema 8 4 ⟨2, 1, 4, 2⟩ wideCamera
        (fun cx cy => (cx % 8, cy))).min_y) % 2 ^ 64 = 1 := by decide
  simp only [hx, hy]
  rfl

theorem exampleScene_abort (view : View) (pos : Nat)
    (h : view.imagePath = "blind.jpg" ∨ view.imagePath = "missing.jpg" ∨
      view.imagePath = "small.jpg") :
    processView exampleScene view pos = none := by
  apply processView_of_abort exampleScene view pos ⟨2, 1, 4, 2⟩ rfl
  rcases h with h | h | h
  · left
    have hcam : (exampleScene.geometry view).camera = blindCamera (0, 0) := by
      simp only [exampleScene, if_pos h]
    rw [hcam]
    exact CoordinatesMap.build_of_no_visible 8 4 ⟨2, 1, 4, 2⟩ (blindCamera (0, 0)) _ _
      (by decide) (by decide) (by decide) (fun _ _ => rfl)
  · right
    left
    simp only [exampleScene, if_pos h]
  · right
    right
    refine ⟨Image.filled 40 40 1, ?_, by decide⟩
    have h2 : view.imagePath ≠ "missing.jpg" := by
      rw [h]
      decide
    simp only [exampleScene, if_neg h2, if_pos h]

theorem manifest_one_entry_per_defined_view_witness :
    ∃ (emitted : List View) (manifest : List ViewEntry),
      perViewLoop exampleScene
        (viewsOrderedByName [⟨"c.jpg", true⟩, ⟨"a.jpg", false⟩, ⟨"b.jpg", true⟩]) 0
          = some manifest ∧
      emitted = (viewsOrderedByName
          [⟨"c.jpg", true⟩, ⟨"a.jpg", false⟩, ⟨"b.jpg", true⟩]).filter
            (fun v => v.poseAndIntrinsicDefined) ∧
      emitted.Perm (([⟨"c.jpg", true⟩, ⟨"a.jpg", false⟩, ⟨"b.jpg", true⟩] : List View).filter
        (fun v => v.poseAndIntrinsicDefined)) ∧
      emitted.Sorted (fun a b => a.imagePath ≤ b.imagePath) ∧
      manifest.length
        = (([⟨"c.jpg", true⟩, ⟨"a.jpg", false⟩, ⟨"b.jpg", true⟩] : List View).filter
            (fun v => v.poseAndIntrinsicDefined)).length ∧
      ∀ k, k < manifest.length →
        ∃ (view : View) (entry : ViewEntry) (offset : Nat × Nat),
          emitted[k]? = some view ∧
          manifest[k]? = some entry ∧
          processView exampleScene view k = some entry ∧
          entry.filename_view
            = exampleScene.outputDirectory ++ "/view_" ++ toString k ++ ".exr" ∧
          entry.filename_mask
            = exampleScene.outputDirectory ++ "/mask_" ++ toString k ++ ".png" ∧
          entry.filename_weights
            = exampleScene.outputDirectory ++ "/weightmap_" ++ toString k ++ ".exr" ∧
          entry.offsetx = offset.1 ∧ entry.offsety = offset.2 :=
  (manifest_one_entry_per_defined_view exampleScene
    [⟨"c.jpg", true⟩, ⟨"a.jpg", false⟩, ⟨"b.jpg", true⟩]
    (viewsOrderedByName [⟨"c.jpg", true⟩, ⟨"a.jpg", false⟩, ⟨"b.jpg", true⟩])
    (viewsOrderedByName_perm _) (viewsOrderedByName_sorted _)).1
    (by
      intro view hview _ pos
      have hpath : view.imagePath = "c.jpg" ∨ view.imagePath = "a.jpg" ∨
          view.imagePath = "b.jpg" := by
        simp only [List.mem_cons, List.mem_singleton, List.not_mem_nil, or_false] at hview
        rcases hview with h | h | h <;> rw [h] <;> simp
      refine ⟨_, exampleScene_processView view pos ?_ ?_ ?_⟩ <;>
        rcases hpath with h | h | h <;> rw [h] <;> decide)

/-- The example of the manifest: of three views, the one without pose is skipped and the two
others get the entries numbered `0` and `1`, in the order of their image paths. -/
theorem manifest_of_three_views_one_skipped :
    viewsOrderedByName [⟨"c.jpg", true⟩, ⟨"a.jpg", false⟩, ⟨"b.jpg", true⟩]
      = [⟨"a.jpg", false⟩, ⟨"b.jpg", true⟩, ⟨"c.jpg", true⟩] ∧
    perViewLoop exampleScene [⟨"a.jpg", false⟩, ⟨"b.jpg", true⟩, ⟨"c.jpg", true⟩] 0
      = some [{ filename_view := "out/view_0.exr", filename_mask := "out/mask_0.png",
                filename_weights := "out/weightmap_0.exr", offsetx := 2, offsety := 1 },
              { filename_view := "out/view_1.exr", filename_mask := "out/mask_1.png",
                filename_weights := "out/weightmap_1.exr", offsetx := 2, offsety := 1 }] := by
  constructor
  · simp [viewsOrderedByName, List.insertionSort, List.orderedInsert]
    rw [if_neg (by decide), if_neg (by decide)]
  · have hb := exampleScene_processView ⟨"b.jpg", true⟩ 0 (by decide) (by decide) (by decide)
    have hc := exampleScene_processView ⟨"c.jpg", true⟩ 1 (by decide) (by decide) (by decide)
    rw [perViewLoop_cons_skip _ _ _ _ rfl, perViewLoop_cons_entry _ _ _ _ _ rfl hb,
      perViewLoop_cons_entry _ _ _ _ _ rfl hc]
    decide

/-- C19 (counterexample): in the scene `exampleScene` the three views `a.jpg`, `blind.jpg`
and `c.jpg` all have pose and intrinsics, and a manifest of three entries is expected; the
view `blind.jpg` sees no pixel of its coarse box, `build` has no defined result on it, the
loop stops in that view and no manifest is written. The same happens for an image of
`40 x 40` pixels (`small.jpg`: `GaussianWarper::warp` has no defined result) and for an image
that cannot be read (`missing.jpg`: nothing catches the exception of `readImage`). -/
theorem manifest_missing_when_a_view_aborts :
    (([⟨"a.jpg", true⟩, ⟨"blind.jpg", true⟩, ⟨"c.jpg", true⟩] : List View).filter
      (fun v => v.poseAndIntrinsicDefined)).length = 3 ∧
    CoordinatesMap.build 8 4 ⟨2, 1, 4, 2⟩ (exampleScene.geometry ⟨"blind.jpg", true⟩).camera
      exampleScene.rayOf exampleScene.uninit = none ∧
    perViewLoop exampleScene
      (viewsOrderedByName [⟨"a.jpg", true⟩, ⟨"blind.jpg", true⟩, ⟨"c.jpg", true⟩]) 0 = none ∧
    exampleScene.readImage "small.jpg" = some (Image.filled 40 40 1) ∧
    (∀ map : CoordinatesMap (ℚ × ℚ),
      GaussianWarper.warp exampleScene.sampler exampleScene.convolve exampleScene.background
        map (Image.filled 40 40 1) = none) ∧
    perViewLoop exampleScene
      (viewsOrderedByName [⟨"a.jpg", true⟩, ⟨"small.jpg", true⟩, ⟨"c.jpg", true⟩]) 0 = none ∧
    exampleScene.readImage "missing.jpg" = none ∧
    perViewLoop exampleScene
      (viewsOrderedByName [⟨"a.jpg", true⟩, ⟨"missing.jpg", true⟩, ⟨"c.jpg", true⟩]) 0
        = none := by
  refine ⟨rfl, ?_, ?_, rfl, ?_, ?_, rfl, ?_⟩
  · exact CoordinatesMap.build_of_no_visible 8 4 ⟨2, 1, 4, 2⟩ (blindCamera (0, 0)) _ _
      (by decide) (by decide) (by decide) (fun _ _ => rfl)
  · exact perViewLoop_of_abort exampleScene _ ⟨"blind.jpg", true⟩
      ((viewsOrderedByName_perm _).mem_iff.2 (by simp)) rfl
      (fun pos => exampleScene_abort _ pos (Or.inl rfl)) 0
  · exact fun map => GaussianWarper.warp_none_of_small_source _ _ _ map _ (by decide)
  · exact perViewLoop_of_abort exampleScene _ ⟨"small.jpg", true⟩
      ((viewsOrderedByName_perm _).mem_iff.2 (by simp)) rfl
      (fun pos => exampleScene_abort _ pos (Or.inr (Or.inr rfl))) 0
  · exact perViewLoop_of_abort exampleScene _ ⟨"missing.jpg", true⟩
      ((viewsOrderedByName_perm _).mem_iff.2 (by simp)) rfl
      (fun pos => exampleScene_abort _ pos (Or.inr (Or.inl rfl))) 0

/-! ### Views that see nothing -/

namespace CoordinatesMap

theorem computeCoarseBB_returns_true (panoramaSize : Int × Int)
    (rotated_pts : Fin 8 → ℝ × ℝ × ℝ) (r : Bool × BBox)
    (h : computeCoarseBB panoramaSize rotated_pts = some r) : r.1 = true := by
  simp only [computeCoarseBB] at h
  split at h
  · exact absurd h (by simp)
  · rw [← Option.some.inj h]

theorem buildMethod_returns_true {V3 V2 : Type} (W H : Int) (rotated_pts : Fin 8 → ℝ × ℝ × ℝ)
    (cam : Camera V3 V2) (rayOf : Nat → Nat → V3) (uninit : Nat → Nat → V2)
    (before : CoordinatesMap V2) (r : Bool × CoordinatesMap V2)
    (h : buildMethod W H (computeCoarseBB (W, H) rotated_pts) cam rayOf uninit before = some r) :
    r.1 = true := by
  cases hc : computeCoarseBB (W, H) rotated_pts with
  | none => simp [buildMethod, hc] at h
  | some c =>
    have ht := computeCoarseBB_returns_true (W, H) rotated_pts c hc
    obtain ⟨b, box⟩ := c
    simp only at ht
    subst ht
    simp only [buildMethod, hc] at h
    split at h
    · exact absurd h (by simp)
    · rw [← Option.some.inj h]

end CoordinatesMap

/-- C20 (failing input): for a view with pose and intrinsics that sees no pixel of its coarse
box (here the box of `4 x 4` pixels at the origin of the `512 x 256` canvas), `build` does
not report a failure: it has no defined result (the size `max_x - min_x + 1` wraps around),
and on no input does it return `false`, since `computeCoarseBB` never does. The per-view
loop, which does not read the value returned by `build`, does not skip the view: the body
does not reach its end, the loop stops in that view and no manifest is written, whatever the
other views; a view without pose is skipped and leaves the loop running. -/
theorem build_reports_no_failure_on_empty_mask {K α : Type} [Zero α] [LinearOrderedField K]
    [FloorRing K] (scene : Scene (ℝ × ℝ × ℝ) K α) (pixel : K × K) :
    CoordinatesMap.build 512 256 ⟨0, 0, 4, 4⟩ (blindCamera pixel) (canvasRay 512 256)
        scene.uninit = none ∧
    (∀ (W H : Int) (rotated_pts : Fin 8 → ℝ × ℝ × ℝ) (cam : Camera (ℝ × ℝ × ℝ) (K × K))
        (before : CoordinatesMap (K × K)) (r : Bool × CoordinatesMap (K × K)),
      CoordinatesMap.buildMethod W H (CoordinatesMap.computeCoarseBB (W, H) rotated_pts) cam
          (canvasRay W H) scene.uninit before = some r →
        r.1 = true) ∧
    (∀ pos, processView (blindScene scene pixel) ⟨"a.jpg", true⟩ pos = none) ∧
    perViewLoop (blindScene scene pixel) [⟨"a.jpg", true⟩] 0 = none ∧
    (∀ views : List View, (∃ view ∈ views, view.poseAndIntrinsicDefined = true) →
      perViewLoop (blindScene scene pixel) views 0 = none) ∧
    perViewLoop (blindScene scene pixel) [⟨"a.jpg", false⟩] 0 = some [] := by
  have hbuild : CoordinatesMap.build 512 256 ⟨0, 0, 4, 4⟩ (blindCamera pixel)
      (canvasRay 512 256) scene.uninit = none :=
    CoordinatesMap.build_of_no_visible 512 256 ⟨0, 0, 4, 4⟩ (blindCamera pixel) _ scene.uninit
      (by decide) (by decide) (by decide) (fun _ _ => rfl)
  have habort : ∀ (view : View) (pos : Nat),
      processView (blindScene scene pixel) view pos = none :=
    fun view pos => processView_of_abort (blindScene scene pixel) view pos ⟨0, 0, 4, 4⟩ rfl
      (Or.inl hbuild)
  refine ⟨hbuild, ?_, habort _, ?_, ?_, rfl⟩
  · intro W H rotated_pts cam before r h
    exact CoordinatesMap.buildMethod_returns_true W H rotated_pts cam _ _ before r h
  · exact perViewLoop_of_abort _ _ ⟨"a.jpg", true⟩ (List.mem_singleton_self _) rfl
      (habort _) 0
  · rintro views ⟨view, hmem, hdef⟩
    exact perViewLoop_of_abort _ views view hmem hdef (habort view) 0

/-! ### Coarse bounding box -/

namespace CoordinatesMap

theorem norm3_ne_zero_of_pos {v : ℝ × ℝ × ℝ} (h : 0 < v.1 ^ 2 + v.2.1 ^ 2 + v.2.2 ^ 2) :
    SphericalMapping.norm3 v ≠ 0 := by
  rw [SphericalMapping.norm3]
  exact (Real.sqrt_pos.2 h).ne'

/-- The denominator of `getExtremaY` on two unit vectors `p`, `q` is
`(1 - p · q) (p_y + q_y)`. -/
theorem extremaQuotient_snd_of_unit (p q : ℝ × ℝ × ℝ)
    (hp : p.1 ^ 2 + p.2.1 ^ 2 + p.2.2 ^ 2 = 1) (hq : q.1 ^ 2 + q.2.1 ^ 2 + q.2.2 ^ 2 = 1) :
    (extremaQuotient p q).2
      = (1 - (p.1 * q.1 + p.2.1 * q.2.1 + p.2.2 * q.2.2)) * (p.2.1 + q.2.1) := by
  simp only [extremaQuotient]
  linear_combination q.2.1 * hp + p.2.1 * hq

/-- On two unit vectors that are neither equal nor opposite and whose components `y` do not
cancel, `getExtremaY` is defined. -/
theorem getExtremaY_isSome_of_unit (p q : ℝ × ℝ × ℝ)
    (hp : p.1 ^ 2 + p.2.1 ^ 2 + p.2.2 ^ 2 = 1) (hq : q.1 ^ 2 + q.2.1 ^ 2 + q.2.2 ^ 2 = 1)
    (h1 : -1 < p.1 * q.1 + p.2.1 * q.2.1 + p.2.2 * q.2.2)
    (h2 : p.1 * q.1 + p.2.1 * q.2.1 + p.2.2 * q.2.2 < 1)
    (hy : p.2.1 + q.2.1 ≠ 0) :
    (getExtremaY p q).isSome = true := by
  have hden : (extremaQuotient p q).2 ≠ 0 := by
    rw [extremaQuotient_snd_of_unit p q hp hq]
    exact mul_ne_zero (by linarith) hy
  simp only [getExtremaY, if_neg hden]
  generalize (extremaQuotient p q).1 / (extremaQuotient p q).2 = t
  rw [if_neg]
  · rfl
  · apply norm3_ne_zero_of_pos
    simp only
    set c := p.1 * q.1 + p.2.1 * q.2.1 + p.2.2 * q.2.2 with hc
    have key : (p.1 + t * (q.1 - p.1)) ^ 2 + (p.2.1 + t * (q.2.1 - p.2.1)) ^ 2
        + (p.2.2 + t * (q.2.2 - p.2.2)) ^ 2
        = ((1 - t) + t * c) ^ 2 + t ^ 2 * (1 - c ^ 2) := by
      rw [hc]
      linear_combination ((1 - t) ^ 2 + t * (1 - t) * (p.1 * q.1 + p.2.1 * q.2.1 + p.2.2 * q.2.2)
        - t * (1 - t) * (p.1 * q.1 + p.2.1 * q.2.1 + p.2.2 * q.2.2)) * hp + t ^ 2 * hq
    rw [key]
    have hc2 : 0 < 1 - c ^ 2 := by nlinarith
    rcases eq_or_ne t 0 with ht | ht
    · rw [ht]
      norm_num
    · have : 0 < t ^ 2 * (1 - c ^ 2) := mul_pos (by positivity) hc2
      nlinarith [sq_nonneg ((1 - t) + t * c)]

theorem crossHorizontalLoop_of_pos_pos (p q : ℝ × ℝ × ℝ) (hp : 0 < p.1) (hq : 0 < q.1) :
    crossHorizontalLoop p q = false := by
  simp only [crossHorizontalLoop]
  split_ifs with h1 h2 h3
  · rfl
  · exfalso
    obtain ⟨ht0, ht1⟩ := h2
    have hd : q.1 - p.1 ≠ 0 := by
      intro h
      rw [h] at h1
      norm_num at h1
    rcases lt_or_gt_of_ne hd with hneg | hpos
    · rw [div_le_one_of_neg hneg] at ht1
      linarith
    · rw [le_div_iff₀ hpos] at ht0
      linarith
  · rfl
  · rfl

theorem crossHorizontalLoop_of_neg_neg (p q : ℝ × ℝ × ℝ) (hp : p.1 < 0) (hq : q.1 < 0) :
    crossHorizontalLoop p q = false := by
  simp only [crossHorizontalLoop]
  split_ifs with h1 h2 h3
  · rfl
  · exfalso
    obtain ⟨ht0, ht1⟩ := h2
    have hd : q.1 - p.1 ≠ 0 := by
      intro h
      rw [h] at h1
      norm_num at h1
    rcases lt_or_gt_of_ne hd with hneg | hpos
    · rw [le_div_iff_of_neg hneg] at ht0
      linarith
    · rw [div_le_one hpos] at ht1
      linarith
  · rfl
  · rfl

theorem crossHorizontalLoop_of_crossing (p q : ℝ × ℝ × ℝ)
    (hx : (0 < p.1 ∧ q.1 < 0) ∨ (p.1 < 0 ∧ 0 < q.1))
    (hbig : 1 / 10 ^ 12 ≤ |q.1 - p.1|) (hp : p.2.2 < 0) (hq : q.2.2 < 0) :
    crossHorizontalLoop p q = true := by
  have hd : q.1 - p.1 ≠ 0 := by
    rcases hx with h | h <;> intro h0 <;> linarith
  have ht : 0 ≤ -p.1 / (q.1 - p.1) ∧ -p.1 / (q.1 - p.1) ≤ 1 := by
    rcases hx with h | h
    · have hneg : q.1 - p.1 < 0 := by linarith
      rw [le_div_iff_of_neg hneg, div_le_one_of_neg hneg]
      constructor <;> linarith
    · have hpos : 0 < q.1 - p.1 := by linarith
      rw [le_div_iff₀ hpos, div_le_one hpos]
      constructor <;> linarith
  simp only [crossHorizontalLoop, if_neg (not_lt.2 hbig), ht, and_self, if_true]
  rw [if_pos]
  generalize -p.1 / (q.1 - p.1) = t at ht
  rcases le_total p.2.2 q.2.2 with h | h
  · have := mul_le_mul_of_nonneg_left ht.2 (sub_nonneg.2 h)
    linarith
  · have := mul_nonneg (sub_nonneg.2 h) ht.1
    linarith

end CoordinatesMap

namespace CoordinatesMap

theorem verticalLoop_isSome (panoramaSize : Int × Int) (rotated_pts : Fin 8 → ℝ × ℝ × ℝ)
    (hdef : ∀ i, (getExtremaY (rotated_pts i) (rotated_pts (i + 1))).isSome = true) :
    ∀ (l : List (Fin 8)) (acc : Int × Int),
      ∃ r, verticalLoop panoramaSize rotated_pts l acc = some r := by
  intro l
  induction l with
  | nil => exact fun acc => ⟨acc, rfl⟩
  | cons i rest ih =>
    intro acc
    obtain ⟨e, he⟩ := Option.isSome_iff_exists.1 (hdef i)
    simp only [verticalLoop, he]
    exact ih _

/-- C14: when one of the six tests `isPoleInTriangle` of `computeCoarseBB` is true, every
result of the method is `true` with a box that has `left = 0` and `width = W`; if the
component `y` of the normal `(p1 - p0) × (p3 - p0)` is positive then `top + height = H` (the
bottom row is `H - 1`), and if it is negative then `top = 0`. The method has a result when
`getExtremaY` is defined on the eight arcs. -/
theorem pole_box_spans_the_width (panoramaSize : Int × Int)
    (rotated_pts : Fin 8 → ℝ × ℝ × ℝ)
    (hpole : isPoleInTriangle (rotated_pts 0) (rotated_pts 1) (rotated_pts 7) = true ∨
      isPoleInTriangle (rotated_pts 1) (rotated_pts 2) (rotated_pts 3) = true ∨
      isPoleInTriangle (rotated_pts 3) (rotated_pts 4) (rotated_pts 5) = true ∨
      isPoleInTriangle (rotated_pts 7) (rotated_pts 5) (rotated_pts 6) = true ∨
      isPoleInTriangle (rotated_pts 1) (rotated_pts 3) (rotated_pts 5) = true ∨
      isPoleInTriangle (rotated_pts 1) (rotated_pts 5) (rotated_pts 7) = true) :
    (∀ (result : Bool) (box : BBox),
      computeCoarseBB panoramaSize rotated_pts = some (result, box) →
      result = true ∧ box.left = 0 ∧ box.width = panoramaSize.1 ∧
        (normalY rotated_pts > 0 →
          box.top + box.height = panoramaSize.2 ∧
            box.top + box.height - 1 = panoramaSize.2 - 1) ∧
        (normalY rotated_pts < 0 → box.top = 0)) ∧
    ((∀ i, (getExtremaY (rotated_pts i) (rotated_pts (i + 1))).isSome = true) →
      ∃ box : BBox, computeCoarseBB panoramaSize rotated_pts = some (true, box)) := by
  have hp : poleTests rotated_pts = true := by
    simp only [poleTests, Bool.or_eq_true]
    tauto
  constructor
  · intro result box hbox
    simp only [computeCoarseBB] at hbox
    split at hbox
    · exact absurd hbox (by simp)
    · rename_i top bottom hv
      simp only [hp, horizontalExtent, if_true, Option.some.injEq, Prod.mk.injEq] at hbox
      obtain ⟨hres, hb⟩ := hbox
      rw [← hb]
      refine ⟨hres.symm, rfl, ?_, ?_, ?_⟩
      · simp only
        ring
      · intro hn
        simp only [if_pos hn]
        constructor <;> ring
      · intro hn
        simp only [if_neg (not_lt.2 hn.le)]
  · intro hdef
    obtain ⟨⟨top, bottom⟩, hv⟩ :=
      verticalLoop_isSome panoramaSize rotated_pts hdef arcIndices (panoramaSize.2, 0)
    have hbox : ∃ box : BBox,
        computeCoarseBB panoramaSize rotated_pts = some (true, box) := by
      simp only [computeCoarseBB, hv, Option.some.injEq, Prod.mk.injEq, true_and, exists_eq']
    exact hbox

end CoordinatesMap

namespace CoordinatesMap

theorem inv_sqrt_two_facts :
    0 < (Real.sqrt 2)⁻¹ ∧ (Real.sqrt 2)⁻¹ ^ 2 = 1 / 2 := by
  have h : (0 : ℝ) < Real.sqrt 2 := Real.sqrt_pos.2 (by norm_num)
  refine ⟨inv_pos.2 h, ?_⟩
  rw [inv_pow, Real.sq_sqrt (by norm_num)]
  norm_num

theorem inv_sqrt_three_facts :
    0 < (Real.sqrt 3)⁻¹ ∧ (Real.sqrt 3)⁻¹ ^ 2 = 1 / 3 := by
  have h : (0 : ℝ) < Real.sqrt 3 := Real.sqrt_pos.2 (by norm_num)
  refine ⟨inv_pos.2 h, ?_⟩
  rw [inv_pow, Real.sq_sqrt (by norm_num)]
  norm_num

theorem inv_sqrt_product_bounds :
    0 < (Real.sqrt 2)⁻¹ * (Real.sqrt 3)⁻¹ ∧ (Real.sqrt 2)⁻¹ * (Real.sqrt 3)⁻¹ < 1 / 2 := by
  obtain ⟨ha, ha2⟩ := inv_sqrt_two_facts
  obtain ⟨hb, hb2⟩ := inv_sqrt_three_facts
  refine ⟨mul_pos ha hb, ?_⟩
  have h : ((Real.sqrt 2)⁻¹ * (Real.sqrt 3)⁻¹) ^ 2 = 1 / 6 := by
    rw [mul_pow, ha2, hb2]
    norm_num
  nlinarith [mul_pos ha hb]

theorem normalized_corner (x y : ℝ) (hx : x ^ 2 = 1) (hy : y ^ 2 = 1) :
    normalized (x, y, 1) = (x * (Real.sqrt 3)⁻¹, y * (Real.sqrt 3)⁻¹, (Real.sqrt 3)⁻¹) := by
  have hn : SphericalMapping.norm3 (x, y, 1) = Real.sqrt 3 := by
    simp only [SphericalMapping.norm3, hx, hy]
    norm_num
  simp only [normalized, hn, div_eq_mul_inv, one_mul]

theorem normalized_edge (x y : ℝ) (h : x ^ 2 + y ^ 2 = 1) :
    normalized (x, y, 1) = (x * (Real.sqrt 2)⁻¹, y * (Real.sqrt 2)⁻¹, (Real.sqrt 2)⁻¹) := by
  have hn : SphericalMapping.norm3 (x, y, 1) = Real.sqrt 2 := by
    simp only [SphericalMapping.norm3]
    rw [h]
    norm_num
  simp only [normalized, hn, div_eq_mul_inv, one_mul]

/-- The eight points of the boundary for `max_radius_distorted = 1`, before the rotation. -/
theorem rotated_pts_one (rot : ℝ × ℝ × ℝ → ℝ × ℝ × ℝ) :
    rotated_pts 1 rot 0
        = rot (-1 * (Real.sqrt 3)⁻¹, -1 * (Real.sqrt 3)⁻¹, (Real.sqrt 3)⁻¹) ∧
      rotated_pts 1 rot 1 = rot (0 * (Real.sqrt 2)⁻¹, -1 * (Real.sqrt 2)⁻¹, (Real.sqrt 2)⁻¹) ∧
      rotated_pts 1 rot 2
        = rot (1 * (Real.sqrt 3)⁻¹, -1 * (Real.sqrt 3)⁻¹, (Real.sqrt 3)⁻¹) ∧
      rotated_pts 1 rot 3 = rot (1 * (Real.sqrt 2)⁻¹, 0 * (Real.sqrt 2)⁻¹, (Real.sqrt 2)⁻¹) ∧
      rotated_pts 1 rot 4
        = rot (1 * (Real.sqrt 3)⁻¹, 1 * (Real.sqrt 3)⁻¹, (Real.sqrt 3)⁻¹) ∧
      rotated_pts 1 rot 5 = rot (0 * (Real.sqrt 2)⁻¹, 1 * (Real.sqrt 2)⁻¹, (Real.sqrt 2)⁻¹) ∧
      rotated_pts 1 rot 6
        = rot (-1 * (Real.sqrt 3)⁻¹, 1 * (Real.sqrt 3)⁻¹, (Real.sqrt 3)⁻¹) ∧
      rotated_pts 1 rot 7
        = rot (-1 * (Real.sqrt 2)⁻¹, 0 * (Real.sqrt 2)⁻¹, (Real.sqrt 2)⁻¹) := by
  refine ⟨?_, ?_, ?_, ?_, ?_, ?_, ?_, ?_⟩
  · simp only [rotated_pts, pts_radius]
    rw [normalized_corner (-1) (-1) (by norm_num) (by norm_num)]
  · simp only [rotated_pts, pts_radius]
    rw [normalized_edge 0 (-1) (by norm_num)]
  · simp only [rotated_pts, pts_radius]
    rw [normalized_corner 1 (-1) (by norm_num) (by norm_num)]
  · simp only [rotated_pts, pts_radius]
    rw [normalized_edge 1 0 (by norm_num)]
  · simp only [rotated_pts, pts_radius]
    rw [normalized_corner 1 1 (by norm_num) (by norm_num)]
  · simp only [rotated_pts, pts_radius]
    rw [normalized_edge 0 1 (by norm_num)]
  · simp only [rotated_pts, pts_radius]
    rw [normalized_corner (-1) 1 (by norm_num) (by norm_num)]
  · simp only [rotated_pts, pts_radius]
    rw [normalized_edge (-1) 0 (by norm_num)]

end CoordinatesMap

namespace CoordinatesMap

/-- On a corner and the middle of an adjacent side of the boundary of radius `1`, after a
rotation, `getExtremaY` is defined in both orders when the components `y` do not cancel. -/
theorem getExtremaY_isSome_corner_edge (rot : ℝ × ℝ × ℝ → ℝ × ℝ × ℝ)
    (hunit : ∀ v, (rot v).1 ^ 2 + (rot v).2.1 ^ 2 + (rot v).2.2 ^ 2
      = v.1 ^ 2 + v.2.1 ^ 2 + v.2.2 ^ 2)
    (hdot : ∀ u v, (rot u).1 * (rot v).1 + (rot u).2.1 * (rot v).2.1 + (rot u).2.2 * (rot v).2.2
      = u.1 * v.1 + u.2.1 * v.2.1 + u.2.2 * v.2.2)
    (x y x' y' : ℝ) (hx : x ^ 2 = 1) (hy : y ^ 2 = 1) (he : x' ^ 2 + y' ^ 2 = 1)
    (hd : x * x' + y * y' = 1)
    (hysum : (rot (x * (Real.sqrt 3)⁻¹, y * (Real.sqrt 3)⁻¹, (Real.sqrt 3)⁻¹)).2.1
      + (rot (x' * (Real.sqrt 2)⁻¹, y' * (Real.sqrt 2)⁻¹, (Real.sqrt 2)⁻¹)).2.1 ≠ 0) :
    (getExtremaY (rot (x * (Real.sqrt 3)⁻¹, y * (Real.sqrt 3)⁻¹, (Real.sqrt 3)⁻¹))
        (rot (x' * (Real.sqrt 2)⁻¹, y' * (Real.sqrt 2)⁻¹, (Real.sqrt 2)⁻¹))).isSome = true ∧
      (getExtremaY (rot (x' * (Real.sqrt 2)⁻¹, y' * (Real.sqrt 2)⁻¹, (Real.sqrt 2)⁻¹))
        (rot (x * (Real.sqrt 3)⁻¹, y * (Real.sqrt 3)⁻¹, (Real.sqrt 3)⁻¹))).isSome = true := by
  obtain ⟨ha, ha2⟩ := inv_sqrt_two_facts
  obtain ⟨hb, hb2⟩ := inv_sqrt_three_facts
  obtain ⟨hg0, hg⟩ := inv_sqrt_product_bounds
  have hu : (rot (x * (Real.sqrt 3)⁻¹, y * (Real.sqrt 3)⁻¹, (Real.sqrt 3)⁻¹)).1 ^ 2
      + (rot (x * (Real.sqrt 3)⁻¹, y * (Real.sqrt 3)⁻¹, (Real.sqrt 3)⁻¹)).2.1 ^ 2
      + (rot (x * (Real.sqrt 3)⁻¹, y * (Real.sqrt 3)⁻¹, (Real.sqrt 3)⁻¹)).2.2 ^ 2 = 1 := by
    rw [hunit]
    simp only
    linear_combination (Real.sqrt 3)⁻¹ ^ 2 * hx + (Real.sqrt 3)⁻¹ ^ 2 * hy + 3 * hb2
  have hv : (rot (x' * (Real.sqrt 2)⁻¹, y' * (Real.sqrt 2)⁻¹, (Real.sqrt 2)⁻¹)).1 ^ 2
      + (rot (x' * (Real.sqrt 2)⁻¹, y' * (Real.sqrt 2)⁻¹, (Real.sqrt 2)⁻¹)).2.1 ^ 2
      + (rot (x' * (Real.sqrt 2)⁻¹, y' * (Real.sqrt 2)⁻¹, (Real.sqrt 2)⁻¹)).2.2 ^ 2 = 1 := by
    rw [hunit]
    simp only
    linear_combination (Real.sqrt 2)⁻¹ ^ 2 * he + 2 * ha2
  have hc : (rot (x * (Real.sqrt 3)⁻¹, y * (Real.sqrt 3)⁻¹, (Real.sqrt 3)⁻¹)).1
        * (rot (x' * (Real.sqrt 2)⁻¹, y' * (Real.sqrt 2)⁻¹, (Real.sqrt 2)⁻¹)).1
      + (rot (x * (Real.sqrt 3)⁻¹, y * (Real.sqrt 3)⁻¹, (Real.sqrt 3)⁻¹)).2.1
        * (rot (x' * (Real.sqrt 2)⁻¹, y' * (Real.sqrt 2)⁻¹, (Real.sqrt 2)⁻¹)).2.1
      + (rot (x * (Real.sqrt 3)⁻¹, y * (Real.sqrt 3)⁻¹, (Real.sqrt 3)⁻¹)).2.2
        * (rot (x' * (Real.sqrt 2)⁻¹, y' * (Real.sqrt 2)⁻¹, (Real.sqrt 2)⁻¹)).2.2
      = 2 * ((Real.sqrt 2)⁻¹ * (Real.sqrt 3)⁻¹) := by
    rw [hdot]
    simp only
    linear_combination ((Real.sqrt 2)⁻¹ * (Real.sqrt 3)⁻¹) * hd
  generalize rot (x * (Real.sqrt 3)⁻¹, y * (Real.sqrt 3)⁻¹, (Real.sqrt 3)⁻¹) = p at *
  generalize rot (x' * (Real.sqrt 2)⁻¹, y' * (Real.sqrt 2)⁻¹, (Real.sqrt 2)⁻¹) = q at *
  constructor
  · exact getExtremaY_isSome_of_unit p q hu hv (by rw [hc]; linarith) (by rw [hc]; linarith)
      hysum
  · have hc' : q.1 * p.1 + q.2.1 * p.2.1 + q.2.2 * p.2.2
        = 2 * ((Real.sqrt 2)⁻¹ * (Real.sqrt 3)⁻¹) := by
      rw [← hc]
      ring
    exact getExtremaY_isSome_of_unit q p hv hu (by rw [hc']; linarith) (by rw [hc']; linarith)
      (by rw [add_comm]; exact hysum)

theorem forall_arc (P : Fin 8 → Fin 8 → Prop) (h0 : P 0 1) (h1 : P 1 2) (h2 : P 2 3)
    (h3 : P 3 4) (h4 : P 4 5) (h5 : P 5 6) (h6 : P 6 7) (h7 : P 7 0) : ∀ i, P i (i + 1) := by
  intro i
  fin_cases i <;>
    simp only [Fin.zero_eta, Fin.mk_one, Fin.reduceFinMk, Fin.isValue, Fin.reduceAdd,
      zero_add] <;>
    assumption

theorem quarterPitch_isometry :
    (∀ v : ℝ × ℝ × ℝ, (quarterPitch v).1 ^ 2 + (quarterPitch v).2.1 ^ 2 + (quarterPitch v).2.2 ^ 2
      = v.1 ^ 2 + v.2.1 ^ 2 + v.2.2 ^ 2) ∧
    (∀ u v : ℝ × ℝ × ℝ, (quarterPitch u).1 * (quarterPitch v).1
        + (quarterPitch u).2.1 * (quarterPitch v).2.1
        + (quarterPitch u).2.2 * (quarterPitch v).2.2
      = u.1 * v.1 + u.2.1 * v.2.1 + u.2.2 * v.2.2) := by
  constructor
  · intro v
    simp only [quarterPitch]
    ring
  · intro u v
    simp only [quarterPitch]
    ring

/-- For a camera of radius `1` that looks at a pole, `getExtremaY` is defined on the eight
arcs of the boundary. -/
theorem getExtremaY_isSome_of_pole_camera :
    ∀ i, (getExtremaY (rotated_pts 1 quarterPitch i)
      (rotated_pts 1 quarterPitch (i + 1))).isSome = true := by
  obtain ⟨e0, e1, e2, e3, e4, e5, e6, e7⟩ := rotated_pts_one quarterPitch
  obtain ⟨ha, -⟩ := inv_sqrt_two_facts
  obtain ⟨hb, -⟩ := inv_sqrt_three_facts
  obtain ⟨hunit, hdot⟩ := quarterPitch_isometry
  have hsum : (Real.sqrt 3)⁻¹ + (Real.sqrt 2)⁻¹ ≠ 0 := by positivity
  have key : ∀ x y x' y' : ℝ, x ^ 2 = 1 → y ^ 2 = 1 → x' ^ 2 + y' ^ 2 = 1 →
      x * x' + y * y' = 1 →
      (getExtremaY (quarterPitch (x * (Real.sqrt 3)⁻¹, y * (Real.sqrt 3)⁻¹, (Real.sqrt 3)⁻¹))
          (quarterPitch (x' * (Real.sqrt 2)⁻¹, y' * (Real.sqrt 2)⁻¹, (Real.sqrt 2)⁻¹))).isSome
          = true ∧
        (getExtremaY (quarterPitch (x' * (Real.sqrt 2)⁻¹, y' * (Real.sqrt 2)⁻¹, (Real.sqrt 2)⁻¹))
          (quarterPitch (x * (Real.sqrt 3)⁻¹, y * (Real.sqrt 3)⁻¹, (Real.sqrt 3)⁻¹))).isSome
          = true :=
    fun x y x' y' hx hy he hd =>
      getExtremaY_isSome_corner_edge quarterPitch hunit hdot x y x' y' hx hy he hd hsum
  apply forall_arc (fun i j => (getExtremaY (rotated_pts 1 quarterPitch i)
      (rotated_pts 1 quarterPitch j)).isSome = true)
  · rw [e0, e1]
    exact (key (-1) (-1) 0 (-1) (by norm_num) (by norm_num) (by norm_num) (by norm_num)).1
  · rw [e1, e2]
    exact (key 1 (-1) 0 (-1) (by norm_num) (by norm_num) (by norm_num) (by norm_num)).2
  · rw [e2, e3]
    exact (key 1 (-1) 1 0 (by norm_num) (by norm_num) (by norm_num) (by norm_num)).1
  · rw [e3, e4]
    exact (key 1 1 1 0 (by norm_num) (by norm_num) (by norm_num) (by norm_num)).2
  · rw [e4, e5]
    exact (key 1 1 0 1 (by norm_num) (by norm_num) (by norm_num) (by norm_num)).1
  · rw [e5, e6]
    exact (key (-1) 1 0 1 (by norm_num) (by norm_num) (by norm_num) (by norm_num)).2
  · rw [e6, e7]
    exact (key (-1) 1 (-1) 0 (by norm_num) (by norm_num) (by norm_num) (by norm_num)).1
  · rw [e7, e0]
    exact (key (-1) (-1) (-1) 0 (by norm_num) (by norm_num) (by norm_num) (by norm_num)).2

theorem isPoleInTriangle_of_values (p1 p2 p3 : ℝ × ℝ × ℝ) (den numA numB : ℝ)
    (hden : den = p1.1 * p2.2.2 - p1.1 * p3.2.2 - p2.1 * p1.2.2 + p2.1 * p3.2.2
      + p3.1 * p1.2.2 - p3.1 * p2.2.2)
    (hA : numA = p2.1 * p3.2.2 - p3.1 * p2.2.2)
    (hB : numB = -p1.1 * p3.2.2 + p3.1 * p1.2.2) :
    isPoleInTriangle p1 p2 p3
      = if den = 0 then decide (numA = 0 ∧ numB = 0)
        else if numA / den < 0 ∨ numA / den > 1 then false
        else if numB / den < 0 ∨ numB / den > 1 then false
        else if 1 - numA / den - numB / den < 0 ∨ 1 - numA / den - numB / den > 1 then false
        else true := by
  subst hden hA hB
  rfl

theorem isPoleInTriangle_of_pole_camera :
    isPoleInTriangle (rotated_pts 1 quarterPitch 1) (rotated_pts 1 quarterPitch 3)
      (rotated_pts 1 quarterPitch 5) = true := by
  obtain ⟨-, e1, -, e3, -, e5, -, -⟩ := rotated_pts_one quarterPitch
  obtain ⟨ha, ha2⟩ := inv_sqrt_two_facts
  rw [e1, e3, e5, isPoleInTriangle_of_values _ _ _ (-1) (-(1 / 2)) 0
    (by simp only [quarterPitch]; linear_combination 2 * ha2)
    (by simp only [quarterPitch]; linear_combination ha2)
    (by simp only [quarterPitch]; ring)]
  norm_num

end CoordinatesMap

namespace CoordinatesMap

theorem yawRotation_isometry (ψ : ℝ) :
    (∀ v : ℝ × ℝ × ℝ, (yawRotation ψ v).1 ^ 2 + (yawRotation ψ v).2.1 ^ 2
        + (yawRotation ψ v).2.2 ^ 2
      = v.1 ^ 2 + v.2.1 ^ 2 + v.2.2 ^ 2) ∧
    (∀ u v : ℝ × ℝ × ℝ, (yawRotation ψ u).1 * (yawRotation ψ v).1
        + (yawRotation ψ u).2.1 * (yawRotation ψ v).2.1
        + (yawRotation ψ u).2.2 * (yawRotation ψ v).2.2
      = u.1 * v.1 + u.2.1 * v.2.1 + u.2.2 * v.2.2) := by
  have h := Real.sin_sq_add_cos_sq ψ
  constructor
  · intro v
    simp only [yawRotation]
    linear_combination (v.1 ^ 2 + v.2.2 ^ 2) * h
  · intro u v
    simp only [yawRotation]
    linear_combination (u.1 * v.1 + u.2.2 * v.2.2) * h

/-- For a camera of radius `1` turned about the vertical axis, `getExtremaY` is defined on
the eight arcs of the boundary. -/
theorem getExtremaY_isSome_of_yaw_camera (ψ : ℝ) :
    ∀ i, (getExtremaY (rotated_pts 1 (yawRotation ψ) i)
      (rotated_pts 1 (yawRotation ψ) (i + 1))).isSome = true := by
  obtain ⟨e0, e1, e2, e3, e4, e5, e6, e7⟩ := rotated_pts_one (yawRotation ψ)
  obtain ⟨ha, -⟩ := inv_sqrt_two_facts
  obtain ⟨hb, -⟩ := inv_sqrt_three_facts
  obtain ⟨hunit, hdot⟩ := yawRotation_isometry ψ
  have key : ∀ x y x' y' : ℝ, x ^ 2 = 1 → y ^ 2 = 1 → x' ^ 2 + y' ^ 2 = 1 →
      x * x' + y * y' = 1 → y * (Real.sqrt 3)⁻¹ + y' * (Real.sqrt 2)⁻¹ ≠ 0 →
      (getExtremaY (yawRotation ψ (x * (Real.sqrt 3)⁻¹, y * (Real.sqrt 3)⁻¹, (Real.sqrt 3)⁻¹))
          (yawRotation ψ (x' * (Real.sqrt 2)⁻¹, y' * (Real.sqrt 2)⁻¹, (Real.sqrt 2)⁻¹))).isSome
          = true ∧
        (getExtremaY (yawRotation ψ (x' * (Real.sqrt 2)⁻¹, y' * (Real.sqrt 2)⁻¹, (Real.sqrt 2)⁻¹))
          (yawRotation ψ (x * (Real.sqrt 3)⁻¹, y * (Real.sqrt 3)⁻¹, (Real.sqrt 3)⁻¹))).isSome
          = true :=
    fun x y x' y' hx hy he hd hsum =>
      getExtremaY_isSome_corner_edge (yawRotation ψ) hunit hdot x y x' y' hx hy he hd hsum
  have hneg : -1 * (Real.sqrt 3)⁻¹ + -1 * (Real.sqrt 2)⁻¹ ≠ 0 := by
    have : -1 * (Real.sqrt 3)⁻¹ + -1 * (Real.sqrt 2)⁻¹ < 0 := by linarith
    exact this.ne
  have hneg0 : -1 * (Real.sqrt 3)⁻¹ + 0 * (Real.sqrt 2)⁻¹ ≠ 0 := by
    have : -1 * (Real.sqrt 3)⁻¹ + 0 * (Real.sqrt 2)⁻¹ < 0 := by linarith
    exact this.ne
  have hpos : 1 * (Real.sqrt 3)⁻¹ + 1 * (Real.sqrt 2)⁻¹ ≠ 0 := by
    have : 0 < 1 * (Real.sqrt 3)⁻¹ + 1 * (Real.sqrt 2)⁻¹ := by linarith
    exact this.ne'
  have hpos0 : 1 * (Real.sqrt 3)⁻¹ + 0 * (Real.sqrt 2)⁻¹ ≠ 0 := by
    have : 0 < 1 * (Real.sqrt 3)⁻¹ + 0 * (Real.sqrt 2)⁻¹ := by linarith
    exact this.ne'
  apply forall_arc (fun i j => (getExtremaY (rotated_pts 1 (yawRotation ψ) i)
      (rotated_pts 1 (yawRotation ψ) j)).isSome = true)
  · rw [e0, e1]
    exact (key (-1) (-1) 0 (-1) (by norm_num) (by norm_num) (by norm_num) (by norm_num) hneg).1
  · rw [e1, e2]
    exact (key 1 (-1) 0 (-1) (by norm_num) (by norm_num) (by norm_num) (by norm_num) hneg).2
  · rw [e2, e3]
    exact (key 1 (-1) 1 0 (by norm_num) (by norm_num) (by norm_num) (by norm_num) hneg0).1
  · rw [e3, e4]
    exact (key 1 1 1 0 (by norm_num) (by norm_num) (by norm_num) (by norm_num) hpos0).2
  · rw [e4, e5]
    exact (key 1 1 0 1 (by norm_num) (by norm_num) (by norm_num) (by norm_num) hpos).1
  · rw [e5, e6]
    exact (key (-1) 1 0 1 (by norm_num) (by norm_num) (by norm_num) (by norm_num) hpos).2
  · rw [e6, e7]
    exact (key (-1) 1 (-1) 0 (by norm_num) (by norm_num) (by norm_num) (by norm_num) hpos0).1
  · rw [e7, e0]
    exact (key (-1) (-1) (-1) 0 (by norm_num) (by norm_num) (by norm_num) (by norm_num) hneg0).2

/-- The test `isPoleInTriangle` does not change when the three points are turned about the
vertical axis. -/
theorem isPoleInTriangle_yawRotation (ψ : ℝ) (p1 p2 p3 : ℝ × ℝ × ℝ) :
    isPoleInTriangle (yawRotation ψ p1) (yawRotation ψ p2) (yawRotation ψ p3)
      = isPoleInTriangle p1 p2 p3 := by
  have h := Real.sin_sq_add_cos_sq ψ
  rw [isPoleInTriangle_of_values p1 p2 p3 _ _ _ rfl rfl rfl,
    isPoleInTriangle_of_values (yawRotation ψ p1) (yawRotation ψ p2) (yawRotation ψ p3)
      (p1.1 * p2.2.2 - p1.1 * p3.2.2 - p2.1 * p1.2.2 + p2.1 * p3.2.2
        + p3.1 * p1.2.2 - p3.1 * p2.2.2)
      (p2.1 * p3.2.2 - p3.1 * p2.2.2) (-p1.1 * p3.2.2 + p3.1 * p1.2.2)
      (by simp only [yawRotation]
          linear_combination (-(p1.1 * p2.2.2 - p1.1 * p3.2.2 - p2.1 * p1.2.2 + p2.1 * p3.2.2
            + p3.1 * p1.2.2 - p3.1 * p2.2.2)) * h)
      (by simp only [yawRotation]
          linear_combination (-(p2.1 * p3.2.2 - p3.1 * p2.2.2)) * h)
      (by simp only [yawRotation]
          linear_combination (-(-p1.1 * p3.2.2 + p3.1 * p1.2.2)) * h)]

/-- For a camera of radius `1` turned about the vertical axis, the six tests
`isPoleInTriangle` of `computeCoarseBB` are false. -/
theorem poleTests_of_yaw_camera (ψ : ℝ) : poleTests (rotated_pts 1 (yawRotation ψ)) = false := by
  obtain ⟨e0, e1, e2, e3, e4, e5, e6, e7⟩ := rotated_pts_one (yawRotation ψ)
  obtain ⟨ha, ha2⟩ := inv_sqrt_two_facts
  obtain ⟨hb, hb2⟩ := inv_sqrt_three_facts
  obtain ⟨hg0, hg⟩ := inv_sqrt_product_bounds
  have hpos : 0 < 1 / 2 - (Real.sqrt 2)⁻¹ * (Real.sqrt 3)⁻¹ := by linarith
  have hneg : (Real.sqrt 2)⁻¹ * (Real.sqrt 3)⁻¹ - 1 / 2 < 0 := by linarith
  have hbig : 1 < 1 / 2 / (1 / 2 - (Real.sqrt 2)⁻¹ * (Real.sqrt 3)⁻¹) := by
    rw [lt_div_iff₀ hpos]
    linarith
  have hsmall : (Real.sqrt 2)⁻¹ * (Real.sqrt 3)⁻¹
      / ((Real.sqrt 2)⁻¹ * (Real.sqrt 3)⁻¹ - 1 / 2) < 0 :=
    div_neg_of_pos_of_neg hg0 hneg
  have t1 : isPoleInTriangle (rotated_pts 1 (yawRotation ψ) 0)
      (rotated_pts 1 (yawRotation ψ) 1) (rotated_pts 1 (yawRotation ψ) 7) = false := by
    rw [e0, e1, e7, isPoleInTriangle_yawRotation, isPoleInTriangle_of_values _ _ _
      (1 / 2 - (Real.sqrt 2)⁻¹ * (Real.sqrt 3)⁻¹) (1 / 2) 0
      (by simp only; linear_combination (-1) * ha2)
      (by simp only; linear_combination (-1) * ha2)
      (by simp only; ring),
      if_neg hpos.ne', if_pos (Or.inr hbig)]
  have t2 : isPoleInTriangle (rotated_pts 1 (yawRotation ψ) 1)
      (rotated_pts 1 (yawRotation ψ) 2) (rotated_pts 1 (yawRotation ψ) 3) = false := by
    rw [e1, e2, e3, isPoleInTriangle_yawRotation, isPoleInTriangle_of_values _ _ _
      (1 / 2 - (Real.sqrt 2)⁻¹ * (Real.sqrt 3)⁻¹) 0 (1 / 2)
      (by simp only; linear_combination (-1) * ha2)
      (by simp only; ring)
      (by simp only; linear_combination (-1) * ha2),
      if_neg hpos.ne']
    split_ifs
    · rfl
    · rfl
    · exact absurd (Or.inr hbig) ‹_›
    · exact absurd (Or.inr hbig) ‹_›
  have t3 : isPoleInTriangle (rotated_pts 1 (yawRotation ψ) 3)
      (rotated_pts 1 (yawRotation ψ) 4) (rotated_pts 1 (yawRotation ψ) 5) = false := by
    rw [e3, e4, e5, isPoleInTriangle_yawRotation, isPoleInTriangle_of_values _ _ _
      ((Real.sqrt 2)⁻¹ * (Real.sqrt 3)⁻¹ - 1 / 2) ((Real.sqrt 2)⁻¹ * (Real.sqrt 3)⁻¹) (-(1 / 2))
      (by simp only; linear_combination ha2)
      (by simp only; ring)
      (by simp only; linear_combination ha2),
      if_neg hneg.ne, if_pos (Or.inl hsmall)]
  have t4 : isPoleInTriangle (rotated_pts 1 (yawRotation ψ) 7)
      (rotated_pts 1 (yawRotation ψ) 5) (rotated_pts 1 (yawRotation ψ) 6) = false := by
    rw [e7, e5, e6, isPoleInTriangle_yawRotation, isPoleInTriangle_of_values _ _ _
      ((Real.sqrt 2)⁻¹ * (Real.sqrt 3)⁻¹ - 1 / 2) ((Real.sqrt 2)⁻¹ * (Real.sqrt 3)⁻¹) 0
      (by simp only; linear_combination ha2)
      (by simp only; ring)
      (by simp only; ring),
      if_neg hneg.ne, if_pos (Or.inl hsmall)]
  have t5 : isPoleInTriangle (rotated_pts 1 (yawRotation ψ) 1)
      (rotated_pts 1 (yawRotation ψ) 3) (rotated_pts 1 (yawRotation ψ) 5) = false := by
    rw [e1, e3, e5, isPoleInTriangle_yawRotation, isPoleInTriangle_of_values _ _ _
      0 (1 / 2) 0
      (by simp only; ring)
      (by simp only; linear_combination (-1) * ha2)
      (by simp only; ring)]
    norm_num
  have t6 : isPoleInTriangle (rotated_pts 1 (yawRotation ψ) 1)
      (rotated_pts 1 (yawRotation ψ) 5) (rotated_pts 1 (yawRotation ψ) 7) = false := by
    rw [e1, e5, e7, isPoleInTriangle_yawRotation, isPoleInTriangle_of_values _ _ _
      0 (1 / 2) (-(1 / 2))
      (by simp only; ring)
      (by simp only; linear_combination (-1) * ha2)
      (by simp only; linear_combination ha2)]
    norm_num
  simp only [poleTests, t1, t2, t3, t4, t5, t6, Bool.or_self]

end CoordinatesMap

namespace CoordinatesMap

theorem pole_box_spans_the_width_witness :
    (∀ (result : Bool) (box : BBox),
      computeCoarseBB (1024, 512) (rotated_pts 1 quarterPitch) = some (result, box) →
      result = true ∧ box.left = 0 ∧ box.width = ((1024, 512) : Int × Int).1 ∧
        (normalY (rotated_pts 1 quarterPitch) > 0 →
          box.top + box.height = ((1024, 512) : Int × Int).2 ∧
            box.top + box.height - 1 = ((1024, 512) : Int × Int).2 - 1) ∧
        (normalY (rotated_pts 1 quarterPitch) < 0 → box.top = 0)) ∧
    ∃ box : BBox, computeCoarseBB (1024, 512) (rotated_pts 1 quarterPitch) = some (true, box) :=
  have h := pole_box_spans_the_width (1024, 512) (rotated_pts 1 quarterPitch)
    (Or.inr (Or.inr (Or.inr (Or.inr (Or.inl isPoleInTriangle_of_pole_camera)))))
  ⟨h.1, h.2 getExtremaY_isSome_of_pole_camera⟩

end CoordinatesMap

namespace CoordinatesMap

theorem intOfDouble_of_floor {x : ℝ} {n : Int} (h0 : 0 ≤ x) (h1 : (n : ℝ) ≤ x)
    (h2 : x < (n : ℝ) + 1) : intOfDouble x = n := by
  rw [intOfDouble, if_pos h0, Int.floor_eq_iff]
  exact ⟨h1, h2⟩

/-- The branch of the horizontal loop on the projections and the crossings of the example
camera (radius `1`, turned by `5π/6` about the vertical axis, panorama of width `1024`). -/
theorem seamExtent_of_example (res : Fin 8 → ℝ × ℝ) (cross : Fin 8 → Bool)
    (hr0 : (res 0).1 = 2432 / 3) (hr1 : (res 1).1 = 2816 / 3) (hr2 : (res 2).1 = 128 / 3)
    (hr3 : (res 3).1 = 128 / 3) (hr4 : (res 4).1 = 128 / 3) (hr5 : (res 5).1 = 2816 / 3)
    (hr6 : (res 6).1 = 2432 / 3) (hr7 : (res 7).1 = 2432 / 3)
    (hc0 : cross 0 = false) (hc1 : cross 1 = true) (hc2 : cross 2 = false)
    (hc3 : cross 3 = false) (hc4 : cross 4 = true) (hc5 : cross 5 = false)
    (hc6 : cross 6 = false) (hc7 : cross 7 = false) :
    crossH cross = true ∧ seamExtent 1024 res cross = (810, 256) := by
  have i1 : intOfDouble (2432 / 3 : ℝ) = 810 :=
    intOfDouble_of_floor (by norm_num) (by norm_num) (by norm_num)
  have i2 : intOfDouble (2816 / 3 : ℝ) = 938 :=
    intOfDouble_of_floor (by norm_num) (by norm_num) (by norm_num)
  have i3 : intOfDouble (128 / 3 : ℝ) = 42 :=
    intOfDouble_of_floor (by norm_num) (by norm_num) (by norm_num)
  have hgt : (2816 / 3 : ℝ) > 128 / 3 := by norm_num
  have hngt : ¬ ((128 / 3 : ℝ) > 2816 / 3) := by norm_num
  constructor
  · simp only [crossH, arcIndices, List.any_cons, hc0, hc1, Bool.true_or, Bool.or_true,
      Bool.false_or]
  · have hfirst : firstCross cross = 1 := by
      simp only [firstCross, arcIndices, List.find?, hc0, hc1, Option.getD_some]
    simp only [seamExtent, hfirst, arcIndices, List.foldl, seamStep, Fin.isValue, Fin.reduceAdd,
      zero_add, hc0, hc1, hc2, hc3, hc4, hc5, hc6, hc7, hr0, hr1, hr2, hr3, hr4, hr5, hr6, hr7,
      i1, i2, i3, hgt, hngt, if_true, if_false, Bool.false_eq_true]
    decide

end CoordinatesMap

namespace CoordinatesMap

theorem yawRotation_polar (ψ θ m s x y : ℝ) (hx : x = m * Real.sin θ)
    (h1 : 1 = m * Real.cos θ) :
    yawRotation ψ (x * s, y, s)
      = ((m * s) * Real.sin (θ + ψ), y, (m * s) * Real.cos (θ + ψ)) := by
  simp only [yawRotation, Real.sin_add, Real.cos_add]
  refine Prod.ext ?_ (Prod.ext rfl ?_)
  · simp only
    linear_combination (s * Real.cos ψ) * hx + (s * Real.sin ψ) * h1
  · simp only
    linear_combination (-(s * Real.sin ψ)) * hx + (s * Real.cos ψ) * h1

theorem toEquirectangular_fst_polar (ρ lon y : ℝ) (W H : Int) (hρ : 0 < ρ)
    (h1 : -Real.pi < lon) (h2 : lon ≤ Real.pi) :
    (SphericalMapping.toEquirectangular (ρ * Real.sin lon, y, ρ * Real.cos lon) W H).1
      = (lon + Real.pi) / (2 * Real.pi) * (W : ℝ) := by
  simp only [SphericalMapping.toEquirectangular]
  rw [SphericalMapping.atan2_scaled_cos_sin hρ h1 h2]

/-- The eight points of the example camera (radius `1`, turned by `5π/6` about the vertical
axis) by longitude: the points `0`, `6`, `7` at `7π/12`, the points `1`, `5` at `5π/6` and
the points `2`, `3`, `4` at `-11π/12`, on the other side of the seam. -/
theorem example_points_polar :
    ∃ r0 r1 r2 r3 r4 r5 r6 r7 y0 y1 y2 y3 y4 y5 y6 y7 : ℝ,
      (0 < r0 ∧ 0 < r1 ∧ 0 < r2 ∧ 0 < r3 ∧ 0 < r4 ∧ 0 < r5 ∧ 0 < r6 ∧ 0 < r7) ∧
      (1 / 2 ≤ r1 ∧ 1 / 2 ≤ r5) ∧
      rotated_pts 1 (yawRotation (5 * Real.pi / 6)) 0
        = (r0 * Real.sin (7 * Real.pi / 12), y0, r0 * Real.cos (7 * Real.pi / 12)) ∧
      rotated_pts 1 (yawRotation (5 * Real.pi / 6)) 1
        = (r1 * Real.sin (5 * Real.pi / 6), y1, r1 * Real.cos (5 * Real.pi / 6)) ∧
      rotated_pts 1 (yawRotation (5 * Real.pi / 6)) 2
        = (r2 * Real.sin (-(11 * Real.pi / 12)), y2, r2 * Real.cos (-(11 * Real.pi / 12))) ∧
      rotated_pts 1 (yawRotation (5 * Real.pi / 6)) 3
        = (r3 * Real.sin (-(11 * Real.pi / 12)), y3, r3 * Real.cos (-(11 * Real.pi / 12))) ∧
      rotated_pts 1 (yawRotation (5 * Real.pi / 6)) 4
        = (r4 * Real.sin (-(11 * Real.pi / 12)), y4, r4 * Real.cos (-(11 * Real.pi / 12))) ∧
      rotated_pts 1 (yawRotation (5 * Real.pi / 6)) 5
        = (r5 * Real.sin (5 * Real.pi / 6), y5, r5 * Real.cos (5 * Real.pi / 6)) ∧
      rotated_pts 1 (yawRotation (5 * Real.pi / 6)) 6
        = (r6 * Real.sin (7 * Real.pi / 12), y6, r6 * Real.cos (7 * Real.pi / 12)) ∧
      rotated_pts 1 (yawRotation (5 * Real.pi / 6)) 7
        = (r7 * Real.sin (7 * Real.pi / 12), y7, r7 * Real.cos (7 * Real.pi / 12)) := by
  obtain ⟨e0, e1, e2, e3, e4, e5, e6, e7⟩ := rotated_pts_one (yawRotation (5 * Real.pi / 6))
  obtain ⟨ha, ha2⟩ := inv_sqrt_two_facts
  obtain ⟨hb, hb2⟩ := inv_sqrt_three_facts
  have hs2 : (0 : ℝ) < Real.sqrt 2 := Real.sqrt_pos.2 (by norm_num)
  have hsq : Real.sqrt 2 * Real.sqrt 2 = 2 := Real.mul_self_sqrt (by norm_num)
  have hmid : (0 : ℝ) = 1 * Real.sin 0 ∧ (1 : ℝ) = 1 * Real.cos 0 := by
    simp
  have hplus : (1 : ℝ) = Real.sqrt 2 * Real.sin (Real.pi / 4) ∧
      (1 : ℝ) = Real.sqrt 2 * Real.cos (Real.pi / 4) := by
    rw [Real.sin_pi_div_four, Real.cos_pi_div_four]
    constructor <;> linarith
  have hminus : (-1 : ℝ) = Real.sqrt 2 * Real.sin (-(Real.pi / 4)) ∧
      (1 : ℝ) = Real.sqrt 2 * Real.cos (-(Real.pi / 4)) := by
    rw [Real.sin_neg, Real.cos_neg, Real.sin_pi_div_four, Real.cos_pi_div_four]
    constructor <;> linarith
  have a0 : (0 : ℝ) + 5 * Real.pi / 6 = 5 * Real.pi / 6 := by ring
  have a1 : -(Real.pi / 4) + 5 * Real.pi / 6 = 7 * Real.pi / 12 := by ring
  have a2 : Real.pi / 4 + 5 * Real.pi / 6 = -(11 * Real.pi / 12) + 2 * Real.pi := by ring
  have hhalf : 1 / 2 ≤ 1 * (Real.sqrt 2)⁻¹ := by nlinarith
  refine ⟨Real.sqrt 2 * (Real.sqrt 3)⁻¹, 1 * (Real.sqrt 2)⁻¹, Real.sqrt 2 * (Real.sqrt 3)⁻¹,
    Real.sqrt 2 * (Real.sqrt 2)⁻¹, Real.sqrt 2 * (Real.sqrt 3)⁻¹, 1 * (Real.sqrt 2)⁻¹,
    Real.sqrt 2 * (Real.sqrt 3)⁻¹, Real.sqrt 2 * (Real.sqrt 2)⁻¹,
    -1 * (Real.sqrt 3)⁻¹, -1 * (Real.sqrt 2)⁻¹, -1 * (Real.sqrt 3)⁻¹, 0 * (Real.sqrt 2)⁻¹,
    1 * (Real.sqrt 3)⁻¹, 1 * (Real.sqrt 2)⁻¹, 1 * (Real.sqrt 3)⁻¹, 0 * (Real.sqrt 2)⁻¹,
    ⟨by positivity, by positivity, by positivity, by positivity, by positivity, by positivity,
      by positivity, by positivity⟩, ⟨hhalf, hhalf⟩, ?_, ?_, ?_, ?_, ?_, ?_, ?_, ?_⟩
  · rw [e0, yawRotation_polar _ _ _ _ _ _ hminus.1 hminus.2, a1]
  · rw [e1, yawRotation_polar _ _ _ _ _ _ hmid.1 hmid.2, a0]
  · rw [e2, yawRotation_polar _ _ _ _ _ _ hplus.1 hplus.2, a2, Real.sin_add_two_pi,
      Real.cos_add_two_pi]
  · rw [e3, yawRotation_polar _ _ _ _ _ _ hplus.1 hplus.2, a2, Real.sin_add_two_pi,
      Real.cos_add_two_pi]
  · rw [e4, yawRotation_polar _ _ _ _ _ _ hplus.1 hplus.2, a2, Real.sin_add_two_pi,
      Real.cos_add_two_pi]
  · rw [e5, yawRotation_polar _ _ _ _ _ _ hmid.1 hmid.2, a0]
  · rw [e6, yawRotation_polar _ _ _ _ _ _ hminus.1 hminus.2, a1]
  · rw [e7, yawRotation_polar _ _ _ _ _ _ hminus.1 hminus.2, a1]

theorem example_trigonometry :
    0 < Real.sin (7 * Real.pi / 12) ∧ Real.cos (7 * Real.pi / 12) < 0 ∧
      Real.sin (5 * Real.pi / 6) = 1 / 2 ∧ Real.cos (5 * Real.pi / 6) < 0 ∧
      Real.sin (-(11 * Real.pi / 12)) < 0 ∧ Real.cos (-(11 * Real.pi / 12)) < 0 := by
  have hpi := Real.pi_pos
  refine ⟨?_, ?_, ?_, ?_, ?_, ?_⟩
  · exact Real.sin_pos_of_pos_of_lt_pi (by linarith) (by linarith)
  · exact Real.cos_neg_of_pi_div_two_lt_of_lt (by linarith) (by linarith)
  · rw [show 5 * Real.pi / 6 = Real.pi - Real.pi / 6 by ring, Real.sin_pi_sub,
      Real.sin_pi_div_six]
  · exact Real.cos_neg_of_pi_div_two_lt_of_lt (by linarith) (by linarith)
  · exact Real.sin_neg_of_neg_of_neg_pi_lt (by linarith) (by linarith)
  · rw [Real.cos_neg]
    exact Real.cos_neg_of_pi_div_two_lt_of_lt (by linarith) (by linarith)

end CoordinatesMap

namespace CoordinatesMap

/-- C15 (failing input): a camera of radius `1` (`max_radius_distorted = 1`) turned by
`5π/6` about the vertical axis, in a panorama of `1024 x 512`. No pole test is true and the
boundary crosses the seam, so the branch `width = right + (W - left)` runs: the box has
`left = 810` and `width = 256`, that is the columns `810, ..., 1023, 0, ..., 41`. The vertex
`2` of the polygon projects to `x = 128 / 3`, in the pixel column `42`, which is none of the
columns of the box. -/
theorem seam_box_misses_a_vertex_column :
    ∃ box : BBox,
      poleTests (rotated_pts 1 (yawRotation (5 * Real.pi / 6))) = false ∧
      crossH (fun i => crossHorizontalLoop (rotated_pts 1 (yawRotation (5 * Real.pi / 6)) i)
        (rotated_pts 1 (yawRotation (5 * Real.pi / 6)) (i + 1))) = true ∧
      computeCoarseBB (1024, 512) (rotated_pts 1 (yawRotation (5 * Real.pi / 6)))
        = some (true, box) ∧
      box.left = 810 ∧ box.width = 256 ∧
      (SphericalMapping.toEquirectangular
        (rotated_pts 1 (yawRotation (5 * Real.pi / 6)) 2) 1024 512).1 = 128 / 3 ∧
      ⌊(SphericalMapping.toEquirectangular
        (rotated_pts 1 (yawRotation (5 * Real.pi / 6)) 2) 1024 512).1⌋ = 42 ∧
      ∀ k : Int, 0 ≤ k → k < box.width →
        (box.left + k) % 1024
          ≠ ⌊(SphericalMapping.toEquirectangular
              (rotated_pts 1 (yawRotation (5 * Real.pi / 6)) 2) 1024 512).1⌋ % 1024 := by
  obtain ⟨r0, r1, r2, r3, r4, r5, r6, r7, y0, y1, y2, y3, y4, y5, y6, y7,
    ⟨h0, h1, h2, h3, h4, h5, h6, h7⟩, ⟨hr1, hr5⟩, e0, e1, e2, e3, e4, e5, e6, e7⟩ :=
    example_points_polar
  obtain ⟨s1, c1, s2, c2, s3, c3⟩ := example_trigonometry
  have hpi := Real.pi_pos
  have hX1 : (7 * Real.pi / 12 + Real.pi) / (2 * Real.pi) * (((1024 : Int) : ℝ)) = 2432 / 3 := by
    push_cast
    field_simp
    ring
  have hX2 : (5 * Real.pi / 6 + Real.pi) / (2 * Real.pi) * (((1024 : Int) : ℝ)) = 2816 / 3 := by
    push_cast
    field_simp
    ring
  have hX3 : (-(11 * Real.pi / 12) + Real.pi) / (2 * Real.pi) * (((1024 : Int) : ℝ))
      = 128 / 3 := by
    push_cast
    field_simp
    ring
  have p1 : ∀ (r y : ℝ), 0 < r →
      (SphericalMapping.toEquirectangular
        (r * Real.sin (7 * Real.pi / 12), y, r * Real.cos (7 * Real.pi / 12)) 1024 512).1
        = 2432 / 3 := fun r y hr => by
    rw [toEquirectangular_fst_polar r _ y 1024 512 hr (by linarith) (by linarith), hX1]
  have p2 : ∀ (r y : ℝ), 0 < r →
      (SphericalMapping.toEquirectangular
        (r * Real.sin (5 * Real.pi / 6), y, r * Real.cos (5 * Real.pi / 6)) 1024 512).1
        = 2816 / 3 := fun r y hr => by
    rw [toEquirectangular_fst_polar r _ y 1024 512 hr (by linarith) (by linarith), hX2]
  have p3 : ∀ (r y : ℝ), 0 < r →
      (SphericalMapping.toEquirectangular
        (r * Real.sin (-(11 * Real.pi / 12)), y, r * Real.cos (-(11 * Real.pi / 12)))
          1024 512).1
        = 128 / 3 := fun r y hr => by
    rw [toEquirectangular_fst_polar r _ y 1024 512 hr (by linarith) (by linarith), hX3]
  have hbig : ∀ a b : ℝ, 1 / 4 ≤ a → b < 0 → (1 : ℝ) / 10 ^ 12 ≤ |b - a| := by
    intro a b ha hb
    rw [abs_sub_comm, abs_of_pos (by linarith)]
    norm_num
    linarith
  have hbig' : ∀ a b : ℝ, 1 / 4 ≤ a → b < 0 → (1 : ℝ) / 10 ^ 12 ≤ |a - b| := by
    intro a b ha hb
    rw [abs_of_pos (by linarith)]
    norm_num
    linarith
  have hseam := seamExtent_of_example
    (fun i => SphericalMapping.toEquirectangular
      (rotated_pts 1 (yawRotation (5 * Real.pi / 6)) i) 1024 512)
    (fun i => crossHorizontalLoop (rotated_pts 1 (yawRotation (5 * Real.pi / 6)) i)
      (rotated_pts 1 (yawRotation (5 * Real.pi / 6)) (i + 1)))
    (by simp only [e0]; exact p1 r0 y0 h0)
    (by simp only [e1]; exact p2 r1 y1 h1)
    (by simp only [e2]; exact p3 r2 y2 h2)
    (by simp only [e3]; exact p3 r3 y3 h3)
    (by simp only [e4]; exact p3 r4 y4 h4)
    (by simp only [e5]; exact p2 r5 y5 h5)
    (by simp only [e6]; exact p1 r6 y6 h6)
    (by simp only [e7]; exact p1 r7 y7 h7)
    (by
      simp only [Fin.isValue, zero_add, e0, e1]
      exact crossHorizontalLoop_of_pos_pos _ _ (mul_pos h0 s1) (by simp only; rw [s2]; linarith))
    (by
      simp only [Fin.isValue, Fin.reduceAdd, e1, e2]
      refine crossHorizontalLoop_of_crossing _ _
        (Or.inl ⟨by simp only; rw [s2]; linarith, mul_neg_of_pos_of_neg h2 s3⟩) ?_
        (mul_neg_of_pos_of_neg h1 c2) (mul_neg_of_pos_of_neg h2 c3)
      exact hbig _ _ (by simp only; rw [s2]; linarith) (mul_neg_of_pos_of_neg h2 s3))
    (by
      simp only [Fin.isValue, Fin.reduceAdd, e2, e3]
      exact crossHorizontalLoop_of_neg_neg _ _ (mul_neg_of_pos_of_neg h2 s3)
        (mul_neg_of_pos_of_neg h3 s3))
    (by
      simp only [Fin.isValue, Fin.reduceAdd, e3, e4]
      exact crossHorizontalLoop_of_neg_neg _ _ (mul_neg_of_pos_of_neg h3 s3)
        (mul_neg_of_pos_of_neg h4 s3))
    (by
      simp only [Fin.isValue, Fin.reduceAdd, e4, e5]
      refine crossHorizontalLoop_of_crossing _ _
        (Or.inr ⟨mul_neg_of_pos_of_neg h4 s3, by simp only; rw [s2]; linarith⟩) ?_
        (mul_neg_of_pos_of_neg h4 c3) (mul_neg_of_pos_of_neg h5 c2)
      exact hbig' _ _ (by simp only; rw [s2]; linarith) (mul_neg_of_pos_of_neg h4 s3))
    (by
      simp only [Fin.isValue, Fin.reduceAdd, e5, e6]
      exact crossHorizontalLoop_of_pos_pos _ _ (by simp only; rw [s2]; linarith) (mul_pos h6 s1))
    (by
      simp only [Fin.isValue, Fin.reduceAdd, e6, e7]
      exact crossHorizontalLoop_of_pos_pos _ _ (mul_pos h6 s1) (mul_pos h7 s1))
    (by
      simp only [Fin.isValue, Fin.reduceAdd, e7, e0]
      exact crossHorizontalLoop_of_pos_pos _ _ (mul_pos h7 s1) (mul_pos h0 s1))
  obtain ⟨⟨top, bottom⟩, hv⟩ := verticalLoop_isSome (1024, 512)
    (rotated_pts 1 (yawRotation (5 * Real.pi / 6)))
    (getExtremaY_isSome_of_yaw_camera (5 * Real.pi / 6)) arcIndices (512, 0)
  have hpole := poleTests_of_yaw_camera (5 * Real.pi / 6)
  have hx2 : (SphericalMapping.toEquirectangular
      (rotated_pts 1 (yawRotation (5 * Real.pi / 6)) 2) 1024 512).1 = 128 / 3 := by
    rw [e2]
    exact p3 r2 y2 h2
  have hfloor : ⌊(SphericalMapping.toEquirectangular
      (rotated_pts 1 (yawRotation (5 * Real.pi / 6)) 2) 1024 512).1⌋ = 42 := by
    rw [hx2, Int.floor_eq_iff]
    norm_num
  have hbox : computeCoarseBB (1024, 512) (rotated_pts 1 (yawRotation (5 * Real.pi / 6)))
      = some (true, { left := 810, top := top, width := 256, height := bottom - top + 1 }) := by
    simp only [computeCoarseBB, hv, hpole, horizontalExtent, hseam.1, hseam.2, if_true,
      Bool.false_eq_true, if_false]
  refine ⟨_, hpole, hseam.1, hbox, rfl, rfl, hx2, hfloor, ?_⟩
  intro k hk0 hk1
  rw [hfloor]
  simp only at hk1 ⊢
  omega

end CoordinatesMap

namespace SphericalMapping

/-- The coordinates returned by `toEquirectangular` lie between `0` and the panorama size,
so their floor, ceiling and truncation are in the range of `int`. -/
theorem toEquirectangular_range (spherical : ℝ × ℝ × ℝ) (width height : Int)
    (hW : 0 ≤ width) (hH : 0 ≤ height) :
    0 ≤ (toEquirectangular spherical width height).1 ∧
      (toEquirectangular spherical width height).1 ≤ (width : ℝ) ∧
      0 ≤ (toEquirectangular spherical width height).2 ∧
      (toEquirectangular spherical width height).2 ≤ (height : ℝ) := by
  have hpi := Real.pi_pos
  have hWr : (0 : ℝ) ≤ (width : ℝ) := by exact_mod_cast hW
  have hHr : (0 : ℝ) ≤ (height : ℝ) := by exact_mod_cast hH
  have ha1 : -Real.pi < atan2 spherical.1 spherical.2.2 := Complex.neg_pi_lt_arg _
  have ha2 : atan2 spherical.1 spherical.2.2 ≤ Real.pi := Complex.arg_le_pi _
  have hs1 := Real.neg_pi_div_two_le_arcsin spherical.2.1
  have hs2 := Real.arcsin_le_pi_div_two spherical.2.1
  have hx0 : 0 ≤ (atan2 spherical.1 spherical.2.2 + Real.pi) / (2 * Real.pi) :=
    div_nonneg (by linarith) (by linarith)
  have hx1 : (atan2 spherical.1 spherical.2.2 + Real.pi) / (2 * Real.pi) ≤ 1 := by
    rw [div_le_one (by linarith)]
    linarith
  have hy0 : 0 ≤ (Real.arcsin spherical.2.1 + Real.pi / 2) / Real.pi :=
    div_nonneg (by linarith) hpi.le
  have hy1 : (Real.arcsin spherical.2.1 + Real.pi / 2) / Real.pi ≤ 1 := by
    rw [div_le_one hpi]
    linarith
  simp only [toEquirectangular]
  exact ⟨mul_nonneg hx0 hWr, mul_le_of_le_one_left hWr hx1, mul_nonneg hy0 hHr,
    mul_le_of_le_one_left hHr hy1⟩

end SphericalMapping

namespace CoordinatesMap

theorem plainLoop_bounds (res : Fin 8 → ℝ × ℝ) :
    ∀ (l : List (Fin 8)) (acc : Int × Int),
      (l.foldl (fun (acc : Int × Int) i => (min ⌊(res i).1⌋ acc.1, max ⌈(res i).1⌉ acc.2))
          acc).1 ≤ acc.1 ∧
      acc.2 ≤ (l.foldl (fun (acc : Int × Int) i =>
          (min ⌊(res i).1⌋ acc.1, max ⌈(res i).1⌉ acc.2)) acc).2 ∧
      ∀ i ∈ l,
        (l.foldl (fun (acc : Int × Int) i => (min ⌊(res i).1⌋ acc.1, max ⌈(res i).1⌉ acc.2))
            acc).1 ≤ ⌊(res i).1⌋ ∧
          ⌈(res i).1⌉ ≤ (l.foldl (fun (acc : Int × Int) i =>
            (min ⌊(res i).1⌋ acc.1, max ⌈(res i).1⌉ acc.2)) acc).2 := by
  intro l
  induction l with
  | nil =>
    intro acc
    exact ⟨le_refl _, le_refl _, fun i hi => absurd hi (List.not_mem_nil i)⟩
  | cons j rest ih =>
    intro acc
    obtain ⟨a, b, c⟩ := ih (min ⌊(res j).1⌋ acc.1, max ⌈(res j).1⌉ acc.2)
    simp only [List.foldl_cons]
    refine ⟨a.trans (min_le_right _ _), (le_max_right _ _).trans b, ?_⟩
    intro i hi
    rcases List.mem_cons.1 hi with h | h
    · rw [h]
      exact ⟨a.trans (min_le_left _ _), (le_max_left _ _).trans b⟩
    · exact c i h

theorem verticalLoop_bounds (panoramaSize : Int × Int) (rotated_pts : Fin 8 → ℝ × ℝ × ℝ) :
    ∀ (l : List (Fin 8)) (acc r : Int × Int),
      verticalLoop panoramaSize rotated_pts l acc = some r →
      r.1 ≤ acc.1 ∧ acc.2 ≤ r.2 ∧
      ∀ i ∈ l,
        r.1 ≤ ⌊(SphericalMapping.toEquirectangular (rotated_pts i) panoramaSize.1
            panoramaSize.2).2⌋ ∧
          ⌈(SphericalMapping.toEquirectangular (rotated_pts i) panoramaSize.1
            panoramaSize.2).2⌉ ≤ r.2 := by
  intro l
  induction l with
  | nil =>
    intro acc r h
    simp only [verticalLoop, Option.some.injEq] at h
    rw [← h]
    exact ⟨le_refl _, le_refl _, fun i hi => absurd hi (List.not_mem_nil i)⟩
  | cons j rest ih =>
    intro acc r h
    simp only [verticalLoop] at h
    split at h
    · exact absurd h (by simp)
    · obtain ⟨a, b, c⟩ := ih _ r h
      simp only at a b
      refine ⟨a.trans ((min_le_right _ _).trans (min_le_right _ _)),
        ((le_max_right _ _).trans (le_max_right _ _)).trans b, ?_⟩
      intro i hi
      rcases List.mem_cons.1 hi with h' | h'
      · rw [h']
        exact ⟨a.trans (min_le_left _ _), (le_max_left _ _).trans b⟩
      · exact c i h'

theorem mem_arcIndices (i : Fin 8) : i ∈ arcIndices := by
  fin_cases i <;> simp [arcIndices]

/-- The part of C15 that holds: when no pole test is true and no arc crosses the seam (the
branch `width = right - left + 1`), every vertex of the polygon projects to a point whose
pixel row lies in `[top, top + height - 1]` and whose pixel column lies in
`[left, left + width - 1]`. -/
theorem plain_box_contains_vertices (panoramaSize : Int × Int)
    (rotated_pts : Fin 8 → ℝ × ℝ × ℝ) (result : Bool) (box : BBox)
    (hbox : computeCoarseBB panoramaSize rotated_pts = some (result, box))
    (hpole : poleTests rotated_pts = false)
    (hcross : crossH (fun i => crossHorizontalLoop (rotated_pts i) (rotated_pts (i + 1)))
      = false) (i : Fin 8) :
    box.top ≤ ⌊(SphericalMapping.toEquirectangular (rotated_pts i) panoramaSize.1
        panoramaSize.2).2⌋ ∧
      ⌊(SphericalMapping.toEquirectangular (rotated_pts i) panoramaSize.1
        panoramaSize.2).2⌋ ≤ box.top + box.height - 1 ∧
      box.left ≤ ⌊(SphericalMapping.toEquirectangular (rotated_pts i) panoramaSize.1
        panoramaSize.2).1⌋ ∧
      ⌊(SphericalMapping.toEquirectangular (rotated_pts i) panoramaSize.1
        panoramaSize.2).1⌋ ≤ box.left + box.width - 1 := by
  simp only [computeCoarseBB] at hbox
  split at hbox
  · exact absurd hbox (by simp)
  · rename_i top bottom hv
    obtain ⟨-, -, hrow⟩ := verticalLoop_bounds panoramaSize rotated_pts arcIndices _ _ hv
    obtain ⟨-, -, hcol⟩ := plainLoop_bounds
      (fun i => SphericalMapping.toEquirectangular (rotated_pts i) panoramaSize.1 panoramaSize.2)
      arcIndices (panoramaSize.1, 0)
    have hr := hrow i (mem_arcIndices i)
    have hc := hcol i (mem_arcIndices i)
    have hfy := Int.floor_le_ceil (SphericalMapping.toEquirectangular (rotated_pts i)
      panoramaSize.1 panoramaSize.2).2
    have hfx := Int.floor_le_ceil (SphericalMapping.toEquirectangular (rotated_pts i)
      panoramaSize.1 panoramaSize.2).1
    simp only [hpole, horizontalExtent, hcross, plainExtent, Bool.false_eq_true, if_false,
      Option.some.injEq, Prod.mk.injEq] at hbox
    obtain ⟨-, hb⟩ := hbox
    rw [← hb]
    simp only at hr hc ⊢
    refine ⟨hr.1, by linarith [hr.2], hc.1, by linarith [hc.2]⟩

end CoordinatesMap

/-! ### Geometric predicates and the two Jacobians -/

namespace CoordinatesMap

/-- C28: for every coordinate grid and every cell `(i, j)` with `i + 1` and `j + 1` inside
the grid, the three coordinates read by the two computations are inside the grid, and the
value `|dxx * dyy - dxy * dyx|` of `GaussianWarper::warp` (differences along `(i + 1, j)`
first) is the value of `CoordinatesMap::computeScale` (differences along `(i, j + 1)`
first): the two matrices are transposes of each other. -/
theorem jacobian_determinants_agree {K : Type} [LinearOrderedField K]
    (coordinates : Image (K × K)) (i j : Nat)
    (hi : i + 1 < coordinates.Height) (hj : j + 1 < coordinates.Width) :
    coordinates.get? i j = some (coordinates.data i j) ∧
      coordinates.get? i (j + 1) = some (coordinates.data i (j + 1)) ∧
      coordinates.get? (i + 1) j = some (coordinates.data (i + 1) j) ∧
      GaussianWarper.jacobianDet coordinates i j = scaleDet coordinates i j := by
  have hi0 : i < coordinates.Height := by omega
  have hj0 : j < coordinates.Width := by omega
  refine ⟨?_, ?_, ?_, ?_⟩
  · simp only [Image.get?, hi0, hj0, and_self, if_true]
  · simp only [Image.get?, hi0, hj, and_self, if_true]
  · simp only [Image.get?, hi, hj0, and_self, if_true]
  · simp only [GaussianWarper.jacobianDet, scaleDet]
    rw [← abs_neg]
    congr 1
    ring

theorem jacobian_determinants_agree_witness :
    (GaussianWarper.quarterScaleMap 2 2)._coordinates.get? 0 0
        = some ((GaussianWarper.quarterScaleMap 2 2)._coordinates.data 0 0) ∧
      (GaussianWarper.quarterScaleMap 2 2)._coordinates.get? 0 (0 + 1)
        = some ((GaussianWarper.quarterScaleMap 2 2)._coordinates.data 0 (0 + 1)) ∧
      (GaussianWarper.quarterScaleMap 2 2)._coordinates.get? (0 + 1) 0
        = some ((GaussianWarper.quarterScaleMap 2 2)._coordinates.data (0 + 1) 0) ∧
      GaussianWarper.jacobianDet (GaussianWarper.quarterScaleMap 2 2)._coordinates 0 0
        = scaleDet (GaussianWarper.quarterScaleMap 2 2)._coordinates 0 0 :=
  jacobian_determinants_agree (GaussianWarper.quarterScaleMap 2 2)._coordinates 0 0
    (by decide) (by decide)

/-- C24: for three points whose projections on the plane `(x, z)` are not collinear, the
values `a`, `b`, `c` computed by `isPoleInTriangle` satisfy `a + b + c = 1` and
`a (x1, z1) + b (x2, z2) + c (x3, z3) = (0, 0)`; the function returns `true` exactly when
`a`, `b`, `c` all lie in `[0, 1]`, that is exactly when the origin of the plane is a convex
combination of the three projections; and the result does not depend on the components
`y`. -/
theorem isPoleInTriangle_iff_origin_in_triangle {K : Type} [LinearOrderedField K]
    (p1 p2 p3 : K × K × K)
    (hncol : (p2.1 - p1.1) * (p3.2.2 - p1.2.2) - (p3.1 - p1.1) * (p2.2.2 - p1.2.2) ≠ 0) :
    ∃ a b c den : K,
      den = p1.1 * p2.2.2 - p1.1 * p3.2.2 - p2.1 * p1.2.2 + p2.1 * p3.2.2
        + p3.1 * p1.2.2 - p3.1 * p2.2.2 ∧
      den ≠ 0 ∧
      a = (p2.1 * p3.2.2 - p3.1 * p2.2.2) / den ∧
      b = (-p1.1 * p3.2.2 + p3.1 * p1.2.2) / den ∧
      c = 1 - a - b ∧
      a + b + c = 1 ∧
      a * p1.1 + b * p2.1 + c * p3.1 = 0 ∧
      a * p1.2.2 + b * p2.2.2 + c * p3.2.2 = 0 ∧
      (isPoleInTriangle p1 p2 p3 = true ↔
        (0 ≤ a ∧ a ≤ 1) ∧ (0 ≤ b ∧ b ≤ 1) ∧ (0 ≤ c ∧ c ≤ 1)) ∧
      (isPoleInTriangle p1 p2 p3 = true ↔
        ∃ u v w : K, 0 ≤ u ∧ 0 ≤ v ∧ 0 ≤ w ∧ u + v + w = 1 ∧
          u * p1.1 + v * p2.1 + w * p3.1 = 0 ∧
          u * p1.2.2 + v * p2.2.2 + w * p3.2.2 = 0) ∧
      ∀ y1 y2 y3 : K,
        isPoleInTriangle (p1.1, y1, p1.2.2) (p2.1, y2, p2.2.2) (p3.1, y3, p3.2.2)
          = isPoleInTriangle p1 p2 p3 := by
  obtain ⟨x1, y1, z1⟩ := p1
  obtain ⟨x2, y2, z2⟩ := p2
  obtain ⟨x3, y3, z3⟩ := p3
  simp only at hncol ⊢
  have hden : x1 * z2 - x1 * z3 - x2 * z1 + x2 * z3 + x3 * z1 - x3 * z2 ≠ 0 := by
    intro h
    apply hncol
    linear_combination h
  have hiff : isPoleInTriangle (x1, y1, z1) (x2, y2, z2) (x3, y3, z3) = true ↔
      (0 ≤ (x2 * z3 - x3 * z2) / (x1 * z2 - x1 * z3 - x2 * z1 + x2 * z3 + x3 * z1 - x3 * z2) ∧
        (x2 * z3 - x3 * z2) / (x1 * z2 - x1 * z3 - x2 * z1 + x2 * z3 + x3 * z1 - x3 * z2) ≤ 1) ∧
      (0 ≤ (-x1 * z3 + x3 * z1) / (x1 * z2 - x1 * z3 - x2 * z1 + x2 * z3 + x3 * z1 - x3 * z2) ∧
        (-x1 * z3 + x3 * z1) / (x1 * z2 - x1 * z3 - x2 * z1 + x2 * z3 + x3 * z1 - x3 * z2) ≤ 1) ∧
      (0 ≤ 1 - (x2 * z3 - x3 * z2)
            / (x1 * z2 - x1 * z3 - x2 * z1 + x2 * z3 + x3 * z1 - x3 * z2)
          - (-x1 * z3 + x3 * z1)
            / (x1 * z2 - x1 * z3 - x2 * z1 + x2 * z3 + x3 * z1 - x3 * z2) ∧
        1 - (x2 * z3 - x3 * z2)
            / (x1 * z2 - x1 * z3 - x2 * z1 + x2 * z3 + x3 * z1 - x3 * z2)
          - (-x1 * z3 + x3 * z1)
            / (x1 * z2 - x1 * z3 - x2 * z1 + x2 * z3 + x3 * z1 - x3 * z2) ≤ 1) := by
    simp only [isPoleInTriangle, if_neg hden]
    split_ifs with h1 h2 h3
    · simp only [Bool.false_eq_true, false_iff, not_and, not_le]
      rintro ⟨ha0, ha1⟩
      rcases h1 with h | h
      · exact absurd ha0 (not_le.2 h)
      · exact absurd ha1 (not_le.2 h)
    · simp only [Bool.false_eq_true, false_iff, not_and, not_le]
      rintro - ⟨hb0, hb1⟩
      rcases h2 with h | h
      · exact absurd hb0 (not_le.2 h)
      · exact absurd hb1 (not_le.2 h)
    · simp only [Bool.false_eq_true, false_iff, not_and, not_le]
      rintro - - hc0
      rcases h3 with h | h
      · exact absurd hc0 (not_le.2 h)
      · exact h
    · simp only [not_or, not_lt] at h1 h2 h3
      simp only [true_iff]
      exact ⟨h1, h2, h3⟩
  refine ⟨_, _, _, _, rfl, hden, rfl, rfl, rfl, by ring, ?_, ?_, hiff, ?_, ?_⟩
  · field_simp
    ring
  · field_simp
    ring
  · rw [hiff]
    constructor
    · rintro ⟨⟨ha0, -⟩, ⟨hb0, -⟩, ⟨hc0, -⟩⟩
      refine ⟨_, _, _, ha0, hb0, hc0, by ring, ?_, ?_⟩
      · field_simp
        ring
      · field_simp
        ring
    · rintro ⟨u, v, w, hu, hv, hw, hsum, hx, hz⟩
      have hua : (x2 * z3 - x3 * z2)
          / (x1 * z2 - x1 * z3 - x2 * z1 + x2 * z3 + x3 * z1 - x3 * z2) = u := by
        rw [div_eq_iff hden]
        linear_combination (-(x2 * z3 - x3 * z2)) * hsum - (z2 - z3) * hx - (x3 - x2) * hz
      have hvb : (-x1 * z3 + x3 * z1)
          / (x1 * z2 - x1 * z3 - x2 * z1 + x2 * z3 + x3 * z1 - x3 * z2) = v := by
        rw [div_eq_iff hden]
        linear_combination (-(-x1 * z3 + x3 * z1)) * hsum - (z3 - z1) * hx - (x1 - x3) * hz
      rw [hua, hvb]
      have hwc : 1 - u - v = w := by linarith
      rw [hwc]
      exact ⟨⟨hu, by linarith⟩, ⟨hv, by linarith⟩, ⟨hw, by linarith⟩⟩
  · intro y1' y2' y3'
    rfl

theorem isPoleInTriangle_iff_origin_in_triangle_witness :
    ∃ a b c den : ℚ,
      den = (1 : ℚ) * (-1) - 1 * 1 - (-1) * (-1) + (-1) * 1 + 0 * (-1) - 0 * (-1) ∧
      den ≠ 0 ∧
      a = ((-1 : ℚ) * 1 - 0 * (-1)) / den ∧
      b = (-(1 : ℚ) * 1 + 0 * (-1)) / den ∧
      c = 1 - a - b ∧
      a + b + c = 1 ∧
      a * 1 + b * (-1) + c * 0 = 0 ∧
      a * (-1) + b * (-1) + c * 1 = 0 ∧
      (isPoleInTriangle ((1 : ℚ), (0 : ℚ), (-1 : ℚ)) (-1, 0, -1) (0, 0, 1) = true ↔
        (0 ≤ a ∧ a ≤ 1) ∧ (0 ≤ b ∧ b ≤ 1) ∧ (0 ≤ c ∧ c ≤ 1)) ∧
      (isPoleInTriangle ((1 : ℚ), (0 : ℚ), (-1 : ℚ)) (-1, 0, -1) (0, 0, 1) = true ↔
        ∃ u v w : ℚ, 0 ≤ u ∧ 0 ≤ v ∧ 0 ≤ w ∧ u + v + w = 1 ∧
          u * 1 + v * (-1) + w * 0 = 0 ∧
          u * (-1) + v * (-1) + w * 1 = 0) ∧
      ∀ y1 y2 y3 : ℚ,
        isPoleInTriangle ((1 : ℚ), y1, (-1 : ℚ)) (-1, y2, -1) (0, y3, 1)
          = isPoleInTriangle ((1 : ℚ), (0 : ℚ), (-1 : ℚ)) (-1, 0, -1) (0, 0, 1) :=
  isPoleInTriangle_iff_origin_in_triangle ((1 : ℚ), (0 : ℚ), (-1 : ℚ)) (-1, 0, -1) (0, 0, 1)
    (by norm_num)

end CoordinatesMap

namespace CoordinatesMap

/-- C25 (counterexample): the chord from `(0, 0, -1)` to `(0, 1, -1)` lies in the plane
`x = 0` with negative `z` (at `t = 0` the chord point is `(0, 0, -1)`), yet
`crossHorizontalLoop` returns `false`: the difference of the components `x` is below
`1e-12`. -/
theorem crossHorizontalLoop_false_on_chord_in_plane :
    crossHorizontalLoop ((0 : ℚ), (0 : ℚ), (-1 : ℚ)) (0, 1, -1) = false ∧
    ∃ t : ℚ, 0 ≤ t ∧ t ≤ 1 ∧ (0 : ℚ) + t * (0 - 0) = 0 ∧ (-1 : ℚ) + t * (-1 - -1) < 0 := by
  constructor
  · simp only [crossHorizontalLoop]
    norm_num
  · exact ⟨0, by norm_num, by norm_num, by norm_num, by norm_num⟩

/-- C25 (as amended): when the components `x` of the two points differ by at least `1e-12`,
`crossHorizontalLoop a b` returns `true` exactly when there is a `t` in `[0, 1]` at which the
chord point `a + t (b - a)` lies on the plane `x = 0` and has negative `z`; when they differ
by less than `1e-12` it returns `false`. -/
theorem crossHorizontalLoop_iff_chord_crosses {K : Type} [LinearOrderedField K]
    (a b : K × K × K) :
    (1 / 10 ^ 12 ≤ |b.1 - a.1| →
      (crossHorizontalLoop a b = true ↔
        ∃ t : K, 0 ≤ t ∧ t ≤ 1 ∧ a.1 + t * (b.1 - a.1) = 0 ∧ a.2.2 + t * (b.2.2 - a.2.2) < 0)) ∧
    (|b.1 - a.1| < 1 / 10 ^ 12 → crossHorizontalLoop a b = false) := by
  constructor
  · intro hbig
    have hd : b.1 - a.1 ≠ 0 := by
      intro h
      rw [h, abs_zero] at hbig
      exact absurd hbig (not_le.2 (by positivity))
    simp only [crossHorizontalLoop, if_neg (not_lt.2 hbig)]
    constructor
    · intro h
      split_ifs at h with h1 h2
      · refine ⟨-a.1 / (b.1 - a.1), h1.1, h1.2, ?_, ?_⟩
        · field_simp
        · rw [mul_comm]
          exact h2
    · rintro ⟨t, ht0, ht1, hx, hz⟩
      have ht : -a.1 / (b.1 - a.1) = t := by
        rw [div_eq_iff hd]
        linear_combination -hx
      rw [ht, if_pos ⟨ht0, ht1⟩, if_pos]
      rw [mul_comm]
      exact hz
  · intro hsmall
    simp only [crossHorizontalLoop, if_pos hsmall]

theorem crossHorizontalLoop_iff_chord_crosses_witness :
    (1 / 10 ^ 12 ≤ |(-1 : ℚ) - 1| →
      (crossHorizontalLoop ((1 : ℚ), (0 : ℚ), (-1 : ℚ)) (-1, 0, -1) = true ↔
        ∃ t : ℚ, 0 ≤ t ∧ t ≤ 1 ∧ 1 + t * (-1 - 1) = 0 ∧ -1 + t * (-1 - -1) < 0)) ∧
    (|(-1 : ℚ) - 1| < 1 / 10 ^ 12 →
      crossHorizontalLoop ((1 : ℚ), (0 : ℚ), (-1 : ℚ)) (-1, 0, -1) = false) :=
  crossHorizontalLoop_iff_chord_crosses ((1 : ℚ), (0 : ℚ), (-1 : ℚ)) (-1, 0, -1)

/-- The stationarity equation of the latitude at the parameter that `getExtremaY` computes:
for a non-zero denominator, with `p = a + t (b - a)` at the computed `t` and `d = b - a`, the
difference `d_y ‖p‖² - p_y (p · d)` is `(d_y - d_y²) (a_x² + a_z²)`. It vanishes exactly when
`d_y` is `0` or `1` or `a` is on the axis `y`. -/
theorem extremaQuotient_stationarity_defect {K : Type} [Field K] (a b : K × K × K)
    (hden : (extremaQuotient a b).2 ≠ 0) :
    (b.2.1 - a.2.1)
        * ((a.1 + (extremaQuotient a b).1 / (extremaQuotient a b).2 * (b.1 - a.1)) ^ 2
          + (a.2.1 + (extremaQuotient a b).1 / (extremaQuotient a b).2 * (b.2.1 - a.2.1)) ^ 2
          + (a.2.2 + (extremaQuotient a b).1 / (extremaQuotient a b).2 * (b.2.2 - a.2.2)) ^ 2)
      - (a.2.1 + (extremaQuotient a b).1 / (extremaQuotient a b).2 * (b.2.1 - a.2.1))
        * ((a.1 + (extremaQuotient a b).1 / (extremaQuotient a b).2 * (b.1 - a.1)) * (b.1 - a.1)
          + (a.2.1 + (extremaQuotient a b).1 / (extremaQuotient a b).2 * (b.2.1 - a.2.1))
            * (b.2.1 - a.2.1)
          + (a.2.2 + (extremaQuotient a b).1 / (extremaQuotient a b).2 * (b.2.2 - a.2.2))
            * (b.2.2 - a.2.2))
      = ((b.2.1 - a.2.1) - (b.2.1 - a.2.1) ^ 2) * (a.1 ^ 2 + a.2.2 ^ 2) := by
  have key : ∀ t : K, t * (extremaQuotient a b).2 = (extremaQuotient a b).1 →
      (b.2.1 - a.2.1)
          * ((a.1 + t * (b.1 - a.1)) ^ 2 + (a.2.1 + t * (b.2.1 - a.2.1)) ^ 2
            + (a.2.2 + t * (b.2.2 - a.2.2)) ^ 2)
        - (a.2.1 + t * (b.2.1 - a.2.1))
          * ((a.1 + t * (b.1 - a.1)) * (b.1 - a.1)
            + (a.2.1 + t * (b.2.1 - a.2.1)) * (b.2.1 - a.2.1)
            + (a.2.2 + t * (b.2.2 - a.2.2)) * (b.2.2 - a.2.2))
        = ((b.2.1 - a.2.1) - (b.2.1 - a.2.1) ^ 2) * (a.1 ^ 2 + a.2.2 ^ 2) := by
    intro t ht
    simp only [extremaQuotient] at ht
    linear_combination (-1 : K) * ht
  exact key _ (div_mul_cancel₀ _ hden)

/-- C23 (failing input): for the unit vectors `a = (0, 0, 1)` and `b = (0, 3/5, 4/5)` the
quotient of `getExtremaY` is `t = (9/25) / (3/25) = 3` and the function returns the
normalisation of `a + 3 (b - a) = (0, 9/5, 2/5)`. At `t = 3` the stationarity equation of the
latitude fails (`51/25` against `45/25`); it holds at `t = 5`, where `a + 5 (b - a)` is
`(0, 3, 0)`, the direction of the pole, which is the point of largest `|y|` of the great
circle. -/
theorem getExtremaY_not_stationary :
    (extremaQuotient ((0 : ℝ), (0 : ℝ), (1 : ℝ)) (0, 3 / 5, 4 / 5)) = (9 / 25, 3 / 25) ∧
    getExtremaY (0, 0, 1) (0, 3 / 5, 4 / 5) = some (normalized (0, 9 / 5, 2 / 5)) ∧
    ((0 : ℝ) ^ 2 + 0 ^ 2 + 1 ^ 2 = 1 ∧ (0 : ℝ) ^ 2 + (3 / 5) ^ 2 + (4 / 5) ^ 2 = 1) ∧
    ((3 / 5 - 0 : ℝ) * ((0 + 3 * (0 - 0)) ^ 2 + (0 + 3 * (3 / 5 - 0)) ^ 2
          + (1 + 3 * (4 / 5 - 1)) ^ 2) = 51 / 25 ∧
      ((0 : ℝ) + 3 * (3 / 5 - 0)) * ((0 + 3 * (0 - 0)) * (0 - 0)
          + (0 + 3 * (3 / 5 - 0)) * (3 / 5 - 0) + (1 + 3 * (4 / 5 - 1)) * (4 / 5 - 1))
        = 45 / 25) ∧
    ((3 / 5 - 0 : ℝ) * ((0 + 5 * (0 - 0)) ^ 2 + (0 + 5 * (3 / 5 - 0)) ^ 2
          + (1 + 5 * (4 / 5 - 1)) ^ 2)
      = ((0 : ℝ) + 5 * (3 / 5 - 0)) * ((0 + 5 * (0 - 0)) * (0 - 0)
          + (0 + 5 * (3 / 5 - 0)) * (3 / 5 - 0) + (1 + 5 * (4 / 5 - 1)) * (4 / 5 - 1))) ∧
    (normalized (0, 9 / 5, 2 / 5)).2.1 < 1 ∧
    ((0 : ℝ) + 5 * (0 - 0), (0 : ℝ) + 5 * (3 / 5 - 0), (1 : ℝ) + 5 * (4 / 5 - 1)) = (0, 3, 0) := by
  have hq : (extremaQuotient ((0 : ℝ), (0 : ℝ), (1 : ℝ)) (0, 3 / 5, 4 / 5))
      = (9 / 25, 3 / 25) := by
    simp only [extremaQuotient]
    norm_num
  have hnorm : SphericalMapping.norm3 ((0 : ℝ), (9 / 5 : ℝ), (2 / 5 : ℝ)) ≠ 0 :=
    norm3_ne_zero_of_pos (by norm_num)
  have hnpos : 0 < SphericalMapping.norm3 ((0 : ℝ), (9 / 5 : ℝ), (2 / 5 : ℝ)) :=
    lt_of_le_of_ne (Real.sqrt_nonneg _) (Ne.symm hnorm)
  have hngt : (9 / 5 : ℝ) < SphericalMapping.norm3 ((0 : ℝ), (9 / 5 : ℝ), (2 / 5 : ℝ)) := by
    rw [SphericalMapping.norm3]
    apply Real.lt_sqrt_of_sq_lt
    norm_num
  refine ⟨hq, ?_, ⟨by norm_num, by norm_num⟩, ⟨by norm_num, by norm_num⟩, by norm_num, ?_, ?_⟩
  · have hp : ((0 : ℝ) + 9 / 25 / (3 / 25) * (0 - 0), (0 : ℝ) + 9 / 25 / (3 / 25) * (3 / 5 - 0),
        (1 : ℝ) + 9 / 25 / (3 / 25) * (4 / 5 - 1)) = (0, 9 / 5, 2 / 5) := by
      norm_num
    simp only [getExtremaY, hq]
    rw [if_neg (by norm_num), hp, if_neg hnorm]
  · simp only [normalized]
    rw [div_lt_one hnpos]
    exact hngt
  · norm_num

end CoordinatesMap

/-! ### Command line -/

/-- C22 (counterexample): with the option `--panoramaWidth` absent and no view, the size is
`(1024, 512)`, the rounding of the default width `1024`; with the value `0` it is the size
`(512, 256)` of the estimation branch. -/
theorem absent_width_is_not_estimated :
    parsedPanoramaWidth none = 1024 ∧
    panoramaSizeOfCommandLine none ([] : List (Option ℚ)) = some (1024, 512) ∧
    panoramaSizeOfCommandLine (some 0) ([] : List (Option ℚ)) = some (512, 256) ∧
    computeOptimalPanoramaSize ([] : List (Option ℚ)) = some (512, 256) := by
  refine ⟨rfl, ?_, ?_, ?_⟩
  · simp only [panoramaSizeOfCommandLine, parsedPanoramaWidth, Option.getD_none,
      choosePanoramaSize]
    rw [if_neg (by decide), roundPanoramaSize_eq 1024]
    decide
  · simp [panoramaSizeOfCommandLine, parsedPanoramaWidth, choosePanoramaSize,
      computeOptimalPanoramaSize]
  · simp [computeOptimalPanoramaSize]

/-- C22 (as amended): when the option `--panoramaWidth` is absent the width is the default
`1024` of the option and the panorama size is `(1024, 512)`, whatever the views; the
estimation branch `computeOptimalPanoramaSize` is taken exactly when a value `≤ 0` is
given. -/
theorem absent_width_gives_default_size {K : Type} [LinearOrderedField K] [FloorRing K]
    (viewScales : List (Option K)) :
    panoramaSizeOfCommandLine none viewScales = some (1024, 512) ∧
    (∀ w : Int, w ≤ 0 →
      panoramaSizeOfCommandLine (some w) viewScales = computeOptimalPanoramaSize viewScales) ∧
    (∀ w : Int, 0 < w →
      panoramaSizeOfCommandLine (some w) viewScales = roundPanoramaSize (K := K) w) := by
  refine ⟨?_, ?_, ?_⟩
  · simp only [panoramaSizeOfCommandLine, parsedPanoramaWidth, Option.getD_none,
      choosePanoramaSize]
    rw [if_neg (by decide), roundPanoramaSize_eq 1024]
    decide
  · intro w hw
    simp only [panoramaSizeOfCommandLine, parsedPanoramaWidth, Option.getD_some,
      choosePanoramaSize, if_pos hw]
  · intro w hw
    simp only [panoramaSizeOfCommandLine, parsedPanoramaWidth, Option.getD_some,
      choosePanoramaSize, if_neg (not_le.2 hw)]

theorem absent_width_gives_default_size_witness :
    panoramaSizeOfCommandLine none ([some 2, some 3] : List (Option ℚ)) = some (1024, 512) ∧
    (∀ w : Int, w ≤ 0 →
      panoramaSizeOfCommandLine (some w) ([some 2, some 3] : List (Option ℚ))
        = computeOptimalPanoramaSize ([some 2, some 3] : List (Option ℚ))) ∧
    (∀ w : Int, 0 < w →
      panoramaSizeOfCommandLine (some w) ([some 2, some 3] : List (Option ℚ))
        = roundPanoramaSize (K := ℚ) w) :=
  absent_width_gives_default_size [some 2, some 3]


/-! ### Scale of a map -/

namespace CoordinatesMap

theorem scaleStep_eq {K : Type} [LinearOrderedField K] (map : CoordinatesMap (K × K))
    (hw : map._mask.Width = map._coordinates.Width)
    (hh : map._mask.Height = map._coordinates.Height) (scales : List K) (i j : Nat)
    (hi : i + 1 < map._coordinates.Height) (hj : j + 1 < map._coordinates.Width) :
    scaleStep map scales i j
      = some (if map._mask.data i j ≠ 0 ∧ map._mask.data i (j + 1) ≠ 0 ∧
            map._mask.data (i + 1) j ≠ 0 then
          scales ++ [scaleDet map._coordinates i j]
        else scales) := by
  have hi0 : i < map._coordinates.Height := by omega
  have hj0 : j < map._coordinates.Width := by omega
  simp only [scaleStep, Image.get?, hw, hh, hi, hj, hi0, hj0, and_self, if_true]
  by_cases h0 : map._mask.data i j = 0
  · simp only [h0, if_true, ne_eq, not_true_eq_false, false_and, if_false]
  · by_cases h1 : map._mask.data i (j + 1) = 0
    · simp only [h0, h1, if_true, if_false, ne_eq, not_true_eq_false, false_and, and_false]
    · by_cases h2 : map._mask.data (i + 1) j = 0
      · simp only [h0, h1, h2, if_true, if_false, ne_eq, not_true_eq_false, and_false]
      · simp only [h0, h1, h2, if_false, ne_eq, not_false_eq_true, and_self, if_true]

theorem scaleRow_eq {K : Type} [LinearOrderedField K] (map : CoordinatesMap (K × K))
    (hw : map._mask.Width = map._coordinates.Width)
    (hh : map._mask.Height = map._coordinates.Height) (scales : List K) (i : Nat)
    (hi : i + 1 < map._coordinates.Height)
    (hW1 : 1 ≤ map._coordinates.Width) (hW : map._coordinates.Width ≤ 2 ^ 31) :
    scaleRow map scales i
      = some (scales ++ (((List.range (map._coordinates.Width - 1)).filter fun j =>
          map._mask.data i j ≠ 0 ∧ map._mask.data i (j + 1) ≠ 0 ∧
            map._mask.data (i + 1) j ≠ 0).map fun j => scaleDet map._coordinates i j)) := by
  have hb : toSizeT ((map._coordinates.Width : Int) - 1) = map._coordinates.Width - 1 := by
    simp only [toSizeT]
    omega
  have hnot : ¬ (map._coordinates.Width - 1 ≥ 2 ^ 31) := by omega
  simp only [scaleRow, hb, if_neg hnot]
  have key : ∀ n, n ≤ map._coordinates.Width - 1 →
      (List.range n).foldlM (fun s j => scaleStep map s i j) scales
        = some (scales ++ (((List.range n).filter fun j =>
            map._mask.data i j ≠ 0 ∧ map._mask.data i (j + 1) ≠ 0 ∧
              map._mask.data (i + 1) j ≠ 0).map fun j => scaleDet map._coordinates i j)) := by
    intro n
    induction n with
    | zero =>
      intro _
      simp
    | succ n ih =>
      intro hn
      rw [List.range_succ, List.foldlM_append, ih (by omega)]
      simp only [Option.bind_eq_bind, Option.some_bind, List.foldlM_cons, List.foldlM_nil,
        Option.pure_def, Option.bind_some]
      rw [scaleStep_eq map hw hh _ i n hi (by omega)]
      by_cases hc : map._mask.data i n ≠ 0 ∧ map._mask.data i (n + 1) ≠ 0 ∧
          map._mask.data (i + 1) n ≠ 0
      · simp only [if_pos hc, List.filter_append, List.filter_cons, decide_eq_true hc,
          if_true, List.filter_nil, List.map_append, List.map_cons, List.map_nil,
          List.append_assoc]
      · simp only [if_neg hc, List.filter_append, List.filter_cons, decide_eq_false hc,
          List.filter_nil, List.append_nil, Bool.false_eq_true, if_false]
  exact key _ (le_refl _)

theorem scaleLoop_eq {K : Type} [LinearOrderedField K] (map : CoordinatesMap (K × K))
    (hw : map._mask.Width = map._coordinates.Width)
    (hh : map._mask.Height = map._coordinates.Height)
    (hH1 : 1 ≤ map._coordinates.Height) (hH : map._coordinates.Height ≤ 2 ^ 31)
    (hW1 : 1 ≤ map._coordinates.Width) (hW : map._coordinates.Width ≤ 2 ^ 31) :
    scaleLoop map
      = some ((scaleCells map).map fun c => scaleDet map._coordinates c.1 c.2) := by
  have hb : toSizeT ((map._coordinates.Height : Int) - 1) = map._coordinates.Height - 1 := by
    simp only [toSizeT]
    omega
  have hnot : ¬ (map._coordinates.Height - 1 ≥ 2 ^ 31) := by omega
  simp only [scaleLoop, hb, if_neg hnot, scaleCells]
  have key : ∀ n, n ≤ map._coordinates.Height - 1 →
      (List.range n).foldlM (fun s i => scaleRow map s i) []
        = some (((List.range n).flatMap fun i =>
            ((List.range (map._coordinates.Width - 1)).filter fun j =>
              map._mask.data i j ≠ 0 ∧ map._mask.data i (j + 1) ≠ 0 ∧
                map._mask.data (i + 1) j ≠ 0).map fun j => (i, j)).map
            fun c => scaleDet map._coordinates c.1 c.2) := by
    intro n
    induction n with
    | zero =>
      intro _
      simp
    | succ n ih =>
      intro hn
      rw [List.range_succ, List.foldlM_append, ih (by omega)]
      simp only [Option.bind_eq_bind, Option.some_bind, List.foldlM_cons, List.foldlM_nil,
        Option.pure_def, Option.bind_some]
      rw [scaleRow_eq map hw hh _ n (by omega) hW1 hW]
      simp only [List.flatMap_append, List.flatMap_cons, List.flatMap_nil, List.append_nil,
        List.map_append, List.map_map, Function.comp_def]
  exact key _ (le_refl _)

theorem nthElement_map_of_monotone {K : Type} [LinearOrder K] (f : K → K) (hf : Monotone f)
    (l : List K) (n : Nat) : nthElement (l.map f) n = (nthElement l n).map f := by
  have hs : ((l.insertionSort fun a b => a ≤ b).map f).Sorted (fun a b => a ≤ b) := by
    have h := List.sorted_insertionSort (fun a b : K => a ≤ b) l
    exact List.Pairwise.map f (fun a b hab => hf hab) h
  have hp : ((l.insertionSort fun a b => a ≤ b).map f).Perm
      ((l.map f).insertionSort fun a b => a ≤ b) :=
    ((List.perm_insertionSort _ l).map f).trans (List.perm_insertionSort _ (l.map f)).symm
  have he := List.eq_of_perm_of_sorted hp hs (List.sorted_insertionSort _ _)
  simp only [nthElement, ← he, List.getElem?_map]

theorem mem_scaleCells {K : Type} (map : CoordinatesMap (K × K)) (i j : Nat) :
    (i, j) ∈ scaleCells map ↔
      i + 1 < map._coordinates.Height ∧ j + 1 < map._coordinates.Width ∧
        map._mask.data i j ≠ 0 ∧ map._mask.data i (j + 1) ≠ 0 ∧ map._mask.data (i + 1) j ≠ 0 := by
  simp only [scaleCells, List.mem_flatMap, List.mem_range, List.mem_map, List.mem_filter,
    decide_eq_true_eq, Prod.mk.injEq]
  constructor
  · rintro ⟨i', hi', j', ⟨hj', hm⟩, rfl, rfl⟩
    exact ⟨by omega, by omega, hm⟩
  · rintro ⟨hi, hj, hm⟩
    exact ⟨i, by omega, j, ⟨by omega, hm⟩, rfl, rfl⟩

/-- C21 (as amended): on a map whose mask and coordinates have the same size (at least one
row and one column), `computeScale` collects `|det J|`, from the forward differences of the
stored coordinates, over exactly the cells `(i, j)`, `i < realH - 1`, `j < realW - 1`, whose
three pixels `(i, j)`, `(i, j + 1)`, `(i + 1, j)` are mask-covered; it returns `false` when
fewer than two such cells exist, and otherwise `true` with the square root of the element of
rank `floor(n / 2)` of these values in ascending order, which (the square root being
monotone) is the element of that rank of the values `sqrt(|det J|)`. -/
theorem computeScale_is_median_over_tested_cells {K : Type} [LinearOrderedField K]
    (sqrt : K → K) (hsqrt : Monotone sqrt) (map : CoordinatesMap (K × K))
    (hw : map._mask.Width = map._coordinates.Width)
    (hh : map._mask.Height = map._coordinates.Height)
    (hH1 : 1 ≤ map._coordinates.Height) (hH : map._coordinates.Height ≤ 2 ^ 31)
    (hW1 : 1 ≤ map._coordinates.Width) (hW : map._coordinates.Width ≤ 2 ^ 31) :
    (∀ i j, (i, j) ∈ scaleCells map ↔
      i + 1 < map._coordinates.Height ∧ j + 1 < map._coordinates.Width ∧
        map._mask.data i j ≠ 0 ∧ map._mask.data i (j + 1) ≠ 0 ∧
        map._mask.data (i + 1) j ≠ 0) ∧
    scaleLoop map = some ((scaleCells map).map fun c => scaleDet map._coordinates c.1 c.2) ∧
    ((scaleCells map).length ≤ 1 → computeScale sqrt map = some none) ∧
    (2 ≤ (scaleCells map).length →
      ∃ median : K,
        nthElement ((scaleCells map).map fun c => scaleDet map._coordinates c.1 c.2)
          ((scaleCells map).length / 2) = some median ∧
        computeScale sqrt map = some (some (sqrt median)) ∧
        nthElement ((scaleCells map).map fun c => sqrt (scaleDet map._coordinates c.1 c.2))
          ((scaleCells map).length / 2) = some (sqrt median)) := by
  have hloop := scaleLoop_eq map hw hh hH1 hH hW1 hW
  refine ⟨mem_scaleCells map, hloop, ?_, ?_⟩
  · intro hlen
    simp only [computeScale, hloop, List.length_map, if_pos hlen]
  · intro hlen
    have hlt : (scaleCells map).length / 2
        < (((scaleCells map).map fun c => scaleDet map._coordinates c.1 c.2).insertionSort
            fun a b => a ≤ b).length := by
      rw [List.length_insertionSort, List.length_map]
      omega
    have hmed : nthElement ((scaleCells map).map fun c => scaleDet map._coordinates c.1 c.2)
        ((scaleCells map).length / 2)
        = some ((((scaleCells map).map fun c => scaleDet map._coordinates c.1 c.2).insertionSort
            fun a b => a ≤ b)[(scaleCells map).length / 2]) := by
      simp only [nthElement]
      exact List.getElem?_eq_getElem hlt
    refine ⟨_, hmed, ?_, ?_⟩
    · simp only [computeScale, hloop, List.length_map, if_neg (show ¬ (scaleCells map).length ≤ 1 by omega), hmed,
        Option.map_some']
    · have hmap := nthElement_map_of_monotone sqrt hsqrt
        ((scaleCells map).map fun c => scaleDet map._coordinates c.1 c.2)
        ((scaleCells map).length / 2)
      rw [hmed, List.map_map] at hmap
      exact hmap

theorem computeScale_is_median_over_tested_cells_witness :
    (∀ i j, (i, j) ∈ scaleCells (stairMap ℝ) ↔
      i + 1 < (stairMap ℝ)._coordinates.Height ∧ j + 1 < (stairMap ℝ)._coordinates.Width ∧
        (stairMap ℝ)._mask.data i j ≠ 0 ∧ (stairMap ℝ)._mask.data i (j + 1) ≠ 0 ∧
        (stairMap ℝ)._mask.data (i + 1) j ≠ 0) ∧
    scaleLoop (stairMap ℝ)
      = some ((scaleCells (stairMap ℝ)).map
          fun c => scaleDet (stairMap ℝ)._coordinates c.1 c.2) ∧
    ((scaleCells (stairMap ℝ)).length ≤ 1 → computeScale Real.sqrt (stairMap ℝ) = some none) ∧
    (2 ≤ (scaleCells (stairMap ℝ)).length →
      ∃ median : ℝ,
        nthElement ((scaleCells (stairMap ℝ)).map
            fun c => scaleDet (stairMap ℝ)._coordinates c.1 c.2)
          ((scaleCells (stairMap ℝ)).length / 2) = some median ∧
        computeScale Real.sqrt (stairMap ℝ) = some (some (Real.sqrt median)) ∧
        nthElement ((scaleCells (stairMap ℝ)).map
            fun c => Real.sqrt (scaleDet (stairMap ℝ)._coordinates c.1 c.2))
          ((scaleCells (stairMap ℝ)).length / 2) = some (Real.sqrt median)) :=
  computeScale_is_median_over_tested_cells Real.sqrt (fun _ _ h => Real.sqrt_le_sqrt h)
    (stairMap ℝ) rfl rfl (by decide) (by decide) (by decide) (by decide)

/-- C21 (counterexample): in the map `stairMap` the cell `(0, 1)` has mask `0` at its corner
`(1, 2)`, so `(0, 0)` is the only cell whose whole block of `2 x 2` pixels is covered and the
claim has fewer than two cells; `computeScale` tests three pixels of the block, counts both
cells and returns `true` with the value `sqrt(1)`. -/
theorem computeScale_counts_cell_with_uncovered_corner :
    (stairMap ℚ)._mask.data 1 2 = 0 ∧
    (∀ i j, i + 1 < (stairMap ℚ)._coordinates.Height → j + 1 < (stairMap ℚ)._coordinates.Width →
      ((stairMap ℚ)._mask.data i j ≠ 0 ∧ (stairMap ℚ)._mask.data i (j + 1) ≠ 0 ∧
        (stairMap ℚ)._mask.data (i + 1) j ≠ 0 ∧ (stairMap ℚ)._mask.data (i + 1) (j + 1) ≠ 0
        ↔ (i, j) = (0, 0))) ∧
    scaleCells (stairMap ℚ) = [(0, 0), (0, 1)] ∧
    scaleLoop (stairMap ℚ) = some [1, 1] ∧
    ∀ sqrt : ℚ → ℚ, computeScale sqrt (stairMap ℚ) = some (some (sqrt 1)) := by
  have hcells : scaleCells (stairMap ℚ) = [(0, 0), (0, 1)] := by decide
  have hloop : scaleLoop (stairMap ℚ) = some [1, 1] := by
    rw [scaleLoop_eq (stairMap ℚ) rfl rfl (by decide) (by decide) (by decide) (by decide), hcells]
    simp [scaleDet, stairMap]
  refine ⟨rfl, ?_, hcells, hloop, ?_⟩
  · intro i j hi hj
    have hi' : i = 0 := by
      simp only [stairMap] at hi
      omega
    have hj' : j = 0 ∨ j = 1 := by
      simp only [stairMap] at hj
      omega
    subst hi'
    rcases hj' with h | h <;> subst h <;> simp [stairMap]
  · intro sqrt
    simp [computeScale, hloop, nthElement]

end CoordinatesMap


/-! ### Offsets stored by `build` -/

namespace CoordinatesMap

theorem offsetX_cases (W : Int) (coarse_bbox : BBox) (min_x : Nat)
    (hW0 : 0 < W) (hW : W < 2 ^ 31) (hleft : 0 ≤ coarse_bbox.left)
    (hltW : coarse_bbox.left < W) (hmin : (min_x : Int) < W)
    (hfit : coarse_bbox.left + (min_x : Int) < 2 ^ 31) :
    (coarse_bbox.left + (min_x : Int) ≤ W →
      ((offsetX W coarse_bbox min_x : Nat) : Int) = coarse_bbox.left + min_x) ∧
    (W < coarse_bbox.left + (min_x : Int) →
      ((offsetX W coarse_bbox min_x : Nat) : Int) = coarse_bbox.left + min_x - W) ∧
    ((offsetX W coarse_bbox min_x : Nat) : Int) ≤ W ∧
    (((offsetX W coarse_bbox min_x : Nat) : Int) < W ↔ coarse_bbox.left + (min_x : Int) ≠ W) := by
  simp only [offsetX, toSizeT, toInt32]
  split_ifs with h
  · refine ⟨?_, ?_, ?_, ?_⟩ <;> omega
  · refine ⟨?_, ?_, ?_, ?_⟩ <;> omega

/-- C29 (counterexample): on the canvas of `8 x 4` pixels, for the coarse box with `left = 6`,
`top = 0`, `width = 4`, `height = 2` and a camera that sees the canvas columns `0` and `1`
only, the first visible column of the box is `minX = 2`, so `left + minX = 8 = W`; the test
`_offset_x > panoramaSize.first` is false and `build` stores `_offset_x = 8`, which is not a
column of the canvas (the column congruent to it is `0`). The row offset is `top + minY`. -/
theorem build_offset_x_equals_canvas_width :
    (0 : Int) ≤ (⟨6, 0, 4, 2⟩ : BBox).left ∧ (⟨6, 0, 4, 2⟩ : BBox).left < 8 ∧
    (⟨6, 0, 4, 2⟩ : BBox).width ≤ 8 ∧
    (bufferMask ⟨6, 0, 4, 2⟩ seamCamera (fun cx cy => (cx % 8, cy))).data 0 2 = 1 ∧
    (sweepExtrema 8 4 ⟨6, 0, 4, 2⟩ seamCamera (fun cx cy => (cx % 8, cy))).min_x = 2 ∧
    (sweepExtrema 8 4 ⟨6, 0, 4, 2⟩ seamCamera (fun cx cy => (cx % 8, cy))).min_y = 0 ∧
    ∃ m : CoordinatesMap (Nat × Nat),
      build 8 4 ⟨6, 0, 4, 2⟩ seamCamera (fun cx cy => (cx % 8, cy)) (fun _ _ => (0, 0))
        = some m ∧
      m._offset_x = 8 ∧ ¬ (m._offset_x : Int) < 8 ∧ m._offset_y = 0 ∧
      m._mask.Width = 2 ∧ m._mask.Height = 2 ∧ m._mask.data 0 0 = 1 ∧
      m._coordinates.data 0 0 = (0, 0) := by
  refine ⟨by decide, by decide, by decide, by decide, by decide, by decide, ?_⟩
  refine ⟨_, build_of_visible 8 4 ⟨6, 0, 4, 2⟩ seamCamera (fun cx cy => (cx % 8, cy))
    (fun _ _ => (0, 0)) (by decide) (by decide) ⟨0, 2, by decide⟩, ?_⟩
  refine ⟨by decide, by decide, by decide, by decide, by decide, by decide, by decide⟩

end CoordinatesMap


namespace CoordinatesMap

/-- C29 (as amended): after `build` on a coarse box with `0 ≤ left < W`, `0 ≤ top`,
`width ≤ W`, inside the range of `int`, and at least one visible pixel, the stored `offsetX`
is at most `W` and is congruent to the unwrapped offset: it is `left + minX` when
`left + minX ≤ W` and `left + minX - W` otherwise, so `0 ≤ offsetX ≤ W`,
`offsetX ≡ left + minX (mod W)`, and `offsetX < W` except when `left + minX = W`, where
`offsetX = W`; and `offsetY = top + minY`. Here `minX` and `minY` are the first column and
the first row of the box that hold a visible pixel. -/
theorem build_offset_within_canvas {V3 V2 : Type} (W H : Int) (coarse_bbox : BBox)
    (cam : Camera V3 V2) (rayOf : Nat → Nat → V3) (uninit : Nat → Nat → V2)
    (hW0 : 0 < W) (hW : W < 2 ^ 31) (hH : H < 2 ^ 31)
    (hleft : 0 ≤ coarse_bbox.left) (hltW : coarse_bbox.left < W)
    (hwW : coarse_bbox.width ≤ W) (hx31 : coarse_bbox.left + coarse_bbox.width < 2 ^ 31)
    (htop : 0 ≤ coarse_bbox.top) (hhH : coarse_bbox.height ≤ H)
    (hy31 : coarse_bbox.top + coarse_bbox.height < 2 ^ 31)
    (hvis : ∃ y x, (bufferMask coarse_bbox cam rayOf).data y x = 1) :
    ∃ m : CoordinatesMap V2,
      build W H coarse_bbox cam rayOf uninit = some m ∧
      (∃ y, (bufferMask coarse_bbox cam rayOf).data y
        (sweepExtrema W H coarse_bbox cam rayOf).min_x = 1) ∧
      (∃ x, (bufferMask coarse_bbox cam rayOf).data
        (sweepExtrema W H coarse_bbox cam rayOf).min_y x = 1) ∧
      (∀ y x, (bufferMask coarse_bbox cam rayOf).data y x = 1 →
        (sweepExtrema W H coarse_bbox cam rayOf).min_x ≤ x ∧
        (sweepExtrema W H coarse_bbox cam rayOf).min_y ≤ y) ∧
      (m._offset_x : Int) ≤ W ∧
      (coarse_bbox.left + ((sweepExtrema W H coarse_bbox cam rayOf).min_x : Int) ≤ W →
        (m._offset_x : Int)
          = coarse_bbox.left + ((sweepExtrema W H coarse_bbox cam rayOf).min_x : Int)) ∧
      (W < coarse_bbox.left + ((sweepExtrema W H coarse_bbox cam rayOf).min_x : Int) →
        (m._offset_x : Int)
          = coarse_bbox.left + ((sweepExtrema W H coarse_bbox cam rayOf).min_x : Int) - W) ∧
      (m._offset_x : Int) % W
        = (coarse_bbox.left + ((sweepExtrema W H coarse_bbox cam rayOf).min_x : Int)) % W ∧
      ((m._offset_x : Int) < W ↔
        coarse_bbox.left + ((sweepExtrema W H coarse_bbox cam rayOf).min_x : Int) ≠ W) ∧
      (m._offset_y : Int)
        = coarse_bbox.top + ((sweepExtrema W H coarse_bbox cam rayOf).min_y : Int) := by
  obtain ⟨e1, e2, e3, e4, eall, -, -⟩ := sweepExtrema_of_visible W H coarse_bbox cam rayOf hvis
  have hnx := sweepExtrema_min_x_attained W H coarse_bbox cam rayOf (by omega) hW hvis
  have hny := sweepExtrema_min_y_attained W H coarse_bbox cam rayOf (by omega) hH hvis
  have hmin : ((sweepExtrema W H coarse_bbox cam rayOf).min_x : Int) < W := by omega
  obtain ⟨c1, c2, c3, c4⟩ := offsetX_cases W coarse_bbox
    (sweepExtrema W H coarse_bbox cam rayOf).min_x hW0 hW hleft hltW hmin (by omega)
  refine ⟨_, build_of_visible W H coarse_bbox cam rayOf uninit (by omega) (by omega) hvis,
    hnx, hny, fun y x h => ⟨(eall y x h).1, (eall y x h).2.2.1⟩, c3, c1, c2, ?_, c4, ?_⟩
  · simp only
    rcases le_or_lt (coarse_bbox.left + ((sweepExtrema W H coarse_bbox cam rayOf).min_x : Int))
      W with h | h
    · rw [c1 h]
    · rw [c2 h, Int.sub_emod, Int.emod_self, sub_zero, Int.emod_emod_of_dvd _ (dvd_refl W)]
  · simp only [toSizeT]
    omega

theorem build_offset_within_canvas_witness :
    ∃ m : CoordinatesMap (Nat × Nat),
      build 8 4 ⟨6, 0, 6, 4⟩ exampleCamera (fun cx cy => (cx % 8, cy)) (fun _ _ => (0, 0))
        = some m ∧
      (∃ y, (bufferMask ⟨6, 0, 6, 4⟩ exampleCamera (fun cx cy => (cx % 8, cy))).data y
        (sweepExtrema 8 4 ⟨6, 0, 6, 4⟩ exampleCamera (fun cx cy => (cx % 8, cy))).min_x = 1) ∧
      (∃ x, (bufferMask ⟨6, 0, 6, 4⟩ exampleCamera (fun cx cy => (cx % 8, cy))).data
        (sweepExtrema 8 4 ⟨6, 0, 6, 4⟩ exampleCamera (fun cx cy => (cx % 8, cy))).min_y x = 1) ∧
      (∀ y x, (bufferMask ⟨6, 0, 6, 4⟩ exampleCamera (fun cx cy => (cx % 8, cy))).data y x = 1 →
        (sweepExtrema 8 4 ⟨6, 0, 6, 4⟩ exampleCamera (fun cx cy => (cx % 8, cy))).min_x ≤ x ∧
        (sweepExtrema 8 4 ⟨6, 0, 6, 4⟩ exampleCamera (fun cx cy => (cx % 8, cy))).min_y ≤ y) ∧
      (m._offset_x : Int) ≤ 8 ∧
      ((⟨6, 0, 6, 4⟩ : BBox).left + ((sweepExtrema 8 4 ⟨6, 0, 6, 4⟩ exampleCamera
          (fun cx cy => (cx % 8, cy))).min_x : Int) ≤ 8 →
        (m._offset_x : Int)
          = (⟨6, 0, 6, 4⟩ : BBox).left + ((sweepExtrema 8 4 ⟨6, 0, 6, 4⟩ exampleCamera
              (fun cx cy => (cx % 8, cy))).min_x : Int)) ∧
      (8 < (⟨6, 0, 6, 4⟩ : BBox).left + ((sweepExtrema 8 4 ⟨6, 0, 6, 4⟩ exampleCamera
          (fun cx cy => (cx % 8, cy))).min_x : Int) →
        (m._offset_x : Int)
          = (⟨6, 0, 6, 4⟩ : BBox).left + ((sweepExtrema 8 4 ⟨6, 0, 6, 4⟩ exampleCamera
              (fun cx cy => (cx % 8, cy))).min_x : Int) - 8) ∧
      (m._offset_x : Int) % 8
        = ((⟨6, 0, 6, 4⟩ : BBox).left + ((sweepExtrema 8 4 ⟨6, 0, 6, 4⟩ exampleCamera
            (fun cx cy => (cx % 8, cy))).min_x : Int)) % 8 ∧
      ((m._offset_x : Int) < 8 ↔
        (⟨6, 0, 6, 4⟩ : BBox).left + ((sweepExtrema 8 4 ⟨6, 0, 6, 4⟩ exampleCamera
          (fun cx cy => (cx % 8, cy))).min_x : Int) ≠ 8) ∧
      (m._offset_y : Int)
        = (⟨6, 0, 6, 4⟩ : BBox).top + ((sweepExtrema 8 4 ⟨6, 0, 6, 4⟩ exampleCamera
            (fun cx cy => (cx % 8, cy))).min_y : Int) :=
  build_offset_within_canvas 8 4 ⟨6, 0, 6, 4⟩ exampleCamera (fun cx cy => (cx % 8, cy))
    (fun _ _ => (0, 0)) (by decide) (by decide) (by decide) (by decide) (by decide)
    (by decide) (by decide) (by decide) (by decide) (by decide) ⟨2, 5, by decide⟩

end CoordinatesMap

/-! ### Decimation in the pyramid -/

namespace GaussianPyramidNoMask

theorem processLoop_decimation {α : Type} (convolve : Image α → Image α) (W0 H0 n : Nat) :
    ∀ (count lvl : Nat) (p : GaussianPyramidNoMask α),
      lvl + count < n →
      p._pyramid_color.length = n →
      (∀ i, i < n → ∃ a, p._pyramid_color[i]? = some a ∧ a.Width = W0 / 2 ^ i ∧
        a.Height = H0 / 2 ^ i) →
      p._filter_buffer.length = n →
      (∀ i, i < n → ∃ a, p._filter_buffer[i]? = some a ∧ a.Width = W0 / 2 ^ i ∧
        a.Height = H0 / 2 ^ i) →
      ∃ q, processLoop convolve count lvl p = some q ∧
        (∀ i, i ≤ lvl → q._pyramid_color[i]? = p._pyramid_color[i]?) ∧
        q._pyramid_color.length = n ∧
        (∀ i, i < n → ∃ a, q._pyramid_color[i]? = some a ∧ a.Width = W0 / 2 ^ i ∧
          a.Height = H0 / 2 ^ i) ∧
        (∀ k, lvl ≤ k → k < lvl + count →
          ∃ src nxt, q._pyramid_color[k]? = some src ∧ q._pyramid_color[k + 1]? = some nxt ∧
            ∀ i j, i < nxt.Height → j < nxt.Width →
              nxt.data i j = (convolve src).data (i * 2) (j * 2)) := by
  intro count
  induction count with
  | zero =>
    intro lvl p _ hc1 hc2 _ _
    exact ⟨p, rfl, fun _ _ => rfl, hc1, hc2, fun k h1 h2 => by omega⟩
  | succ c ih =>
    intro lvl p hlt hc1 hc2 hf1 hf2
    obtain ⟨source, hs, hsw, hsh⟩ := hc2 lvl (by omega)
    obtain ⟨dst, hd, hdw, hdh⟩ := hf2 lvl (by omega)
    obtain ⟨next, hn, hnw, hnh⟩ := hc2 (lvl + 1) (by omega)
    have hdiv : ∀ m : Nat, m / 2 ^ (lvl + 1) = m / 2 ^ lvl / 2 := by
      intro m
      rw [Nat.div_div_eq_div_mul, pow_succ]
    have hrange : downscaleInRange next
        { Width := dst.Width, Height := dst.Height, data := (convolve source).data } = true := by
      apply downscaleInRange_of_half
      · simp only [hnw, hdw, hdiv]
      · simp only [hnh, hdh, hdiv]
    have hcol := sizesOk_set W0 H0 n p._pyramid_color hc1 hc2 (lvl + 1)
      { Width := next.Width
        Height := next.Height
        data := fun i j =>
          if i < next.Height ∧ j < next.Width then (convolve source).data (i * 2) (j * 2)
          else next.data i j } hnw hnh
    have hfil := sizesOk_set W0 H0 n p._filter_buffer hf1 hf2 lvl
      { Width := dst.Width, Height := dst.Height, data := (convolve source).data } hdw hdh
    obtain ⟨q, hq, hkeep, hq1, hq2, hq3⟩ := ih (lvl + 1)
      { p with
        _filter_buffer := p._filter_buffer.set lvl
          { Width := dst.Width, Height := dst.Height, data := (convolve source).data }
        _pyramid_color := p._pyramid_color.set (lvl + 1)
          { Width := next.Width
            Height := next.Height
            data := fun i j =>
              if i < next.Height ∧ j < next.Width then (convolve source).data (i * 2) (j * 2)
              else next.data i j } }
      (by omega) hcol.1 hcol.2 hfil.1 hfil.2
    refine ⟨q, ?_, ?_, hq1, hq2, ?_⟩
    · simp only [processLoop, hs, hd, hn, downscale]
      rw [if_pos ⟨hdw.trans hsw.symm, hdh.trans hsh.symm⟩, if_pos hrange]
      exact hq
    · intro i hi
      rw [hkeep i (by omega)]
      simp only
      rw [List.getElem?_set_ne (by omega)]
    · intro k hk1 hk2
      by_cases hkl : k = lvl
      · subst hkl
        have e1 := hkeep k (by omega)
        have e2 := hkeep (k + 1) (le_refl _)
        simp only at e1 e2
        rw [List.getElem?_set_ne (by omega)] at e1
        rw [List.getElem?_set_self (by omega)] at e2
        refine ⟨source, _, e1.trans hs, e2, ?_⟩
        intro i j hi hj
        simp only at hi hj
        simp only [hi, hj, and_self, if_true]
      · exact hq3 k (by omega) (by omega)

/-- C26: for every base size on which the constructor makes a pyramid of `L` levels, every
input of the base size and every level index `lvl` with `lvl + 1 < L`, `process` returns
`true`, and in the pyramid it leaves, for every pixel `(i, j)` inside level `lvl + 1`, the
index `(2i, 2j)` is inside the dimensions of level `lvl` and the pixel equals the filtered
level `lvl` (the result of the external `convolve` on level `lvl`) at `(2i, 2j)`. -/
theorem decimation_is_plain_subsampling {α : Type} [Zero α] (convolve : Image α → Image α)
    (W0 H0 limit : Nat) (p : GaussianPyramidNoMask α) (input : Image α) (lvl : Nat)
    (hsize : min W0 H0 < 2 ^ 64) (hp : construct W0 H0 limit = some p)
    (hw : input.Width = W0) (hh : input.Height = H0) (hlvl : lvl + 1 < p.getScalesCount) :
    ∃ q, process convolve p input = some (true, q) ∧
      ∃ src nxt, q.getPyramidColor[lvl]? = some src ∧ q.getPyramidColor[lvl + 1]? = some nxt ∧
        src.Width = W0 / 2 ^ lvl ∧ src.Height = H0 / 2 ^ lvl ∧
        nxt.Width = src.Width / 2 ∧ nxt.Height = src.Height / 2 ∧
        ∀ i j, i < nxt.Height → j < nxt.Width →
          2 * i < src.Height ∧ 2 * j < src.Width ∧
          nxt.data i j = (convolve src).data (2 * i) (2 * j) := by
  have hmin : 32 ≤ min W0 H0 := by
    by_contra hlt
    simp only [construct, floorLog2Quot] at hp
    rw [if_pos (by omega)] at hp
    exact Option.noConfusion hp
  rw [construct_eq W0 H0 limit hmin] at hp
  have hp' := (Option.some.inj hp).symm
  subst hp'
  simp only [getScalesCount] at hlvl
  have hn : 0 < min limit (Nat.log 2 (min W0 H0 / 32)) := by omega
  have hlt : Nat.log 2 (min W0 H0 / 32) < 64 :=
    Nat.log_lt_of_lt_pow (by omega) (by omega)
  have hcount : toSizeT (((min limit (Nat.log 2 (min W0 H0 / 32)) : Nat) : Int) - 1)
      = min limit (Nat.log 2 (min W0 H0 / 32)) - 1 := by
    simp only [toSizeT]
    omega
  have h0 := allocate_getElem? (0 : α) (min limit (Nat.log 2 (min W0 H0 / 32))) W0 H0 0 hn
  simp only [pow_zero, Nat.div_one] at h0
  have hsz : ∀ i, i < min limit (Nat.log 2 (min W0 H0 / 32)) →
      ∃ a, (allocate (0 : α) (min limit (Nat.log 2 (min W0 H0 / 32))) W0 H0)[i]? = some a ∧
        a.Width = W0 / 2 ^ i ∧ a.Height = H0 / 2 ^ i :=
    fun i hi => ⟨_, allocate_getElem? 0 _ W0 H0 i hi, rfl, rfl⟩
  have hset := sizesOk_set W0 H0 _ _ (allocate_length (0 : α) _ W0 H0) hsz 0 input
    (by simpa using hw) (by simpa using hh)
  obtain ⟨q, hq, _, _, hq2, hq3⟩ := processLoop_decimation convolve W0 H0
    (min limit (Nat.log 2 (min W0 H0 / 32)))
    (min limit (Nat.log 2 (min W0 H0 / 32)) - 1) 0
    { _pyramid_color :=
        (allocate (0 : α) (min limit (Nat.log 2 (min W0 H0 / 32))) W0 H0).set 0 input
      _filter_buffer := allocate 0 (min limit (Nat.log 2 (min W0 H0 / 32))) W0 H0
      _width_base := W0
      _height_base := H0
      _scales := min limit (Nat.log 2 (min W0 H0 / 32)) }
    (by omega) hset.1 hset.2 (allocate_length (0 : α) _ W0 H0) hsz
  refine ⟨q, ?_, ?_⟩
  · simp only [process, h0, Image.filled, hw, hh, ne_eq, not_true_eq_false, if_false, hcount,
      hq]
  · obtain ⟨src, nxt, hsrc, hnxt, hdata⟩ := hq3 lvl (Nat.zero_le _) (by omega)
    obtain ⟨a, ha, haw, hah⟩ := hq2 lvl (by omega)
    obtain ⟨b, hb, hbw, hbh⟩ := hq2 (lvl + 1) (by omega)
    rw [hsrc] at ha
    rw [hnxt] at hb
    have ea := Option.some.inj ha
    have eb := Option.some.inj hb
    subst ea
    subst eb
    have hdiv : ∀ m : Nat, m / 2 ^ (lvl + 1) = m / 2 ^ lvl / 2 := by
      intro m
      rw [Nat.div_div_eq_div_mul, pow_succ]
    have hnw : nxt.Width = src.Width / 2 := by rw [hbw, haw, hdiv]
    have hnh : nxt.Height = src.Height / 2 := by rw [hbh, hah, hdiv]
    refine ⟨src, nxt, hsrc, hnxt, haw, hah, hnw, hnh, ?_⟩
    intro i j hi hj
    refine ⟨by omega, by omega, ?_⟩
    rw [hdata i j hi hj, Nat.mul_comm i 2, Nat.mul_comm j 2]

theorem decimation_is_plain_subsampling_witness :
    ∃ q, process id
        ({ _pyramid_color := allocate 0 2 128 128
           _filter_buffer := allocate 0 2 128 128
           _width_base := 128
           _height_base := 128
           _scales := 2 } : GaussianPyramidNoMask ℚ) (Image.filled 128 128 (1 : ℚ))
        = some (true, q) ∧
      ∃ src nxt, q.getPyramidColor[0]? = some src ∧ q.getPyramidColor[0 + 1]? = some nxt ∧
        src.Width = 128 / 2 ^ 0 ∧ src.Height = 128 / 2 ^ 0 ∧
        nxt.Width = src.Width / 2 ∧ nxt.Height = src.Height / 2 ∧
        ∀ i j, i < nxt.Height → j < nxt.Width →
          2 * i < src.Height ∧ 2 * j < src.Width ∧
          nxt.data i j = (id src).data (2 * i) (2 * j) :=
  decimation_is_plain_subsampling id 128 128 64 _ (Image.filled 128 128 1) 0 (by norm_num)
    (by
      rw [construct_eq 128 128 64 (by decide)]
      have hlog : Nat.log 2 (min 128 128 / 32) = 2 := by
        simp [Nat.log]
      simp only [hlog]
      rfl)
    rfl rfl (by decide)

end GaussianPyramidNoMask


/-! ### Coarse box and canvas -/

namespace CoordinatesMap

theorem pitchRotation_isometry (c s : ℝ) (h : c ^ 2 + s ^ 2 = 1) :
    (∀ v : ℝ × ℝ × ℝ, (pitchRotation c s v).1 ^ 2 + (pitchRotation c s v).2.1 ^ 2
        + (pitchRotation c s v).2.2 ^ 2
      = v.1 ^ 2 + v.2.1 ^ 2 + v.2.2 ^ 2) ∧
    (∀ u v : ℝ × ℝ × ℝ, (pitchRotation c s u).1 * (pitchRotation c s v).1
        + (pitchRotation c s u).2.1 * (pitchRotation c s v).2.1
        + (pitchRotation c s u).2.2 * (pitchRotation c s v).2.2
      = u.1 * v.1 + u.2.1 * v.2.1 + u.2.2 * v.2.2) := by
  constructor
  · intro v
    simp only [pitchRotation]
    linear_combination (v.2.1 ^ 2 + v.2.2 ^ 2) * h
  · intro u v
    simp only [pitchRotation]
    linear_combination (u.2.1 * v.2.1 + u.2.2 * v.2.2) * h

/-- For the camera of radius `1` pitched by the angle with cosine `697/985` and sine
`696/985`, `getExtremaY` is defined on the eight arcs of the boundary. -/
theorem getExtremaY_isSome_of_pitched_camera :
    ∀ i, (getExtremaY (rotated_pts 1 (pitchRotation (697 / 985) (696 / 985)) i)
      (rotated_pts 1 (pitchRotation (697 / 985) (696 / 985)) (i + 1))).isSome = true := by
  obtain ⟨e0, e1, e2, e3, e4, e5, e6, e7⟩ :=
    rotated_pts_one (pitchRotation (697 / 985) (696 / 985))
  obtain ⟨ha, ha2⟩ := inv_sqrt_two_facts
  obtain ⟨hb, hb2⟩ := inv_sqrt_three_facts
  obtain ⟨hunit, hdot⟩ := pitchRotation_isometry (697 / 985) (696 / 985) (by norm_num)
  have hba : (Real.sqrt 3)⁻¹ < (Real.sqrt 2)⁻¹ := by nlinarith
  have key := getExtremaY_isSome_corner_edge (pitchRotation (697 / 985) (696 / 985)) hunit hdot
  apply forall_arc (fun i j => (getExtremaY (rotated_pts 1 (pitchRotation (697 / 985) (696 / 985)) i)
      (rotated_pts 1 (pitchRotation (697 / 985) (696 / 985)) j)).isSome = true)
  · rw [e0, e1]
    refine (key (-1) (-1) 0 (-1) (by norm_num) (by norm_num) (by norm_num) (by norm_num) ?_).1
    simp only [pitchRotation]
    apply ne_of_lt
    linarith
  · rw [e1, e2]
    refine (key 1 (-1) 0 (-1) (by norm_num) (by norm_num) (by norm_num) (by norm_num) ?_).2
    simp only [pitchRotation]
    apply ne_of_lt
    linarith
  · rw [e2, e3]
    refine (key 1 (-1) 1 0 (by norm_num) (by norm_num) (by norm_num) (by norm_num) ?_).1
    simp only [pitchRotation]
    apply ne_of_gt
    linarith
  · rw [e3, e4]
    refine (key 1 1 1 0 (by norm_num) (by norm_num) (by norm_num) (by norm_num) ?_).2
    simp only [pitchRotation]
    apply ne_of_gt
    linarith
  · rw [e4, e5]
    refine (key 1 1 0 1 (by norm_num) (by norm_num) (by norm_num) (by norm_num) ?_).1
    simp only [pitchRotation]
    apply ne_of_gt
    linarith
  · rw [e5, e6]
    refine (key (-1) 1 0 1 (by norm_num) (by norm_num) (by norm_num) (by norm_num) ?_).2
    simp only [pitchRotation]
    apply ne_of_gt
    linarith
  · rw [e6, e7]
    refine (key (-1) 1 (-1) 0 (by norm_num) (by norm_num) (by norm_num) (by norm_num) ?_).1
    simp only [pitchRotation]
    apply ne_of_gt
    linarith
  · rw [e7, e0]
    refine (key (-1) (-1) (-1) 0 (by norm_num) (by norm_num) (by norm_num) (by norm_num) ?_).2
    simp only [pitchRotation]
    apply ne_of_gt
    linarith

/-- A triangle whose three vertices have a positive component `z` does not pass the test
`isPoleInTriangle`, unless the two numerators and the denominator are all zero. -/
theorem isPoleInTriangle_false_of_z_pos (p1 p2 p3 : ℝ × ℝ × ℝ)
    (h1 : 0 < p1.2.2) (h2 : 0 < p2.2.2) (h3 : 0 < p3.2.2)
    (hA : p2.1 * p3.2.2 - p3.1 * p2.2.2 ≠ 0) :
    isPoleInTriangle p1 p2 p3 = false := by
  rw [isPoleInTriangle_of_values p1 p2 p3 _ _ _ rfl rfl rfl]
  by_cases hden : p1.1 * p2.2.2 - p1.1 * p3.2.2 - p2.1 * p1.2.2 + p2.1 * p3.2.2
      + p3.1 * p1.2.2 - p3.1 * p2.2.2 = 0
  · rw [if_pos hden]
    simp [hA]
  · rw [if_neg hden]
    split_ifs with ha hb hc
    · rfl
    · rfl
    · rfl
    · exfalso
      have hz : (p2.1 * p3.2.2 - p3.1 * p2.2.2)
            / (p1.1 * p2.2.2 - p1.1 * p3.2.2 - p2.1 * p1.2.2 + p2.1 * p3.2.2
              + p3.1 * p1.2.2 - p3.1 * p2.2.2) * p1.2.2
          + (-p1.1 * p3.2.2 + p3.1 * p1.2.2)
            / (p1.1 * p2.2.2 - p1.1 * p3.2.2 - p2.1 * p1.2.2 + p2.1 * p3.2.2
              + p3.1 * p1.2.2 - p3.1 * p2.2.2) * p2.2.2
          + (1 - (p2.1 * p3.2.2 - p3.1 * p2.2.2)
              / (p1.1 * p2.2.2 - p1.1 * p3.2.2 - p2.1 * p1.2.2 + p2.1 * p3.2.2
                + p3.1 * p1.2.2 - p3.1 * p2.2.2)
            - (-p1.1 * p3.2.2 + p3.1 * p1.2.2)
              / (p1.1 * p2.2.2 - p1.1 * p3.2.2 - p2.1 * p1.2.2 + p2.1 * p3.2.2
                + p3.1 * p1.2.2 - p3.1 * p2.2.2)) * p3.2.2 = 0 := by
        field_simp
        ring
      push_neg at ha hb hc
      generalize (p2.1 * p3.2.2 - p3.1 * p2.2.2)
            / (p1.1 * p2.2.2 - p1.1 * p3.2.2 - p2.1 * p1.2.2 + p2.1 * p3.2.2
              + p3.1 * p1.2.2 - p3.1 * p2.2.2) = a at *
      generalize (-p1.1 * p3.2.2 + p3.1 * p1.2.2)
            / (p1.1 * p2.2.2 - p1.1 * p3.2.2 - p2.1 * p1.2.2 + p2.1 * p3.2.2
              + p3.1 * p1.2.2 - p3.1 * p2.2.2) = b at *
      have t1 := mul_nonneg ha.1 h1.le
      have t2 := mul_nonneg hb.1 h2.le
      have t3 := mul_nonneg hc.1 h3.le
      have e1 : a * p1.2.2 = 0 := by linarith
      have e2 : b * p2.2.2 = 0 := by linarith
      have ea : a = 0 := (mul_eq_zero.1 e1).resolve_right h1.ne'
      have eb : b = 0 := (mul_eq_zero.1 e2).resolve_right h2.ne'
      rw [ea, eb] at hz
      linarith

theorem poleTests_of_pitched_camera :
    poleTests (rotated_pts 1 (pitchRotation (697 / 985) (696 / 985))) = false := by
  obtain ⟨e0, e1, e2, e3, e4, e5, e6, e7⟩ :=
    rotated_pts_one (pitchRotation (697 / 985) (696 / 985))
  obtain ⟨ha, ha2⟩ := inv_sqrt_two_facts
  obtain ⟨hb, hb2⟩ := inv_sqrt_three_facts
  have hab := mul_pos ha hb
  have haa := mul_pos ha ha
  have t1 : isPoleInTriangle (rotated_pts 1 (pitchRotation (697 / 985) (696 / 985)) 0)
      (rotated_pts 1 (pitchRotation (697 / 985) (696 / 985)) 1)
      (rotated_pts 1 (pitchRotation (697 / 985) (696 / 985)) 7) = false := by
    rw [e0, e1, e7]
    apply isPoleInTriangle_false_of_z_pos <;> simp only [pitchRotation]
    · linarith
    · linarith
    · linarith
    · apply ne_of_gt
      nlinarith
  have t2 : isPoleInTriangle (rotated_pts 1 (pitchRotation (697 / 985) (696 / 985)) 1)
      (rotated_pts 1 (pitchRotation (697 / 985) (696 / 985)) 2)
      (rotated_pts 1 (pitchRotation (697 / 985) (696 / 985)) 3) = false := by
    rw [e1, e2, e3]
    apply isPoleInTriangle_false_of_z_pos <;> simp only [pitchRotation]
    · linarith
    · linarith
    · linarith
    · apply ne_of_lt
      nlinarith
  have t3 : isPoleInTriangle (rotated_pts 1 (pitchRotation (697 / 985) (696 / 985)) 3)
      (rotated_pts 1 (pitchRotation (697 / 985) (696 / 985)) 4)
      (rotated_pts 1 (pitchRotation (697 / 985) (696 / 985)) 5) = false := by
    rw [e3, e4, e5]
    apply isPoleInTriangle_false_of_z_pos <;> simp only [pitchRotation]
    · linarith
    · linarith
    · linarith
    · apply ne_of_gt
      nlinarith
  have t4 : isPoleInTriangle (rotated_pts 1 (pitchRotation (697 / 985) (696 / 985)) 7)
      (rotated_pts 1 (pitchRotation (697 / 985) (696 / 985)) 5)
      (rotated_pts 1 (pitchRotation (697 / 985) (696 / 985)) 6) = false := by
    rw [e7, e5, e6]
    apply isPoleInTriangle_false_of_z_pos <;> simp only [pitchRotation]
    · linarith
    · linarith
    · linarith
    · apply ne_of_gt
      nlinarith
  have t5 : isPoleInTriangle (rotated_pts 1 (pitchRotation (697 / 985) (696 / 985)) 1)
      (rotated_pts 1 (pitchRotation (697 / 985) (696 / 985)) 3)
      (rotated_pts 1 (pitchRotation (697 / 985) (696 / 985)) 5) = false := by
    rw [e1, e3, e5]
    apply isPoleInTriangle_false_of_z_pos <;> simp only [pitchRotation]
    · linarith
    · linarith
    · linarith
    · apply ne_of_gt
      nlinarith
  have t6 : isPoleInTriangle (rotated_pts 1 (pitchRotation (697 / 985) (696 / 985)) 1)
      (rotated_pts 1 (pitchRotation (697 / 985) (696 / 985)) 5)
      (rotated_pts 1 (pitchRotation (697 / 985) (696 / 985)) 7) = false := by
    rw [e1, e5, e7]
    apply isPoleInTriangle_false_of_z_pos <;> simp only [pitchRotation]
    · linarith
    · linarith
    · linarith
    · apply ne_of_gt
      nlinarith
  simp only [poleTests, t1, t2, t3, t4, t5, t6, Bool.or_self]

/-- The row of the vertex `5` of the pitched camera on the canvas of `1024 x 512` pixels is
above `511`. -/
theorem pitched_vertex_row :
    (511 : ℝ) < (SphericalMapping.toEquirectangular
      (rotated_pts 1 (pitchRotation (697 / 985) (696 / 985)) 5) 1024 512).2 := by
  obtain ⟨-, -, -, -, -, e5, -, -⟩ := rotated_pts_one (pitchRotation (697 / 985) (696 / 985))
  obtain ⟨ha, ha2⟩ := inv_sqrt_two_facts
  have hpi := Real.pi_pos
  rw [e5]
  simp only [SphericalMapping.toEquirectangular, pitchRotation]
  have hy : 1 * (Real.sqrt 2)⁻¹ * (697 / 985) + (Real.sqrt 2)⁻¹ * (696 / 985)
      = (Real.sqrt 2)⁻¹ * (1393 / 985) := by ring
  rw [hy]
  have hsq : ((Real.sqrt 2)⁻¹ * (1393 / 985)) ^ 2 = 1940449 / 1940450 := by
    rw [mul_pow, ha2]
    norm_num
  have hpos : 0 < (Real.sqrt 2)⁻¹ * (1393 / 985) := by positivity
  have hsin : 1 / 256 ≤ Real.sin (Real.pi / 512) := by
    have h := Real.mul_le_sin (x := Real.pi / 512) (by positivity) (by linarith)
    have e : 2 / Real.pi * (Real.pi / 512) = 1 / 256 := by
      field_simp
      ring
    rw [e] at h
    exact h
  have hcos0 : 0 ≤ Real.cos (Real.pi / 512) :=
    Real.cos_nonneg_of_neg_pi_div_two_le_of_le (by linarith) (by linarith)
  have hid := Real.sin_sq_add_cos_sq (Real.pi / 512)
  have hcos : Real.cos (Real.pi / 512) < (Real.sqrt 2)⁻¹ * (1393 / 985) := by
    by_contra hle
    push_neg at hle
    nlinarith
  have harc : Real.pi / 2 - Real.pi / 512
      < Real.arcsin ((Real.sqrt 2)⁻¹ * (1393 / 985)) := by
    rw [Real.lt_arcsin_iff_sin_lt' ⟨by linarith, by linarith⟩, Real.sin_pi_div_two_sub]
    exact hcos
  have hval : (511 : ℝ) = ((Real.pi / 2 - Real.pi / 512 + Real.pi / 2) / Real.pi) * 512 := by
    field_simp
    ring
  rw [hval]
  push_cast
  apply mul_lt_mul_of_pos_right _ (by norm_num)
  apply div_lt_div_of_pos_right _ hpi
  linarith

theorem computeCoarseBB_of_no_pole (panoramaSize : Int × Int)
    (rotated_pts : Fin 8 → ℝ × ℝ × ℝ) (r : Int × Int)
    (hv : verticalLoop panoramaSize rotated_pts arcIndices (panoramaSize.2, 0) = some r)
    (hpole : poleTests rotated_pts = false) :
    ∃ box, computeCoarseBB panoramaSize rotated_pts = some (true, box) ∧
      box.top = r.1 ∧ box.height = r.2 - r.1 + 1 := by
  obtain ⟨top, bottom⟩ := r
  simp only [computeCoarseBB, hv, hpole, Bool.false_eq_true, if_false]
  exact ⟨_, rfl, rfl, rfl⟩

/-- C30 (failing input): on the canvas of `1024 x 512` pixels, for the camera of radius `1`
pitched toward the lower pole by the angle with cosine `697/985` and sine `696/985` (a little
less than 45 degrees), the eight vertices project inside `[0, 1024] x [0, 512]`, no pole test
is true, the vertex `5` projects to a row above `511`, whose ceiling is `512`, and
`computeCoarseBB` returns `true` with a box such that `top + height > 512`: the last row of
the box is not a row of the canvas. -/
theorem coarse_box_exceeds_canvas_height :
    (∀ i : Fin 8,
      0 ≤ (SphericalMapping.toEquirectangular
        (rotated_pts 1 (pitchRotation (697 / 985) (696 / 985)) i) 1024 512).1 ∧
      (SphericalMapping.toEquirectangular
        (rotated_pts 1 (pitchRotation (697 / 985) (696 / 985)) i) 1024 512).1 ≤ 1024 ∧
      0 ≤ (SphericalMapping.toEquirectangular
        (rotated_pts 1 (pitchRotation (697 / 985) (696 / 985)) i) 1024 512).2 ∧
      (SphericalMapping.toEquirectangular
        (rotated_pts 1 (pitchRotation (697 / 985) (696 / 985)) i) 1024 512).2 ≤ 512) ∧
    poleTests (rotated_pts 1 (pitchRotation (697 / 985) (696 / 985))) = false ∧
    ⌈(SphericalMapping.toEquirectangular
      (rotated_pts 1 (pitchRotation (697 / 985) (696 / 985)) 5) 1024 512).2⌉ = 512 ∧
    ∃ box : BBox,
      computeCoarseBB (1024, 512) (rotated_pts 1 (pitchRotation (697 / 985) (696 / 985)))
        = some (true, box) ∧
      1 ≤ box.height ∧ 512 < box.top + box.height := by
  have hrange : ∀ i : Fin 8,
      0 ≤ (SphericalMapping.toEquirectangular
        (rotated_pts 1 (pitchRotation (697 / 985) (696 / 985)) i) 1024 512).1 ∧
      (SphericalMapping.toEquirectangular
        (rotated_pts 1 (pitchRotation (697 / 985) (696 / 985)) i) 1024 512).1 ≤ 1024 ∧
      0 ≤ (SphericalMapping.toEquirectangular
        (rotated_pts 1 (pitchRotation (697 / 985) (696 / 985)) i) 1024 512).2 ∧
      (SphericalMapping.toEquirectangular
        (rotated_pts 1 (pitchRotation (697 / 985) (696 / 985)) i) 1024 512).2 ≤ 512 := by
    intro i
    have h := SphericalMapping.toEquirectangular_range
      (rotated_pts 1 (pitchRotation (697 / 985) (696 / 985)) i) 1024 512 (by norm_num)
      (by norm_num)
    simpa using h
  have hceil : ⌈(SphericalMapping.toEquirectangular
      (rotated_pts 1 (pitchRotation (697 / 985) (696 / 985)) 5) 1024 512).2⌉ = 512 := by
    rw [Int.ceil_eq_iff]
    refine ⟨?_, ?_⟩
    · have := pitched_vertex_row
      push_cast
      linarith
    · have := (hrange 5).2.2.2
      push_cast
      exact this
  obtain ⟨r, hr⟩ := verticalLoop_isSome (1024, 512)
    (rotated_pts 1 (pitchRotation (697 / 985) (696 / 985)))
    getExtremaY_isSome_of_pitched_camera arcIndices (512, 0)
  obtain ⟨hb1, hb2, hb3⟩ := verticalLoop_bounds (1024, 512)
    (rotated_pts 1 (pitchRotation (697 / 985) (696 / 985))) arcIndices _ _ hr
  obtain ⟨box, hbox, htop, hheight⟩ := computeCoarseBB_of_no_pole (1024, 512)
    (rotated_pts 1 (pitchRotation (697 / 985) (696 / 985))) r hr poleTests_of_pitched_camera
  have h5 := (hb3 5 (mem_arcIndices 5)).2
  simp only at h5 hb1
  rw [hceil] at h5
  refine ⟨hrange, poleTests_of_pitched_camera, hceil, box, hbox, ?_, ?_⟩
  · rw [hheight]
    omega
  · rw [htop, hheight]
    omega

end CoordinatesMap

/-! ### Distance map -/

theorem checkedInt_covers : DistanceMap.Covers checkedInt 2147483647 := by
  intro z h1 h2
  simp only [checkedInt]
  rw [if_pos ⟨by omega, by omega⟩]

theorem checkedInt_exact : DistanceMap.Exact checkedInt := by
  intro z v h
  simp only [checkedInt] at h
  split at h
  · exact (Option.some.inj h).symm
  · exact absurd h (by simp)

namespace DistanceMap

theorem some_covers (B : Int) : Covers some B := fun _ _ _ => rfl

theorem write_same (d : Nat → Nat → Int) (y x : Nat) (v : Int) : write d y x v y x = v := by
  simp [write]

theorem write_other_col (d : Nat → Nat → Int) (y x : Nat) (v : Int) (y' x' : Nat)
    (h : x' ≠ x) : write d y x v y' x' = d y' x' := by
  simp [write, h]

theorem write_other_row (d : Nat → Nat → Int) (y x : Nat) (v : Int) (y' x' : Nat)
    (h : y' ≠ y) : write d y x v y' x' = d y' x' := by
  simp [write, h]

theorem forwardStep_eq (chk : Int → Option Int) (B : Int) (hcov : Covers chk B)
    (mask : Image Nat) (x : Nat) (d : Nat → Nat → Int) (k : Nat) (h0 : 0 ≤ d k x)
    (hB : 1 + d k x ≤ B) :
    forwardStep chk mask x d k
      = some (write d (k + 1) x (if mask.data (k + 1) x = 0 then 0 else 1 + d k x)) := by
  simp only [forwardStep, Nat.add_sub_cancel]
  by_cases hz : mask.data (k + 1) x = 0
  · simp only [hz, decide_True, if_true]
  · simp only [hz, decide_False, Bool.false_eq_true, if_false]
    rw [hcov _ (by omega) hB]

theorem backwardStep_eq (chk : Int → Option Int) (B : Int) (hcov : Covers chk B)
    (m x : Nat) (d : Nat → Nat → Int) (k : Nat) (h0 : 0 ≤ d (m - 2 - k + 1) x)
    (hB : d (m - 2 - k) x ≤ B) :
    backwardStep chk m x d k
      = some (if d (m - 2 - k + 1) x < d (m - 2 - k) x then
          write d (m - 2 - k) x (1 + d (m - 2 - k + 1) x) else d) := by
  simp only [backwardStep]
  by_cases hlt : d (m - 2 - k + 1) x < d (m - 2 - k) x
  · simp only [hlt, if_true]
    rw [hcov _ (by omega) (by omega)]
  · simp only [hlt, if_false]

theorem foldlM_range_succ {σ : Type} (step : σ → Nat → Option σ) (a b c : σ) (k : Nat)
    (h1 : (List.range k).foldlM step a = some b) (h2 : step b k = some c) :
    (List.range (k + 1)).foldlM step a = some c := by
  rw [List.range_succ, List.foldlM_append, h1]
  simp only [Option.bind_eq_bind, Option.some_bind, List.foldlM_cons, List.foldlM_nil,
    Option.pure_def, Option.bind_some, h2]

theorem forward_fold (chk : Int → Option Int) (B : Int) (hcov : Covers chk B)
    (mask : Image Nat) (maxval : Int) (x : Nat) (d0 : Nat → Nat → Int)
    (h0 : IsForwardDistance mask maxval x 0 (d0 0 x)) (hle0 : d0 0 x ≤ maxval * maxval)
    (k : Nat) (hB : maxval * maxval + k ≤ B) :
    ∃ d', (List.range k).foldlM (forwardStep chk mask x) d0 = some d' ∧
      (∀ y x', x' ≠ x → d' y x' = d0 y x') ∧
      (∀ y, y ≤ k → IsForwardDistance mask maxval x y (d' y x)) ∧
      (∀ y, y ≤ k → d' y x ≤ maxval * maxval + y) := by
  induction k with
  | zero =>
    refine ⟨d0, rfl, fun y x' _ => rfl, ?_, ?_⟩
    · intro y hy
      have e : y = 0 := by omega
      subst e
      exact h0
    · intro y hy
      have e : y = 0 := by omega
      subst e
      simpa using hle0
  | succ k ih =>
    obtain ⟨d, hd, hf, hv, hub⟩ := ih (by push_cast at hB; omega)
    have hstep := forwardStep_eq chk B hcov mask x d k (hv k (le_refl k)).1
      (by have := hub k (le_refl k); push_cast at hB; omega)
    refine ⟨_, foldlM_range_succ _ _ _ _ _ hd hstep, ?_, ?_, ?_⟩
    · intro y x' hx
      rw [write_other_col _ _ _ _ _ _ hx]
      exact hf y x' hx
    · intro y hy
      by_cases hyk : y = k + 1
      · subst hyk
        simp only [write_same]
        obtain ⟨h1, h2, h3⟩ := hv k (le_refl k)
        by_cases hz : mask.data (k + 1) x = 0
        · simp only [hz, if_true]
          refine ⟨le_refl 0, ?_, Or.inl ⟨k + 1, le_refl _, hz, by simp⟩⟩
          intro y' hy' _
          omega
        · simp only [hz, if_false]
          refine ⟨by omega, ?_, ?_⟩
          · intro y' hy' hz'
            have hne : y' ≠ k + 1 := fun e => hz (e ▸ hz')
            have := h2 y' (by omega) hz'
            push_cast
            omega
          · rcases h3 with ⟨y', hy', hz', he⟩ | h3
            · refine Or.inl ⟨y', by omega, hz', ?_⟩
              push_cast
              omega
            · exact Or.inr (by omega)
      · rw [write_other_row _ _ _ _ _ _ hyk]
        exact hv y (by omega)
    · intro y hy
      by_cases hyk : y = k + 1
      · subst hyk
        simp only [write_same]
        have h1 := mul_self_nonneg maxval
        have h2 := hub k (le_refl k)
        by_cases hz : mask.data (k + 1) x = 0
        · simp only [hz, if_true]
          push_cast
          omega
        · simp only [hz, if_false]
          push_cast
          omega
      · rw [write_other_row _ _ _ _ _ _ hyk]
        exact hub y (by omega)

theorem backward_fold (chk : Int → Option Int) (B : Int) (hcov : Covers chk B)
    (mask : Image Nat) (maxval : Int) (x : Nat) (d1 : Nat → Nat → Int)
    (h1 : ∀ y, y < mask.Height → IsForwardDistance mask maxval x y (d1 y x))
    (hub1 : ∀ y, y < mask.Height → d1 y x ≤ B) (k : Nat)
    (hk : k + 1 ≤ mask.Height) :
    ∃ d', (List.range k).foldlM (backwardStep chk mask.Height x) d1 = some d' ∧
      (∀ y x', x' ≠ x → d' y x' = d1 y x') ∧
      (∀ y, y + k + 1 < mask.Height → d' y x = d1 y x) ∧
      (∀ y, y < mask.Height → mask.Height ≤ y + k + 1 →
        IsColumnDistance mask maxval x y (d' y x)) ∧
      (∀ y, y < mask.Height → d' y x ≤ d1 y x) := by
  induction k with
  | zero =>
    refine ⟨d1, rfl, fun y x' _ => rfl, fun y _ => rfl, ?_, fun y _ => le_refl _⟩
    intro y hy hy'
    obtain ⟨a, b, c⟩ := h1 y hy
    refine ⟨a, ?_, ?_⟩
    · intro y' hy2 hz
      exact Or.inl (b y' (by omega) hz)
    · rcases c with ⟨y', hy2, hz, he⟩ | c
      · exact Or.inl ⟨y', by omega, hz, Or.inl he⟩
      · exact Or.inr c
  | succ k ih =>
    obtain ⟨d, hd, hf, hu, hv, hle⟩ := ih (by omega)
    have hy0 : mask.Height - 2 - k + k + 2 = mask.Height := by omega
    obtain ⟨b1, b2, b3⟩ := hv (mask.Height - 2 - k + 1) (by omega) (by omega)
    have hhere := hu (mask.Height - 2 - k) (by omega)
    obtain ⟨a1, a2, a3⟩ := h1 (mask.Height - 2 - k) (by omega)
    have hB0 := hub1 (mask.Height - 2 - k) (by omega)
    rw [← hhere] at a1 a2 a3 hB0
    have hstep := backwardStep_eq chk B hcov mask.Height x d k b1 hB0
    refine ⟨_, foldlM_range_succ _ _ _ _ _ hd hstep, ?_⟩
    generalize mask.Height - 2 - k = y0 at *
    by_cases hlt : d (y0 + 1) x < d y0 x
    · simp only [hlt, if_true]
      refine ⟨?_, ?_, ?_, ?_⟩
      · intro y x' hx
        rw [write_other_col _ _ _ _ _ _ hx]
        exact hf y x' hx
      · intro y hy
        rw [write_other_row _ _ _ _ _ _ (by omega)]
        exact hu y (by omega)
      · intro y hy hy'
        by_cases hyy : y = y0
        · subst hyy
          rw [write_same]
          refine ⟨by omega, ?_, ?_⟩
          · intro y' hy2 hz
            rcases Nat.lt_or_ge y y' with hc | hc
            · have := b2 y' hy2 hz
              push_cast at this
              omega
            · have := a2 y' hc hz
              omega
          · rcases b3 with ⟨y', hy2, hz, he⟩ | b3
            · refine Or.inl ⟨y', hy2, hz, ?_⟩
              rcases Nat.lt_or_ge y y' with hc | hc
              · push_cast at he
                omega
              · have := a2 y' hc hz
                push_cast at he
                omega
            · exact Or.inr (by omega)
        · rw [write_other_row _ _ _ _ _ _ hyy]
          exact hv y hy (by omega)
      · intro y hy
        by_cases hyy : y = y0
        · subst hyy
          rw [write_same]
          have := hle y hy
          omega
        · rw [write_other_row _ _ _ _ _ _ hyy]
          exact hle y hy
    · simp only [hlt, if_false]
      refine ⟨hf, fun y hy => hu y (by omega), ?_, hle⟩
      intro y hy hy'
      by_cases hyy : y = y0
      · subst hyy
        refine ⟨a1, ?_, ?_⟩
        · intro y' hy2 hz
          rcases Nat.lt_or_ge y y' with hc | hc
          · have := b2 y' hy2 hz
            push_cast at this
            omega
          · exact Or.inl (a2 y' hc hz)
        · rcases a3 with ⟨y', hy2, hz, he⟩ | a3
          · exact Or.inl ⟨y', by omega, hz, Or.inl he⟩
          · exact Or.inr a3
      · exact hv y hy (by omega)

theorem columnPass_spec (chk : Int → Option Int) (B : Int) (hcov : Covers chk B)
    (mask : Image Nat) (maxval : Int) (d : Nat → Nat → Int) (x : Nat)
    (hx : x < mask.Width) (hm : 1 ≤ mask.Height)
    (hB : maxval * maxval + mask.Height ≤ B) :
    ∃ d', columnPass chk mask maxval d x = some d' ∧
      (∀ y x', x' ≠ x → d' y x' = d y x') ∧
      (∀ y, y < mask.Height → IsColumnDistance mask maxval x y (d' y x)) ∧
      (∀ y, y < mask.Height → d' y x ≤ maxval * maxval + y) := by
  have hget : mask.get? 0 x = some (mask.data 0 x) := by
    simp only [Image.get?]
    rw [if_pos ⟨by omega, hx⟩]
  have hsq := mul_self_nonneg maxval
  have hfirst : (if decide (mask.data 0 x = 0) then some 0 else chk (maxval * maxval))
      = some (if mask.data 0 x = 0 then 0 else maxval * maxval) := by
    by_cases hz : mask.data 0 x = 0
    · simp only [hz, decide_True, if_true]
    · simp only [hz, decide_False, Bool.false_eq_true, if_false]
      exact hcov _ (by omega) (by omega)
  have h0 : IsForwardDistance mask maxval x 0
      (write d 0 x (if mask.data 0 x = 0 then 0 else maxval * maxval) 0 x) := by
    rw [write_same]
    by_cases hz : mask.data 0 x = 0
    · simp only [hz, if_true]
      exact ⟨le_refl 0, fun y' hy' _ => by omega, Or.inl ⟨0, le_refl 0, hz, by simp⟩⟩
    · simp only [hz, if_false]
      refine ⟨mul_self_nonneg _, ?_, Or.inr (le_refl _)⟩
      intro y' hy' hz'
      have e : y' = 0 := by omega
      subst e
      exact absurd hz' hz
  have hle0 : write d 0 x (if mask.data 0 x = 0 then 0 else maxval * maxval) 0 x
      ≤ maxval * maxval := by
    rw [write_same]
    by_cases hz : mask.data 0 x = 0
    · simp only [hz, if_true]
      exact hsq
    · simp only [hz, if_false]
      exact le_refl _
  have hcast : ((mask.Height - 1 : Nat) : Int) = (mask.Height : Int) - 1 := by omega
  obtain ⟨d1, hd1, f1, f2, f3⟩ := forward_fold chk B hcov mask maxval x _ h0 hle0
    (mask.Height - 1) (by omega)
  obtain ⟨d2, hd2, g1, -, g3, g4⟩ := backward_fold chk B hcov mask maxval x d1
    (fun y hy => f2 y (by omega))
    (fun y hy => by have := f3 y (by omega); omega)
    (mask.Height - 1) (by omega)
  refine ⟨d2, ?_, ?_, ?_, ?_⟩
  · simp only [columnPass, hget, hfirst, hd1, hd2]
  · intro y x' hx'
    rw [g1 y x' hx', f1 y x' hx', write_other_col _ _ _ _ _ _ hx']
  · intro y hy
    exact g3 y hy (by omega)
  · intro y hy
    exact (g4 y hy).trans (f3 y (by omega))

theorem columns_spec (chk : Int → Option Int) (B : Int) (hcov : Covers chk B)
    (mask : Image Nat) (maxval : Int) (uninit : Nat → Nat → Int)
    (hm : 1 ≤ mask.Height) (hB : maxval * maxval + mask.Height ≤ B) (k : Nat)
    (hk : k ≤ mask.Width) :
    ∃ d, (List.range k).foldlM (columnPass chk mask maxval) uninit = some d ∧
      ∀ x, x < k → ∀ y, y < mask.Height →
        IsColumnDistance mask maxval x y (d y x) ∧ d y x ≤ maxval * maxval + y := by
  induction k with
  | zero => exact ⟨uninit, rfl, fun x hx => absurd hx (Nat.not_lt_zero x)⟩
  | succ k ih =>
    obtain ⟨d, hd, hprev⟩ := ih (by omega)
    obtain ⟨d', hd', hframe, hcol, hub⟩ := columnPass_spec chk B hcov mask maxval d k
      (by omega) hm hB
    refine ⟨d', foldlM_range_succ _ _ _ _ _ hd hd', ?_⟩
    intro x hx y hy
    by_cases hxk : x = k
    · subst hxk
      exact ⟨hcol y hy, hub y hy⟩
    · rw [hframe y x hxk]
      exact hprev x (by omega) y hy

end DistanceMap

namespace DistanceMap

theorem Fits.covers_index {chk : Int → Option Int} {n : Nat} {row : Nat → Int}
    (h : Fits chk n row) (hn : 1 ≤ n) (z : Int) (h1 : -1 ≤ z) (h2 : z ≤ n) :
    chk z = some z := by
  obtain ⟨G, B, hcov, -, hB⟩ := h
  have hn' : (1 : Int) ≤ n := by exact_mod_cast hn
  have hnn : (n : Int) ≤ (n : Int) * n := by nlinarith
  have hG := mul_self_nonneg G
  exact hcov z (by omega) (by omega)

theorem f_capturedRow (chk : Int → Option Int) (n : Nat) (row : Nat → Int)
    (hfit : Fits chk n row) (x i : Int) (hx0 : 0 ≤ x) (hxn : x < n) (h0 : 0 ≤ i)
    (hn : i < n) : f chk (capturedRow n row) x i = some (parabola row x i) := by
  obtain ⟨G, B, hcov, hrow, hB⟩ := hfit
  obtain ⟨r0, r1⟩ := hrow i.toNat (by omega)
  have hn' : (1 : Int) ≤ n := by omega
  have hnn : (n : Int) ≤ (n : Int) * n := by nlinarith
  have hxx : (x - i) * (x - i) ≤ (n : Int) * n := by nlinarith
  have hxx0 := mul_self_nonneg (x - i)
  have hgg : row i.toNat * row i.toNat ≤ G * G := mul_self_le_mul_self r0 r1
  have hgg0 := mul_self_nonneg (row i.toNat)
  simp only [f, capturedRow, parabola]
  rw [if_pos ⟨h0, hn⟩]
  simp only
  rw [hcov (x - i) (by omega) (by omega)]
  simp only
  rw [hcov ((x - i) * (x - i)) (by omega) (by omega),
    hcov (row i.toNat * row i.toNat) (by omega) (by omega)]
  simp only
  rw [hcov _ (by omega) (by omega)]

theorem parabola_sub (row : Nat → Int) (x i u : Int) :
    parabola row x u - parabola row x i
      = (u * u - i * i + row u.toNat * row u.toNat - row i.toNat * row i.toNat)
        - x * (2 * (u - i)) := by
  simp only [parabola]
  ring

theorem parabola_lt_of_le (row : Nat → Int) (i u x0 x : Int) (hiu : i < u) (hx : x0 ≤ x)
    (h : parabola row x0 u < parabola row x0 i) : parabola row x u < parabola row x i := by
  have e0 := parabola_sub row x0 i u
  have e := parabola_sub row x i u
  have hm : x0 * (2 * (u - i)) ≤ x * (2 * (u - i)) :=
    mul_le_mul_of_nonneg_right hx (by omega)
  linarith

theorem sep_spec (chk : Int → Option Int) (n : Nat) (row : Nat → Int)
    (hfit : Fits chk n row) (i u x0 : Int) (hi : 0 ≤ i) (hiu : i < u)
    (hun : u < n) (hx0 : 0 ≤ x0) (h : parabola row x0 i ≤ parabola row x0 u) :
    ∃ v, sep chk (capturedRow n row) i u = some v ∧ chk (1 + v) = some (1 + v) ∧ x0 ≤ v ∧
      ∀ x, x ≤ v ↔ parabola row x i ≤ parabola row x u := by
  obtain ⟨G, B, hcov, hrow, hB⟩ := hfit
  obtain ⟨ru0, ru1⟩ := hrow u.toNat (by omega)
  obtain ⟨ri0, ri1⟩ := hrow i.toNat (by omega)
  have hden : 0 < 2 * (u - i) := by omega
  have e0 := parabola_sub row x0 i u
  have hnom : 0 ≤ u * u - i * i + row u.toNat * row u.toNat - row i.toNat * row i.toNat := by
    have : 0 ≤ x0 * (2 * (u - i)) := mul_nonneg hx0 hden.le
    linarith
  have hkey : ∀ x, x ≤ (u * u - i * i + row u.toNat * row u.toNat - row i.toNat * row i.toNat)
      / (2 * (u - i)) ↔ parabola row x i ≤ parabola row x u := by
    intro x
    rw [Int.le_ediv_iff_mul_le hden]
    have e := parabola_sub row x i u
    constructor <;> intro hh <;> linarith
  have huu0 := mul_self_nonneg u
  have hii0 := mul_self_nonneg i
  have hgu0 := mul_self_nonneg (row u.toNat)
  have hgi0 := mul_self_nonneg (row i.toNat)
  have huu : u * u + 2 * (n : Int) ≤ (n : Int) * n + 1 := by nlinarith
  have hii : i * i ≤ (n : Int) * n := by nlinarith
  have hgu : row u.toNat * row u.toNat ≤ G * G := mul_self_le_mul_self ru0 ru1
  have hgi : row i.toNat * row i.toNat ≤ G * G := mul_self_le_mul_self ri0 ri1
  have hdiv0 : 0 ≤ (u * u - i * i + row u.toNat * row u.toNat - row i.toNat * row i.toNat)
      / (2 * (u - i)) := Int.ediv_nonneg hnom hden.le
  have hdiv1 : (u * u - i * i + row u.toNat * row u.toNat - row i.toNat * row i.toNat)
      / (2 * (u - i))
      ≤ u * u - i * i + row u.toNat * row u.toNat - row i.toNat * row i.toNat :=
    Int.ediv_le_self _ hnom
  refine ⟨(u * u - i * i + row u.toNat * row u.toNat - row i.toNat * row i.toNat)
      / (2 * (u - i)), ?_, hcov _ (by omega) (by omega), (hkey x0).2 h, hkey⟩
  simp only [sep, capturedRow]
  rw [if_pos ⟨by omega, hun⟩, if_pos ⟨hi, by omega⟩]
  simp only
  rw [hcov (u * u) (by omega) (by omega), hcov (i * i) (by omega) (by omega)]
  simp only
  rw [hcov (u * u - i * i) (by omega) (by omega),
    hcov (row u.toNat * row u.toNat) (by omega) (by omega)]
  simp only
  rw [hcov (u * u - i * i + row u.toNat * row u.toNat) (by omega) (by omega),
    hcov (row i.toNat * row i.toNat) (by omega) (by omega)]
  simp only
  rw [hcov (u * u - i * i + row u.toNat * row u.toNat - row i.toNat * row i.toNat)
      (by omega) (by omega),
    hcov (u - i) (by omega) (by omega)]
  simp only
  rw [hcov (2 * (u - i)) (by omega) (by omega)]
  simp only
  rw [if_neg (by omega), Int.tdiv_eq_ediv hnom hden.le]
  exact hcov _ (by omega) (by omega)

theorem StackInv.t_mono {n : Nat} {row : Nat → Int} {u : Int} {st : Stack}
    (h : StackInv n row u st) (a : Int) (ha : 0 ≤ a) :
    ∀ (c : Nat) (b : Int), b = a + c → b ≤ st.q → st.t a ≤ st.t b := by
  intro c
  induction c with
  | zero =>
    intro b hb _
    have e : b = a := by simpa using hb
    rw [e]
  | succ c ih =>
    intro b hb hbq
    have h1 := ih (a + c) rfl (by push_cast at hb; omega)
    have h2 := h.incr (a + c) (by omega) (by push_cast at hb; omega)
    have e : a + (c : Int) + 1 = b := by push_cast at hb; omega
    rw [e] at h2
    omega

theorem StackInv.q_lt {n : Nat} {row : Nat → Int} {u : Int} {st : Stack}
    (h : StackInv n row u st) : st.q < n := by
  have key : ∀ c : Nat, (c : Int) ≤ st.q → (c : Int) ≤ st.t c := by
    intro c
    induction c with
    | zero =>
      intro _
      simp only [Nat.cast_zero]
      rw [h.t_zero]
    | succ c ih =>
      intro hc
      have h1 := ih (by push_cast at hc; omega)
      have h2 := h.incr c (by omega) (by push_cast at hc; omega)
      push_cast
      omega
  have hq := h.q_nonneg
  have h1 := key st.q.toNat (by omega)
  have h2 := (h.range st.q hq (le_refl _)).2.2.2
  rw [Int.toNat_of_nonneg hq] at h1
  omega

theorem popLoop_spec (chk : Int → Option Int) (n : Nat) (row : Nat → Int)
    (hfit : Fits chk n row) (u : Int) (st : Stack)
    (hinv : StackInv n row u st) (hu0 : 0 ≤ u) (hun : u < n) :
    ∀ k : Nat, (k : Int) ≤ st.q + 1 →
      (∀ x, (if (k : Int) = st.q + 1 then (n : Int) else st.t k) ≤ x → x < n →
        ∀ i, 0 ≤ i → i < u → parabola row x u ≤ parabola row x i) →
      ∃ q' : Int, popLoop chk (capturedRow n row) st.s st.t u k = some q' ∧ -1 ≤ q' ∧ q' ≤ st.q ∧
        (∀ x, (if q' = st.q then (n : Int) else st.t (q' + 1)) ≤ x → x < n →
          ∀ i, 0 ≤ i → i < u → parabola row x u ≤ parabola row x i) ∧
        (0 ≤ q' → parabola row (st.t q') (st.s q') ≤ parabola row (st.t q') u) := by
  have hq := hinv.q_nonneg
  intro k
  induction k with
  | zero =>
    intro _ hdom
    refine ⟨-1, rfl, le_refl _, by omega, ?_, fun h => absurd h (by omega)⟩
    have e1 : ¬ ((0 : Nat) : Int) = st.q + 1 := by omega
    have e2 : ¬ (-1 : Int) = st.q := by omega
    rw [if_neg e1] at hdom
    rw [if_neg e2]
    intro x hx
    apply hdom x
    simpa using hx
  | succ k ih =>
    intro hk hdom
    have hkq : (k : Int) ≤ st.q := by push_cast at hk; omega
    obtain ⟨r1, r2, r3, r4⟩ := hinv.range k (by omega) hkq
    simp only [popLoop]
    rw [f_capturedRow chk n row hfit _ _ r3 r4 r1 (by omega),
      f_capturedRow chk n row hfit _ _ r3 r4 hu0 hun]
    simp only
    by_cases hgt : parabola row (st.t k) (st.s k) > parabola row (st.t k) u
    · rw [if_pos hgt]
      apply ih (by omega)
      have e1 : ¬ (k : Int) = st.q + 1 := by omega
      rw [if_neg e1]
      intro x hx hxn i hi0 hiu
      by_cases hreg : (if ((k + 1 : Nat) : Int) = st.q + 1 then (n : Int)
          else st.t ((k + 1 : Nat) : Int)) ≤ x
      · exact hdom x hreg hxn i hi0 hiu
      · have hlt := parabola_lt_of_le row (st.s k) u (st.t k) x r2 hx hgt
        have hcond : (k : Int) < st.q → x < st.t ((k : Int) + 1) := by
          intro hkq'
          rw [if_neg (by push_cast; omega)] at hreg
          push_cast at hreg
          omega
        have hleast := hinv.least k (by omega) hkq x hx hxn hcond i hi0 hiu
        omega
    · rw [if_neg hgt]
      refine ⟨k, rfl, by omega, hkq, ?_, fun _ => by omega⟩
      intro x hx hxn i hi0 hiu
      apply hdom x _ hxn i hi0 hiu
      by_cases hkq2 : (k : Int) = st.q
      · rw [if_pos hkq2] at hx
        rw [if_pos (by push_cast; omega)]
        exact hx
      · rw [if_neg hkq2] at hx
        rw [if_neg (by push_cast; omega)]
        push_cast
        exact hx

/-- The columns of the stack stay the least ones when the column `u` is added, on the part
of their range where `u` does not win. -/
theorem least_extend (n : Nat) (row : Nat → Int) (u : Int) (st : Stack)
    (hinv : StackInv n row u st) (q' v : Int) (hq0 : 0 ≤ q') (hq : q' ≤ st.q)
    (hdom : ∀ x, (if q' = st.q then (n : Int) else st.t (q' + 1)) ≤ x → x < n →
      ∀ i, 0 ≤ i → i < u → parabola row x u ≤ parabola row x i)
    (hv0 : st.t q' ≤ v)
    (hv : ∀ x, x ≤ v ↔ parabola row x (st.s q') ≤ parabola row x u)
    (j : Int) (hj0 : 0 ≤ j) (hjq : j ≤ q') (x : Int) (hx : st.t j ≤ x) (hxn : x < n)
    (hnext : j < q' → x < st.t (j + 1)) (hxv : j = q' → x ≤ v)
    (i : Int) (hi0 : 0 ≤ i) (hiu : i < u + 1) :
    parabola row x (st.s j) ≤ parabola row x i := by
  obtain ⟨r1, r2, r3, r4⟩ := hinv.range q' hq0 hq
  rcases eq_or_lt_of_le hjq with hjeq | hjlt
  · subst hjeq
    have h1 := (hv x).1 (hxv rfl)
    rcases eq_or_lt_of_le (Int.le_of_lt_add_one hiu) with hiu' | hiu'
    · rw [hiu']
      exact h1
    · by_cases hB : (if j = st.q then (n : Int) else st.t (j + 1)) ≤ x
      · exact h1.trans (hdom x hB hxn i hi0 hiu')
      · apply hinv.least j hj0 hq x hx hxn _ i hi0 hiu'
        intro hlt
        rw [if_neg (by omega)] at hB
        omega
  · have hxv' : x ≤ v := by
      have h1 := hnext hjlt
      have h2 := hinv.t_mono (j + 1) (by omega) (q' - (j + 1)).toNat q' (by omega) hq
      omega
    have h1 := (hv x).1 hxv'
    have h2 := hinv.least j hj0 (by omega) x hx hxn (fun _ => hnext hjlt)
    rcases eq_or_lt_of_le (Int.le_of_lt_add_one hiu) with hiu' | hiu'
    · rw [hiu']
      exact (h2 (st.s q') r1 r2).trans h1
    · exact h2 i hi0 hiu'

theorem scanStep_spec (chk : Int → Option Int) (n : Nat) (row : Nat → Int)
    (hfit : Fits chk n row) (u : Int) (st : Stack)
    (hinv : StackInv n row u st) (hu0 : 1 ≤ u) (hun : u < n) :
    ∃ st', scanStep chk (capturedRow n row) n st u = some st' ∧
      StackInv n row (u + 1) st' := by
  have hqn := hinv.q_lt
  have hq := hinv.q_nonneg
  have hk : ((st.q.toNat + 1 : Nat) : Int) = st.q + 1 := by
    push_cast
    omega
  obtain ⟨q', hpop, hq1, hq2, hdom, hle⟩ := popLoop_spec chk n row hfit u st hinv (by omega) hun
    (st.q.toNat + 1) (by omega)
    (by
      intro x hx hxn
      rw [if_pos hk] at hx
      omega)
  simp only [scanStep]
  rw [if_neg (by omega), hpop]
  simp only
  by_cases hneg : q' < 0
  · rw [if_pos hneg]
    refine ⟨_, rfl, ?_⟩
    have hq' : q' = -1 := by omega
    subst hq'
    rw [if_neg (by omega)] at hdom
    have ht0 : st.t (-1 + 1) = 0 := by
      have : (-1 : Int) + 1 = 0 := by norm_num
      rw [this]
      exact hinv.t_zero
    rw [ht0] at hdom
    refine ⟨le_refl _, hinv.t_zero, ?_, ?_, ?_⟩
    · intro j hj0 hj1
      have e : j = 0 := by
        simp only at hj1
        omega
      subst e
      simp only [Function.update_same]
      rw [hinv.t_zero]
      omega
    · intro j hj0 hj1
      simp only at hj1
      omega
    · intro j hj0 hj1 x hx hxn _ i hi0 hiu
      have e : j = 0 := by
        simp only at hj1
        omega
      subst e
      simp only [Function.update_same]
      rcases eq_or_lt_of_le (Int.le_of_lt_add_one hiu) with hiu' | hiu'
      · rw [hiu']
      · simp only at hx
        rw [hinv.t_zero] at hx
        exact hdom x hx hxn i hi0 hiu'
  · rw [if_neg hneg]
    have hq0 : 0 ≤ q' := by omega
    obtain ⟨r1, r2, r3, r4⟩ := hinv.range q' hq0 hq2
    obtain ⟨v, hsep, hone, hv0, hv⟩ := sep_spec chk n row hfit (st.s q') u (st.t q') r1 r2 hun
      r3 (hle hq0)
    rw [hsep]
    simp only
    rw [hone]
    simp only
    by_cases hw : 1 + v < n
    · rw [if_pos hw, hfit.covers_index (by omega) (q' + 1) (by omega) (by omega)]
      refine ⟨_, rfl, ?_⟩
      refine ⟨by simp only; omega, ?_, ?_, ?_, ?_⟩
      · simp only
        rw [Function.update_noteq (by omega)]
        exact hinv.t_zero
      · intro j hj0 hj1
        simp only at hj1 ⊢
        by_cases hje : j = q' + 1
        · subst hje
          simp only [Function.update_same]
          omega
        · rw [Function.update_noteq hje, Function.update_noteq hje]
          have := hinv.range j hj0 (by omega)
          omega
      · intro j hj0 hj1
        simp only at hj1 ⊢
        rw [Function.update_noteq (by omega)]
        by_cases hje : j = q'
        · subst hje
          simp only [Function.update_same]
          omega
        · rw [Function.update_noteq (by omega)]
          exact hinv.incr j hj0 (by omega)
      · intro j hj0 hj1 x hx hxn hnext i hi0 hiu
        simp only at hj1 hx hnext ⊢
        by_cases hje : j = q' + 1
        · subst hje
          simp only [Function.update_same] at hx ⊢
          rcases eq_or_lt_of_le (Int.le_of_lt_add_one hiu) with hiu' | hiu'
          · rw [hiu']
          · by_cases hB : (if q' = st.q then (n : Int) else st.t (q' + 1)) ≤ x
            · exact hdom x hB hxn i hi0 hiu'
            · have h1 := hinv.least q' hq0 hq2 x (by omega) hxn
                (by
                  intro hlt
                  rw [if_neg (by omega)] at hB
                  omega) i hi0 hiu'
              have h2 : ¬ parabola row x (st.s q') ≤ parabola row x u := by
                rw [← hv x]
                omega
              omega
        · rw [Function.update_noteq hje] at hx ⊢
          have hjq : j ≤ q' := by omega
          apply least_extend n row u st hinv q' v hq0 hq2 hdom hv0 hv j hj0 hjq x hx hxn _ _
            i hi0 hiu
          · intro hlt
            have := hnext (by omega)
            rw [Function.update_noteq (by omega)] at this
            exact this
          · intro he
            subst he
            have := hnext (by omega)
            rw [Function.update_same] at this
            omega
    · rw [if_neg hw]
      refine ⟨_, rfl, ?_⟩
      refine ⟨hq0, hinv.t_zero, ?_, ?_, ?_⟩
      · intro j hj0 hj1
        simp only at hj1 ⊢
        have := hinv.range j hj0 (by omega)
        omega
      · intro j hj0 hj1
        simp only at hj1 ⊢
        exact hinv.incr j hj0 (by omega)
      · intro j hj0 hj1 x hx hxn hnext i hi0 hiu
        simp only at hj1 hx hnext ⊢
        exact least_extend n row u st hinv q' v hq0 hq2 hdom hv0 hv j hj0 hj1 x hx hxn hnext
          (fun _ => by omega) i hi0 hiu

theorem scan_spec (chk : Int → Option Int) (n : Nat) (row : Nat → Int)
    (hfit : Fits chk n row) (k : Nat) (hk : k + 1 ≤ n) :
    ∃ st, (List.range k).foldlM
        (fun st (k : Nat) => scanStep chk (capturedRow n row) n st ((k : Int) + 1))
        { q := 0, s := fun _ => 0, t := fun _ => 0 } = some st ∧
      StackInv n row ((k : Int) + 1) st := by
  induction k with
  | zero =>
    refine ⟨_, rfl, le_refl _, rfl, ?_, ?_, ?_⟩
    · intro j _ _
      simp only
      omega
    · intro j hj0 hj1
      simp only at hj1
      omega
    · intro j _ _ x _ _ _ i hi0 hiu
      simp only
      have e : i = 0 := by
        push_cast at hiu
        omega
      rw [e]
  | succ k ih =>
    obtain ⟨st, hst, hinv⟩ := ih (by omega)
    obtain ⟨st', hst', hinv'⟩ := scanStep_spec chk n row hfit ((k : Int) + 1) st hinv (by omega)
      (by omega)
    refine ⟨st', ?_, ?_⟩
    · rw [List.range_succ, List.foldlM_append, hst]
      simp only [Option.bind_eq_bind, Option.some_bind, List.foldlM_cons, List.foldlM_nil,
        Option.pure_def, Option.bind_some, hst']
    · have e : (((k + 1 : Nat) : Int) + 1) = (k : Int) + 1 + 1 := by push_cast; ring
      rw [e]
      exact hinv'

theorem fill_spec (chk : Int → Option Int) (n : Nat) (row : Nat → Int)
    (hfit : Fits chk n row) (st : Stack) (hinv : StackInv n row n st)
    (y : Nat) (d : Nat → Nat → Int) (k : Nat) (hk : k ≤ n) :
    ∃ acc, (List.range k).foldlM
        (fun acc (j : Nat) => fillStep chk (capturedRow n row) st.s st.t y acc (n - 1 - j))
        (st.q, d)
        = some acc ∧
      (∀ y' x', y' ≠ y → acc.2 y' x' = d y' x') ∧
      (∀ x, x + k < n → acc.2 y x = d y x) ∧
      (∀ x, x < n → n ≤ x + k → IsRowMinimum n row x (acc.2 y x)) ∧
      (k < n → 0 ≤ acc.1 ∧ acc.1 ≤ st.q ∧ st.t acc.1 ≤ ((n - 1 - k : Nat) : Int) ∧
        (acc.1 < st.q → ((n - 1 - k : Nat) : Int) < st.t (acc.1 + 1))) := by
  induction k with
  | zero =>
    refine ⟨(st.q, d), rfl, fun _ _ _ => rfl, fun _ _ => rfl, ?_, ?_⟩
    · intro x hx hx'
      omega
    · intro hn
      have := hinv.range st.q hinv.q_nonneg (le_refl _)
      refine ⟨hinv.q_nonneg, le_refl _, ?_, fun h => absurd h (lt_irrefl _)⟩
      show st.t st.q ≤ _
      omega
  | succ k ih =>
    obtain ⟨acc, hacc, hrows, hleft, hmin, hpos⟩ := ih (by omega)
    obtain ⟨p1, p2, p3, p4⟩ := hpos (by omega)
    obtain ⟨r1, r2, r3, r4⟩ := hinv.range acc.1 p1 p2
    have hqn := hinv.q_lt
    have hf : f chk (capturedRow n row) ((n - 1 - k : Nat) : Int) (st.s acc.1)
        = some (parabola row ((n - 1 - k : Nat) : Int) (st.s acc.1)) :=
      f_capturedRow chk n row hfit _ _ (by omega) (by omega) r1 r2
    have hq1 := hfit.covers_index (by omega) (acc.1 - 1) (by omega) (by omega)
    have hstep : fillStep chk (capturedRow n row) st.s st.t y acc (n - 1 - k)
        = some (if ((n - 1 - k : Nat) : Int) = st.t acc.1 then acc.1 - 1 else acc.1,
          write acc.2 y (n - 1 - k) (parabola row ((n - 1 - k : Nat) : Int) (st.s acc.1))) := by
      simp only [fillStep, hf]
      by_cases hte : ((n - 1 - k : Nat) : Int) = st.t acc.1
      · rw [if_pos hte, if_pos hte, hq1]
      · rw [if_neg hte, if_neg hte]
    refine ⟨(if ((n - 1 - k : Nat) : Int) = st.t acc.1 then acc.1 - 1 else acc.1,
      write acc.2 y (n - 1 - k) (parabola row ((n - 1 - k : Nat) : Int) (st.s acc.1))),
      ?_, ?_, ?_, ?_, ?_⟩
    · rw [List.range_succ, List.foldlM_append, hacc]
      simp only [Option.bind_eq_bind, Option.some_bind, List.foldlM_cons, List.foldlM_nil,
        Option.pure_def, Option.bind_some, hstep]
    · intro y' x' hy'
      simp only
      rw [write_other_row _ _ _ _ _ _ hy']
      exact hrows y' x' hy'
    · intro x hx
      simp only
      rw [write_other_col _ _ _ _ _ _ (by omega)]
      exact hleft x (by omega)
    · intro x hx hx'
      simp only
      by_cases hxe : x = n - 1 - k
      · subst hxe
        rw [write_same]
        refine ⟨⟨(st.s acc.1).toNat, by omega, ?_⟩, ?_⟩
        · rw [Int.toNat_of_nonneg r1]
        · intro i hi
          exact hinv.least acc.1 p1 p2 _ p3 (by omega) p4 i (by omega) (by omega)
      · rw [write_other_col _ _ _ _ _ _ hxe]
        exact hmin x hx (by omega)
    · intro hk1
      simp only
      by_cases hte : ((n - 1 - k : Nat) : Int) = st.t acc.1
      · rw [if_pos hte]
        have hne : acc.1 ≠ 0 := by
          intro e
          rw [e, hinv.t_zero] at hte
          omega
        have hinc := hinv.incr (acc.1 - 1) (by omega) (by omega)
        have e : acc.1 - 1 + 1 = acc.1 := by ring
        rw [e] at hinc ⊢
        refine ⟨by omega, by omega, by omega, fun _ => by omega⟩
      · rw [if_neg hte]
        refine ⟨p1, p2, by omega, ?_⟩
        intro hlt
        have := p4 hlt
        omega

theorem rowPass_spec (chk : Int → Option Int) (n : Nat) (d : Nat → Nat → Int) (y : Nat)
    (hfit : Fits chk n (d y)) (hn : 1 ≤ n) :
    ∃ d', rowPass chk n d y = some d' ∧
      (∀ y' x', y' ≠ y → d' y' x' = d y' x') ∧
      ∀ x, x < n → IsRowMinimum n (d y) x (d' y x) := by
  obtain ⟨st, hst, hinv⟩ := scan_spec chk n (d y) hfit (n - 1) (by omega)
  have e : (((n - 1 : Nat) : Int) + 1) = (n : Int) := by omega
  rw [e] at hinv
  obtain ⟨acc, hacc, hrows, -, hmin, -⟩ := fill_spec chk n (d y) hfit st hinv y d n (le_refl n)
  refine ⟨acc.2, ?_, hrows, fun x hx => hmin x hx (by omega)⟩
  simp only [rowPass, hst, hacc]

theorem rows_spec (chk : Int → Option Int) (n : Nat) (d : Nat → Nat → Int) (hn : 1 ≤ n)
    (k : Nat) (hfit : ∀ y, y < k → Fits chk n (d y)) :
    ∃ d', (List.range k).foldlM (rowPass chk n) d = some d' ∧
      (∀ y, k ≤ y → ∀ x, d' y x = d y x) ∧
      ∀ y, y < k → ∀ x, x < n → IsRowMinimum n (d y) x (d' y x) := by
  induction k with
  | zero => exact ⟨d, rfl, fun _ _ _ => rfl, fun y hy => absurd hy (Nat.not_lt_zero y)⟩
  | succ k ih =>
    obtain ⟨d1, hd1, hframe, hdone⟩ := ih (fun y hy => hfit y (by omega))
    have hrow : d1 k = d k := funext (fun x => hframe k (le_refl k) x)
    obtain ⟨d2, hd2, hrows, hmin⟩ := rowPass_spec chk n d1 k
      (by rw [hrow]; exact hfit k (by omega)) hn
    rw [hrow] at hmin
    refine ⟨d2, foldlM_range_succ _ _ _ _ _ hd1 hd2, ?_, ?_⟩
    · intro y hy x
      rw [hrows y x (by omega)]
      exact hframe y (by omega) x
    · intro y hy x hx
      by_cases hyk : y = k
      · subst hyk
        exact hmin x hx
      · rw [hrows y x hyk]
        exact hdone y (by omega) x hx

end DistanceMap

namespace DistanceMap

theorem Exact.elim {chk : Int → Option Int} (hex : Exact chk) (z : Int) :
    chk z = none ∨ chk z = some z := by
  cases h : chk z with
  | none => exact Or.inl rfl
  | some v =>
    rw [hex z v h]
    exact Or.inr rfl

theorem foldlM_mono {σ β : Type} (step1 step2 : σ → β → Option σ)
    (h : ∀ a b r, step1 a b = some r → step2 a b = some r) :
    ∀ (l : List β) (a r : σ), l.foldlM step1 a = some r → l.foldlM step2 a = some r := by
  intro l
  induction l with
  | nil =>
    intro a r hr
    exact hr
  | cons b l ih =>
    intro a r hr
    rw [List.foldlM_cons] at hr ⊢
    cases h1 : step1 a b with
    | none =>
      rw [h1] at hr
      exact absurd hr (by simp)
    | some c =>
      rw [h1] at hr
      rw [h a b c h1]
      exact ih c r hr

theorem forwardStep_mono (chk : Int → Option Int) (hex : Exact chk) (mask : Image Nat)
    (x : Nat) (d : Nat → Nat → Int) (k : Nat) (r : Nat → Nat → Int)
    (h : forwardStep chk mask x d k = some r) : forwardStep some mask x d k = some r := by
  simp only [forwardStep] at h ⊢
  by_cases hz : mask.data (k + 1) x = 0
  · simp only [hz, decide_True, if_true] at h ⊢
    exact h
  · simp only [hz, decide_False, Bool.false_eq_true, if_false] at h ⊢
    rcases hex.elim (1 + d (k + 1 - 1) x) with e | e
    · rw [e] at h
      exact absurd h (by simp)
    rw [e] at h
    exact h

theorem backwardStep_mono (chk : Int → Option Int) (hex : Exact chk) (m x : Nat)
    (d : Nat → Nat → Int) (k : Nat) (r : Nat → Nat → Int)
    (h : backwardStep chk m x d k = some r) : backwardStep some m x d k = some r := by
  simp only [backwardStep] at h ⊢
  by_cases hlt : d (m - 2 - k + 1) x < d (m - 2 - k) x
  · simp only [hlt, if_true] at h ⊢
    rcases hex.elim (1 + d (m - 2 - k + 1) x) with e | e
    · rw [e] at h
      exact absurd h (by simp)
    rw [e] at h
    exact h
  · simp only [hlt, if_false] at h ⊢
    exact h

theorem columnPass_mono (chk : Int → Option Int) (hex : Exact chk) (mask : Image Nat)
    (maxval : Int) (d : Nat → Nat → Int) (x : Nat) (r : Nat → Nat → Int)
    (h : columnPass chk mask maxval d x = some r) :
    columnPass some mask maxval d x = some r := by
  simp only [columnPass] at h ⊢
  cases hget : mask.get? 0 x with
  | none =>
    rw [hget] at h
    exact absurd h (by simp)
  | some first =>
    rw [hget] at h
    simp only at h ⊢
    have hfirst : (if decide (first = 0) then some 0 else chk (maxval * maxval)) = none ∨
        (if decide (first = 0) then some 0 else chk (maxval * maxval))
          = (if decide (first = 0) then some 0 else some (maxval * maxval)) := by
      by_cases hz : first = 0
      · rw [if_pos (decide_eq_true hz), if_pos (decide_eq_true hz)]
        exact Or.inr rfl
      · rw [if_neg (by simpa using hz), if_neg (by simpa using hz)]
        exact hex.elim _
    rcases hfirst with e | e
    · rw [e] at h
      exact absurd h (by simp)
    rw [e] at h
    cases hv : (if decide (first = 0) then some (0 : Int) else some (maxval * maxval)) with
    | none =>
      rw [hv] at h
      exact absurd h (by simp)
    | some v =>
      rw [hv] at h
      simp only at h ⊢
      cases h1 : (List.range (mask.Height - 1)).foldlM (forwardStep chk mask x)
          (write d 0 x v) with
      | none =>
        rw [h1] at h
        exact absurd h (by simp)
      | some d1 =>
        rw [h1] at h
        simp only at h
        rw [foldlM_mono _ _ (forwardStep_mono chk hex mask x) _ _ _ h1]
        exact foldlM_mono _ _ (backwardStep_mono chk hex mask.Height x) _ _ _ h

theorem f_mono (chk : Int → Option Int) (hex : Exact chk) (g : Int → Option Int)
    (x i v : Int) (h : f chk g x i = some v) : f some g x i = some v := by
  simp only [f] at h ⊢
  cases hg : g i with
  | none =>
    rw [hg] at h
    exact absurd h (by simp)
  | some gi =>
    rw [hg] at h
    simp only at h ⊢
    rcases hex.elim (x - i) with e | e
    · rw [e] at h
      exact absurd h (by simp)
    rw [e] at h
    simp only at h
    rcases hex.elim ((x - i) * (x - i)) with e | e
    · rw [e] at h
      exact absurd h (by simp)
    rw [e] at h
    rcases hex.elim (gi * gi) with e | e
    · rw [e] at h
      exact absurd h (by simp)
    rw [e] at h
    simp only at h
    rcases hex.elim ((x - i) * (x - i) + gi * gi) with e | e
    · rw [e] at h
      exact absurd h (by simp)
    rw [e] at h
    exact h

theorem sep_mono (chk : Int → Option Int) (hex : Exact chk) (g : Int → Option Int)
    (i u v : Int) (h : sep chk g i u = some v) : sep some g i u = some v := by
  simp only [sep] at h ⊢
  cases hgu : g u with
  | none =>
    rw [hgu] at h
    exact absurd h (by simp)
  | some gu =>
    cases hgi : g i with
    | none =>
      rw [hgu, hgi] at h
      exact absurd h (by simp)
    | some gi =>
      rw [hgu, hgi] at h
      simp only at h ⊢
      rcases hex.elim (u * u) with e | e
      · rw [e] at h
        exact absurd h (by simp)
      rw [e] at h
      rcases hex.elim (i * i) with e | e
      · rw [e] at h
        exact absurd h (by simp)
      rw [e] at h
      simp only at h
      rcases hex.elim (u * u - i * i) with e | e
      · rw [e] at h
        exact absurd h (by simp)
      rw [e] at h
      rcases hex.elim (gu * gu) with e | e
      · rw [e] at h
        exact absurd h (by simp)
      rw [e] at h
      simp only at h
      rcases hex.elim (u * u - i * i + gu * gu) with e | e
      · rw [e] at h
        exact absurd h (by simp)
      rw [e] at h
      rcases hex.elim (gi * gi) with e | e
      · rw [e] at h
        exact absurd h (by simp)
      rw [e] at h
      simp only at h
      rcases hex.elim (u * u - i * i + gu * gu - gi * gi) with e | e
      · rw [e] at h
        exact absurd h (by simp)
      rw [e] at h
      rcases hex.elim (u - i) with e | e
      · rw [e] at h
        exact absurd h (by simp)
      rw [e] at h
      simp only at h
      rcases hex.elim (2 * (u - i)) with e | e
      · rw [e] at h
        exact absurd h (by simp)
      rw [e] at h
      simp only at h
      by_cases hden : 2 * (u - i) = 0
      · rw [if_pos hden] at h
        exact absurd h (by simp)
      · rw [if_neg hden] at h ⊢
        rcases hex.elim (Int.tdiv (u * u - i * i + gu * gu - gi * gi) (2 * (u - i)))
          with e | e
        · rw [e] at h
          exact absurd h (by simp)
        rw [e] at h
        exact h

theorem popLoop_mono (chk : Int → Option Int) (hex : Exact chk) (g : Int → Option Int)
    (s t : Int → Int) (u : Int) :
    ∀ (k : Nat) (r : Int), popLoop chk g s t u k = some r → popLoop some g s t u k = some r := by
  intro k
  induction k with
  | zero =>
    intro r h
    exact h
  | succ k ih =>
    intro r h
    simp only [popLoop] at h ⊢
    cases ha : f chk g (t k) (s k) with
    | none =>
      rw [ha] at h
      exact absurd h (by simp)
    | some a =>
      cases hb : f chk g (t k) u with
      | none =>
        rw [ha, hb] at h
        exact absurd h (by simp)
      | some b =>
        rw [ha, hb] at h
        rw [f_mono chk hex g _ _ _ ha, f_mono chk hex g _ _ _ hb]
        simp only at h ⊢
        by_cases hgt : a > b
        · rw [if_pos hgt] at h ⊢
          exact ih r h
        · rw [if_neg hgt] at h ⊢
          exact h

theorem scanStep_mono (chk : Int → Option Int) (hex : Exact chk) (g : Int → Option Int)
    (n : Int) (st : Stack) (u : Int) (r : Stack) (h : scanStep chk g n st u = some r) :
    scanStep some g n st u = some r := by
  simp only [scanStep] at h ⊢
  cases hq : (if st.q < 0 then some st.q else popLoop chk g st.s st.t u (st.q.toNat + 1)) with
  | none =>
    rw [hq] at h
    exact absurd h (by simp)
  | some q =>
    have hq' : (if st.q < 0 then some st.q else popLoop some g st.s st.t u (st.q.toNat + 1))
        = some q := by
      by_cases hneg : st.q < 0
      · rw [if_pos hneg] at hq ⊢
        exact hq
      · rw [if_neg hneg] at hq ⊢
        exact popLoop_mono chk hex g st.s st.t u _ q hq
    rw [hq] at h
    rw [hq']
    simp only at h ⊢
    by_cases hneg : q < 0
    · rw [if_pos hneg] at h ⊢
      exact h
    · rw [if_neg hneg] at h ⊢
      cases hsep : sep chk g (st.s q) u with
      | none =>
        rw [hsep] at h
        exact absurd h (by simp)
      | some v =>
        rw [hsep] at h
        rw [sep_mono chk hex g _ _ _ hsep]
        simp only at h ⊢
        rcases hex.elim (1 + v) with e | e
        · rw [e] at h
          exact absurd h (by simp)
        rw [e] at h
        simp only at h
        by_cases hw : 1 + v < n
        · rw [if_pos hw] at h ⊢
          rcases hex.elim (q + 1) with e | e
          · rw [e] at h
            exact absurd h (by simp)
          rw [e] at h
          exact h
        · rw [if_neg hw] at h ⊢
          exact h

theorem fillStep_mono (chk : Int → Option Int) (hex : Exact chk) (g : Int → Option Int)
    (s t : Int → Int) (y : Nat) (acc : Int × (Nat → Nat → Int)) (u : Nat)
    (r : Int × (Nat → Nat → Int)) (h : fillStep chk g s t y acc u = some r) :
    fillStep some g s t y acc u = some r := by
  simp only [fillStep] at h ⊢
  cases hf : f chk g u (s acc.1) with
  | none =>
    rw [hf] at h
    exact absurd h (by simp)
  | some v =>
    rw [hf] at h
    rw [f_mono chk hex g _ _ _ hf]
    simp only at h ⊢
    by_cases hte : (u : Int) = t acc.1
    · rw [if_pos hte] at h ⊢
      rcases hex.elim (acc.1 - 1) with e | e
      · rw [e] at h
        exact absurd h (by simp)
      rw [e] at h
      exact h
    · rw [if_neg hte] at h ⊢
      exact h

theorem rowPass_mono (chk : Int → Option Int) (hex : Exact chk) (n : Nat)
    (d : Nat → Nat → Int) (y : Nat) (r : Nat → Nat → Int)
    (h : rowPass chk n d y = some r) : rowPass some n d y = some r := by
  simp only [rowPass] at h ⊢
  cases hst : (List.range (n - 1)).foldlM
      (fun st (k : Nat) => scanStep chk (capturedRow n (d y)) n st ((k : Int) + 1))
      { q := 0, s := fun _ => 0, t := fun _ => 0 } with
  | none =>
    rw [hst] at h
    exact absurd h (by simp)
  | some st =>
    rw [hst] at h
    rw [foldlM_mono _ _ (fun a b r hr => scanStep_mono chk hex _ _ a _ r hr) _ _ _ hst]
    simp only at h ⊢
    cases hacc : (List.range n).foldlM
        (fun acc (k : Nat) => fillStep chk (capturedRow n (d y)) st.s st.t y acc (n - 1 - k))
        (st.q, d) with
    | none =>
      rw [hacc] at h
      exact absurd h (by simp)
    | some acc =>
      rw [hacc] at h
      rw [foldlM_mono _ _ (fun a b r hr => fillStep_mono chk hex _ _ _ y a _ r hr) _ _ _ hacc]
      exact h

end DistanceMap

theorem computeDistanceMapWith_mono (chk : Int → Option Int) (hex : DistanceMap.Exact chk)
    (uninit : Nat → Nat → Int) (mask : Image Nat) (r : Bool × Image Int)
    (h : computeDistanceMapWith chk uninit mask = some r) :
    computeDistanceMapWith some uninit mask = some r := by
  simp only [computeDistanceMapWith] at h ⊢
  rcases hex.elim ((mask.Height : Int) * mask.Width) with e | e
  · rw [e] at h
    exact absurd h (by simp)
  rw [e] at h
  simp only at h
  cases h1 : (List.range mask.Width).foldlM
      (DistanceMap.columnPass chk mask ((mask.Height : Int) * mask.Width)) uninit with
  | none =>
    rw [h1] at h
    exact absurd h (by simp)
  | some d1 =>
    rw [h1] at h
    rw [DistanceMap.foldlM_mono _ _ (DistanceMap.columnPass_mono chk hex mask _) _ _ _ h1]
    simp only at h ⊢
    cases h2 : (List.range mask.Height).foldlM (DistanceMap.rowPass chk mask.Width) d1 with
    | none =>
      rw [h2] at h
      exact absurd h (by simp)
    | some d2 =>
      rw [h2] at h
      rw [DistanceMap.foldlM_mono _ _ (DistanceMap.rowPass_mono chk hex mask.Width) _ _ _ h2]
      exact h

namespace DistanceMap

theorem sq_le_sq_of_bounds (a b : Int) (h1 : -b ≤ a) (h2 : a ≤ b) : a ^ 2 ≤ b ^ 2 := by
  have := mul_nonneg (sub_nonneg.2 h2) (by linarith : (0 : Int) ≤ b + a)
  nlinarith

/-- With at least one row and one column, the value `maxval⁴` is greater than every squared
distance between two pixels of the raster. -/
theorem maxval_bound (m n : Nat) (hm : 1 ≤ m) (hn : 1 ≤ n) (x x0 y y0 : Nat)
    (hx : x < n) (hx0 : x0 < n) (hy : y < m) (hy0 : y0 < m) :
    ((x : Int) - x0) ^ 2 + ((y : Int) - y0) ^ 2
      < ((m : Int) * n) * ((m : Int) * n) * (((m : Int) * n) * ((m : Int) * n)) := by
  have hm' : (1 : Int) ≤ m := by exact_mod_cast hm
  have hn' : (1 : Int) ≤ n := by exact_mod_cast hn
  have h1 : ((x : Int) - x0) ^ 2 ≤ ((n : Int) - 1) ^ 2 :=
    sq_le_sq_of_bounds _ _ (by omega) (by omega)
  have h2 : ((y : Int) - y0) ^ 2 ≤ ((m : Int) - 1) ^ 2 :=
    sq_le_sq_of_bounds _ _ (by omega) (by omega)
  have hmm : (1 : Int) ≤ (m : Int) * m := by nlinarith
  have hnn : (1 : Int) ≤ (n : Int) * n := by nlinarith
  have h3 : 0 ≤ ((m : Int) * m - 1) * ((n : Int) * n - 1) :=
    mul_nonneg (by linarith) (by linarith)
  have h4 : ((n : Int) - 1) ^ 2 + ((m : Int) - 1) ^ 2 < (m : Int) * n * ((m : Int) * n) := by
    nlinarith
  have h5 : (1 : Int) ≤ (m : Int) * n * ((m : Int) * n) := by nlinarith
  have h6 : (m : Int) * n * ((m : Int) * n)
      ≤ (m : Int) * n * ((m : Int) * n) * ((m : Int) * n * ((m : Int) * n)) := by
    nlinarith
  linarith

end DistanceMap

/-- The run of `computeDistanceMap` for an arithmetic `chk` that gives every value up to `B`:
when the values of the first loop (at most `maxval² + m`) and those of the second loop (at
most `n² + G²`, where `G` bounds the entries of the raster after the first loop) are at most
`B`, the run returns `true` and the raster of the squared distances to the zero pixels. -/
theorem computeDistanceMapWith_spec (chk : Int → Option Int) (B G : Int)
    (hcov : DistanceMap.Covers chk B) (uninit : Nat → Nat → Int) (mask : Image Nat)
    (hm : 1 ≤ mask.Height) (hn : 1 ≤ mask.Width)
    (hzero : ∃ y x, y < mask.Height ∧ x < mask.Width ∧ mask.data y x = 0)
    (hfirst : (mask.Height : Int) * mask.Width * ((mask.Height : Int) * mask.Width)
      + mask.Height ≤ B)
    (hG : ∀ x, x < mask.Width → (∃ y, y < mask.Height ∧ mask.data y x = 0) ∨
      (mask.Height : Int) * mask.Width * ((mask.Height : Int) * mask.Width)
        + mask.Height ≤ G)
    (hmG : (mask.Height : Int) ≤ G)
    (hsecond : (mask.Width : Int) * mask.Width + G * G ≤ B) :
    ∃ distance : Image Int, computeDistanceMapWith chk uninit mask = some (true, distance) ∧
      distance.Width = mask.Width ∧ distance.Height = mask.Height ∧
      ∀ y x, y < mask.Height → x < mask.Width →
        (∃ y' x', y' < mask.Height ∧ x' < mask.Width ∧ mask.data y' x' = 0 ∧
          distance.data y x = ((x : Int) - x') ^ 2 + ((y : Int) - y') ^ 2) ∧
        (∀ y' x', y' < mask.Height → x' < mask.Width → mask.data y' x' = 0 →
          distance.data y x ≤ ((x : Int) - x') ^ 2 + ((y : Int) - y') ^ 2) ∧
        (distance.data y x = 0 ↔ mask.data y x = 0) := by
  have hm' : (1 : Int) ≤ mask.Height := by exact_mod_cast hm
  have hn' : (1 : Int) ≤ mask.Width := by exact_mod_cast hn
  have hmn : (1 : Int) ≤ (mask.Height : Int) * mask.Width := by nlinarith
  have hmn2 : (mask.Height : Int) * mask.Width
      ≤ (mask.Height : Int) * mask.Width * ((mask.Height : Int) * mask.Width) := by
    nlinarith
  have hmax : chk ((mask.Height : Int) * mask.Width)
      = some ((mask.Height : Int) * mask.Width) := hcov _ (by omega) (by omega)
  obtain ⟨d1, hd1, hcol⟩ := DistanceMap.columns_spec chk B hcov mask
    ((mask.Height : Int) * mask.Width) uninit hm hfirst mask.Width (le_refl _)
  have hfit : ∀ y, y < mask.Height → DistanceMap.Fits chk mask.Width (d1 y) := by
    intro y hy
    refine ⟨G, B, hcov, ?_, hsecond⟩
    intro i hi
    obtain ⟨⟨c1, c2, -⟩, c4⟩ := hcol i hi y hy
    refine ⟨c1, ?_⟩
    rcases hG i hi with ⟨y', hy', hz⟩ | hbig
    · rcases c2 y' hy' hz with h | h <;> omega
    · omega
  obtain ⟨d2, hd2, -, hrow⟩ := DistanceMap.rows_spec chk mask.Width d1 hn mask.Height hfit
  refine ⟨{ Width := mask.Width, Height := mask.Height, data := d2 }, ?_, rfl, rfl, ?_⟩
  · simp only [computeDistanceMapWith, hmax, hd1, hd2]
  · intro y x hy hx
    simp only
    obtain ⟨⟨i, hi, hval⟩, hmin⟩ := hrow y hy x hx
    have hupper : ∀ y' x', y' < mask.Height → x' < mask.Width → mask.data y' x' = 0 →
        d2 y x ≤ ((x : Int) - x') ^ 2 + ((y : Int) - y') ^ 2 := by
      intro y' x' hy' hx' hz
      have h1 := hmin x' hx'
      obtain ⟨⟨c1, c2, -⟩, -⟩ := hcol x' hx' y hy
      have h2 : d1 y x' * d1 y x' ≤ ((y : Int) - y') ^ 2 := by
        have := DistanceMap.sq_le_sq_of_bounds (d1 y x') (|(y : Int) - y'|)
          (by have := abs_nonneg ((y : Int) - y'); linarith)
          (by
            rcases c2 y' hy' hz with h | h
            · exact h.trans (le_abs_self _)
            · exact h.trans (by rw [abs_sub_comm]; exact le_abs_self _))
        rw [sq_abs] at this
        linarith [this, sq (d1 y x')]
      simp only [DistanceMap.parabola, Int.toNat_ofNat] at h1
      nlinarith
    have hattained : ∃ y' x', y' < mask.Height ∧ x' < mask.Width ∧ mask.data y' x' = 0 ∧
        d2 y x = ((x : Int) - x') ^ 2 + ((y : Int) - y') ^ 2 := by
      obtain ⟨⟨c1, -, c3⟩, -⟩ := hcol i hi y hy
      simp only [DistanceMap.parabola, Int.toNat_ofNat] at hval
      rcases c3 with ⟨y', hy', hz, he⟩ | c3
      · refine ⟨y', i, hy', hi, hz, ?_⟩
        rw [hval]
        rcases he with he | he <;> rw [he] <;> ring
      · exfalso
        obtain ⟨y0, x0, hy0, hx0, hz0⟩ := hzero
        have h1 := hupper y0 x0 hy0 hx0 hz0
        have h2 := DistanceMap.maxval_bound mask.Height mask.Width hm hn x x0 y y0 hx hx0 hy hy0
        have h3 : (mask.Height : Int) * mask.Width * ((mask.Height : Int) * mask.Width)
            * ((mask.Height : Int) * mask.Width * ((mask.Height : Int) * mask.Width))
            ≤ d1 y i * d1 y i :=
          mul_le_mul c3 c3 (mul_self_nonneg _) c1
        have h4 : 0 ≤ ((x : Int) - i) * ((x : Int) - i) := mul_self_nonneg _
        linarith
    refine ⟨hattained, hupper, ?_⟩
    constructor
    · intro h0
      obtain ⟨y', x', hy', hx', hz, he⟩ := hattained
      rw [h0] at he
      have hx2 : 0 ≤ ((x : Int) - x') ^ 2 := sq_nonneg _
      have hy2 : 0 ≤ ((y : Int) - y') ^ 2 := sq_nonneg _
      have ex : ((x : Int) - x') ^ 2 = 0 := by linarith
      have ey : ((y : Int) - y') ^ 2 = 0 := by linarith
      have ex' : x = x' := by
        have := pow_eq_zero_iff (two_ne_zero) |>.1 ex
        omega
      have ey' : y = y' := by
        have := pow_eq_zero_iff (two_ne_zero) |>.1 ey
        omega
      rw [ex', ey']
      exact hz
    · intro hz
      have h1 := hupper y x hy hx hz
      simp only [sub_self, ne_eq, OfNat.ofNat_ne_zero, not_false_eq_true, zero_pow,
        add_zero] at h1
      obtain ⟨y', x', -, -, -, he⟩ := hattained
      have hx2 : 0 ≤ ((x : Int) - x') ^ 2 := sq_nonneg _
      have hy2 : 0 ≤ ((y : Int) - y') ^ 2 := sq_nonneg _
      linarith

/-- C27: for every mask of height `m ≥ 1` and width `n ≥ 1` with at least one zero pixel,
every run of `computeDistanceMap` in which no operation on `int` overflows returns `true`
with a raster of the size of the mask in which, for every pixel `(y, x)`, `distance(y, x)` is
the least value of `(x - x')² + (y - y')²` over the zero pixels `(y', x')` of the mask (it is
attained at a zero pixel and it is a lower bound over all of them); `distance(y, x) = 0`
exactly when `mask(y, x) = 0`. No operation overflows, and the function returns, when
`n² + ((m n)² + m)² < 2^31`; when every column of the mask has a zero pixel, also when
`(m n)² + m < 2^31` and `n² + m² < 2^31`. -/
theorem computeDistanceMap_is_squared_distance (uninit : Nat → Nat → Int) (mask : Image Nat)
    (hm : 1 ≤ mask.Height) (hn : 1 ≤ mask.Width)
    (hzero : ∃ y x, y < mask.Height ∧ x < mask.Width ∧ mask.data y x = 0) :
    (∀ r, computeDistanceMap uninit mask = some r →
      r.1 = true ∧ r.2.Width = mask.Width ∧ r.2.Height = mask.Height ∧
      ∀ y x, y < mask.Height → x < mask.Width →
        (∃ y' x', y' < mask.Height ∧ x' < mask.Width ∧ mask.data y' x' = 0 ∧
          r.2.data y x = ((x : Int) - x') ^ 2 + ((y : Int) - y') ^ 2) ∧
        (∀ y' x', y' < mask.Height → x' < mask.Width → mask.data y' x' = 0 →
          r.2.data y x ≤ ((x : Int) - x') ^ 2 + ((y : Int) - y') ^ 2) ∧
        (r.2.data y x = 0 ↔ mask.data y x = 0)) ∧
    ((mask.Width : Int) ^ 2 + (((mask.Height : Int) * mask.Width) ^ 2 + mask.Height) ^ 2
        < 2 ^ 31 →
      ∃ distance, computeDistanceMap uninit mask = some (true, distance)) ∧
    ((∀ x, x < mask.Width → ∃ y, y < mask.Height ∧ mask.data y x = 0) →
      ((mask.Height : Int) * mask.Width) ^ 2 + mask.Height < 2 ^ 31 →
      (mask.Width : Int) ^ 2 + (mask.Height : Int) ^ 2 < 2 ^ 31 →
      ∃ distance, computeDistanceMap uninit mask = some (true, distance)) := by
  have hm0 : (0 : Int) ≤ mask.Height := Int.natCast_nonneg _
  have hsq := mul_self_nonneg ((mask.Height : Int) * mask.Width)
  refine ⟨?_, ?_, ?_⟩
  · intro r hr
    have hr' := computeDistanceMapWith_mono checkedInt checkedInt_exact uninit mask r hr
    obtain ⟨distance, hd, hw, hh, hspec⟩ := computeDistanceMapWith_spec some
      ((mask.Width : Int) * mask.Width
        + ((mask.Height : Int) * mask.Width * ((mask.Height : Int) * mask.Width)
            + mask.Height)
          * ((mask.Height : Int) * mask.Width * ((mask.Height : Int) * mask.Width)
            + mask.Height)
        + ((mask.Height : Int) * mask.Width * ((mask.Height : Int) * mask.Width)
            + mask.Height))
      ((mask.Height : Int) * mask.Width * ((mask.Height : Int) * mask.Width) + mask.Height)
      (DistanceMap.some_covers _) uninit mask hm hn hzero
      (by
        have h1 := mul_self_nonneg (mask.Width : Int)
        have h2 := mul_self_nonneg ((mask.Height : Int) * mask.Width
          * ((mask.Height : Int) * mask.Width) + mask.Height)
        omega)
      (fun _ _ => Or.inr (le_refl _)) (by omega)
      (by
        have h1 : (0 : Int) ≤ (mask.Height : Int) * mask.Width
          * ((mask.Height : Int) * mask.Width) + mask.Height := by omega
        omega)
    rw [hd] at hr'
    have e := Option.some.inj hr'
    rw [← e]
    exact ⟨rfl, hw, hh, hspec⟩
  · intro hsize
    obtain ⟨distance, hd, -⟩ := computeDistanceMapWith_spec checkedInt 2147483647
      ((mask.Height : Int) * mask.Width * ((mask.Height : Int) * mask.Width) + mask.Height)
      checkedInt_covers uninit mask hm hn hzero
      (by
        have h1 := sq_nonneg (mask.Width : Int)
        have h2 : ((mask.Height : Int) * mask.Width) ^ 2 + mask.Height
            ≤ (((mask.Height : Int) * mask.Width) ^ 2 + mask.Height) ^ 2 := by
          have h3 : (0 : Int) ≤ ((mask.Height : Int) * mask.Width) ^ 2 + mask.Height := by
            positivity
          nlinarith
        have e : (mask.Height : Int) * mask.Width * ((mask.Height : Int) * mask.Width)
            = ((mask.Height : Int) * mask.Width) ^ 2 := by ring
        rw [e]
        norm_num at hsize
        omega)
      (fun _ _ => Or.inr (le_refl _)) (by omega)
      (by
        have e : (mask.Width : Int) * mask.Width
            + ((mask.Height : Int) * mask.Width * ((mask.Height : Int) * mask.Width)
                + mask.Height)
              * ((mask.Height : Int) * mask.Width * ((mask.Height : Int) * mask.Width)
                + mask.Height)
            = (mask.Width : Int) ^ 2
              + (((mask.Height : Int) * mask.Width) ^ 2 + mask.Height) ^ 2 := by ring
        rw [e]
        norm_num at hsize
        omega)
    exact ⟨distance, hd⟩
  · intro hcols hfirst hsecond
    obtain ⟨distance, hd, -⟩ := computeDistanceMapWith_spec checkedInt 2147483647
      (mask.Height : Int) checkedInt_covers uninit mask hm hn hzero
      (by
        have e : (mask.Height : Int) * mask.Width * ((mask.Height : Int) * mask.Width)
            = ((mask.Height : Int) * mask.Width) ^ 2 := by ring
        rw [e]
        norm_num at hfirst
        omega)
      (fun x hx => Or.inl (hcols x hx)) (le_refl _)
      (by
        have e : (mask.Width : Int) * mask.Width + (mask.Height : Int) * mask.Height
            = (mask.Width : Int) ^ 2 + (mask.Height : Int) ^ 2 := by ring
        rw [e]
        norm_num at hsecond
        omega)
    exact ⟨distance, hd⟩

theorem computeDistanceMap_is_squared_distance_witness :
    (∃ distance, computeDistanceMap (fun _ _ => 0) DistanceMap.cornerMask
      = some (true, distance)) ∧
    ∀ r, computeDistanceMap (fun _ _ => 0) DistanceMap.cornerMask = some r →
      r.1 = true ∧ r.2.Width = DistanceMap.cornerMask.Width ∧
      r.2.Height = DistanceMap.cornerMask.Height ∧
      ∀ y x, y < DistanceMap.cornerMask.Height → x < DistanceMap.cornerMask.Width →
        (∃ y' x', y' < DistanceMap.cornerMask.Height ∧ x' < DistanceMap.cornerMask.Width ∧
          DistanceMap.cornerMask.data y' x' = 0 ∧
          r.2.data y x = ((x : Int) - x') ^ 2 + ((y : Int) - y') ^ 2) ∧
        (∀ y' x', y' < DistanceMap.cornerMask.Height → x' < DistanceMap.cornerMask.Width →
          DistanceMap.cornerMask.data y' x' = 0 →
          r.2.data y x ≤ ((x : Int) - x') ^ 2 + ((y : Int) - y') ^ 2) ∧
        (r.2.data y x = 0 ↔ DistanceMap.cornerMask.data y x = 0) :=
  ⟨(computeDistanceMap_is_squared_distance (fun _ _ => 0) DistanceMap.cornerMask
      (by decide) (by decide) ⟨0, 0, by decide, by decide, rfl⟩).2.1 (by decide),
    (computeDistanceMap_is_squared_distance (fun _ _ => 0) DistanceMap.cornerMask
      (by decide) (by decide) ⟨0, 0, by decide, by decide, rfl⟩).1⟩

/-- Example of a run: on the mask of `2 x 2` pixels whose only zero pixel is the first one,
`computeDistanceMap` returns `true` and the squared distances `0, 1, 1, 2`. -/
theorem computeDistanceMap_of_cornerMask :
    ∃ distance, computeDistanceMap (fun _ _ => 0) DistanceMap.cornerMask
        = some (true, distance) ∧
      distance.data 0 0 = 0 ∧ distance.data 0 1 = 1 ∧ distance.data 1 0 = 1 ∧
      distance.data 1 1 = 2 :=
  ⟨_, rfl, rfl, rfl, rfl, rfl⟩

set_option maxRecDepth 1000000 in
/-- Example of an overflow: on the mask of `1 x 216` pixels whose only zero pixel is the first
one, the second column has no zero pixel, its entry after the first loop is
`maxval² = 46656`, and the product `gi * gi = 2176782336` of the call `f(t[q], u)` for `u = 1`
is above `2^31 - 1`: the run has no defined result. -/
theorem computeDistanceMap_overflows_on_stripMask :
    computeDistanceMap (fun _ _ => 0) DistanceMap.stripMask = none := by
  rfl

end PanoramaWarping
